import Mathlib

/-!
# Block-stacking game core: grid engine and difficulty balancer

Shallow embedding of `tetris.go` and `balancing.go`.

* Go `int` values are modelled by `Int` (no wrap-around: the counters of the
  game stay far below `2^63`).
* Go fixed-size arrays are modelled by lists; an index outside the array is a
  run-time panic in Go and `none` here, so every operation that indexes
  returns an `Option`.
* Loops are structural recursions on an iteration budget computed from the
  loop bounds; running out of budget is `none` as well, so a result `some _`
  always is a terminated, panic-free run.
* Package constants that are declared outside the embedded files
  (`gPlayAreaWidthInBlocks`, ...) are parameters.
-/

namespace Tetris

/-! ## Data model -/

/-- Go `tetrisLine = [gPlayAreaWidthInBlocks]int`. -/
abbrev tetrisLine := List Int

/-- Go `tetrisGrid = [gPlayAreaHeightInBlocks + gInvisibleLines]tetrisLine`. -/
abbrev tetrisGrid := List tetrisLine

/-- Go `a[i]` on an array or slice: `none` is the index-out-of-range panic. -/
def goIndex {α : Type} (a : List α) (i : Int) : Option α :=
  if 0 ≤ i then a[i.toNat]? else none

/-- Go `a[i] = v` on an array or slice: `none` is the index-out-of-range panic. -/
def goAssign {α : Type} (a : List α) (i : Int) (v : α) : Option (List α) :=
  if 0 ≤ i ∧ i.toNat < a.length then some (a.set i.toNat v) else none

/-- The largest value of the Go type `int` (64 bits): `2^63 - 1`. -/
def maxInt : Int := 9223372036854775807

/-- The smallest value of the Go type `int` (64 bits): `-2^63`. -/
def minInt : Int := -9223372036854775808

/-- The value that Go stores for an `int` result whose exact value is `x`: the
representative of `x` modulo `2^64` in the range `minInt .. maxInt` (two's-complement
wrap-around). -/
def wrapInt (x : Int) : Int :=
  (x + 9223372036854775808) % 18446744073709551616 - 9223372036854775808

/-- Go `tetrisLine{}` : the zero value of a line, for a play area `width` blocks wide. -/
def emptyLine (width : Nat) : tetrisLine := List.replicate width 0

/-- Modelled from the spec: the type `tetrisBlock`, declared outside the embedded
files. The spec gives a block an identifier (negative for "no block"), a rotation
index, an anchor position and a per-rotation table of occupied offsets; the
embedded code reads and writes `id`, `x` and `y` only. -/
structure tetrisBlock where
  id : Int
  x : Int
  y : Int
  rotation : Int
  cells : List (List (Int × Int))
deriving DecidableEq, Repr

/-- Go `tetrisBlock{id: -1}`, the "no block" value. -/
def noBlock : tetrisBlock := { id := -1, x := 0, y := 0, rotation := 0, cells := [] }

/-- Go `struct tetris` of `tetris.go`, field by field. -/
structure tetris where
  area : tetrisGrid
  currentBlock : tetrisBlock
  nextBlock : tetrisBlock
  heldBlock : tetrisBlock
  autoDownFrame : Int
  autoDownFrameLimit : Int
  manualDownFrame : Int
  manualDownFrameLimit : Int
  lrMoveFrame : Int
  lrMoveFrameLimit : Int
  lrFirstMoveFrame : Int
  lrFirstMoveFrameLimit : Int
  manualMoveAllowed : Bool
  numLines : Int
  dropLenght : Int
  deathLines : Int
  toCheck : Int × Int
  toRemove : List Bool
  toRemoveNum : Int
  firstAvailable : Int
  removeLineAnimationFrame : Int
  removeLineAnimationStep : Int
  removeLineAnimationStepNumFrames : Int
  inAnimation : Bool
  invisibleLevel : Int
  invisibleStep : Int
  invisibleFrame : Int
  score : Int
  betterRotation : Bool
  canHold : Bool
  life : Int
  currentLife : Int
  dead : Bool
  deathAnimationFrame : Int

/-! ## `checkLines` -/

/-- The inner loop of `checkLines`, `for x := 0; x < len(t.area[l]); x++`:
`true` when a cell equal to `0` is met (the `continue CheckLoop` exit),
`false` when the loop runs to its end. -/
def lineHasEmpty : tetrisLine → Bool
  | [] => false
  | v :: rest => if v = 0 then true else lineHasEmpty rest

/-- The local variables of `checkLines`. -/
structure CheckState where
  count : Int
  firstAvailable : Int
  toRemove : List Bool
  toRemoveNum : Int
deriving DecidableEq, Repr

/-- The loop `CheckLoop: for l := t.toCheck[0]; l <= t.toCheck[1]; l++`. -/
def checkLoop (area : tetrisGrid) (hi : Int) : Nat → Int → CheckState → Option CheckState
  | 0, l, st => if l ≤ hi then none else some st
  | fuel + 1, l, st =>
    if l ≤ hi then do
      let count := st.count + 1
      let line ← goIndex area l
      if lineHasEmpty line then
        checkLoop area hi fuel (l + 1)
          { count := count, firstAvailable := l, toRemove := st.toRemove,
            toRemoveNum := st.toRemoveNum }
      else do
        let toRemove ← goAssign st.toRemove count true
        checkLoop area hi fuel (l + 1)
          { count := count, firstAvailable := st.firstAvailable, toRemove := toRemove,
            toRemoveNum := st.toRemoveNum + 1 }
    else some st

/-- Go `func (t tetris) checkLines() (toRemoveNum int, firstAvailable int, toRemove [4]bool)`.
The receiver is a value: the session is not modified. -/
def tetris.checkLines (t : tetris) : Option (Int × Int × List Bool) := do
  let st ← checkLoop t.area t.toCheck.2 (t.toCheck.2 + 1 - t.toCheck.1).toNat t.toCheck.1
    { count := -1, firstAvailable := t.toCheck.1 - 1,
      toRemove := [false, false, false, false], toRemoveNum := 0 }
  some (st.toRemoveNum, st.firstAvailable, st.toRemove)

/-! ## `removeLines` -/

/-- The loop `for t.firstAvailable >= t.toCheck[0] && t.toRemove[t.firstAvailable-t.toCheck[0]]`
of `removeLines`, whose body is `t.firstAvailable--`. -/
def skipRemoved (toRemove : List Bool) (lo : Int) : Nat → Int → Option Int
  | 0, fa =>
    if lo ≤ fa then do
      let flag ← goIndex toRemove (fa - lo)
      if flag then none else some fa
    else some fa
  | fuel + 1, fa =>
    if lo ≤ fa then do
      let flag ← goIndex toRemove (fa - lo)
      if flag then skipRemoved toRemove lo fuel (fa - 1) else some fa
    else some fa

/-- The first loop of `removeLines`, `for y := t.toCheck[1]; y >= t.toCheck[0]; y--`,
on the pair `(t.area, t.firstAvailable)`. -/
def removeInZone (width : Nat) (toRemove : List Bool) (lo : Int) :
    Nat → Int → tetrisGrid × Int → Option (tetrisGrid × Int)
  | 0, y, st => if lo ≤ y then none else some st
  | fuel + 1, y, (area, fa) =>
    if lo ≤ y then
      if 0 ≤ fa then do
        let src ← goIndex area fa
        let area ← goAssign area y src
        let fa ← skipRemoved toRemove lo (fa - lo).toNat (fa - 1)
        removeInZone width toRemove lo fuel (y - 1) (area, fa)
      else do
        let area ← goAssign area y (emptyLine width)
        removeInZone width toRemove lo fuel (y - 1) (area, fa)
    else some (area, fa)

/-- The second loop of `removeLines`, `for y := t.toCheck[0] - 1; y >= 0; y--`. -/
def removeAboveZone (width : Nat) :
    Nat → Int → tetrisGrid × Int → Option (tetrisGrid × Int)
  | 0, y, st => if 0 ≤ y then none else some st
  | fuel + 1, y, (area, fa) =>
    if 0 ≤ y then
      if 0 ≤ fa then do
        let src ← goIndex area fa
        let area ← goAssign area y src
        removeAboveZone width fuel (y - 1) (area, fa - 1)
      else do
        let area ← goAssign area y (emptyLine width)
        removeAboveZone width fuel (y - 1) (area, fa)
    else some (area, fa)

/-- Go `func (t *tetris) removeLines()`; `width` is `gPlayAreaWidthInBlocks`. -/
def tetris.removeLines (width : Nat) (t : tetris) : Option tetris := do
  let st1 ← removeInZone width t.toRemove t.toCheck.1
    (t.toCheck.2 + 1 - t.toCheck.1).toNat t.toCheck.2 (t.area, t.firstAvailable)
  let st2 ← removeAboveZone width t.toCheck.1.toNat (t.toCheck.1 - 1) st1
  some { t with area := st2.1, firstAvailable := st2.2 }

/-- The session after `t.toRemoveNum, t.firstAvailable, t.toRemove = t.checkLines()`
(the assignment made by `update` when a block locks). -/
def tetris.storeCheck (t : tetris) : Option tetris := do
  let r ← t.checkLines
  some { t with toRemoveNum := r.1, firstAvailable := r.2.1, toRemove := r.2.2 }

/-! ## Package constants and block operations declared outside the embedded files -/

/-- The package-level constants used by `tetris.go` and `balancing.go` whose
declarations are not part of the embedded files. They are parameters of the model. -/
structure Globals where
  gPlayAreaWidthInBlocks : Nat
  gPlayAreaHeightInBlocks : Nat
  gInvisibleLines : Nat
  gSpeedLevels : Nat
  gSpeeds : List Int
  gInvisibleNumFrames : Int
  gChoiceSelectionNumFrame : Int

/-- The functions and methods of `tetrisBlock` called by `tetris.go`; their
bodies are not part of the embedded files, so they are parameters of the model.
A method that may modify its receiver returns the new block. -/
structure BlockOps where
  getIBlock : tetrisBlock
  getOBlock : tetrisBlock
  getJBlock : tetrisBlock
  getLBlock : tetrisBlock
  getSBlock : tetrisBlock
  getTBlock : tetrisBlock
  getZBlock : tetrisBlock
  setInitialPosition : tetrisBlock → tetrisBlock
  rotateLeft : tetrisBlock → tetrisGrid → tetrisBlock × Bool
  rotateRight : tetrisBlock → tetrisGrid → tetrisBlock × Bool
  updatePosition : tetrisBlock → Int → Bool → tetrisGrid → tetrisBlock × Bool × Bool
  writeInGrid : tetrisBlock → tetrisGrid → tetrisGrid × (Int × Int)
  canReplace : Int → Int → tetrisBlock → tetrisBlock → tetrisGrid → Bool

/-- The values returned by the successive calls of `rand.Intn`: call number `k`
with argument `n` returns `rnd k % n`, which can be any value of `[0, n)`. -/
abbrev RandSource := Nat → Nat

/-! ## Sound identifiers (`assets/sounds.go`) -/

/-- The sound identifiers, in the order of the `iota` block of `assets/sounds.go`. -/
def SoundRotationID : Nat := 0
def SoundLeftRightID : Nat := 1
def SoundTouchGroundID : Nat := 2
def SoundLinesVanishingID : Nat := 3
def SoundLinesFallingID : Nat := 4
def SoundMenuMoveID : Nat := 5
def SoundMenuConfirmID : Nat := 6
def SoundCoinID : Nat := 7
def SoundBuyID : Nat := 8
def SoundDeathID : Nat := 9
def SoundMenuNoID : Nat := 10
def SoundRocketID : Nat := 11
def NumSounds : Nat := 12

/-- Go `[assets.NumSounds]bool{}`, the zero value of the sound flags. -/
def noSounds : List Bool := List.replicate NumSounds false

/-! ## Balancing constants and derived parameters (`balancing.go`) -/

def balanceGoalLines : Nat := 0
def balanceSpeed : Nat := 1
def balanceHiddenLines : Nat := 2
def balanceDeathLines : Nat := 3
def balanceInvisibleBlocks : Nat := 4
def numBalances : Nat := 5

def maxLevelGoalLines : Int := 2
def maxLevelSpeed : Int := 5
def maxLevelHiddenLines : Int := 5
def maxLevelDeathLines : Int := 5
def maxLevelInvisibleBlocks : Int := 3

/-- Go `struct balancing`. -/
structure balancing where
  levels : List Int
  maxLevels : List Int
  choice : Int
  choiceDirection : Int
  choices : List Int
  numChoices : Int
  inTransition : Bool
  transitionFrame : Int
deriving DecidableEq, Repr

/-- Go `func (b balancing) getDeathLines() (numLines int)`. The constant `maxDeathLines` is
evaluated exactly; the `int` expression `2*b.levels[balanceDeathLines] + 1` wraps. -/
def balancing.getDeathLines (G : Globals) (b : balancing) : Option Int := do
  let maxDeathLines : Int := 2 * (G.gPlayAreaHeightInBlocks : Int) / 3 - 1
  let level ← goIndex b.levels balanceDeathLines
  let numLines := wrapInt (wrapInt (2 * level) + 1)
  if numLines > maxDeathLines then some maxDeathLines else some numLines

/-- Go `func (b balancing) getHiddenLines() (numLines int)`. The `int` product
`hiddenFactor * b.levels[balanceHiddenLines]` wraps. -/
def balancing.getHiddenLines (b : balancing) : Option Int := do
  let hiddenFactor : Int := 3
  let maxHiddenLines : Int := 15
  let level ← goIndex b.levels balanceHiddenLines
  let numLines := wrapInt (hiddenFactor * level)
  if numLines > maxHiddenLines then some maxHiddenLines else some numLines

/-- Go `func (b balancing) getGoalLines() int`. -/
def balancing.getGoalLines (b : balancing) : Option Int := do
  let goalLines : List Int := [4, 8, 12]
  let level ← goIndex b.levels balanceGoalLines
  if level < (goalLines.length : Int) then goIndex goalLines level
  else goIndex goalLines ((goalLines.length : Int) - 1)

/-- Go `func (b balancing) getSpeedLevel(baseSpeedLevel int) int`. The `int` sum
`baseSpeedLevel += speedLevels[id]` wraps. -/
def balancing.getSpeedLevel (G : Globals) (b : balancing) (baseSpeedLevel : Int) :
    Option Int := do
  let speedLevels : List Int := [1, 2, 4, 7, 10]
  let level ← goIndex b.levels balanceSpeed
  let id := if level ≥ (speedLevels.length : Int) then (speedLevels.length : Int) - 1 else level
  let step ← goIndex speedLevels id
  let baseSpeedLevel := wrapInt (baseSpeedLevel + step)
  if baseSpeedLevel ≥ (G.gSpeedLevels : Int) then some ((G.gSpeedLevels : Int) - 1)
  else some baseSpeedLevel

/-- Go `func (b balancing) getInvisibleBlocks() int`. -/
def balancing.getInvisibleBlocks (b : balancing) : Option Int :=
  goIndex b.levels balanceInvisibleBlocks

/-- Go `func newBalance(numChoices int) balancing`. -/
def newBalance (numChoices : Nat) : balancing :=
  { levels := [0, 0, 0, 0, 0],
    maxLevels := [maxLevelGoalLines, maxLevelSpeed, maxLevelHiddenLines, maxLevelDeathLines,
      maxLevelInvisibleBlocks],
    choice := 0, choiceDirection := 0, choices := List.replicate numChoices (-1),
    numChoices := 0, inTransition := false, transitionFrame := 0 }

/-! ## `getChoice` -/

/-- The loop `for _, oldChoice := range b.choices` of `getChoice`: `true` when
`continue BalanceLoop` is taken. -/
def inOldChoices (c : Int) : List Int → Bool
  | [] => false
  | oldChoice :: rest => if c = oldChoice then true else inOldChoices c rest

/-- The loop `BalanceLoop: for c := 0; c < numBalances; c++` of `getChoice`, on
the slice `possibleChoices`. -/
def collectChoices (b : balancing) : Nat → Int → List Int → Option (List Int)
  | 0, c, possibleChoices => if c < (numBalances : Int) then none else some possibleChoices
  | fuel + 1, c, possibleChoices =>
    if c < (numBalances : Int) then do
      let level ← goIndex b.levels c
      let maxLevel ← goIndex b.maxLevels c
      if level < maxLevel then
        if inOldChoices c b.choices then
          collectChoices b fuel (c + 1) (possibleChoices ++ [c])
        else collectChoices b fuel (c + 1) ((possibleChoices ++ [c]) ++ [c])
      else collectChoices b fuel (c + 1) possibleChoices
    else some possibleChoices

/-- The scan `for i := range possibleChoices` inside the `for found` loop: the
first index, counted from `i`, of an element equal to `v`. -/
def firstIndexOf (v : Int) : List Int → Nat → Option Nat
  | [], _ => none
  | x :: rest, i => if x = v then some i else firstIndexOf v rest (i + 1)

/-- The loop `for found` of `getChoice`: as long as the scan finds `v`, it is
removed with `removeElement`. The helper `removeElement` is declared outside
the embedded files and is a parameter. -/
def removeChosen (removeElement : List Int → Nat → List Int) (v : Int) :
    Nat → List Int → Option (List Int)
  | 0, possibleChoices =>
    match firstIndexOf v possibleChoices 0 with
    | some _ => none
    | none => some possibleChoices
  | fuel + 1, possibleChoices =>
    match firstIndexOf v possibleChoices 0 with
    | some i => removeChosen removeElement v fuel (removeElement possibleChoices i)
    | none => some possibleChoices

/-- The variables of the drawing loop of `getChoice`. -/
structure ChoiceState where
  choices : List Int
  possibleChoices : List Int
  choice : Int
  pos : Nat
deriving DecidableEq, Repr

/-- The loop `for ; len(possibleChoices) > 0 && choice < len(b.choices); choice++`
of `getChoice`. -/
def drawChoices (removeElement : List Int → Nat → List Int) (rnd : RandSource) :
    Nat → ChoiceState → Option ChoiceState
  | 0, st =>
    if 0 < st.possibleChoices.length ∧ st.choice < (st.choices.length : Int) then none
    else some st
  | fuel + 1, st =>
    if 0 < st.possibleChoices.length ∧ st.choice < (st.choices.length : Int) then do
      let take := rnd st.pos % st.possibleChoices.length
      let v ← st.possibleChoices[take]?
      let choices ← goAssign st.choices st.choice v
      let possible1 := removeElement st.possibleChoices take
      let possible2 ← removeChosen removeElement v possible1.length possible1
      drawChoices removeElement rnd fuel
        { choices := choices, possibleChoices := possible2, choice := st.choice + 1,
          pos := st.pos + 1 }
    else some st

/-- The loop `for ; choice < len(b.choices); choice++ { b.choices[choice] = -1 }`. -/
def fillSentinel : Nat → Int → List Int → Option (List Int)
  | 0, choice, choices => if choice < (choices.length : Int) then none else some choices
  | fuel + 1, choice, choices =>
    if choice < (choices.length : Int) then do
      let choices1 ← goAssign choices choice (-1)
      fillSentinel fuel (choice + 1) choices1
    else some choices

/-- Go `func (b *balancing) getChoice()`, reading `rand.Intn` from position `pos`
of the random source; the result is the new state and the new position. -/
def balancing.getChoice (removeElement : List Int → Nat → List Int) (rnd : RandSource)
    (pos : Nat) (b : balancing) : Option (balancing × Nat) := do
  let possibleChoices ← collectChoices b numBalances 0 []
  let st ← drawChoices removeElement rnd b.choices.length
    { choices := b.choices, possibleChoices := possibleChoices, choice := 0, pos := pos }
  let choices ← fillSentinel b.choices.length st.choice st.choices
  some ({ b with choices := choices, numChoices := st.choice }, st.pos)

/-! ## `getNewBlock` -/

/-- The closure `getRandomBlock` of `getNewBlock`; `r` is the value returned by
`rand.Intn(7)`. -/
def getRandomBlock (ops : BlockOps) (r : Nat) : tetrisBlock :=
  match r with
  | 0 => ops.getIBlock
  | 1 => ops.getOBlock
  | 2 => ops.getJBlock
  | 3 => ops.getLBlock
  | 4 => ops.getSBlock
  | 5 => ops.getTBlock
  | _ => ops.getZBlock

/-- The loop `for count < 2` of `getNewBlock`. `draw k` is the shape returned by
the `k`-th call of `getRandomBlock`; `used` counts the calls made so far. The
result is the returned block and the number of calls made. -/
def newBlockLoop (current next : tetrisBlock) (draw : Nat → tetrisBlock) :
    Nat → Int → tetrisBlock → Nat → Option (tetrisBlock × Nat)
  | 0, count, block, used => if count < 2 then none else some (block, used)
  | fuel + 1, count, block, used =>
    if count < 2 then
      if Int.lor (Int.lor current.id next.id) block.id ≠ next.id then some (block, used)
      else newBlockLoop current next draw fuel (count + 1) (draw used) (used + 1)
    else some (block, used)

/-- Go `func getNewBlock(current, next tetrisBlock) (block tetrisBlock)`, on the
sequence `draw` of the shapes that the successive calls of `getRandomBlock`
return. The second component is the number of draws consumed. -/
def getNewBlockFrom (current next : tetrisBlock) (draw : Nat → tetrisBlock) :
    Option (tetrisBlock × Nat) :=
  if current.id < 0 ∨ next.id < 0 then some (draw 0, 1)
  else newBlockLoop current next draw 2 0 (draw 0) 1

/-- `getNewBlock` reading `rand.Intn(7)` from position `pos` of the random
source; it returns the block and the new position. -/
def getNewBlock (ops : BlockOps) (rnd : RandSource) (pos : Nat) (current next : tetrisBlock) :
    Option (tetrisBlock × Nat) := do
  let r ← getNewBlockFrom current next (fun k => getRandomBlock ops (rnd (pos + k) % 7))
  some (r.1, pos + r.2)

/-! ## `lost`, `setUpNext`, `init` -/

/-- The inner loop `for _, v := range line` of `lost` on the running value of
`t.currentLife`; the flag tells whether `t.dead = true; return` was executed. -/
def lostLine : tetrisLine → Int → Int × Bool
  | [], life => (life, false)
  | v :: rest, life =>
    if v ≠ 0 then
      if life - 1 < 0 then (life - 1, true) else lostLine rest (life - 1)
    else lostLine rest life

/-- The outer loop `for _, line := range t.area[:gInvisibleLines+t.deathLines]` of `lost`. -/
def lostLines : List tetrisLine → Int → Int × Bool
  | [], life => (life, false)
  | line :: rest, life =>
    match lostLine line life with
    | (life1, true) => (life1, true)
    | (life1, false) => lostLines rest life1

/-- Go `func (t *tetris) lost()`. The slice expression panics when its bound is
negative or exceeds the number of rows. -/
def tetris.lost (G : Globals) (t : tetris) : Option tetris :=
  let bound : Int := (G.gInvisibleLines : Int) + t.deathLines
  if 0 ≤ bound ∧ bound ≤ (t.area.length : Int) then
    let r := lostLines (t.area.take bound.toNat) t.life
    some { t with currentLife := r.1, dead := if r.2 then true else t.dead }
  else none

/-- Go `func (t *tetris) setUpNext()`. -/
def tetris.setUpNext (G : Globals) (ops : BlockOps) (rnd : RandSource) (pos : Nat)
    (t : tetris) : Option (tetris × Nat) := do
  let t ← t.lost G
  if t.dead then
    some ({ t with inAnimation := true }, pos)
  else do
    let fut ← getNewBlock ops rnd pos t.currentBlock t.nextBlock
    some ({ t with
              currentBlock := ops.setInitialPosition t.nextBlock,
              nextBlock := fut.1,
              manualMoveAllowed := false,
              invisibleFrame := 0,
              invisibleStep := maxLevelInvisibleBlocks }, fut.2)

/-- The `if level == 0` block of `init`. -/
def tetris.initBlocks (G : Globals) (ops : BlockOps) (rnd : RandSource) (pos : Nat)
    (t : tetris) : Option (tetris × Nat) := do
  let b1 ← getNewBlock ops rnd pos noBlock noBlock
  let b2 ← getNewBlock ops rnd b1.2 noBlock noBlock
  some ({ t with
            area := List.replicate (G.gPlayAreaHeightInBlocks + G.gInvisibleLines)
              (emptyLine G.gPlayAreaWidthInBlocks),
            currentBlock := ops.setInitialPosition b1.1,
            nextBlock := b2.1,
            heldBlock := noBlock }, b2.2)

/-- Go `func (t *tetris) init(level, balance, speedLevel, score, betterRotation, canHold, life, currentLife)`. -/
def tetris.init (G : Globals) (ops : BlockOps) (rnd : RandSource) (pos : Nat) (t : tetris)
    (level : Int) (balance : balancing) (speedLevel : Int) (score : Int)
    (betterRotation canHold : Bool) (life currentLife : Int) : Option (tetris × Nat) := do
  let start ← (if level = 0 then t.initBlocks G ops rnd pos else some (t, pos))
  let speed ← balance.getSpeedLevel G speedLevel
  let autoDownFrameLimit ← goIndex G.gSpeeds speed
  let deathLines ← balance.getDeathLines G
  let invisibleLevel ← balance.getInvisibleBlocks
  some ({ area := start.1.area, currentBlock := start.1.currentBlock,
          nextBlock := start.1.nextBlock, heldBlock := start.1.heldBlock,
          autoDownFrame := 0, autoDownFrameLimit := autoDownFrameLimit,
          manualDownFrame := 0, manualDownFrameLimit := 4,
          lrMoveFrame := 0, lrMoveFrameLimit := 6,
          lrFirstMoveFrame := 0, lrFirstMoveFrameLimit := 15,
          manualMoveAllowed := true, numLines := 0, dropLenght := 0,
          deathLines := deathLines, toCheck := (0, 0),
          toRemove := [false, false, false, false], toRemoveNum := 0,
          firstAvailable := start.1.firstAvailable,
          removeLineAnimationFrame := 0, removeLineAnimationStep := 0,
          removeLineAnimationStepNumFrames := 8, inAnimation := false,
          invisibleLevel := invisibleLevel, invisibleStep := maxLevelInvisibleBlocks,
          invisibleFrame := 0, score := score, betterRotation := betterRotation,
          canHold := canHold, life := life, currentLife := currentLife, dead := false,
          deathAnimationFrame := 0 }, start.2)

/-! ## `update` -/

/-- The six boolean arguments of `update`. -/
structure Requests where
  moveDownRequest : Bool
  moveLeftRequest : Bool
  moveRightRequest : Bool
  holdRequest : Bool
  rotateLeft : Bool
  rotateRight : Bool
deriving DecidableEq, Repr

/-- The branch `if t.dead { ... return }` of `update`: the session and the sound flags. -/
def tetris.deadStep (t : tetris) : tetris × List Bool :=
  let sounds := noSounds.set SoundDeathID (decide (t.deathAnimationFrame = 0))
  let t1 := { t with deathAnimationFrame := t.deathAnimationFrame + 1 }
  if t1.deathAnimationFrame ≥ 90 then ({ t1 with inAnimation := false }, sounds)
  else (t1, sounds)

/-- The first statements of the animation branch of `update`:
`t.removeLineAnimationFrame++` and the step change that follows it. -/
def tetris.advanceAnimation (t : tetris) : tetris :=
  let t1 := { t with removeLineAnimationFrame := t.removeLineAnimationFrame + 1 }
  if t1.removeLineAnimationFrame ≥ t1.removeLineAnimationStepNumFrames then
    { t1 with removeLineAnimationStep := t1.removeLineAnimationStep + 1,
              removeLineAnimationFrame := 0 }
  else t1

/-- The `switch t.toRemoveNum` of `update`: the amount added to `t.score`. -/
def lineScore (toRemoveNum level : Int) : Int :=
  if toRemoveNum = 1 then 40 * (level + 1)
  else if toRemoveNum = 2 then 100 * (level + 1)
  else if toRemoveNum = 3 then 300 * (level + 1)
  else if toRemoveNum = 4 then 1200 * (level + 1)
  else 0

/-- The block `if t.removeLineAnimationStep == 4 && t.removeLineAnimationFrame <= 0` of `update`. -/
def tetris.scoreLines (level : Int) (t : tetris) : tetris :=
  if t.removeLineAnimationStep = 4 ∧ t.removeLineAnimationFrame ≤ 0 then
    { t with score := t.score + lineScore t.toRemoveNum level,
             numLines := t.numLines + t.toRemoveNum }
  else t

/-- The end of the animation branch of `update`, from `t.removeLineAnimationStep = 0`
to `t.setUpNext()`. -/
def tetris.finishAnimation (G : Globals) (ops : BlockOps) (rnd : RandSource) (pos : Nat)
    (t : tetris) : Option (tetris × List Bool × Nat) := do
  let t1 := { t with removeLineAnimationStep := 0 }
  let sounds := noSounds.set SoundLinesFallingID true
  let t2 ← t1.removeLines G.gPlayAreaWidthInBlocks
  let t3 := { t2 with toRemove := [false, false, false, false], toRemoveNum := 0,
                      toCheck := (0, 0), inAnimation := false }
  let r ← t3.setUpNext G ops rnd pos
  some (r.1, sounds, r.2)

/-- The branch `if t.removeLineAnimationStep > 0 { ... return }` of `update`. -/
def tetris.animationStep (G : Globals) (ops : BlockOps) (rnd : RandSource) (pos : Nat)
    (level : Int) (t : tetris) : Option (tetris × List Bool × Nat) :=
  let t1 := (t.advanceAnimation).scoreLines level
  if t1.removeLineAnimationStep < 8 then some (t1, noSounds, pos)
  else t1.finishAnimation G ops rnd pos

/-- The block `if t.canHold && holdRequest` of `update`. -/
def tetris.holdStep (ops : BlockOps) (rnd : RandSource) (pos : Nat) (holdRequest : Bool)
    (t : tetris) : Option (tetris × Nat) :=
  if t.canHold && holdRequest then
    if ops.canReplace t.currentBlock.x t.currentBlock.y t.heldBlock t.nextBlock t.area then
      let held := t.currentBlock
      let cur := t.heldBlock
      if cur.id < 0 then do
        let fut ← getNewBlock ops rnd pos held t.nextBlock
        some ({ t with heldBlock := { held with x := 0, y := 0 },
                       currentBlock := { t.nextBlock with x := held.x, y := held.y },
                       nextBlock := fut.1 }, fut.2)
      else
        some ({ t with heldBlock := { held with x := 0, y := 0 },
                       currentBlock := { cur with x := held.x, y := held.y } }, pos)
    else some (t, pos)
  else some (t, pos)

/-- The invisible-block cycle of `update`, from `t.invisibleFrame++`. -/
def tetris.invisibleCycle (G : Globals) (t : tetris) : tetris :=
  let t1 := { t with invisibleFrame := t.invisibleFrame + 1 }
  if t1.invisibleFrame ≥ G.gInvisibleNumFrames then
    let t2 := { t1 with invisibleStep := t1.invisibleStep - 1, invisibleFrame := 0 }
    if t2.invisibleStep ≤ 0 then { t2 with invisibleStep := maxLevelInvisibleBlocks } else t2
  else t1

/-- The rotation statements of `update`; the flag is `effectiveRotation`. -/
def tetris.rotationStep (ops : BlockOps) (rotateLeft rotateRight : Bool) (t : tetris) :
    tetris × Bool :=
  let r1 : tetris × Bool :=
    if rotateLeft && !rotateRight then
      ({ t with currentBlock := (ops.rotateLeft t.currentBlock t.area).1 },
        (ops.rotateLeft t.currentBlock t.area).2)
    else (t, false)
  let r2 : tetris × Bool :=
    if rotateRight && !rotateLeft then
      ({ r1.1 with currentBlock := (ops.rotateRight r1.1.currentBlock r1.1.area).1 },
        (ops.rotateRight r1.1.currentBlock r1.1.area).2)
    else r1
  if r2.2 && r2.1.betterRotation then ({ r2.1 with autoDownFrame := 0 }, r2.2) else r2

/-- The left/right statements of `update`; the results are the session, `xMove`
and `mayAllowManualMoves`. -/
def tetris.lateralStep (moveLeftRequest moveRightRequest : Bool) (t : tetris) :
    tetris × Int × Bool :=
  let x0 : Int := 0
  let x1 : Int := if moveLeftRequest then x0 - 1 else x0
  let x2 : Int := if moveRightRequest then x1 + 1 else x1
  let released : Bool := !moveLeftRequest && !moveRightRequest
  let t1 := if released then { t with lrMoveFrame := 0, lrFirstMoveFrame := 0 } else t
  let x3 : Int := if !t1.manualMoveAllowed then 0 else x2
  if x3 ≠ 0 then
    let x4 : Int :=
      if t1.lrMoveFrame > 0 ∨
          (t1.lrFirstMoveFrame > 0 ∧ t1.lrFirstMoveFrame < t1.lrFirstMoveFrameLimit) then 0
      else x3
    let t2 := { t1 with lrMoveFrame := t1.lrMoveFrame + 1 }
    let t3 := if t2.lrMoveFrame ≥ t2.lrMoveFrameLimit then { t2 with lrMoveFrame := 0 } else t2
    let t4 :=
      if t3.lrFirstMoveFrame < t3.lrFirstMoveFrameLimit then
        { t3 with lrFirstMoveFrame := t3.lrFirstMoveFrame + 1 }
      else t3
    (t4, x4, released)
  else (t1, x3, released)

/-- The automatic descent statements of `update`; the flag is `autoDown`. -/
def tetris.autoDownStep (t : tetris) : tetris × Bool :=
  let t1 := { t with autoDownFrame := t.autoDownFrame + 1 }
  if t1.autoDownFrame ≥ t1.autoDownFrameLimit then ({ t1 with autoDownFrame := 0 }, true)
  else (t1, false)

/-- The manual descent statements of `update`; the flag is `manualDown`. -/
def tetris.manualDownStep (moveDownRequest mayAllowManualMoves : Bool) (t : tetris) :
    tetris × Bool :=
  let t1 :=
    if !moveDownRequest then
      { t with manualDownFrame := 0,
               manualMoveAllowed := t.manualMoveAllowed || mayAllowManualMoves,
               dropLenght := 0 }
    else t
  let r2 : tetris × Bool :=
    if moveDownRequest && t1.manualMoveAllowed then
      let t2 := { t1 with manualDownFrame := t1.manualDownFrame + 1 }
      let t3 :=
        if t2.manualDownFrame ≥ t2.manualDownFrameLimit then { t2 with manualDownFrame := 0 }
        else t2
      (t3, decide (t1.manualDownFrame = 0))
    else (t1, false)
  if r2.2 then ({ r2.1 with dropLenght := r2.1.dropLenght + 1 }, r2.2) else r2

/-- The end of `update`, from `t.currentBlock.updatePosition(...)`. -/
def tetris.lockStep (G : Globals) (ops : BlockOps) (rnd : RandSource) (pos : Nat)
    (xMove : Int) (down : Bool) (sounds : List Bool) (t : tetris) :
    Option (tetris × List Bool × Nat) :=
  let moved := ops.updatePosition t.currentBlock xMove down t.area
  let t1 := { t with currentBlock := moved.1 }
  let sounds1 := sounds.set SoundLeftRightID moved.2.2
  if moved.2.1 then do
    let sounds2 := sounds1.set SoundTouchGroundID true
    let written := ops.writeInGrid t1.currentBlock t1.area
    let t2 := { t1 with area := written.1, toCheck := written.2 }
    let t3 := { t2 with score := t2.score + t2.dropLenght }
    let t4 ← t3.storeCheck
    if t4.toRemoveNum > 0 then
      some ({ t4 with removeLineAnimationStep := 1, inAnimation := true },
        sounds2.set SoundLinesVanishingID true, pos)
    else do
      let r ← t4.setUpNext G ops rnd pos
      some (r.1, sounds2, r.2)
  else some (t1, sounds1, pos)

/-- The normal-play part of `update` (session neither dead nor in a line-clear animation). -/
def tetris.playStep (G : Globals) (ops : BlockOps) (rnd : RandSource) (pos : Nat)
    (req : Requests) (t : tetris) : Option (tetris × List Bool × Nat) := do
  let h ← t.holdStep ops rnd pos req.holdRequest
  let t1 := h.1.invisibleCycle G
  let rot := t1.rotationStep ops req.rotateLeft req.rotateRight
  let sounds := noSounds.set SoundRotationID rot.2
  let lat := rot.1.lateralStep req.moveLeftRequest req.moveRightRequest
  let auto := lat.1.autoDownStep
  let man := auto.1.manualDownStep req.moveDownRequest lat.2.2
  man.1.lockStep G ops rnd h.2 lat.2.1 (auto.2 || man.2) sounds

/-- Go `func (t *tetris) update(moveDownRequest, moveLeftRequest, moveRightRequest,
holdRequest, rotateLeft, rotateRight bool, level int) (playSounds [assets.NumSounds]bool)`.
The result is the session after the call, the sound flags and the new position
in the random source. -/
def tetris.update (G : Globals) (ops : BlockOps) (rnd : RandSource) (pos : Nat)
    (t : tetris) (req : Requests) (level : Int) : Option (tetris × List Bool × Nat) :=
  if t.dead then some (t.deadStep.1, t.deadStep.2, pos)
  else if t.removeLineAnimationStep > 0 then t.animationStep G ops rnd pos level
  else t.playStep G ops rnd pos req

/-- A run of successive `update` calls, one per element of the list. -/
def runUpdates (G : Globals) (ops : BlockOps) (rnd : RandSource) :
    List (Requests × Int) → tetris × Nat → Option (tetris × Nat)
  | [], s => some s
  | call :: rest, s => do
    let r ← s.1.update G ops rnd s.2 call.1 call.2
    runUpdates G ops rnd rest (r.1, r.2.2)

/-! ## Specification vocabulary for the row algorithms -/

/-- A line is complete when every cell of it is non-zero. -/
def lineComplete (row : tetrisLine) : Bool := row.all (fun v => v != 0)

/-- Row `i` of the grid exists and is complete. -/
def rowComplete (area : tetrisGrid) (i : Nat) : Bool :=
  match area[i]? with
  | some row => lineComplete row
  | none => false

/-- Row `i` of the grid is flagged for removal: it lies at or below row `lo` of the
checked range and `toRemove[i - lo]` is set. -/
def isFlagged (toRemove : List Bool) (lo : Nat) (i : Nat) : Bool :=
  decide (lo ≤ i) && toRemove.getD (i - lo) false

/-- The rows of `rows` (row `0` first) that are not flagged for removal, in their order. -/
def keptRows (toRemove : List Bool) (lo : Nat) (rows : List tetrisLine) : List tetrisLine :=
  (rows.enum.filter (fun p => !isFlagged toRemove lo p.1)).map Prod.snd

/-- The rows of index `m .. hi` of the grid `g` that are not flagged for removal. -/
def keptFrom (toRemove : List Bool) (lo hi : Nat) (g : tetrisGrid) (m : Nat) : List tetrisLine :=
  (((g.take (hi + 1)).drop m).enumFrom m |>.filter (fun p => !isFlagged toRemove lo p.1)).map Prod.snd

/-- The shape of the grid while `removeLines` runs: rows `0 .. y1 - 1` still as in `g`,
then `z` empty rows and the kept rows of index `m .. hi`, then rows `hi + 1 ..` as in `g`. -/
def midGrid (width : Nat) (tr : List Bool) (lo hi : Nat) (g : tetrisGrid) (y1 z m : Nat) :
    tetrisGrid :=
  g.take y1 ++ ((List.replicate z (emptyLine width) ++ keptFrom tr lo hi g m) ++ g.drop (hi + 1))

/-- The number of non-zero cells of a grid. -/
def nonEmptyCells (g : tetrisGrid) : Nat :=
  (g.map (fun row => row.countP (fun v => v != 0))).sum

/-- The flags `tr` are those of the complete rows of the range `lo .. hi`:
`tr[i]` is set exactly when `i ≤ hi - lo` and row `lo + i` is complete. -/
def CheckedFlags (area : tetrisGrid) (lo hi : Nat) (tr : List Bool) : Prop :=
  tr.length = 4 ∧ ∀ i, tr[i]? =
    if i ≤ hi - lo ∧ rowComplete area (lo + i) = true then some true
    else ([false, false, false, false] : List Bool)[i]?

/-- The number of complete rows in the checked range `lo .. hi`. -/
def completeInRange (area : tetrisGrid) (lo hi : Nat) : Nat :=
  ((area.take (hi + 1)).drop lo).countP lineComplete

/-- A session holding the grid `area` and the checked range `toCheck`, every
other field at the value `init` gives it for a plain start. -/
def sessionWith (area : tetrisGrid) (toCheck : Int × Int) : tetris :=
  { area := area, currentBlock := noBlock, nextBlock := noBlock, heldBlock := noBlock,
    autoDownFrame := 0, autoDownFrameLimit := 48, manualDownFrame := 0,
    manualDownFrameLimit := 4, lrMoveFrame := 0, lrMoveFrameLimit := 6,
    lrFirstMoveFrame := 0, lrFirstMoveFrameLimit := 15, manualMoveAllowed := true,
    numLines := 0, dropLenght := 0, deathLines := 1, toCheck := toCheck,
    toRemove := [false, false, false, false], toRemoveNum := 0, firstAvailable := 0,
    removeLineAnimationFrame := 0, removeLineAnimationStep := 0,
    removeLineAnimationStepNumFrames := 8, inAnimation := false, invisibleLevel := 0,
    invisibleStep := 3, invisibleFrame := 0, score := 0, betterRotation := false,
    canHold := false, life := 0, currentLife := 0, dead := false, deathAnimationFrame := 0 }

/-- A small grid, two blocks wide, whose rows 2, 4 and 5 are complete. -/
def sampleGrid : tetrisGrid := [[1, 0], [2, 0], [3, 3], [0, 4], [5, 5], [6, 6], [7, 0]]

/-- A 10 x 24 grid whose rows 18 to 21 are filled except for one cell each. -/
def scenarioGrid : tetrisGrid :=
  List.replicate 18 (emptyLine 10) ++
    [[1, 1, 1, 1, 0, 1, 1, 1, 1, 1], [1, 1, 1, 1, 0, 1, 1, 1, 1, 1],
     [1, 1, 1, 1, 0, 1, 1, 1, 1, 1], [1, 1, 1, 1, 0, 1, 1, 1, 1, 1]] ++
    List.replicate 2 (List.replicate 10 1)

/-- A grid, two blocks wide, whose lower row is complete under a non-empty row. -/
def shiftGrid : tetrisGrid := [[1, 0], [1, 1]]

/-- The number of non-empty cells in the band scanned by `lost`. -/
def deathBandCells (G : Globals) (t : tetris) : Nat :=
  nonEmptyCells (t.area.take ((G.gInvisibleLines : Int) + t.deathLines).toNat)

/-- Constants of a small play area: 2 blocks wide, 6 visible rows, 1 invisible row. -/
def sampleGlobals : Globals :=
  { gPlayAreaWidthInBlocks := 2, gPlayAreaHeightInBlocks := 6, gInvisibleLines := 1,
    gSpeedLevels := 3, gSpeeds := [48, 40, 32], gInvisibleNumFrames := 30,
    gChoiceSelectionNumFrame := 10 }

/-- Constants of a play area with 2 invisible rows, as in the death-check scenario. -/
def scenarioGlobals : Globals :=
  { gPlayAreaWidthInBlocks := 2, gPlayAreaHeightInBlocks := 6, gInvisibleLines := 2,
    gSpeedLevels := 3, gSpeeds := [48, 40, 32], gInvisibleNumFrames := 30,
    gChoiceSelectionNumFrame := 10 }

/-- A session with `deathLines = 3` and `life = 2` on the grid `area`. -/
def lifeSession (area : tetrisGrid) : tetris :=
  { sessionWith area (0, 0) with deathLines := 3, life := 2, currentLife := 1 }

/-- An 8-row grid with two non-empty cells in its five topmost rows. -/
def twoCellGrid : tetrisGrid :=
  [[0, 0], [0, 0], [0, 0], [0, 5], [3, 0], [1, 1], [1, 0], [1, 1]]

/-- An 8-row grid with three non-empty cells in its five topmost rows. -/
def threeCellGrid : tetrisGrid :=
  [[0, 0], [0, 0], [0, 2], [0, 5], [3, 0], [1, 1], [1, 0], [1, 1]]

/-- A block environment in which the current block rests on the stack: it can
neither rotate nor move, a requested descent locks it, and locking writes the
anchor cell of the block into the grid. -/
def restingOps : BlockOps :=
  { getIBlock := { noBlock with id := 0 }
    getOBlock := { noBlock with id := 1 }
    getJBlock := { noBlock with id := 2 }
    getLBlock := { noBlock with id := 3 }
    getSBlock := { noBlock with id := 4 }
    getTBlock := { noBlock with id := 5 }
    getZBlock := { noBlock with id := 6 }
    setInitialPosition := fun b => { b with x := 0, y := 0 }
    rotateLeft := fun b _ => (b, false)
    rotateRight := fun b _ => (b, false)
    updatePosition := fun b _ down _ => (b, down, false)
    writeInGrid := fun b area =>
      (area.modify (fun row => row.set b.x.toNat (b.id + 1)) b.y.toNat, (b.y, b.y))
    canReplace := fun _ _ _ _ _ => false }

/-- A session in the middle of a line-clear animation: four rows to remove,
last sub-frame of step 3. -/
def clearingSession : tetris :=
  { sessionWith sampleGrid (2, 5) with
      toRemoveNum := 4, removeLineAnimationStep := 3, removeLineAnimationFrame := 7,
      inAnimation := true }

/-- The requests of a tick on which no key is pressed. -/
def noRequest : Requests :=
  { moveDownRequest := false, moveLeftRequest := false, moveRightRequest := false,
    holdRequest := false, rotateLeft := false, rotateRight := false }


/-- The test by which `getNewBlock` rejects a candidate `d`:
`current.id|next.id|d.id == next.id`. -/
abbrev rejected (current next d : tetrisBlock) : Prop :=
  Int.lor (Int.lor current.id next.id) d.id = next.id

/-- Three draws of the same shape. -/
def sameDraws : Nat → tetrisBlock := fun _ => { noBlock with id := 2 }

/-- The three life fields of a session: `life`, `currentLife` and `dead`. -/
def lifeFields (t : tetris) : Int × Int × Bool := (t.life, t.currentLife, t.dead)

/-- The life invariant of a session: `life` is not negative, `currentLife` lies in
`[0, life]` while the session is alive and is `-1` once it is dead. -/
def LifeInv (t : tetris) : Prop :=
  0 ≤ t.life ∧ (t.dead = false → 0 ≤ t.currentLife ∧ t.currentLife ≤ t.life) ∧
    (t.dead = true → t.currentLife = -1)

/-- The score table of the spec: points for 1, 2, 3 and 4 cleared rows. -/
def scoreTable (n : Int) : Int :=
  ([0, 40, 100, 300, 1200] : List Int).getD n.toNat 0

/-- A session just after a lock that completed rows 2, 4 and 5 of `sampleGrid`:
the result of `checkLines` is stored and the line-clear animation starts. -/
def lockedSession : tetris :=
  { sessionWith sampleGrid (2, 5) with
      toRemoveNum := 3, firstAvailable := 3, toRemove := [true, false, true, true],
      removeLineAnimationStep := 1, inAnimation := true }

/-- The requests of 56 successive ticks without any key pressed. -/
def idleTicks : List Requests := List.replicate 56 noRequest

/-- The session `k` update calls after a lock that started a line-clear
animation on session `t`, at constant level `L`, for `k < 56`: only the
animation counters, and from call 24 on the score and the line count, differ
from `t`. -/
def animState (t : tetris) (L : Int) (k : Nat) : tetris :=
  { t with
      removeLineAnimationFrame := ((k % 8 : Nat) : Int),
      removeLineAnimationStep := ((1 + k / 8 : Nat) : Int),
      score := if k < 24 then t.score else t.score + lineScore t.toRemoveNum L,
      numLines := if k < 24 then t.numLines else t.numLines + t.toRemoveNum }

/-- A grid, two blocks wide, whose left column is stacked up to row 2. -/
def stackGrid : tetrisGrid := [[0, 0], [0, 0], [3, 0], [3, 0], [3, 0], [3, 0], [3, 0]]

/-- A session kept from a previous level: the current block sits at row 1 on top
of the stack of `stackGrid`. -/
def stackSession : tetris :=
  { sessionWith stackGrid (0, 0) with
      currentBlock := { noBlock with id := 1, x := 0, y := 1 },
      nextBlock := { noBlock with id := 2 } }

/-- The requests of a tick on which only the down key is pressed. -/
def downRequest : Requests :=
  { moveDownRequest := true, moveLeftRequest := false, moveRightRequest := false,
    holdRequest := false, rotateLeft := false, rotateRight := false }

/-- The assumption on the helper `removeElement`: for an index inside the
slice, it removes exactly the element at that index (the order of the remaining
elements is free). -/
def RemovesAt (removeElement : List Int → Nat → List Int) : Prop :=
  ∀ (s : List Int) (i : Nat), i < s.length → List.Perm (removeElement s i) (s.eraseIdx i)

/-- Category `c` is below its maximum level. -/
def belowMax (b : balancing) (c : Int) : Prop :=
  ∃ level maxLevel, goIndex b.levels c = some level ∧ goIndex b.maxLevels c = some maxLevel ∧
    level < maxLevel

/-- The number of categories `c` with `levels[c] < maxLevels[c]`. -/
def eligibleCount (b : balancing) : Nat :=
  ((List.range numBalances).filter
    (fun c => decide (b.levels.getD c 0 < b.maxLevels.getD c 0))).length

/-- A balancing state with two categories at their maximum and a previous slate. -/
def sampleBalance : balancing :=
  { levels := [2, 1, 5, 0, 2], maxLevels := [2, 5, 5, 5, 3], choice := 0, choiceDirection := 0,
    choices := [1, 4, -1], numChoices := 2, inTransition := false, transitionFrame := 0 }

/-- The speed table `T = [1, 2, 4, 7, 10]` of the spec. -/
def speedTable : List Int := [1, 2, 4, 7, 10]

/-- The speed level of the spec for speed-category level `l` and base level `base`:
`min(base + T[min(l, 4)], gSpeedLevels - 1)`. -/
def speedFormula (G : Globals) (l base : Int) : Int :=
  min (base + speedTable.getD (min l 4).toNat 0) ((G.gSpeedLevels : Int) - 1)

/-- A balancing state whose five levels all lie above the category maximum. -/
def overBalance : balancing := { newBalance 3 with levels := [7, 9, 6, 8, 5] }

/-- A balancing state whose hidden-lines and death-lines levels are `2^62`. -/
def hugeBalance : balancing :=
  { newBalance 3 with levels := [0, 0, 4611686018427387904, 4611686018427387904, 0] }


/-- The session `n` update calls after session `t` was found dead with
`deathAnimationFrame = 0`: only `deathAnimationFrame` and, from call 90 on,
`inAnimation` differ from `t`. -/
def deadState (t : tetris) (n : Nat) : tetris :=
  { t with deathAnimationFrame := (n : Int),
           inAnimation := if n < 90 then t.inAnimation else false }

/-- A dead session at the start of its death animation. -/
def deadSession : tetris :=
  { sessionWith stackGrid (0, 0) with dead := true, inAnimation := true, currentLife := -1 }

/-- The requests of a tick on which every key is pressed. -/
def allRequests : Requests :=
  { moveDownRequest := true, moveLeftRequest := true, moveRightRequest := true,
    holdRequest := true, rotateLeft := true, rotateRight := true }

/-- The local variables of a normal-play `update` call just before the statement
`stuck, playSounds[assets.SoundLeftRightID] = t.currentBlock.updatePosition(...)`. -/
structure MoveState where
  session : tetris
  xMove : Int
  autoDown : Bool
  manualDown : Bool
  effectiveRotation : Bool
  pos : Nat

/-- The normal-play part of `update` up to, and without, the call of `updatePosition`. -/
def tetris.prepareMove (G : Globals) (ops : BlockOps) (rnd : RandSource) (pos : Nat)
    (req : Requests) (t : tetris) : Option MoveState := do
  let h ← t.holdStep ops rnd pos req.holdRequest
  let t1 := h.1.invisibleCycle G
  let rot := t1.rotationStep ops req.rotateLeft req.rotateRight
  let lat := rot.1.lateralStep req.moveLeftRequest req.moveRightRequest
  let auto := lat.1.autoDownStep
  let man := auto.1.manualDownStep req.moveDownRequest lat.2.2
  some { session := man.1, xMove := lat.2.1, autoDown := auto.2, manualDown := man.2,
         effectiveRotation := rot.2, pos := h.2 }

/-- The value that `updatePosition` gives to the local variable `stuck`. -/
def MoveState.stuck (ops : BlockOps) (m : MoveState) : Bool :=
  (ops.updatePosition m.session.currentBlock m.xMove (m.autoDown || m.manualDown)
    m.session.area).2.1

/-- The value of the local variable `stuck` in a normal-play `update` call: `some true` when
the block locks in this call. -/
def tetris.stuck (G : Globals) (ops : BlockOps) (rnd : RandSource) (pos : Nat)
    (req : Requests) (t : tetris) : Option Bool :=
  (t.prepareMove G ops rnd pos req).map (MoveState.stuck ops)

/-- A session whose block has just been set up while the down key is held:
`setUpNext` left `manualMoveAllowed = false`. -/
def heldDownSession : tetris := { stackSession with manualMoveAllowed := false }

/-- The amount added to `score` by the statement `t.score += t.dropLenght` in one `update`
call (0 when the statement is not reached) and the value of `manualDown` in that call
(`false` in the dead and animation branches, which return before it is declared). -/
def tetris.lockBonus (G : Globals) (ops : BlockOps) (rnd : RandSource) (pos : Nat)
    (t : tetris) (req : Requests) : Option (Int × Bool) :=
  if t.dead then some (0, false)
  else if t.removeLineAnimationStep > 0 then some (0, false)
  else (t.prepareMove G ops rnd pos req).map
    (fun m => (if m.stuck ops then m.session.dropLenght else 0, m.manualDown))

/-- Over a run of `update` calls: the total amount added to `score` by the lock-time bonus
and the number of calls in which a manual descent fired. -/
def bonusRun (G : Globals) (ops : BlockOps) (rnd : RandSource) :
    List (Requests × Int) → tetris × Nat → Option (Int × Nat)
  | [], _ => some (0, 0)
  | call :: rest, s => do
    let tick ← s.1.lockBonus G ops rnd s.2 call.1
    let r ← s.1.update G ops rnd s.2 call.1 call.2
    let total ← bonusRun G ops rnd rest (r.1, r.2.2)
    some (tick.1 + total.1, (if tick.2 then 1 else 0) + total.2)

/-- A session with `dropLenght = 0` whose block rests on the stack, with five lives and an
automatic descent every second call. -/
def dropSession : tetris :=
  { stackSession with autoDownFrameLimit := 2, life := 5, currentLife := 5 }

/-! ## `balancing.update` -/

/-- Go `a % b` on `int`: the remainder of the truncated division; `none` is the
integer-divide-by-zero panic. -/
def goMod (a b : Int) : Option Int := if b = 0 then none else some (Int.tmod a b)

/-- The three key tests of `balancing.update`: the values returned by
`inpututil.IsKeyJustPressed` for the left, right and enter keys. -/
structure MenuKeys where
  left : Bool
  right : Bool
  enter : Bool
deriving DecidableEq, Repr

/-- Go `func (b *balancing) setChoice(choice int)`. -/
def balancing.setChoice (b : balancing) (choice : Int) : Option balancing := do
  let level ← goIndex b.levels choice
  let levels ← goAssign b.levels choice (level + 1)
  some { b with levels := levels }

/-- Go `func (b *balancing) update() (end bool, playSounds [assets.NumSounds]bool)`. The
result is the state after the call, `end` and the sound flags. -/
def balancing.update (G : Globals) (keys : MenuKeys) (b : balancing) :
    Option (balancing × Bool × List Bool) :=
  if b.inTransition then
    let b1 := { b with transitionFrame := b.transitionFrame + 1 }
    if b1.transitionFrame ≥ G.gChoiceSelectionNumFrame then
      let b2 := { b1 with inTransition := false, transitionFrame := 0 }
      if b2.choiceDirection < 0 then do
        let choice ← goMod (b2.choice + 1) b2.numChoices
        some ({ b2 with choice := choice }, false, noSounds)
      else do
        let choice ← goMod (b2.choice + b2.numChoices - 1) b2.numChoices
        some ({ b2 with choice := choice }, false, noSounds)
    else some (b1, false, noSounds)
  else
    let r1 : balancing × List Bool :=
      if keys.left then
        ({ b with choiceDirection := 1, inTransition := true },
          noSounds.set SoundMenuMoveID true)
      else (b, noSounds)
    let r2 : balancing × List Bool :=
      if keys.right then
        ({ r1.1 with choiceDirection := -1, inTransition := true },
          r1.2.set SoundMenuMoveID true)
      else r1
    if keys.enter then do
      let chosen ← goIndex r2.1.choices r2.1.choice
      let b3 ← r2.1.setChoice chosen
      some ({ b3 with choice := 0 }, true, r2.2.set SoundMenuConfirmID true)
    else some (r2.1, false, r2.2)

/-- The state `sampleBalance` in the last frame of a transition started with the left key. -/
def transitionBalance : balancing :=
  { sampleBalance with inTransition := true, transitionFrame := 9, choiceDirection := 1 }

/-- The enter key alone. -/
def enterKey : MenuKeys := { left := false, right := false, enter := true }

/-- The number of times `getChoice` appends an eligible category `c` to
`possibleChoices`: once when `c` is in the previous slate, twice otherwise. -/
def poolWeight (b : balancing) (c : Int) : Nat := if inOldChoices c b.choices then 1 else 2

/-! ## The array accesses of `checkLines` and `removeLines` -/

/-- One array access of the row algorithms: `toRemove[index]`, `t.area[index]` (read or
written), or the row copy `t.area[dst] = t.area[src]`. -/
inductive Access where
  | toRemove (index : Int)
  | area (index : Int)
  | copy (src dst : Int)
deriving DecidableEq, Repr

/-- The access is in bounds for a grid of `rows` rows and the four flags of `toRemove`; a
row copy moreover reads a donor row that is not below the row it writes. -/
def Access.inBounds (rows : Nat) : Access → Bool
  | Access.toRemove index => decide (0 ≤ index ∧ index ≤ 3)
  | Access.area index => decide (0 ≤ index ∧ index < (rows : Int))
  | Access.copy src dst => decide (0 ≤ src ∧ src ≤ dst ∧ dst < (rows : Int))

/-- The loop `CheckLoop` of `checkLines` (see `checkLoop`) together with the list of the
array accesses it makes, in order. -/
def checkLoopLog (area : tetrisGrid) (hi : Int) :
    Nat → Int → CheckState → Option (CheckState × List Access)
  | 0, l, st => if l ≤ hi then none else some (st, [])
  | fuel + 1, l, st =>
    if l ≤ hi then do
      let count := st.count + 1
      let line ← goIndex area l
      if lineHasEmpty line then do
        let r ← checkLoopLog area hi fuel (l + 1)
          { count := count, firstAvailable := l, toRemove := st.toRemove,
            toRemoveNum := st.toRemoveNum }
        some (r.1, Access.area l :: r.2)
      else do
        let toRemove ← goAssign st.toRemove count true
        let r ← checkLoopLog area hi fuel (l + 1)
          { count := count, firstAvailable := st.firstAvailable, toRemove := toRemove,
            toRemoveNum := st.toRemoveNum + 1 }
        some (r.1, Access.area l :: Access.toRemove count :: r.2)
    else some (st, [])

/-- Go `checkLines` (see `tetris.checkLines`) together with the list of its array accesses. -/
def tetris.checkLinesLog (t : tetris) : Option ((Int × Int × List Bool) × List Access) := do
  let r ← checkLoopLog t.area t.toCheck.2 (t.toCheck.2 + 1 - t.toCheck.1).toNat t.toCheck.1
    { count := -1, firstAvailable := t.toCheck.1 - 1,
      toRemove := [false, false, false, false], toRemoveNum := 0 }
  some ((r.1.toRemoveNum, r.1.firstAvailable, r.1.toRemove), r.2)

/-- The skipping loop of `removeLines` (see `skipRemoved`) with its array accesses. -/
def skipRemovedLog (toRemove : List Bool) (lo : Int) : Nat → Int → Option (Int × List Access)
  | 0, fa =>
    if lo ≤ fa then do
      let flag ← goIndex toRemove (fa - lo)
      if flag then none else some (fa, [Access.toRemove (fa - lo)])
    else some (fa, [])
  | fuel + 1, fa =>
    if lo ≤ fa then do
      let flag ← goIndex toRemove (fa - lo)
      if flag then do
        let r ← skipRemovedLog toRemove lo fuel (fa - 1)
        some (r.1, Access.toRemove (fa - lo) :: r.2)
      else some (fa, [Access.toRemove (fa - lo)])
    else some (fa, [])

/-- The first loop of `removeLines` (see `removeInZone`) with its array accesses. -/
def removeInZoneLog (width : Nat) (toRemove : List Bool) (lo : Int) :
    Nat → Int → tetrisGrid × Int → Option ((tetrisGrid × Int) × List Access)
  | 0, y, st => if lo ≤ y then none else some (st, [])
  | fuel + 1, y, (area, fa) =>
    if lo ≤ y then
      if 0 ≤ fa then do
        let src ← goIndex area fa
        let area ← goAssign area y src
        let s ← skipRemovedLog toRemove lo (fa - lo).toNat (fa - 1)
        let r ← removeInZoneLog width toRemove lo fuel (y - 1) (area, s.1)
        some (r.1, Access.copy fa y :: (s.2 ++ r.2))
      else do
        let area ← goAssign area y (emptyLine width)
        let r ← removeInZoneLog width toRemove lo fuel (y - 1) (area, fa)
        some (r.1, Access.area y :: r.2)
    else some ((area, fa), [])

/-- The second loop of `removeLines` (see `removeAboveZone`) with its array accesses. -/
def removeAboveZoneLog (width : Nat) :
    Nat → Int → tetrisGrid × Int → Option ((tetrisGrid × Int) × List Access)
  | 0, y, st => if 0 ≤ y then none else some (st, [])
  | fuel + 1, y, (area, fa) =>
    if 0 ≤ y then
      if 0 ≤ fa then do
        let src ← goIndex area fa
        let area ← goAssign area y src
        let r ← removeAboveZoneLog width fuel (y - 1) (area, fa - 1)
        some (r.1, Access.copy fa y :: r.2)
      else do
        let area ← goAssign area y (emptyLine width)
        let r ← removeAboveZoneLog width fuel (y - 1) (area, fa)
        some (r.1, Access.area y :: r.2)
    else some ((area, fa), [])

/-- Go `removeLines` (see `tetris.removeLines`) together with the list of its array accesses. -/
def tetris.removeLinesLog (width : Nat) (t : tetris) : Option (tetris × List Access) := do
  let r1 ← removeInZoneLog width t.toRemove t.toCheck.1
    (t.toCheck.2 + 1 - t.toCheck.1).toNat t.toCheck.2 (t.area, t.firstAvailable)
  let r2 ← removeAboveZoneLog width t.toCheck.1.toNat (t.toCheck.1 - 1) r1.1
  some ({ t with area := r2.1.1, firstAvailable := r2.1.2 }, r1.2 ++ r2.2)

/-- The session at the last call of a line-clear animation started on `t`, just before
`t.setUpNext()`: the animation counters are at their end, `t2` is the result of
`removeLines`, and the checked range, the flags and `inAnimation` are reset. -/
def clearedState (t : tetris) (L : Int) (t2 : tetris) : tetris :=
  { animState t L 56 with
      removeLineAnimationStep := 0, area := t2.area, firstAvailable := t2.firstAvailable,
      toRemove := [false, false, false, false], toRemoveNum := 0, toCheck := (0, 0),
      inAnimation := false }

/-- The fields of a session that the normal-play statements of `update` before the call of
`updatePosition` never write. -/
def playConstants (t : tetris) :
    Bool × Int × Int × Int × Int × Int × Int × Bool × tetrisGrid :=
  (t.dead, t.removeLineAnimationStep, t.lrMoveFrameLimit, t.lrFirstMoveFrameLimit,
    t.manualDownFrameLimit, t.autoDownFrameLimit, t.score, t.betterRotation, t.area)

/-- The session when `updatePosition` has reported the block stuck, after
`t.score += t.dropLenght` and before `t.checkLines()`. -/
def MoveState.locked (ops : BlockOps) (m : MoveState) : tetris :=
  { m.session with
      currentBlock := (ops.updatePosition m.session.currentBlock m.xMove
        (m.autoDown || m.manualDown) m.session.area).1,
      area := (ops.writeInGrid (ops.updatePosition m.session.currentBlock m.xMove
        (m.autoDown || m.manualDown) m.session.area).1 m.session.area).1,
      toCheck := (ops.writeInGrid (ops.updatePosition m.session.currentBlock m.xMove
        (m.autoDown || m.manualDown) m.session.area).1 m.session.area).2,
      score := m.session.score + m.session.dropLenght }

/-- The session of a locking call after the assignment
`t.toRemoveNum, t.firstAvailable, t.toRemove = t.checkLines()`, for the values
`(n, fa, tr)` returned by `checkLines`. -/
def MoveState.checked (ops : BlockOps) (m : MoveState) (n fa : Int) (tr : List Bool) : tetris :=
  { m.locked ops with toRemoveNum := n, firstAvailable := fa, toRemove := tr }

/-- The sound flags of a normal-play call after the call of `updatePosition`. -/
def MoveState.moveSounds (ops : BlockOps) (m : MoveState) : List Bool :=
  (noSounds.set SoundRotationID m.effectiveRotation).set SoundLeftRightID
    (ops.updatePosition m.session.currentBlock m.xMove (m.autoDown || m.manualDown)
      m.session.area).2.2
/-- A grid, two blocks wide, in which a cell written at row 1, column 0 completes row 1. -/
def completingGrid : tetrisGrid := [[0, 0], [0, 1], [3, 0], [3, 0], [3, 0], [3, 0], [3, 0]]

/-- A session whose current block, at row 1 and column 0, completes row 1 when it locks. -/
def completingSession : tetris :=
  { sessionWith completingGrid (0, 0) with
      currentBlock := { noBlock with id := 1, x := 0, y := 1 },
      nextBlock := { noBlock with id := 2 }, life := 5, currentLife := 5 }

/-- A session that may hold, with an empty held slot. -/
def holdSession : tetris := { stackSession with canHold := true }

/-- The block environment `restingOps` in which every swap target is legal. -/
def swappingOps : BlockOps := { restingOps with canReplace := fun _ _ _ _ _ => true }

/-- The requests of a tick on which only the hold key is pressed. -/
def holdRequestOnly : Requests :=
  { moveDownRequest := false, moveLeftRequest := false, moveRightRequest := false,
    holdRequest := true, rotateLeft := false, rotateRight := false }

/-- A block environment, like `restingOps`, in which a left rotation succeeds and a right
rotation is declined. -/
def turningOps : BlockOps :=
  { restingOps with rotateLeft := fun b _ => ({ b with rotation := b.rotation + 1 }, true) }

/-- The requests of a tick on which only the rotate-left key is pressed. -/
def rotateLeftOnly : Requests :=
  { moveDownRequest := false, moveLeftRequest := false, moveRightRequest := false,
    holdRequest := false, rotateLeft := true, rotateRight := false }

/-- A session with the improved rotation, in the middle of an automatic-descent period. -/
def turningSession : tetris := { stackSession with betterRotation := true, autoDownFrame := 7 }

/-- The values of the local variable `stuck` in a run of normal-play `update` calls, one
per call. -/
def stuckFlags (G : Globals) (ops : BlockOps) (rnd : RandSource) :
    List (Requests × Int) → tetris × Nat → Option (List Bool)
  | [], _ => some []
  | call :: rest, s => do
    let flag ← s.1.stuck G ops rnd s.2 call.1
    let r ← s.1.update G ops rnd s.2 call.1 call.2
    let flags ← stuckFlags G ops rnd rest (r.1, r.2.2)
    some (flag :: flags)

/-- The state of the lateral auto-repeat after `k` ticks with one lateral key held, since
the counters were last at zero: a normal-play session with `manualMoveAllowed` set, the
limits 6 and 15, `lrMoveFrame = k mod 6` and `lrFirstMoveFrame = min(k, 15)`. -/
def LateralInv (k : Nat) (t : tetris) : Prop :=
  t.dead = false ∧ ¬ t.removeLineAnimationStep > 0 ∧ t.manualMoveAllowed = true ∧
    t.lrMoveFrameLimit = 6 ∧ t.lrFirstMoveFrameLimit = 15 ∧
    t.lrMoveFrame = ((k % 6 : Nat) : Int) ∧ t.lrFirstMoveFrame = ((min k 15 : Nat) : Int)
/-- The requests of a tick on which only the left key is held. -/
def leftRequest : Requests :=
  { moveDownRequest := false, moveLeftRequest := true, moveRightRequest := false,
    holdRequest := false, rotateLeft := false, rotateRight := false }

/-- The requests of a tick on which both lateral keys are held. -/
def bothLateralRequest : Requests :=
  { moveDownRequest := false, moveLeftRequest := true, moveRightRequest := true,
    holdRequest := false, rotateLeft := false, rotateRight := false }

/-- The state of the soft drop after `k` ticks with the down key held, since the counters
were last at zero: a normal-play session with `manualMoveAllowed` set, the limit 4,
`manualDownFrame = k mod 4` and `dropLenght = ceil(k / 4)`. -/
def DownInv (k : Nat) (t : tetris) : Prop :=
  t.dead = false ∧ ¬ t.removeLineAnimationStep > 0 ∧ t.manualMoveAllowed = true ∧
    t.manualDownFrameLimit = 4 ∧ t.manualDownFrame = ((k % 4 : Nat) : Int) ∧
    t.dropLenght = (((k + 3) / 4 : Nat) : Int)

/-- The requests of a tick on which the down key and the left key are held. -/
def downLeftRequest : Requests :=
  { moveDownRequest := true, moveLeftRequest := true, moveRightRequest := false,
    holdRequest := false, rotateLeft := false, rotateRight := false }

/-- A block environment in which the block never locks. -/
def fallingOps : BlockOps := { restingOps with updatePosition := fun b _ _ _ => (b, false, false) }

/-- A run of successive `balancing.update` calls, one per element of the list. -/
def runMenu (G : Globals) : List MenuKeys → balancing → Option balancing
  | [], b => some b
  | keys :: rest, b => do
    let r ← b.update G keys
    runMenu G rest r.1

/-- The balancing state `f` frames into a selector transition of direction `d` started
from the idle state `b`. -/
def inTransitionAt (b : balancing) (d : Int) (f : Int) : balancing :=
  { b with choiceDirection := d, inTransition := true, transitionFrame := f }

/-- The idle balancing state after a completed selector transition of direction `d`
started from `b`: `choice` is `(choice + 1) mod numChoices` for a negative direction and
`(choice + numChoices - 1) mod numChoices` otherwise. -/
def rotated (b : balancing) (d : Int) : balancing :=
  { b with
      choiceDirection := d, inTransition := false, transitionFrame := 0,
      choice := if d < 0 then (b.choice + 1) % b.numChoices
        else (b.choice + b.numChoices - 1) % b.numChoices }

/-- The left key alone. -/
def leftKey : MenuKeys := { left := true, right := false, enter := false }

/-- The right key alone. -/
def rightKey : MenuKeys := { left := false, right := true, enter := false }

/-- No key pressed. -/
def noKeys : MenuKeys := { left := false, right := false, enter := false }

/-- An idle balancing state offering three categories. -/
def threeChoices : balancing :=
  { levels := [2, 1, 5, 0, 2], maxLevels := [2, 5, 5, 5, 3], choice := 0, choiceDirection := 0,
    choices := [4, 3, 1], numChoices := 3, inTransition := false, transitionFrame := 0 }

/-! # Theorems -/

/-! ## Indexing helpers -/

theorem goIndex_natCast {α : Type} (a : List α) (n : Nat) : goIndex a (n : Int) = a[n]? := by
  simp [goIndex]

theorem goAssign_natCast {α : Type} (a : List α) (n : Nat) (v : α) (h : n < a.length) :
    goAssign a (n : Int) v = some (a.set n v) := by
  simp [goAssign, h]

/-! ## `checkLines` -/

theorem lineHasEmpty_eq (row : tetrisLine) : lineHasEmpty row = !lineComplete row := by
  induction row with
  | nil => rfl
  | cons v rest ih =>
    by_cases hv : v = 0
    · simp [lineHasEmpty, lineComplete, hv]
    · simp [lineHasEmpty, lineComplete, hv, ih]

theorem checkLoop_spec (area : tetrisGrid) (lo hi : Nat) (hhi : hi < area.length)
    (hlen : hi - lo ≤ 3) :
    ∀ (fuel k : Nat) (st : CheckState), fuel + k = hi - lo + 1 → lo ≤ hi →
      st.count = (k : Int) - 1 → st.toRemove.length = 4 →
      ∃ st', checkLoop area (hi : Int) fuel ((lo + k : Nat) : Int) st = some st' ∧
        st'.toRemove.length = 4 ∧
        st'.toRemoveNum = st.toRemoveNum +
          (((area.take (hi + 1)).drop (lo + k)).countP lineComplete : Nat) ∧
        (∀ i, st'.toRemove[i]? =
          if k ≤ i ∧ i ≤ hi - lo ∧ rowComplete area (lo + i) = true then some true
          else st.toRemove[i]?) ∧
        ((st'.firstAvailable = st.firstAvailable ∧
            ∀ i, lo + k ≤ i → i ≤ hi → rowComplete area i = true) ∨
         (∃ f : Nat, st'.firstAvailable = (f : Int) ∧ lo + k ≤ f ∧ f ≤ hi ∧
            rowComplete area f = false ∧ ∀ i, f < i → i ≤ hi → rowComplete area i = true)) := by
  intro fuel
  induction fuel with
  | zero =>
    intro k st hk hle hc hl
    refine ⟨st, ?_, hl, ?_, ?_, ?_⟩
    · have : ¬ (((lo + k : Nat) : Int) ≤ (hi : Int)) := by omega
      simp only [checkLoop, this, if_false]
    · have : (area.take (hi + 1)).drop (lo + k) = [] := by
        apply List.drop_eq_nil_of_le
        simp; omega
      simp [this]
    · intro i
      have : ¬ (k ≤ i ∧ i ≤ hi - lo ∧ rowComplete area (lo + i) = true) := by omega
      simp only [this, if_false]
    · left
      exact ⟨rfl, fun i h1 h2 => by omega⟩
  | succ fuel ih =>
    intro k st hk hle hc hl
    have hlt : lo + k < area.length := by omega
    have hcond : ((lo + k : Nat) : Int) ≤ (hi : Int) := by omega
    have hnext : ((lo + k : Nat) : Int) + 1 = ((lo + (k + 1) : Nat) : Int) := by push_cast; ring
    have hcnt : st.count + 1 = ((k : Nat) : Int) := by omega
    have hdrop : (area.take (hi + 1)).drop (lo + k) =
        area[lo + k] :: (area.take (hi + 1)).drop (lo + (k + 1)) := by
      have h1 : lo + k < (area.take (hi + 1)).length := by simp; omega
      rw [List.drop_eq_getElem_cons h1]
      simp [List.getElem_take, Nat.add_assoc]
    have hrow : rowComplete area (lo + k) = lineComplete area[lo + k] := by
      simp [rowComplete, List.getElem?_eq_getElem hlt]
    rw [checkLoop]
    simp only [hcond, if_true, goIndex_natCast, List.getElem?_eq_getElem hlt, Option.bind_eq_bind,
      Option.some_bind, hnext, hcnt, lineHasEmpty_eq]
    by_cases hcomp : lineComplete area[lo + k] = true
    · have hkl : k < st.toRemove.length := by omega
      simp only [hcomp, Bool.not_true, Bool.false_eq_true, if_false, goAssign_natCast _ _ _ hkl,
        Option.some_bind]
      obtain ⟨st', h1, h2, h3, h4, h5⟩ := ih (k + 1)
        { count := (k : Int), firstAvailable := st.firstAvailable,
          toRemove := st.toRemove.set k true, toRemoveNum := st.toRemoveNum + 1 }
        (by omega) hle (by push_cast; ring) (by simp [hl])
      refine ⟨st', h1, h2, ?_, ?_, ?_⟩
      · rw [h3, hdrop]
        simp [hcomp]
        ring
      · intro i
        rw [h4 i]
        by_cases hik : i = k
        · subst hik
          have : ¬ (i + 1 ≤ i ∧ i ≤ hi - lo ∧ rowComplete area (lo + i) = true) := by omega
          have h' : (i ≤ i ∧ i ≤ hi - lo ∧ rowComplete area (lo + i) = true) :=
            ⟨le_refl _, by omega, by rw [hrow, hcomp]⟩
          simp [this, h', hkl]
        · by_cases hc1 : k + 1 ≤ i ∧ i ≤ hi - lo ∧ rowComplete area (lo + i) = true
          · have : k ≤ i ∧ i ≤ hi - lo ∧ rowComplete area (lo + i) = true :=
              ⟨by omega, hc1.2.1, hc1.2.2⟩
            simp only [hc1, this, and_self, if_true]
          · have : ¬ (k ≤ i ∧ i ≤ hi - lo ∧ rowComplete area (lo + i) = true) := by
              rintro ⟨a1, a2, a3⟩
              exact hc1 ⟨by omega, a2, a3⟩
            simp [hc1, this, List.getElem?_set, Ne.symm hik]
      · rcases h5 with ⟨hfa, hall⟩ | ⟨f, hf1, hf2, hf3, hf4, hf5⟩
        · left
          refine ⟨hfa, fun i hi1 hi2 => ?_⟩
          by_cases hik : i = lo + k
          · subst hik; rw [hrow, hcomp]
          · exact hall i (by omega) hi2
        · right
          exact ⟨f, hf1, by omega, hf3, hf4, hf5⟩
    · have hcomp' : lineComplete area[lo + k] = false := by simpa using hcomp
      simp only [hcomp', Bool.not_false, if_true]
      obtain ⟨st', h1, h2, h3, h4, h5⟩ := ih (k + 1)
        { count := (k : Int), firstAvailable := ((lo + k : Nat) : Int),
          toRemove := st.toRemove, toRemoveNum := st.toRemoveNum }
        (by omega) hle (by push_cast; ring) hl
      refine ⟨st', h1, h2, ?_, ?_, ?_⟩
      · rw [h3, hdrop]
        simp [hcomp']
      · intro i
        rw [h4 i]
        by_cases hik : i = k
        · subst hik
          have : ¬ (i + 1 ≤ i ∧ i ≤ hi - lo ∧ rowComplete area (lo + i) = true) := by omega
          have h' : ¬ (i ≤ i ∧ i ≤ hi - lo ∧ rowComplete area (lo + i) = true) := by
            rw [hrow, hcomp']; simp
          simp only [this, h', if_false]
        · by_cases hc1 : k + 1 ≤ i ∧ i ≤ hi - lo ∧ rowComplete area (lo + i) = true
          · have : k ≤ i ∧ i ≤ hi - lo ∧ rowComplete area (lo + i) = true :=
              ⟨by omega, hc1.2.1, hc1.2.2⟩
            simp only [hc1, this, and_self, if_true]
          · have : ¬ (k ≤ i ∧ i ≤ hi - lo ∧ rowComplete area (lo + i) = true) := by
              rintro ⟨a1, a2, a3⟩
              exact hc1 ⟨by omega, a2, a3⟩
            simp only [hc1, this, if_false]
      · rcases h5 with ⟨hfa, hall⟩ | ⟨f, hf1, hf2, hf3, hf4, hf5⟩
        · right
          exact ⟨lo + k, hfa, le_refl _, by omega, by rw [hrow, hcomp'], fun i hi1 hi2 => hall i (by omega) hi2⟩
        · right
          exact ⟨f, hf1, by omega, hf3, hf4, hf5⟩

/-! ## `removeLines` -/

theorem keptFrom_zero (tr : List Bool) (lo hi : Nat) (g : tetrisGrid) :
    keptFrom tr lo hi g 0 = keptRows tr lo (g.take (hi + 1)) := by
  simp [keptFrom, keptRows, List.enum]

theorem keptFrom_step (tr : List Bool) (lo hi : Nat) (g : tetrisGrid) (m : Nat) (row : tetrisLine)
    (hm : m ≤ hi) (hrow : g[m]? = some row) :
    keptFrom tr lo hi g m =
      if isFlagged tr lo m then keptFrom tr lo hi g (m + 1) else row :: keptFrom tr lo hi g (m + 1) := by
  have hlt : m < g.length := (List.getElem?_eq_some.mp hrow).1
  have h1 : m < (g.take (hi + 1)).length := by simp; omega
  have h2 : (g.take (hi + 1))[m] = row := by
    have := (List.getElem?_eq_some.mp hrow).2
    simpa [List.getElem_take] using this
  unfold keptFrom
  rw [List.drop_eq_getElem_cons h1, h2]
  by_cases hf : isFlagged tr lo m = true
  · simp [List.enumFrom, hf]
  · simp [List.enumFrom, hf]

theorem keptFrom_end (tr : List Bool) (lo hi : Nat) (g : tetrisGrid) (m : Nat) (hm : hi + 1 ≤ m) :
    keptFrom tr lo hi g m = [] := by
  unfold keptFrom
  have : (g.take (hi + 1)).drop m = [] := by
    apply List.drop_eq_nil_of_le
    simp; omega
  simp [this]

theorem set_take_succ_append {α : Type} (g X : List α) (y : Nat) (v : α) (hy : y < g.length) :
    (g.take (y + 1) ++ X).set y v = g.take y ++ v :: X := by
  have h1 : g.take (y + 1) = g.take y ++ [g[y]] := by
    rw [List.take_succ, List.getElem?_eq_getElem hy]; rfl
  have h2 : (g.take y).length = y := by simp; omega
  rw [h1, List.append_assoc, List.set_append_right y v (by omega), h2]
  simp

theorem getElem?_take_append {α : Type} (g X : List α) (y i : Nat) (hi : i < y) (hy : y ≤ g.length) :
    (g.take y ++ X)[i]? = g[i]? := by
  rw [List.getElem?_append_left (by simp; omega)]
  rw [List.getElem?_take_of_lt hi]

theorem isFlagged_of_lt (tr : List Bool) (lo i : Nat) (h : i < lo) : isFlagged tr lo i = false := by
  have : ¬ lo ≤ i := by omega
  simp [isFlagged, this]

theorem skipRemoved_spec (tr : List Bool) (lo hi : Nat) (g : tetrisGrid)
    (hhi : hi < g.length) (hlen : hi - lo ≤ 3) (htr : tr.length = 4) :
    ∀ (fuel m : Nat), m ≤ hi + 1 → m ≤ lo + fuel →
      ∃ m' : Nat, skipRemoved tr (lo : Int) fuel ((m : Int) - 1) = some ((m' : Int) - 1) ∧
        m' ≤ m ∧ keptFrom tr lo hi g m' = keptFrom tr lo hi g m ∧
        (1 ≤ m' → isFlagged tr lo (m' - 1) = false) := by
  intro fuel
  induction fuel with
  | zero =>
    intro m hm hf
    have hc : ¬ ((lo : Int) ≤ (m : Int) - 1) := by omega
    refine ⟨m, ?_, le_refl _, rfl, fun h => isFlagged_of_lt _ _ _ (by omega)⟩
    simp only [skipRemoved, hc, if_false]
  | succ fuel ih =>
    intro m hm hf
    by_cases hc : (lo : Int) ≤ (m : Int) - 1
    · have hidx : (m : Int) - 1 - (lo : Int) = ((m - 1 - lo : Nat) : Int) := by omega
      have hlt : m - 1 - lo < tr.length := by omega
      rw [skipRemoved]
      simp only [hc, if_true, hidx, goIndex_natCast, List.getElem?_eq_getElem hlt,
        Option.bind_eq_bind, Option.some_bind]
      have hflag : isFlagged tr lo (m - 1) = tr[m - 1 - lo] := by
        have : lo ≤ m - 1 := by omega
        simp [isFlagged, this, List.getD_eq_getElem?_getD, List.getElem?_eq_getElem hlt]
      by_cases hb : tr[m - 1 - lo] = true
      · simp only [hb, if_true]
        have hcast : (m : Int) - 1 - 1 = ((m - 1 : Nat) : Int) - 1 := by omega
        rw [hcast]
        obtain ⟨m', h1, h2, h3, h4⟩ := ih (m - 1) (by omega) (by omega)
        refine ⟨m', h1, by omega, ?_, h4⟩
        obtain ⟨row, hrow⟩ : ∃ row, g[m - 1]? = some row :=
          ⟨_, List.getElem?_eq_getElem (by omega)⟩
        rw [h3, keptFrom_step tr lo hi g (m - 1) row (by omega) hrow, hflag, hb]
        have : m - 1 + 1 = m := by omega
        simp [this]
      · simp only [hb, if_false]
        refine ⟨m, rfl, le_refl _, rfl, fun _ => ?_⟩
        rw [hflag]; simpa using hb
    · refine ⟨m, ?_, le_refl _, rfl, fun h => isFlagged_of_lt _ _ _ (by omega)⟩
      rw [skipRemoved]
      simp only [hc, if_false]

theorem removeInZone_spec (width : Nat) (tr : List Bool) (lo hi : Nat) (g : tetrisGrid)
    (hhi : hi < g.length) (hlen : hi - lo ≤ 3) (htr : tr.length = 4) :
    ∀ (fuel y1 z m : Nat), fuel + lo = y1 → y1 ≤ hi + 1 → m ≤ y1 →
      z + (keptFrom tr lo hi g m).length = hi + 1 - y1 → (0 < z → m = 0) →
      (1 ≤ m → isFlagged tr lo (m - 1) = false) →
      ∃ z' m' : Nat,
        removeInZone width tr (lo : Int) fuel ((y1 : Int) - 1)
          (midGrid width tr lo hi g y1 z m, (m : Int) - 1)
          = some (midGrid width tr lo hi g lo z' m', (m' : Int) - 1) ∧
        z' + (keptFrom tr lo hi g m').length = hi + 1 - lo ∧ (0 < z' → m' = 0) ∧ m' ≤ lo := by
  intro fuel
  induction fuel with
  | zero =>
    intro y1 z m hy1 hy2 hm hz hz0 hfl
    have hc : ¬ ((lo : Int) ≤ (y1 : Int) - 1) := by omega
    have : y1 = lo := by omega
    subst this
    refine ⟨z, m, ?_, hz, hz0, hm⟩
    simp only [removeInZone, hc, if_false]
  | succ fuel ih =>
    intro y1 z m hy1 hy2 hm hz hz0 hfl
    have hc : (lo : Int) ≤ (y1 : Int) - 1 := by omega
    have hy : (y1 : Int) - 1 = ((y1 - 1 : Nat) : Int) := by omega
    have hy' : (y1 : Int) - 1 - 1 = ((y1 - 1 : Nat) : Int) - 1 := by omega
    have hy1' : y1 - 1 + 1 = y1 := by omega
    rw [removeInZone]
    simp only [hc, if_true]
    by_cases hfa : (0 : Int) ≤ (m : Int) - 1
    · have hm1 : 1 ≤ m := by omega
      have hz : z = 0 := by
        by_contra h
        have := hz0 (by omega)
        omega
      subst hz
      have hmc : (m : Int) - 1 = ((m - 1 : Nat) : Int) := by omega
      obtain ⟨src, hsrc0⟩ : ∃ src, g[m - 1]? = some src :=
        ⟨_, List.getElem?_eq_getElem (by omega)⟩
      have hsrc : (midGrid width tr lo hi g y1 0 m)[m - 1]? = some src := by
        unfold midGrid
        rw [getElem?_take_append g _ y1 (m - 1) (by omega) (by omega)]
        exact hsrc0
      have hlen1 : y1 - 1 < (midGrid width tr lo hi g y1 0 m).length := by
        unfold midGrid
        simp
        omega
      obtain ⟨m', h1, h2, h3, h4⟩ := skipRemoved_spec tr lo hi g hhi hlen htr
        ((m : Int) - 1 - (lo : Int)).toNat (m - 1) (by omega) (by omega)
      have hsk : (m : Int) - 1 - 1 = ((m - 1 : Nat) : Int) - 1 := by omega
      simp only [hfa, if_true]
      rw [show goIndex (midGrid width tr lo hi g y1 0 m) ((m : Int) - 1) = some src by
        rw [hmc, goIndex_natCast]; exact hsrc]
      simp only [Option.bind_eq_bind, Option.some_bind]
      rw [hy, goAssign_natCast _ _ _ hlen1]
      simp only [Option.some_bind]
      rw [hsk, h1]
      simp only [Option.some_bind]
      have hk : keptFrom tr lo hi g m' = src :: keptFrom tr lo hi g m := by
        rw [h3, keptFrom_step tr lo hi g (m - 1) src (by omega) hsrc0, hfl hm1]
        have : m - 1 + 1 = m := by omega
        simp [this]
      have hgrid : (midGrid width tr lo hi g y1 0 m).set (y1 - 1) src
          = midGrid width tr lo hi g (y1 - 1) 0 m' := by
        unfold midGrid
        have := set_take_succ_append g
          ((List.replicate 0 (emptyLine width) ++ keptFrom tr lo hi g m) ++ g.drop (hi + 1))
          (y1 - 1) src (by omega)
        rw [hy1'] at this
        rw [this, hk]
        simp
      rw [hgrid]
      obtain ⟨z'', m'', e1, e2, e3, e4⟩ := ih (y1 - 1) 0 m' (by omega) (by omega) (by omega)
        (by rw [hk]; simp at hz ⊢; omega) (by omega) h4
      exact ⟨z'', m'', e1, e2, e3, e4⟩
    · have hm0 : m = 0 := by omega
      subst hm0
      have hlen1 : y1 - 1 < (midGrid width tr lo hi g y1 z 0).length := by
        unfold midGrid
        simp
        omega
      simp only [hfa, if_false]
      rw [hy, goAssign_natCast _ _ _ hlen1]
      simp only [Option.bind_eq_bind, Option.some_bind]
      have hgrid : (midGrid width tr lo hi g y1 z 0).set (y1 - 1) (emptyLine width)
          = midGrid width tr lo hi g (y1 - 1) (z + 1) 0 := by
        unfold midGrid
        have := set_take_succ_append g
          ((List.replicate z (emptyLine width) ++ keptFrom tr lo hi g 0) ++ g.drop (hi + 1))
          (y1 - 1) (emptyLine width) (by omega)
        rw [hy1'] at this
        rw [this]
        simp [List.replicate_succ]
      rw [hgrid]
      have hcast0 : ((0 : Nat) : Int) - 1 = ((0 : Nat) : Int) - 1 := rfl
      obtain ⟨z'', m'', e1, e2, e3, e4⟩ := ih (y1 - 1) (z + 1) 0 (by omega) (by omega) (by omega)
        (by omega) (by omega) (by omega)
      exact ⟨z'', m'', e1, e2, e3, e4⟩

theorem removeAboveZone_spec (width : Nat) (tr : List Bool) (lo hi : Nat) (g : tetrisGrid)
    (hhi : hi < g.length) (hle : lo ≤ hi) :
    ∀ (fuel y1 z m : Nat), fuel = y1 → y1 ≤ lo → m ≤ y1 →
      z + (keptFrom tr lo hi g m).length = hi + 1 - y1 → (0 < z → m = 0) →
      ∃ z' : Nat,
        removeAboveZone width fuel ((y1 : Int) - 1)
          (midGrid width tr lo hi g y1 z m, (m : Int) - 1)
          = some (midGrid width tr lo hi g 0 z' 0, -1) ∧
        z' + (keptFrom tr lo hi g 0).length = hi + 1 := by
  intro fuel
  induction fuel with
  | zero =>
    intro y1 z m hy1 hy2 hm hz hz0
    subst hy1
    have hm0 : m = 0 := by omega
    subst hm0
    refine ⟨z, ?_, by simpa using hz⟩
    simp [removeAboveZone]
  | succ fuel ih =>
    intro y1 z m hy1 hy2 hm hz hz0
    have hc : (0 : Int) ≤ (y1 : Int) - 1 := by omega
    have hy : (y1 : Int) - 1 = ((y1 - 1 : Nat) : Int) := by omega
    have hy1' : y1 - 1 + 1 = y1 := by omega
    rw [removeAboveZone]
    simp only [hc, if_true]
    by_cases hfa : (0 : Int) ≤ (m : Int) - 1
    · have hm1 : 1 ≤ m := by omega
      have hz : z = 0 := by
        by_contra h
        have := hz0 (by omega)
        omega
      subst hz
      have hmc : (m : Int) - 1 = ((m - 1 : Nat) : Int) := by omega
      obtain ⟨src, hsrc0⟩ : ∃ src, g[m - 1]? = some src :=
        ⟨_, List.getElem?_eq_getElem (by omega)⟩
      have hsrc : (midGrid width tr lo hi g y1 0 m)[m - 1]? = some src := by
        unfold midGrid
        rw [getElem?_take_append g _ y1 (m - 1) (by omega) (by omega)]
        exact hsrc0
      have hlen1 : y1 - 1 < (midGrid width tr lo hi g y1 0 m).length := by
        unfold midGrid
        simp
        omega
      have hsk : (m : Int) - 1 - 1 = ((m - 1 : Nat) : Int) - 1 := by omega
      simp only [hfa, if_true]
      rw [show goIndex (midGrid width tr lo hi g y1 0 m) ((m : Int) - 1) = some src by
        rw [hmc, goIndex_natCast]; exact hsrc]
      simp only [Option.bind_eq_bind, Option.some_bind]
      rw [hy, goAssign_natCast _ _ _ hlen1]
      simp only [Option.some_bind]
      rw [hsk]
      have hk : keptFrom tr lo hi g (m - 1) = src :: keptFrom tr lo hi g m := by
        rw [keptFrom_step tr lo hi g (m - 1) src (by omega) hsrc0,
          isFlagged_of_lt tr lo (m - 1) (by omega)]
        have : m - 1 + 1 = m := by omega
        simp [this]
      have hgrid : (midGrid width tr lo hi g y1 0 m).set (y1 - 1) src
          = midGrid width tr lo hi g (y1 - 1) 0 (m - 1) := by
        unfold midGrid
        have := set_take_succ_append g
          ((List.replicate 0 (emptyLine width) ++ keptFrom tr lo hi g m) ++ g.drop (hi + 1))
          (y1 - 1) src (by omega)
        rw [hy1'] at this
        rw [this, hk]
        simp
      rw [hgrid]
      exact ih (y1 - 1) 0 (m - 1) (by omega) (by omega) (by omega)
        (by rw [hk]; simp at hz ⊢; omega) (by omega)
    · have hm0 : m = 0 := by omega
      subst hm0
      have hlen1 : y1 - 1 < (midGrid width tr lo hi g y1 z 0).length := by
        unfold midGrid
        simp
        omega
      simp only [hfa, if_false]
      rw [hy, goAssign_natCast _ _ _ hlen1]
      simp only [Option.bind_eq_bind, Option.some_bind]
      have hgrid : (midGrid width tr lo hi g y1 z 0).set (y1 - 1) (emptyLine width)
          = midGrid width tr lo hi g (y1 - 1) (z + 1) 0 := by
        unfold midGrid
        have := set_take_succ_append g
          ((List.replicate z (emptyLine width) ++ keptFrom tr lo hi g 0) ++ g.drop (hi + 1))
          (y1 - 1) (emptyLine width) (by omega)
        rw [hy1'] at this
        rw [this]
        simp [List.replicate_succ]
      rw [hgrid]
      exact ih (y1 - 1) (z + 1) 0 (by omega) (by omega) (by omega) (by omega) (by omega)

/-- Both loops of `removeLines`, started on a grid `g` with a donor pointer `m - 1`
 that is the greatest unflagged index at most `hi`. -/
theorem removeLoops_spec (width : Nat) (tr : List Bool) (lo hi : Nat) (g : tetrisGrid)
    (hhi : hi < g.length) (hle : lo ≤ hi) (hlen : hi - lo ≤ 3) (htr : tr.length = 4)
    (m : Nat) (hm : m ≤ hi + 1) (hnil : keptFrom tr lo hi g m = [])
    (hfl : 1 ≤ m → isFlagged tr lo (m - 1) = false) :
    ∃ z st1,
      removeInZone width tr (lo : Int) ((hi : Int) + 1 - (lo : Int)).toNat (hi : Int)
        (g, (m : Int) - 1) = some st1 ∧
      removeAboveZone width (lo : Int).toNat ((lo : Int) - 1) st1 =
        some (List.replicate z (emptyLine width) ++ keptRows tr lo (g.take (hi + 1))
          ++ g.drop (hi + 1), -1) ∧
      z + (keptRows tr lo (g.take (hi + 1))).length = hi + 1 := by
  have hg : g = midGrid width tr lo hi g (hi + 1) 0 m := by
    unfold midGrid
    simp [hnil]
  have hfuel : ((hi : Int) + 1 - (lo : Int)).toNat = hi + 1 - lo := by omega
  have hy : (hi : Int) = ((hi + 1 : Nat) : Int) - 1 := by push_cast; ring
  obtain ⟨z1, m1, e1, e2, e3, e4⟩ := removeInZone_spec width tr lo hi g hhi hlen htr
    (hi + 1 - lo) (hi + 1) 0 m (by omega) (le_refl _) hm (by simp [hnil]) (by omega) hfl
  obtain ⟨z2, f1, f2⟩ := removeAboveZone_spec width tr lo hi g hhi hle lo lo z1 m1 rfl
    (le_refl _) e4 e2 e3
  refine ⟨z2, (midGrid width tr lo hi g lo z1 m1, (m1 : Int) - 1), ?_, ?_, ?_⟩
  · rw [hfuel, hy]
    rw [← hg] at e1
    exact e1
  · rw [Int.toNat_ofNat, f1]
    unfold midGrid
    simp [keptFrom_zero]
  · rw [← keptFrom_zero]; exact f2

/-! ## `checkLines` followed by `removeLines` -/

theorem allFalse_getD (k : Nat) :
    (([false, false, false, false] : List Bool)[k]?).getD false = false := by
  match k with
  | 0 => rfl
  | 1 => rfl
  | 2 => rfl
  | 3 => rfl
  | _ + 4 => rfl

theorem isFlagged_eq_rowComplete (area : tetrisGrid) (lo hi : Nat) (tr : List Bool)
    (h : CheckedFlags area lo hi tr) (i : Nat) (h1 : lo ≤ i) (h2 : i ≤ hi) :
    isFlagged tr lo i = rowComplete area i := by
  have h3 := h.2 (i - lo)
  have h4 : lo + (i - lo) = i := by omega
  have h5 : i - lo ≤ hi - lo := by omega
  rw [h4] at h3
  unfold isFlagged
  rw [List.getD_eq_getElem?_getD, h3]
  by_cases hc : rowComplete area i = true
  · simp [h1, h5, hc]
  · have hc' : rowComplete area i = false := by simpa using hc
    simp only [hc', Bool.false_eq_true, and_false, if_false, allFalse_getD]
    simp

theorem keptFrom_nil (tr : List Bool) (lo hi : Nat) (g : tetrisGrid) (hhi : hi < g.length) :
    ∀ (d m : Nat), m + d = hi + 1 →
      (∀ i, m ≤ i → i ≤ hi → isFlagged tr lo i = true) → keptFrom tr lo hi g m = [] := by
  intro d
  induction d with
  | zero =>
    intro m hm _
    exact keptFrom_end tr lo hi g m (by omega)
  | succ d ih =>
    intro m hm hall
    obtain ⟨row, hrow⟩ : ∃ row, g[m]? = some row := ⟨_, List.getElem?_eq_getElem (by omega)⟩
    rw [keptFrom_step tr lo hi g m row (by omega) hrow, hall m (le_refl _) (by omega)]
    simp only [if_true]
    exact ih (m + 1) (by omega) (fun i h1 h2 => hall i (by omega) h2)

theorem rowComplete_of_getElem? (g : tetrisGrid) (m : Nat) (row : tetrisLine)
    (h : g[m]? = some row) : rowComplete g m = lineComplete row := by
  simp [rowComplete, h]

theorem drop_take_step (g : tetrisGrid) (hi m : Nat) (row : tetrisLine) (hm : m ≤ hi)
    (hrow : g[m]? = some row) :
    (g.take (hi + 1)).drop m = row :: (g.take (hi + 1)).drop (m + 1) := by
  have hlt : m < g.length := (List.getElem?_eq_some.mp hrow).1
  have h1 : m < (g.take (hi + 1)).length := by simp; omega
  have h2 : (g.take (hi + 1))[m] = row := by
    have := (List.getElem?_eq_some.mp hrow).2
    simpa [List.getElem_take] using this
  rw [List.drop_eq_getElem_cons h1, h2]

theorem lineComplete_countP (row : tetrisLine) (h : lineComplete row = true) :
    row.countP (fun v => v != 0) = row.length := by
  rw [List.countP_eq_length]
  intro a ha
  unfold lineComplete at h
  rw [List.all_eq_true] at h
  exact h a ha

theorem nonEmptyCells_append (a b : tetrisGrid) :
    nonEmptyCells (a ++ b) = nonEmptyCells a + nonEmptyCells b := by
  simp [nonEmptyCells]

theorem nonEmptyCells_cons (r : tetrisLine) (b : tetrisGrid) :
    nonEmptyCells (r :: b) = r.countP (fun v => v != 0) + nonEmptyCells b := by
  simp [nonEmptyCells]

theorem nonEmptyCells_replicate_empty (z width : Nat) :
    nonEmptyCells (List.replicate z (emptyLine width)) = 0 := by
  induction z with
  | zero => rfl
  | succ z ih =>
    rw [List.replicate_succ, nonEmptyCells_cons, ih]
    simp [emptyLine, List.countP_eq_zero]

/-- Counting the rows `m .. hi`: the kept rows and the complete rows of the range
make up all of them, and the non-empty cells split the same way. -/
theorem kept_count (tr : List Bool) (lo hi : Nat) (g : tetrisGrid) (width : Nat)
    (hhi : hi < g.length) (hfl : CheckedFlags g lo hi tr) :
    ∀ (d m : Nat), m + d = hi + 1 →
      (keptFrom tr lo hi g m).length +
          ((g.take (hi + 1)).drop (max m lo)).countP lineComplete = d ∧
      ((∀ row ∈ g, row.length = width) →
        nonEmptyCells ((g.take (hi + 1)).drop m) =
          nonEmptyCells (keptFrom tr lo hi g m) +
            ((g.take (hi + 1)).drop (max m lo)).countP lineComplete * width) := by
  intro d
  induction d with
  | zero =>
    intro m hm
    have h1 : (g.take (hi + 1)).drop m = [] := by
      apply List.drop_eq_nil_of_le; simp; omega
    have h2 : (g.take (hi + 1)).drop (max m lo) = [] := by
      apply List.drop_eq_nil_of_le; simp; omega
    rw [keptFrom_end tr lo hi g m (by omega), h1, h2]
    simp [nonEmptyCells]
  | succ d ih =>
    intro m hm
    obtain ⟨row, hrow⟩ : ∃ row, g[m]? = some row := ⟨_, List.getElem?_eq_getElem (by omega)⟩
    have hmem : row ∈ g := List.getElem?_mem hrow
    obtain ⟨ih1, ih2⟩ := ih (m + 1) (by omega)
    rw [keptFrom_step tr lo hi g m row (by omega) hrow, drop_take_step g hi m row (by omega) hrow]
    by_cases hml : lo ≤ m
    · have hmax : max m lo = m := by omega
      have hmax' : max (m + 1) lo = m + 1 := by omega
      rw [hmax'] at ih1 ih2
      rw [hmax, drop_take_step g hi m row (by omega) hrow,
        isFlagged_eq_rowComplete g lo hi tr hfl m hml (by omega),
        rowComplete_of_getElem? g m row hrow]
      by_cases hc : lineComplete row = true
      · simp only [hc, if_true, List.countP_cons_of_pos, nonEmptyCells_cons]
        refine ⟨by omega, fun hw => ?_⟩
        rw [lineComplete_countP row hc, hw row hmem, ih2 hw]
        ring
      · have hc' : lineComplete row = false := by simpa using hc
        simp only [hc', Bool.false_eq_true, if_false, List.length_cons, nonEmptyCells_cons]
        rw [List.countP_cons_of_neg _ _ (by simp [hc'])]
        refine ⟨by omega, fun hw => ?_⟩
        rw [ih2 hw]
        ring
    · have hmax : max m lo = lo := by omega
      have hmax' : max (m + 1) lo = lo := by omega
      rw [hmax'] at ih1 ih2
      rw [hmax, isFlagged_of_lt tr lo m (by omega)]
      simp only [Bool.false_eq_true, if_false, List.length_cons, nonEmptyCells_cons]
      refine ⟨by omega, fun hw => ?_⟩
      rw [ih2 hw]
      ring

theorem checkLines_result (t : tetris) (lo hi : Nat) (htc : t.toCheck = ((lo : Int), (hi : Int)))
    (hle : lo ≤ hi) (hhi : hi < t.area.length) (hlen : hi - lo ≤ 3) :
    ∃ (fa : Int) (tr : List Bool),
      t.checkLines =
        some (((((t.area.take (hi + 1)).drop lo).countP lineComplete : Nat) : Int), fa, tr) ∧
      CheckedFlags t.area lo hi tr ∧
      ((fa = (lo : Int) - 1 ∧ ∀ i, lo ≤ i → i ≤ hi → rowComplete t.area i = true) ∨
       (∃ f : Nat, fa = (f : Int) ∧ lo ≤ f ∧ f ≤ hi ∧ rowComplete t.area f = false ∧
          ∀ i, f < i → i ≤ hi → rowComplete t.area i = true)) := by
  have hfuel : ((hi : Int) + 1 - (lo : Int)).toNat = hi - lo + 1 := by omega
  obtain ⟨st', h1, h2, h3, h4, h5⟩ := checkLoop_spec t.area lo hi hhi hlen (hi - lo + 1) 0
    { count := -1, firstAvailable := (lo : Int) - 1,
      toRemove := [false, false, false, false], toRemoveNum := 0 }
    (by omega) hle (by simp) rfl
  refine ⟨st'.firstAvailable, st'.toRemove, ?_, ⟨h2, ?_⟩, ?_⟩
  · unfold tetris.checkLines
    rw [htc]
    simp only [hfuel]
    simp only [Nat.add_zero] at h1 h3
    rw [h1]
    simp only [Option.bind_eq_bind, Option.some_bind]
    rw [h3]
    simp
  · intro i
    rw [h4 i]
    simp
  · simpa using h5

theorem storeCheck_of_checkLines (t : tetris) (n fa : Int) (tr : List Bool)
    (h : t.checkLines = some (n, fa, tr)) :
    ∃ t1, t.storeCheck = some t1 ∧ t1.area = t.area ∧ t1.toRemoveNum = n ∧
      t1.firstAvailable = fa ∧ t1.toRemove = tr ∧ t1.toCheck = t.toCheck := by
  unfold tetris.storeCheck
  rw [h]
  exact ⟨_, rfl, rfl, rfl, rfl, rfl, rfl⟩

theorem removeLines_after_check (width : Nat) (t : tetris) (lo hi : Nat)
    (htc : t.toCheck = ((lo : Int), (hi : Int)))
    (hle : lo ≤ hi) (hhi : hi < t.area.length) (hlen : hi - lo ≤ 3) :
    ∃ (fa : Int) (tr : List Bool) (t1 t2 : tetris),
      t.checkLines = some ((completeInRange t.area lo hi : Int), fa, tr) ∧
      CheckedFlags t.area lo hi tr ∧
      t.storeCheck = some t1 ∧
      t1.area = t.area ∧ t1.toRemoveNum = (completeInRange t.area lo hi : Int) ∧
      t1.firstAvailable = fa ∧ t1.toRemove = tr ∧ t1.toCheck = t.toCheck ∧
      t1.removeLines width = some t2 ∧
      t2.area = List.replicate (completeInRange t.area lo hi) (emptyLine width) ++
        keptRows tr lo (t.area.take (hi + 1)) ++ t.area.drop (hi + 1) ∧
      completeInRange t.area lo hi + (keptRows tr lo (t.area.take (hi + 1))).length = hi + 1 ∧
      t2.firstAvailable = -1 := by
  obtain ⟨fa, tr, hcl, hflags, hfa⟩ := checkLines_result t lo hi htc hle hhi hlen
  have hm : ∃ m : Nat, fa = (m : Int) - 1 ∧ m ≤ hi + 1 ∧ keptFrom tr lo hi t.area m = [] ∧
      (1 ≤ m → isFlagged tr lo (m - 1) = false) := by
    rcases hfa with ⟨h1, h2⟩ | ⟨f, h1, h2, h3, h4, h5⟩
    · refine ⟨lo, h1, by omega, ?_, fun h => isFlagged_of_lt tr lo _ (by omega)⟩
      apply keptFrom_nil tr lo hi t.area hhi (hi + 1 - lo) lo (by omega)
      intro i hi1 hi2
      rw [isFlagged_eq_rowComplete t.area lo hi tr hflags i hi1 hi2]
      exact h2 i hi1 hi2
    · refine ⟨f + 1, by rw [h1]; push_cast; ring, by omega, ?_, fun _ => ?_⟩
      · apply keptFrom_nil tr lo hi t.area hhi (hi - f) (f + 1) (by omega)
        intro i hi1 hi2
        rw [isFlagged_eq_rowComplete t.area lo hi tr hflags i (by omega) hi2]
        exact h5 i (by omega) hi2
      · rw [Nat.add_sub_cancel, isFlagged_eq_rowComplete t.area lo hi tr hflags f h2 h3]
        exact h4
  obtain ⟨m, hfam, hm1, hnil, hfl⟩ := hm
  obtain ⟨z, st1, e1, e2, e3⟩ := removeLoops_spec width tr lo hi t.area hhi hle hlen hflags.1
    m hm1 hnil hfl
  have hz : z = completeInRange t.area lo hi := by
    have := (kept_count tr lo hi t.area 0 hhi hflags (hi + 1) 0 (by omega)).1
    rw [keptFrom_zero, Nat.zero_max] at this
    unfold completeInRange
    omega
  subst hz
  obtain ⟨t1, s1, s2, s3, s4, s5, s6⟩ := storeCheck_of_checkLines t _ fa tr hcl
  have hrm : ∃ t2, t1.removeLines width = some t2 ∧
      t2.area = List.replicate (completeInRange t.area lo hi) (emptyLine width) ++
        keptRows tr lo (t.area.take (hi + 1)) ++ t.area.drop (hi + 1) ∧
      t2.firstAvailable = -1 := by
    unfold tetris.removeLines
    rw [s6, htc, s5, s2, s4, hfam]
    simp only [e1, Option.bind_eq_bind, Option.some_bind, e2]
    exact ⟨_, rfl, rfl, rfl⟩
  obtain ⟨t2, r1, r2, r3⟩ := hrm
  exact ⟨fa, tr, t1, t2, hcl, hflags, s1, s2, s3, s4, s5, s6, r1, r2, e3, r3⟩

theorem keptFrom_suffix (tr : List Bool) (lo hi : Nat) (g : tetrisGrid) (hhi : hi < g.length) :
    ∀ j : Nat, j ≤ hi + 1 → ∃ P, keptFrom tr lo hi g 0 = P ++ keptFrom tr lo hi g j := by
  intro j
  induction j with
  | zero => intro _; exact ⟨[], rfl⟩
  | succ j ih =>
    intro hj
    obtain ⟨P, hP⟩ := ih (by omega)
    obtain ⟨row, hrow⟩ : ∃ row, g[j]? = some row := ⟨_, List.getElem?_eq_getElem (by omega)⟩
    rw [keptFrom_step tr lo hi g j row (by omega) hrow] at hP
    by_cases hf : isFlagged tr lo j = true
    · exact ⟨P, by simpa [hf] using hP⟩
    · exact ⟨P ++ [row], by simpa [hf] using hP⟩

theorem shifted_row (width : Nat) (tr : List Bool) (lo hi : Nat) (g : tetrisGrid)
    (hhi : hi < g.length) (hfl : CheckedFlags g lo hi tr) (j : Nat) (hj : j ≤ hi)
    (hkeep : isFlagged tr lo j = false) :
    (List.replicate (completeInRange g lo hi) (emptyLine width) ++
        keptRows tr lo (g.take (hi + 1)) ++ g.drop (hi + 1))[j +
          completeInRange g (max (j + 1) lo) hi]? = g[j]? := by
  obtain ⟨row, hrow⟩ : ∃ row, g[j]? = some row := ⟨_, List.getElem?_eq_getElem (by omega)⟩
  obtain ⟨P, hP⟩ := keptFrom_suffix tr lo hi g hhi j (by omega)
  have hstep := keptFrom_step tr lo hi g j row hj hrow
  rw [hkeep] at hstep
  simp only [Bool.false_eq_true, if_false] at hstep
  have h0 := (kept_count tr lo hi g 0 hhi hfl (hi + 1) 0 (by omega)).1
  have h1 := (kept_count tr lo hi g 0 hhi hfl (hi - j) (j + 1) (by omega)).1
  rw [Nat.zero_max] at h0
  rw [hP, hstep] at h0
  simp only [List.length_append, List.length_cons] at h0
  have hidx : j + completeInRange g (max (j + 1) lo) hi = completeInRange g lo hi + P.length := by
    unfold completeInRange
    omega
  rw [hidx, ← keptFrom_zero, hP, hstep, hrow, List.append_assoc,
    List.getElem?_append_right (by simp), List.length_replicate, Nat.add_sub_cancel_left,
    List.append_assoc, List.getElem?_append_right (le_refl _)]
  simp

theorem keptRows_sublist (tr : List Bool) (lo : Nat) (rows : List tetrisLine) :
    List.Sublist (keptRows tr lo rows) rows := by
  unfold keptRows
  have h := (@List.filter_sublist _ (fun p => !isFlagged tr lo p.1) rows.enum).map Prod.snd
  rwa [List.enum_map_snd] at h

/-- C1. For every grid and every checked range `[lo, hi]` with `lo ≤ hi < rows` and
`hi - lo ≤ 3`, `checkLines` (giving `n`, `firstAvailable`, `toRemove`) followed by
`removeLines` returns, and in the new grid (of the same height) the rows `0 .. hi` are
`n` all-zero rows followed by the old rows of index `≤ hi` that are not flagged in
`toRemove`, in their old order. Equivalently every unflagged row `j ≤ hi` ends at row
`j + c`, `c` being the number of complete rows of the range below it. -/
theorem checkLines_removeLines_compacts (width : Nat) (t : tetris) (lo hi : Nat)
    (htc : t.toCheck = ((lo : Int), (hi : Int)))
    (hle : lo ≤ hi) (hhi : hi < t.area.length) (hlen : hi - lo ≤ 3) :
    ∃ (n : Nat) (fa : Int) (toRemove : List Bool) (t1 t2 : tetris),
      t.checkLines = some ((n : Int), fa, toRemove) ∧
      t.storeCheck = some t1 ∧ t1.removeLines width = some t2 ∧
      t2.area.length = t.area.length ∧
      t2.area.take (hi + 1) =
        List.replicate n (emptyLine width) ++ keptRows toRemove lo (t.area.take (hi + 1)) ∧
      (∀ j, j ≤ hi → isFlagged toRemove lo j = false →
        t2.area[j + completeInRange t.area (max (j + 1) lo) hi]? = t.area[j]?) := by
  obtain ⟨fa, tr, t1, t2, h1, h2, h3, h4, h5, h6, h7, h8, h9, h10, h11, h12⟩ :=
    removeLines_after_check width t lo hi htc hle hhi hlen
  refine ⟨completeInRange t.area lo hi, fa, tr, t1, t2, h1, h3, h9, ?_, ?_, ?_⟩
  · rw [h10]
    simp only [List.length_append, List.length_replicate, List.length_drop]
    omega
  · rw [h10, List.append_assoc, ← List.append_assoc]
    apply List.take_left'
    simp only [List.length_append, List.length_replicate]
    exact h11
  · intro j hj hk
    rw [h10]
    exact shifted_row width tr lo hi t.area hhi h2 j hj hk

theorem checkLines_removeLines_compacts_witness :
    ∃ (n : Nat) (fa : Int) (toRemove : List Bool) (t1 t2 : tetris),
      (sessionWith sampleGrid (2, 5)).checkLines = some ((n : Int), fa, toRemove) ∧
      (sessionWith sampleGrid (2, 5)).storeCheck = some t1 ∧ t1.removeLines 2 = some t2 ∧
      t2.area.length = (sessionWith sampleGrid (2, 5)).area.length ∧
      t2.area.take (5 + 1) =
        List.replicate n (emptyLine 2) ++
          keptRows toRemove 2 ((sessionWith sampleGrid (2, 5)).area.take (5 + 1)) ∧
      (∀ j, j ≤ 5 → isFlagged toRemove 2 j = false →
        t2.area[j + completeInRange (sessionWith sampleGrid (2, 5)).area (max (j + 1) 2) 5]? =
          (sessionWith sampleGrid (2, 5)).area[j]?) :=
  checkLines_removeLines_compacts 2 (sessionWith sampleGrid (2, 5)) 2 5 rfl (by decide)
    (by decide) (by decide)

/-- C2. Grid conservation: for every grid whose rows are `width` cells wide and
every checked range `[lo, hi]` with `lo ≤ hi < rows` and `hi - lo ≤ 3`, if `checkLines`
reports `toRemoveNum = n`, the number of non-zero cells after `removeLines` is the
number before minus `n * width`. -/
theorem removeLines_cell_count (width : Nat) (t : tetris) (lo hi : Nat)
    (htc : t.toCheck = ((lo : Int), (hi : Int)))
    (hle : lo ≤ hi) (hhi : hi < t.area.length) (hlen : hi - lo ≤ 3)
    (hw : ∀ row ∈ t.area, row.length = width) :
    ∃ (n : Nat) (fa : Int) (toRemove : List Bool) (t1 t2 : tetris),
      t.checkLines = some ((n : Int), fa, toRemove) ∧
      t.storeCheck = some t1 ∧ t1.removeLines width = some t2 ∧
      (nonEmptyCells t2.area : Int) = (nonEmptyCells t.area : Int) - (n : Int) * (width : Int) := by
  obtain ⟨fa, tr, t1, t2, h1, h2, h3, h4, h5, h6, h7, h8, h9, h10, h11, h12⟩ :=
    removeLines_after_check width t lo hi htc hle hhi hlen
  refine ⟨completeInRange t.area lo hi, fa, tr, t1, t2, h1, h3, h9, ?_⟩
  have hk := (kept_count tr lo hi t.area width hhi h2 (hi + 1) 0 (by omega)).2 hw
  rw [Nat.zero_max, List.drop_zero, keptFrom_zero] at hk
  have hsplit : nonEmptyCells t.area =
      nonEmptyCells (t.area.take (hi + 1)) + nonEmptyCells (t.area.drop (hi + 1)) := by
    rw [← nonEmptyCells_append, List.take_append_drop]
  rw [h10, hsplit, nonEmptyCells_append, nonEmptyCells_append, nonEmptyCells_replicate_empty, hk]
  unfold completeInRange
  push_cast
  ring

theorem removeLines_cell_count_witness :
    ∃ (n : Nat) (fa : Int) (toRemove : List Bool) (t1 t2 : tetris),
      (sessionWith sampleGrid (2, 5)).checkLines = some ((n : Int), fa, toRemove) ∧
      (sessionWith sampleGrid (2, 5)).storeCheck = some t1 ∧ t1.removeLines 2 = some t2 ∧
      (nonEmptyCells t2.area : Int) =
        (nonEmptyCells (sessionWith sampleGrid (2, 5)).area : Int) - (n : Int) * ((2 : Nat) : Int) :=
  removeLines_cell_count 2 (sessionWith sampleGrid (2, 5)) 2 5 rfl (by decide)
    (by decide) (by decide) (by decide)

theorem lineComplete_false_of_zero_mem (row : tetrisLine) (h : (0 : Int) ∈ row) :
    lineComplete row = false := by
  unfold lineComplete
  rw [List.all_eq_false]
  exact ⟨0, h, by simp⟩

theorem allFalse_of_getElem? (tr : List Bool) (hl : tr.length = 4)
    (h : ∀ i, i < 4 → tr[i]? = some false) : tr = [false, false, false, false] := by
  apply List.ext_getElem?
  intro i
  by_cases hi : i < 4
  · rw [h i hi]
    interval_cases i <;> rfl
  · rw [List.getElem?_eq_none (by omega), List.getElem?_eq_none (by simp; omega)]

/-- C3. For every grid and checked range `[lo, hi]` with `lo ≤ hi < rows` and
`hi - lo ≤ 3`, `checkLines` returns: the number of complete rows of the range;
flags with `toRemove[i]` set exactly when `i ≤ hi - lo` and row `lo + i` is complete;
and as `firstAvailable` the greatest index of an incomplete row of the range, or
`lo - 1` when every row of the range is complete. Second part: on a 10 x 24 grid
whose rows 18 to 21 each have one empty cell, with `toCheck = [18, 21]`, it returns
`toRemoveNum = 0`, all flags false and `firstAvailable = 21`. -/
theorem checkLines_spec :
    (∀ (t : tetris) (lo hi : Nat), t.toCheck = ((lo : Int), (hi : Int)) → lo ≤ hi →
      hi < t.area.length → hi - lo ≤ 3 →
      ∃ (fa : Int) (toRemove : List Bool),
        t.checkLines = some ((completeInRange t.area lo hi : Int), fa, toRemove) ∧
        toRemove.length = 4 ∧
        (∀ i, i < 4 →
          toRemove[i]? = some (decide (i ≤ hi - lo) && rowComplete t.area (lo + i))) ∧
        ((fa = (lo : Int) - 1 ∧ ∀ i, lo ≤ i → i ≤ hi → rowComplete t.area i = true) ∨
         (∃ f : Nat, fa = (f : Int) ∧ lo ≤ f ∧ f ≤ hi ∧ rowComplete t.area f = false ∧
            ∀ i, f < i → i ≤ hi → rowComplete t.area i = true))) ∧
    (∀ (t : tetris), t.area.length = 24 → (∀ row ∈ t.area, row.length = 10) →
      t.toCheck = (18, 21) →
      (∀ i, 18 ≤ i → i ≤ 21 → ∃ row, t.area[i]? = some row ∧ row.count 0 = 1) →
      t.checkLines = some (0, 21, [false, false, false, false])) := by
  have hgen : ∀ (t : tetris) (lo hi : Nat), t.toCheck = ((lo : Int), (hi : Int)) → lo ≤ hi →
      hi < t.area.length → hi - lo ≤ 3 →
      ∃ (fa : Int) (toRemove : List Bool),
        t.checkLines = some ((completeInRange t.area lo hi : Int), fa, toRemove) ∧
        toRemove.length = 4 ∧
        (∀ i, i < 4 →
          toRemove[i]? = some (decide (i ≤ hi - lo) && rowComplete t.area (lo + i))) ∧
        ((fa = (lo : Int) - 1 ∧ ∀ i, lo ≤ i → i ≤ hi → rowComplete t.area i = true) ∨
         (∃ f : Nat, fa = (f : Int) ∧ lo ≤ f ∧ f ≤ hi ∧ rowComplete t.area f = false ∧
            ∀ i, f < i → i ≤ hi → rowComplete t.area i = true)) := by
    intro t lo hi htc hle hhi hlen
    obtain ⟨fa, tr, h1, h2, h3⟩ := checkLines_result t lo hi htc hle hhi hlen
    refine ⟨fa, tr, h1, h2.1, ?_, h3⟩
    intro i hi4
    rw [h2.2 i]
    by_cases hc : i ≤ hi - lo ∧ rowComplete t.area (lo + i) = true
    · simp [hc.1, hc.2]
    · rw [if_neg hc]
      have : (decide (i ≤ hi - lo) && rowComplete t.area (lo + i)) = false := by
        by_cases h' : i ≤ hi - lo
        · have : rowComplete t.area (lo + i) = false := by
            by_contra hx
            exact hc ⟨h', by simpa using hx⟩
          simp [this]
        · simp [h']
      rw [this]
      interval_cases i <;> rfl
  refine ⟨hgen, ?_⟩
  intro t hlen hw htc hrows
  have hinc : ∀ i, 18 ≤ i → i ≤ 21 → rowComplete t.area i = false := by
    intro i h1 h2
    obtain ⟨row, hr, hcnt⟩ := hrows i h1 h2
    rw [rowComplete_of_getElem? t.area i row hr]
    apply lineComplete_false_of_zero_mem
    exact List.count_pos_iff.mp (by omega)
  obtain ⟨fa, tr, h1, h2, h3, h4⟩ := hgen t 18 21 htc (by omega) (by omega) (by omega)
  have hfa : fa = 21 := by
    rcases h4 with ⟨_, hall⟩ | ⟨f, hf1, hf2, hf3, hf4, hf5⟩
    · have := hall 18 (by omega) (by omega)
      rw [hinc 18 (by omega) (by omega)] at this
      exact absurd this (by simp)
    · by_cases hf : f = 21
      · rw [hf1, hf]; rfl
      · have := hf5 21 (by omega) (by omega)
        rw [hinc 21 (by omega) (by omega)] at this
        exact absurd this (by simp)
  have htr : tr = [false, false, false, false] := by
    apply allFalse_of_getElem? tr h2
    intro i hi4
    rw [h3 i hi4, hinc (18 + i) (by omega) (by omega)]
    simp
  have hn : completeInRange t.area 18 21 = 0 := by
    unfold completeInRange
    rw [List.countP_eq_zero]
    intro row hmem
    obtain ⟨k, hk⟩ := List.mem_iff_getElem?.mp hmem
    have hk21 : 18 + k < 22 := by
      have := (List.getElem?_eq_some.mp hk).1
      simp at this
      omega
    rw [List.getElem?_drop, List.getElem?_take_of_lt hk21] at hk
    have := hinc (18 + k) (by omega) (by omega)
    rw [rowComplete_of_getElem? t.area (18 + k) row hk] at this
    simp [this]
  rw [h1, hn, hfa, htr]
  rfl

theorem checkLines_spec_witness :
    (∃ (fa : Int) (toRemove : List Bool),
        (sessionWith sampleGrid (2, 5)).checkLines =
          some ((completeInRange (sessionWith sampleGrid (2, 5)).area 2 5 : Int), fa, toRemove) ∧
        toRemove.length = 4 ∧
        (∀ i, i < 4 → toRemove[i]? =
          some (decide (i ≤ 5 - 2) && rowComplete (sessionWith sampleGrid (2, 5)).area (2 + i))) ∧
        ((fa = ((2 : Nat) : Int) - 1 ∧
            ∀ i, 2 ≤ i → i ≤ 5 → rowComplete (sessionWith sampleGrid (2, 5)).area i = true) ∨
         (∃ f : Nat, fa = (f : Int) ∧ 2 ≤ f ∧ f ≤ 5 ∧
            rowComplete (sessionWith sampleGrid (2, 5)).area f = false ∧
            ∀ i, f < i → i ≤ 5 → rowComplete (sessionWith sampleGrid (2, 5)).area i = true))) ∧
    (sessionWith scenarioGrid (18, 21)).checkLines = some (0, 21, [false, false, false, false]) :=
  ⟨checkLines_spec.1 (sessionWith sampleGrid (2, 5)) 2 5 rfl (by decide) (by decide) (by decide),
   checkLines_spec.2 (sessionWith scenarioGrid (18, 21)) (by decide) (by decide) rfl
     (by decide)⟩

/-- C4, as stated, fails: `removeLines` does change rows above the checked range.
On the grid `[[1,0],[1,1]]` with range `[1, 1]`, row 0 is `[1,0]` before and `[0,0]`
after. -/
theorem rows_above_range_change :
    ¬ (∀ (width : Nat) (t t1 t2 : tetris) (lo hi : Nat),
        t.toCheck = ((lo : Int), (hi : Int)) → lo ≤ hi → hi < t.area.length → hi - lo ≤ 3 →
        t.storeCheck = some t1 → t1.removeLines width = some t2 →
        ∀ i, (i < lo ∨ hi < i) → t2.area[i]? = t.area[i]?) := by
  intro h
  have h0 := h 2 (sessionWith shiftGrid (1, 1)) _ _ 1 1 rfl (by decide) (by decide) (by decide)
    rfl rfl 0 (Or.inl (by decide))
  exact absurd h0 (by decide)

/-- C4, amended. `checkLines` changes no grid row, and `removeLines` changes no row
of index `> toCheck[1]`. The rows of index `< toCheck[0]` are left alone only when
no row is removed (`n = 0`, and then the whole grid is unchanged); otherwise each of
them moves down by `n` rows and the rows `0 .. n - 1` become empty. -/
theorem rows_outside_range (width : Nat) (t : tetris) (lo hi : Nat)
    (htc : t.toCheck = ((lo : Int), (hi : Int)))
    (hle : lo ≤ hi) (hhi : hi < t.area.length) (hlen : hi - lo ≤ 3) :
    ∃ (n : Nat) (fa : Int) (toRemove : List Bool) (t1 t2 : tetris),
      t.checkLines = some ((n : Int), fa, toRemove) ∧
      t.storeCheck = some t1 ∧ t1.area = t.area ∧
      t1.removeLines width = some t2 ∧
      (∀ i, hi < i → t2.area[i]? = t.area[i]?) ∧
      (n = 0 → t2.area = t.area) ∧
      (∀ i, i < lo → t2.area[i + n]? = t.area[i]?) ∧
      (∀ i, i < n → t2.area[i]? = some (emptyLine width)) := by
  obtain ⟨fa, tr, t1, t2, h1, h2, h3, h4, h5, h6, h7, h8, h9, h10, h11, h12⟩ :=
    removeLines_after_check width t lo hi htc hle hhi hlen
  refine ⟨completeInRange t.area lo hi, fa, tr, t1, t2, h1, h3, h4, h9, ?_, ?_, ?_, ?_⟩
  · intro i hi1
    have hl : (List.replicate (completeInRange t.area lo hi) (emptyLine width) ++
        keptRows tr lo (t.area.take (hi + 1))).length = hi + 1 := by
      simp only [List.length_append, List.length_replicate]
      exact h11
    rw [h10, List.getElem?_append_right (by omega), hl, List.getElem?_drop]
    congr 1
    omega
  · intro hn
    have hlenK : (keptRows tr lo (t.area.take (hi + 1))).length = (t.area.take (hi + 1)).length := by
      simp only [List.length_take]
      omega
    have hK := (keptRows_sublist tr lo (t.area.take (hi + 1))).eq_of_length hlenK
    rw [h10, hn, hK]
    simp
  · intro i hi1
    have := shifted_row width tr lo hi t.area hhi h2 i (by omega) (isFlagged_of_lt tr lo i hi1)
    have hmax : max (i + 1) lo = lo := by omega
    rw [hmax] at this
    rw [h10]
    exact this
  · intro i hi1
    rw [h10, List.append_assoc, List.getElem?_append_left (by simpa using hi1)]
    simp [hi1]

theorem rows_outside_range_witness :
    ∃ (n : Nat) (fa : Int) (toRemove : List Bool) (t1 t2 : tetris),
      (sessionWith sampleGrid (2, 5)).checkLines = some ((n : Int), fa, toRemove) ∧
      (sessionWith sampleGrid (2, 5)).storeCheck = some t1 ∧
      t1.area = (sessionWith sampleGrid (2, 5)).area ∧
      t1.removeLines 2 = some t2 ∧
      (∀ i, 5 < i → t2.area[i]? = (sessionWith sampleGrid (2, 5)).area[i]?) ∧
      (n = 0 → t2.area = (sessionWith sampleGrid (2, 5)).area) ∧
      (∀ i, i < 2 → t2.area[i + n]? = (sessionWith sampleGrid (2, 5)).area[i]?) ∧
      (∀ i, i < n → t2.area[i]? = some (emptyLine 2)) :=
  rows_outside_range 2 (sessionWith sampleGrid (2, 5)) 2 5 rfl (by decide) (by decide)
    (by decide)

/-! ## `lost` -/

theorem lostLine_spec (row : tetrisLine) :
    ∀ life : Int, 0 ≤ life →
      lostLine row life =
        if ((row.countP (fun v => v != 0) : Nat) : Int) ≤ life then
          (life - (row.countP (fun v => v != 0) : Nat), false)
        else (-1, true) := by
  induction row with
  | nil => intro life h; simp [lostLine, h]
  | cons v rest ih =>
    intro life h
    by_cases hv : v = 0
    · simp only [lostLine, hv, ne_eq, not_true_eq_false, if_false]
      rw [ih life h]
      simp
    · have hc : (v != 0) = true := by simp [hv]
      rw [List.countP_cons]
      simp only [hc, if_true]
      simp only [lostLine, ne_eq, hv, not_false_eq_true, if_true]
      by_cases hl : life - 1 < 0
      · have h0 : life = 0 := by omega
        subst h0
        have : ¬ (((rest.countP (fun v => v != 0) + 1 : Nat) : Int) ≤ 0) := by omega
        simp only [hl, if_true, this, if_false]
        rfl
      · simp only [hl, if_false]
        rw [ih (life - 1) (by omega)]
        by_cases hle : ((rest.countP (fun v => v != 0) : Nat) : Int) ≤ life - 1
        · have : ((rest.countP (fun v => v != 0) + 1 : Nat) : Int) ≤ life := by omega
          simp only [hle, this, if_true]
          congr 1
          push_cast
          ring
        · have : ¬ ((rest.countP (fun v => v != 0) + 1 : Nat) : Int) ≤ life := by omega
          simp only [hle, this, if_false]

theorem lostLines_spec (rows : List tetrisLine) :
    ∀ life : Int, 0 ≤ life →
      lostLines rows life =
        if ((nonEmptyCells rows : Nat) : Int) ≤ life then (life - (nonEmptyCells rows : Nat), false)
        else (-1, true) := by
  induction rows with
  | nil => intro life h; simp [lostLines, nonEmptyCells, h]
  | cons row rest ih =>
    intro life h
    rw [lostLines, lostLine_spec row life h, nonEmptyCells_cons]
    by_cases hr : ((row.countP (fun v => v != 0) : Nat) : Int) ≤ life
    · simp only [hr, if_true]
      rw [ih _ (by omega)]
      by_cases hle : ((nonEmptyCells rest : Nat) : Int) ≤ life - (row.countP (fun v => v != 0) : Nat)
      · have : ((row.countP (fun v => v != 0) + nonEmptyCells rest : Nat) : Int) ≤ life := by
          omega
        simp only [hle, this, if_true]
        congr 1
        push_cast
        ring
      · have : ¬ ((row.countP (fun v => v != 0) + nonEmptyCells rest : Nat) : Int) ≤ life := by
          omega
        simp only [hle, this, if_false]
    · have : ¬ ((row.countP (fun v => v != 0) + nonEmptyCells rest : Nat) : Int) ≤ life := by
        omega
      simp only [hr, this, if_false]

theorem lost_result (G : Globals) (t : tetris) (hlife : 0 ≤ t.life)
    (hb0 : 0 ≤ (G.gInvisibleLines : Int) + t.deathLines)
    (hb1 : (G.gInvisibleLines : Int) + t.deathLines ≤ (t.area.length : Int)) :
    ∃ t', t.lost G = some t' ∧
      t'.currentLife = (if (deathBandCells G t : Int) ≤ t.life then t.life - deathBandCells G t else -1) ∧
      t'.dead = (if (deathBandCells G t : Int) ≤ t.life then t.dead else true) ∧
      t'.life = t.life ∧ t'.area = t.area ∧ t'.deathLines = t.deathLines := by
  unfold tetris.lost
  simp only [hb0, hb1, and_self, if_true]
  rw [lostLines_spec _ _ hlife]
  refine ⟨_, rfl, ?_, ?_, rfl, rfl, rfl⟩
  · unfold deathBandCells
    by_cases hc : ((nonEmptyCells (t.area.take
        ((G.gInvisibleLines : Int) + t.deathLines).toNat) : Nat) : Int) ≤ t.life
    · simp only [hc, if_true]
    · simp only [hc, if_false]
  · unfold deathBandCells
    by_cases hc : ((nonEmptyCells (t.area.take
        ((G.gInvisibleLines : Int) + t.deathLines).toNat) : Nat) : Int) ≤ t.life
    · simp only [hc, if_true, Bool.false_eq_true, if_false]
    · simp only [hc, if_false, if_true]

/-- C7. For a session with `life ≥ 0` and `0 ≤ gInvisibleLines + deathLines ≤ rows`,
let `k` be the number of non-zero cells of the topmost `gInvisibleLines + deathLines`
rows. `lost` returns; if `k ≤ life` then `currentLife = life - k` and `dead` is
unchanged; if `k > life` then `dead = true` and `currentLife = -1`. The result does
not depend on the previous `currentLife`. With `life = 2`: two cells give
`currentLife = 0` (alive), three give `currentLife = -1` and `dead = true`. -/
theorem lost_spec (G : Globals) (t : tetris) (hlife : 0 ≤ t.life)
    (hb0 : 0 ≤ (G.gInvisibleLines : Int) + t.deathLines)
    (hb1 : (G.gInvisibleLines : Int) + t.deathLines ≤ (t.area.length : Int)) :
    ∃ t', t.lost G = some t' ∧
      ((deathBandCells G t : Int) ≤ t.life →
        t'.currentLife = t.life - deathBandCells G t ∧ t'.dead = t.dead) ∧
      (t.life < (deathBandCells G t : Int) → t'.dead = true ∧ t'.currentLife = -1) ∧
      (∀ c : Int, ({ t with currentLife := c }).lost G = some t') ∧
      (t.life = 2 → deathBandCells G t = 2 → t'.currentLife = 0 ∧ t'.dead = t.dead) ∧
      (t.life = 2 → deathBandCells G t = 3 → t'.currentLife = -1 ∧ t'.dead = true) := by
  obtain ⟨t', h1, h2, h3, _, _, _⟩ := lost_result G t hlife hb0 hb1
  have hle : (deathBandCells G t : Int) ≤ t.life →
      t'.currentLife = t.life - deathBandCells G t ∧ t'.dead = t.dead := by
    intro h
    rw [h2, h3]
    simp only [h, if_true, and_self]
  have hgt : t.life < (deathBandCells G t : Int) → t'.dead = true ∧ t'.currentLife = -1 := by
    intro h
    have h' : ¬ (deathBandCells G t : Int) ≤ t.life := by omega
    rw [h2, h3]
    simp only [h', if_false, and_self]
  refine ⟨t', h1, hle, hgt, ?_, ?_, ?_⟩
  · intro c
    rw [← h1]
    rfl
  · intro hl hk
    have := hle (by rw [hl, hk]; decide)
    rw [hl, hk] at this
    exact ⟨by rw [this.1]; decide, this.2⟩
  · intro hl hk
    have := hgt (by rw [hl, hk]; decide)
    exact ⟨this.2, this.1⟩

theorem lost_spec_witness :
    (∃ t', (lifeSession twoCellGrid).lost scenarioGlobals = some t' ∧
      ((deathBandCells scenarioGlobals (lifeSession twoCellGrid) : Int) ≤
          (lifeSession twoCellGrid).life →
        t'.currentLife = (lifeSession twoCellGrid).life -
            deathBandCells scenarioGlobals (lifeSession twoCellGrid) ∧
          t'.dead = (lifeSession twoCellGrid).dead) ∧
      ((lifeSession twoCellGrid).life <
          (deathBandCells scenarioGlobals (lifeSession twoCellGrid) : Int) →
        t'.dead = true ∧ t'.currentLife = -1) ∧
      (∀ c : Int, ({ lifeSession twoCellGrid with currentLife := c }).lost scenarioGlobals =
        some t') ∧
      ((lifeSession twoCellGrid).life = 2 →
        deathBandCells scenarioGlobals (lifeSession twoCellGrid) = 2 →
        t'.currentLife = 0 ∧ t'.dead = (lifeSession twoCellGrid).dead) ∧
      ((lifeSession twoCellGrid).life = 2 →
        deathBandCells scenarioGlobals (lifeSession twoCellGrid) = 3 →
        t'.currentLife = -1 ∧ t'.dead = true)) ∧
    ((lifeSession twoCellGrid).lost scenarioGlobals).map (fun t => (t.currentLife, t.dead)) =
      some (0, false) ∧
    ((lifeSession threeCellGrid).lost scenarioGlobals).map (fun t => (t.currentLife, t.dead)) =
      some (-1, true) :=
  ⟨lost_spec scenarioGlobals (lifeSession twoCellGrid) (by decide) (by decide) (by decide),
   by decide, by decide⟩

/-! ## Line-clear scoring in `update` -/

/-- C5. In an `update` call on a non-dead session in a line-clear animation in which,
once the sub-frame counter is advanced, `removeLineAnimationStep = 4` and
`removeLineAnimationFrame = 0`: the score grows by exactly 40, 100, 300 or 1200 times
`level + 1` for `toRemoveNum` = 1, 2, 3, 4 (and by 0 for any other value) and
`numLines` grows by exactly `toRemoveNum`; four rows at level 2 add 3600 and 4. -/
theorem update_line_score (G : Globals) (ops : BlockOps) (rnd : RandSource) (pos : Nat)
    (t : tetris) (req : Requests) (level : Int)
    (hdead : t.dead = false) (hanim : t.removeLineAnimationStep > 0)
    (hstep : t.advanceAnimation.removeLineAnimationStep = 4)
    (hframe : t.advanceAnimation.removeLineAnimationFrame = 0) :
    ∃ t' sounds pos', t.update G ops rnd pos req level = some (t', sounds, pos') ∧
      t'.numLines = t.numLines + t.toRemoveNum ∧
      (t.toRemoveNum = 1 → t'.score = t.score + 40 * (level + 1)) ∧
      (t.toRemoveNum = 2 → t'.score = t.score + 100 * (level + 1)) ∧
      (t.toRemoveNum = 3 → t'.score = t.score + 300 * (level + 1)) ∧
      (t.toRemoveNum = 4 → t'.score = t.score + 1200 * (level + 1)) ∧
      (t.toRemoveNum ≠ 1 → t.toRemoveNum ≠ 2 → t.toRemoveNum ≠ 3 → t.toRemoveNum ≠ 4 →
        t'.score = t.score) ∧
      (t.toRemoveNum = 4 → level = 2 →
        t'.score = t.score + 3600 ∧ t'.numLines = t.numLines + 4) := by
  have hadv : t.advanceAnimation.toRemoveNum = t.toRemoveNum ∧
      t.advanceAnimation.score = t.score ∧ t.advanceAnimation.numLines = t.numLines := by
    simp only [tetris.advanceAnimation]
    split_ifs <;> exact ⟨rfl, rfl, rfl⟩
  have hupd : t.update G ops rnd pos req level =
      some ((t.advanceAnimation).scoreLines level, noSounds, pos) := by
    unfold tetris.update tetris.animationStep
    simp only [hdead, Bool.false_eq_true, if_false, hanim, if_true]
    have : ((t.advanceAnimation).scoreLines level).removeLineAnimationStep < 8 := by
      unfold tetris.scoreLines
      simp only [hstep, hframe, le_refl, and_self, if_true]
      decide
    simp only [this, if_true]
  have hsc : ((t.advanceAnimation).scoreLines level).score =
        t.score + lineScore t.toRemoveNum level ∧
      ((t.advanceAnimation).scoreLines level).numLines = t.numLines + t.toRemoveNum := by
    unfold tetris.scoreLines
    simp only [hstep, hframe, le_refl, and_self, if_true, hadv.1, hadv.2.1, hadv.2.2]
  refine ⟨_, _, _, hupd, hsc.2, ?_, ?_, ?_, ?_, ?_, ?_⟩
  · intro h; rw [hsc.1, h]; rfl
  · intro h; rw [hsc.1, h]; rfl
  · intro h; rw [hsc.1, h]; rfl
  · intro h; rw [hsc.1, h]; rfl
  · intro h1 h2 h3 h4
    rw [hsc.1]
    unfold lineScore
    simp only [h1, h2, h3, h4, if_false, add_zero]
  · intro h hl
    rw [hsc.1, hsc.2, h, hl]
    exact ⟨rfl, rfl⟩

theorem update_line_score_witness :
    ∃ t' sounds pos',
      clearingSession.update sampleGlobals restingOps (fun _ => 0) 0 noRequest 2 =
        some (t', sounds, pos') ∧
      t'.numLines = clearingSession.numLines + clearingSession.toRemoveNum ∧
      (clearingSession.toRemoveNum = 1 → t'.score = clearingSession.score + 40 * (2 + 1)) ∧
      (clearingSession.toRemoveNum = 2 → t'.score = clearingSession.score + 100 * (2 + 1)) ∧
      (clearingSession.toRemoveNum = 3 → t'.score = clearingSession.score + 300 * (2 + 1)) ∧
      (clearingSession.toRemoveNum = 4 → t'.score = clearingSession.score + 1200 * (2 + 1)) ∧
      (clearingSession.toRemoveNum ≠ 1 → clearingSession.toRemoveNum ≠ 2 →
        clearingSession.toRemoveNum ≠ 3 → clearingSession.toRemoveNum ≠ 4 →
        t'.score = clearingSession.score) ∧
      (clearingSession.toRemoveNum = 4 → (2 : Int) = 2 →
        t'.score = clearingSession.score + 3600 ∧ t'.numLines = clearingSession.numLines + 4) :=
  update_line_score sampleGlobals restingOps (fun _ => 0) 0 clearingSession noRequest 2
    rfl (by decide) (by decide) (by decide)

/-! ## `getNewBlock` -/

theorem int_lor_self (x : Int) (h : 0 ≤ x) : Int.lor (Int.lor x x) x = x := by
  obtain ⟨n, rfl⟩ := Int.eq_ofNat_of_zero_le h
  simp [Int.lor]

/-- C9. On a sequence of draws `draw 0, draw 1, draw 2`, `getNewBlock(current, next)`
returns `draw 0` after one draw if `current.id < 0` or `next.id < 0`; otherwise it
returns the first of `draw 0`, `draw 1` that passes the test
`current.id|next.id|d.id != next.id`, else `draw 2`; it never consumes more than three
draws. Hence, when both ids are non-negative and the returned block fails the test
(in particular when the three ids are equal), all three draws were consumed and the
first two were rejected by that test. -/
theorem getNewBlock_draws (current next : tetrisBlock) (draw : Nat → tetrisBlock) :
    ∃ (b : tetrisBlock) (n : Nat),
      getNewBlockFrom current next draw = some (b, n) ∧ 1 ≤ n ∧ n ≤ 3 ∧ b = draw (n - 1) ∧
      ((current.id < 0 ∨ next.id < 0) → n = 1) ∧
      (0 ≤ current.id → 0 ≤ next.id →
        (¬ rejected current next (draw 0) → n = 1) ∧
        (rejected current next (draw 0) → ¬ rejected current next (draw 1) → n = 2) ∧
        (rejected current next (draw 0) → rejected current next (draw 1) → n = 3) ∧
        (rejected current next b →
          n = 3 ∧ rejected current next (draw 0) ∧ rejected current next (draw 1)) ∧
        (current.id = next.id → b.id = next.id →
          n = 3 ∧ rejected current next (draw 0) ∧ rejected current next (draw 1))) := by
  by_cases hneg : current.id < 0 ∨ next.id < 0
  · refine ⟨draw 0, 1, ?_, le_refl _, by omega, rfl, fun _ => rfl, ?_⟩
    · simp only [getNewBlockFrom, hneg, if_true]
    · intro h1 h2
      rcases hneg with h | h <;> omega
  · have hc : 0 ≤ current.id := by omega
    have hn : 0 ≤ next.id := by omega
    have key : ∃ (b : tetrisBlock) (n : Nat),
        getNewBlockFrom current next draw = some (b, n) ∧ 1 ≤ n ∧ n ≤ 3 ∧ b = draw (n - 1) ∧
        (¬ rejected current next (draw 0) → n = 1) ∧
        (rejected current next (draw 0) → ¬ rejected current next (draw 1) → n = 2) ∧
        (rejected current next (draw 0) → rejected current next (draw 1) → n = 3) := by
      by_cases r0 : rejected current next (draw 0)
      · by_cases r1 : rejected current next (draw 1)
        · refine ⟨draw 2, 3, ?_, by omega, le_refl _, rfl, fun h => absurd r0 h,
            fun _ h => absurd r1 h, fun _ _ => rfl⟩
          unfold rejected at r0 r1
          simp [getNewBlockFrom, hneg, newBlockLoop, r0, r1]
        · refine ⟨draw 1, 2, ?_, by omega, by omega, rfl, fun h => absurd r0 h,
            fun _ _ => rfl, fun _ h => absurd h r1⟩
          unfold rejected at r0 r1
          simp [getNewBlockFrom, hneg, newBlockLoop, r0, r1]
      · refine ⟨draw 0, 1, ?_, le_refl _, by omega, rfl, fun _ => rfl,
          fun h => absurd h r0, fun h => absurd h r0⟩
        unfold rejected at r0
        simp [getNewBlockFrom, hneg, newBlockLoop, r0]
    obtain ⟨b, n, h1, h2, h3, h4, h5, h6, h7⟩ := key
    have hrej : rejected current next b →
        n = 3 ∧ rejected current next (draw 0) ∧ rejected current next (draw 1) := by
      intro hb
      by_cases r0 : rejected current next (draw 0)
      · by_cases r1 : rejected current next (draw 1)
        · exact ⟨h7 r0 r1, r0, r1⟩
        · have hn2 := h6 r0 r1
          subst hn2
          rw [h4] at hb
          exact absurd hb r1
      · have hn1 := h5 r0
        subst hn1
        rw [h4] at hb
        exact absurd hb r0
    refine ⟨b, n, h1, h2, h3, h4, fun h => absurd h hneg, fun _ _ => ⟨h5, h6, h7, hrej, ?_⟩⟩
    intro e1 e2
    apply hrej
    unfold rejected
    rw [e1, e2]
    exact int_lor_self next.id hn

theorem getNewBlock_draws_witness :
    ∃ (b : tetrisBlock) (n : Nat),
      getNewBlockFrom { noBlock with id := 2 } { noBlock with id := 2 } sameDraws = some (b, n) ∧
      n = 3 ∧ b = sameDraws 2 :=
  match getNewBlock_draws { noBlock with id := 2 } { noBlock with id := 2 } sameDraws with
  | ⟨b, n, h1, _, _, h4, _, h6⟩ =>
    ⟨b, n, h1, (h6 (by decide) (by decide)).2.2.1 (by decide) (by decide),
      by rw [h4, (h6 (by decide) (by decide)).2.2.1 (by decide) (by decide)]⟩

theorem getNewBlock_isSome (ops : BlockOps) (rnd : RandSource) (pos : Nat)
    (current next : tetrisBlock) : ∃ r, getNewBlock ops rnd pos current next = some r := by
  have h : ∃ r, getNewBlockFrom current next
      (fun k => getRandomBlock ops (rnd (pos + k) % 7)) = some r := by
    unfold getNewBlockFrom
    split_ifs
    · exact ⟨_, rfl⟩
    · simp only [newBlockLoop]
      split_ifs <;> first | exact ⟨_, rfl⟩ | (exfalso; omega)
  obtain ⟨r, hr⟩ := h
  unfold getNewBlock
  rw [hr]
  exact ⟨_, rfl⟩

/-! ## What `removeLines`, `lost` and `setUpNext` leave alone -/

theorem removeLines_frame (width : Nat) (t t2 : tetris) (h : t.removeLines width = some t2) :
    t2 = { t with area := t2.area, firstAvailable := t2.firstAvailable } := by
  unfold tetris.removeLines at h
  simp only [Option.bind_eq_bind, Option.bind_eq_some, Option.some.injEq] at h
  obtain ⟨st1, _, st2, _, rfl⟩ := h
  rfl

theorem lost_eq_some (G : Globals) (t t' : tetris) (h : t.lost G = some t') :
    t'.currentLife =
        (lostLines (t.area.take ((G.gInvisibleLines : Int) + t.deathLines).toNat) t.life).1 ∧
      t'.dead = (if (lostLines (t.area.take
          ((G.gInvisibleLines : Int) + t.deathLines).toNat) t.life).2 then true else t.dead) ∧
      t' = { t with currentLife := t'.currentLife, dead := t'.dead } := by
  simp only [tetris.lost] at h
  by_cases hb : 0 ≤ (G.gInvisibleLines : Int) + t.deathLines ∧
      (G.gInvisibleLines : Int) + t.deathLines ≤ (t.area.length : Int)
  · rw [if_pos hb] at h
    simp only [Option.some.injEq] at h
    subst h
    exact ⟨rfl, rfl, rfl⟩
  · rw [if_neg hb] at h
    exact absurd h (by simp)

theorem lost_frame (G : Globals) (t t' : tetris) (h : t.lost G = some t') :
    t' = { t with currentLife := t'.currentLife, dead := t'.dead } :=
  (lost_eq_some G t t' h).2.2

theorem lost_isSome (G : Globals) (t : tetris)
    (hb0 : 0 ≤ (G.gInvisibleLines : Int) + t.deathLines)
    (hb1 : (G.gInvisibleLines : Int) + t.deathLines ≤ (t.area.length : Int)) :
    ∃ t', t.lost G = some t' := by
  simp only [tetris.lost, hb0, hb1, and_self, if_true]
  exact ⟨_, rfl⟩

theorem lost_lifeInv (G : Globals) (t t' : tetris) (h : t.lost G = some t')
    (hlife : 0 ≤ t.life) (hdead : t.dead = false) : LifeInv t' := by
  obtain ⟨h1, h2, h3⟩ := lost_eq_some G t t' h
  have hl : t'.life = t.life := by rw [h3]
  rw [lostLines_spec _ _ hlife] at h1 h2
  unfold LifeInv
  rw [hl]
  by_cases hc : ((nonEmptyCells (t.area.take
      ((G.gInvisibleLines : Int) + t.deathLines).toNat) : Nat) : Int) ≤ t.life
  · simp only [hc, if_true, Bool.false_eq_true, if_false, hdead] at h1 h2
    rw [h1, h2]
    refine ⟨hlife, fun _ => ⟨by omega, by omega⟩, fun h => by simp at h⟩
  · simp only [hc, if_false, if_true] at h1 h2
    rw [h1, h2]
    exact ⟨hlife, fun h => by simp at h, fun _ => rfl⟩

theorem setUpNext_score (G : Globals) (ops : BlockOps) (rnd : RandSource) (pos : Nat)
    (t : tetris) (r : tetris × Nat) (h : t.setUpNext G ops rnd pos = some r) :
    r.1.score = t.score ∧ r.1.numLines = t.numLines := by
  unfold tetris.setUpNext at h
  simp only [Option.bind_eq_bind, Option.bind_eq_some] at h
  obtain ⟨t1, h1, h2⟩ := h
  have hf := lost_frame G t t1 h1
  split_ifs at h2
  · simp only [Option.some.injEq] at h2
    subst h2
    rw [hf]
    exact ⟨rfl, rfl⟩
  · simp only [Option.bind_eq_some, Option.some.injEq] at h2
    obtain ⟨fut, _, rfl⟩ := h2
    rw [hf]
    exact ⟨rfl, rfl⟩

theorem setUpNext_isSome (G : Globals) (ops : BlockOps) (rnd : RandSource) (pos : Nat)
    (t : tetris) (hb0 : 0 ≤ (G.gInvisibleLines : Int) + t.deathLines)
    (hb1 : (G.gInvisibleLines : Int) + t.deathLines ≤ (t.area.length : Int)) :
    ∃ r, t.setUpNext G ops rnd pos = some r := by
  obtain ⟨t1, h1⟩ := lost_isSome G t hb0 hb1
  unfold tetris.setUpNext
  rw [h1]
  simp only [Option.bind_eq_bind, Option.some_bind]
  split_ifs
  · exact ⟨_, rfl⟩
  · obtain ⟨fut, hfut⟩ := getNewBlock_isSome ops rnd pos t1.currentBlock t1.nextBlock
    rw [hfut]
    exact ⟨_, rfl⟩

theorem setUpNext_lifeInv (G : Globals) (ops : BlockOps) (rnd : RandSource) (pos : Nat)
    (t : tetris) (r : tetris × Nat) (h : t.setUpNext G ops rnd pos = some r)
    (hlife : 0 ≤ t.life) (hdead : t.dead = false) : LifeInv r.1 := by
  unfold tetris.setUpNext at h
  simp only [Option.bind_eq_bind, Option.bind_eq_some] at h
  obtain ⟨t1, h1, h2⟩ := h
  have hinv := lost_lifeInv G t t1 h1 hlife hdead
  split_ifs at h2
  · simp only [Option.some.injEq] at h2
    subst h2
    exact hinv
  · simp only [Option.bind_eq_some, Option.some.injEq] at h2
    obtain ⟨fut, _, rfl⟩ := h2
    exact hinv

/-! ## The line-clear animation -/

theorem animState_zero (t : tetris) (L : Int) (h1 : t.removeLineAnimationStep = 1)
    (h2 : t.removeLineAnimationFrame = 0) : animState t L 0 = t := by
  unfold animState
  simp only [Nat.zero_mod, Nat.zero_div, Nat.add_zero, Nat.cast_zero, Nat.cast_one,
    Nat.lt_irrefl, Nat.zero_lt_succ, if_true]
  rw [← h1, ← h2]

theorem animState_advance (t : tetris) (L : Int) (k : Nat)
    (hnum : t.removeLineAnimationStepNumFrames = 8) :
    (animState t L k).advanceAnimation =
      { animState t L k with removeLineAnimationStep := ((1 + (k + 1) / 8 : Nat) : Int),
                             removeLineAnimationFrame := (((k + 1) % 8 : Nat) : Int) } := by
  simp only [tetris.advanceAnimation, animState, hnum]
  by_cases h7 : k % 8 = 7
  · have : ((k % 8 : Nat) : Int) + 1 ≥ 8 := by omega
    simp only [this, if_true]
    have e1 : ((1 + k / 8 : Nat) : Int) + 1 = ((1 + (k + 1) / 8 : Nat) : Int) := by omega
    have e2 : (0 : Int) = (((k + 1) % 8 : Nat) : Int) := by omega
    rw [e1, ← e2]
  · have : ¬ ((k % 8 : Nat) : Int) + 1 ≥ 8 := by omega
    simp only [this, if_false]
    have e1 : ((1 + k / 8 : Nat) : Int) = ((1 + (k + 1) / 8 : Nat) : Int) := by omega
    have e2 : ((k % 8 : Nat) : Int) + 1 = (((k + 1) % 8 : Nat) : Int) := by omega
    rw [e1, e2]

theorem animState_scored (t : tetris) (L : Int) (k : Nat)
    (hnum : t.removeLineAnimationStepNumFrames = 8) :
    ((animState t L k).advanceAnimation).scoreLines L = animState t L (k + 1) := by
  rw [animState_advance t L k hnum]
  simp only [tetris.scoreLines, animState]
  by_cases h24 : k + 1 = 24
  · have hk : k = 23 := by omega
    subst hk
    simp
  · have hc : ¬ (((1 + (k + 1) / 8 : Nat) : Int) = 4 ∧ (((k + 1) % 8 : Nat) : Int) ≤ 0) := by
      omega
    simp only [hc, if_false]
    by_cases hlt : k < 24
    · have hlt' : k + 1 < 24 := by omega
      simp only [hlt, hlt', if_true]
    · have hlt' : ¬ k + 1 < 24 := by omega
      simp only [hlt, hlt', if_false]

theorem animState_update (G : Globals) (ops : BlockOps) (rnd : RandSource) (pos : Nat)
    (t : tetris) (req : Requests) (L : Int) (k : Nat) (hk : k < 55)
    (hdead : t.dead = false) (hnum : t.removeLineAnimationStepNumFrames = 8) :
    (animState t L k).update G ops rnd pos req L = some (animState t L (k + 1), noSounds, pos) := by
  have hd : (animState t L k).dead = false := hdead
  have hs : (animState t L k).removeLineAnimationStep > 0 := by
    show ((1 + k / 8 : Nat) : Int) > 0
    omega
  unfold tetris.update tetris.animationStep
  simp only [hd, Bool.false_eq_true, if_false, hs, if_true, animState_scored t L k hnum]
  have h8 : (animState t L (k + 1)).removeLineAnimationStep < 8 := by
    show ((1 + (k + 1) / 8 : Nat) : Int) < 8
    omega
  simp only [h8, if_true]

/-- A run of at most 55 animation calls only moves along `animState`. -/
theorem animState_run (G : Globals) (ops : BlockOps) (rnd : RandSource) (pos : Nat)
    (t : tetris) (L : Int) (hdead : t.dead = false)
    (hnum : t.removeLineAnimationStepNumFrames = 8) :
    ∀ (reqs : List Requests) (j : Nat), j + reqs.length ≤ 55 →
      runUpdates G ops rnd (reqs.map (fun r => (r, L))) (animState t L j, pos) =
        some (animState t L (j + reqs.length), pos) := by
  intro reqs
  induction reqs with
  | nil => intro j _; rfl
  | cons r rest ih =>
    intro j hj
    simp only [List.length_cons] at hj
    simp only [List.map_cons, runUpdates, Option.bind_eq_bind]
    rw [animState_update G ops rnd pos t r L j (by omega) hdead hnum]
    simp only [Option.some_bind]
    rw [ih (j + 1) (by omega)]
    simp only [List.length_cons]
    congr 3
    omega

theorem lineScore_eq_table (n L : Int) : lineScore n L = scoreTable n * (L + 1) := by
  unfold lineScore scoreTable
  by_cases h1 : n = 1
  · subst h1; simp
  by_cases h2 : n = 2
  · subst h2; simp
  by_cases h3 : n = 3
  · subst h3; simp
  by_cases h4 : n = 4
  · subst h4; simp
  simp only [h1, h2, h3, h4, if_false]
  by_cases h0 : n ≤ 0
  · have : n.toNat = 0 := by omega
    simp [this]
  · have : 5 ≤ n.toNat := by omega
    rw [List.getD_eq_default _ _ (by simpa using this)]
    simp

theorem runUpdates_append (G : Globals) (ops : BlockOps) (rnd : RandSource)
    (a b : List (Requests × Int)) :
    ∀ s, runUpdates G ops rnd (a ++ b) s = (runUpdates G ops rnd a s).bind (runUpdates G ops rnd b) := by
  induction a with
  | nil => intro s; rfl
  | cons c rest ih =>
    intro s
    simp only [List.cons_append, runUpdates, Option.bind_eq_bind]
    cases h : s.1.update G ops rnd s.2 c.1 c.2 with
    | none => rfl
    | some r =>
      simp only [Option.some_bind]
      exact ih _

theorem animState_finish (G : Globals) (ops : BlockOps) (rnd : RandSource) (pos : Nat)
    (t : tetris) (req : Requests) (L : Int) (lo hi : Nat)
    (hdead : t.dead = false) (hnum : t.removeLineAnimationStepNumFrames = 8)
    (htc : t.toCheck = ((lo : Int), (hi : Int)))
    (hle : lo ≤ hi) (hhi : hi < t.area.length) (hlen : hi - lo ≤ 3)
    (hchk : t.checkLines = some (t.toRemoveNum, t.firstAvailable, t.toRemove))
    (hb0 : 0 ≤ (G.gInvisibleLines : Int) + t.deathLines)
    (hb1 : (G.gInvisibleLines : Int) + t.deathLines ≤ (t.area.length : Int)) :
    ∃ r, (animState t L 55).update G ops rnd pos req L = some r ∧
      r.1.score = t.score + lineScore t.toRemoveNum L ∧
      r.1.numLines = t.numLines + t.toRemoveNum := by
  obtain ⟨fa, tr, t1, t2, c1, _, _, c4, _, c6, c7, c8, c9, c10, c11, _⟩ :=
    removeLines_after_check G.gPlayAreaWidthInBlocks t lo hi htc hle hhi hlen
  rw [hchk] at c1
  simp only [Option.some.injEq, Prod.mk.injEq] at c1
  obtain ⟨_, hfa, htr⟩ := c1
  have hd : (animState t L 55).dead = false := hdead
  have hs : (animState t L 55).removeLineAnimationStep > 0 := by
    show ((1 + 55 / 8 : Nat) : Int) > 0
    decide
  have h8 : ¬ (animState t L 56).removeLineAnimationStep < 8 := by
    show ¬ ((1 + 56 / 8 : Nat) : Int) < 8
    decide
  have hlen2 : t2.area.length = t.area.length := by
    rw [c10]
    simp only [List.length_append, List.length_replicate, List.length_drop]
    omega
  unfold tetris.removeLines at c9
  simp only [Option.bind_eq_bind, Option.bind_eq_some, Option.some.injEq] at c9
  obtain ⟨st1, l1, st2, l2, l3⟩ := c9
  rw [c7, c8, c4, c6, ← htr, ← hfa] at l1
  rw [c8] at l2
  have ha2 : st2.1 = t2.area := by rw [← l3]
  obtain ⟨r, hr⟩ := setUpNext_isSome G ops rnd pos
    { animState t L 56 with
        removeLineAnimationStep := 0, area := st2.1, firstAvailable := st2.2,
        toRemove := [false, false, false, false], toRemoveNum := 0, toCheck := (0, 0),
        inAnimation := false }
    hb0 (by show (G.gInvisibleLines : Int) + t.deathLines ≤ (st2.1.length : Int)
            rw [ha2, hlen2]; exact hb1)
  obtain ⟨e1, e2⟩ := setUpNext_score G ops rnd pos _ r hr
  refine ⟨(r.1, noSounds.set SoundLinesFallingID true, r.2), ?_, ?_, ?_⟩
  · simp only [tetris.update, tetris.animationStep, hd, Bool.false_eq_true, if_false, hs,
      if_true, animState_scored t L 55 hnum, h8, tetris.finishAnimation, tetris.removeLines]
    have l1' : removeInZone G.gPlayAreaWidthInBlocks (animState t L 56).toRemove
        (animState t L 56).toCheck.1
        ((animState t L 56).toCheck.2 + 1 - (animState t L 56).toCheck.1).toNat
        (animState t L 56).toCheck.2 ((animState t L 56).area, (animState t L 56).firstAvailable)
        = some st1 := l1
    have l2' : removeAboveZone G.gPlayAreaWidthInBlocks (animState t L 56).toCheck.1.toNat
        ((animState t L 56).toCheck.1 - 1) st1 = some st2 := l2
    rw [l1']
    simp only [Option.bind_eq_bind, Option.some_bind]
    rw [l2']
    simp only [Option.some_bind]
    rw [hr]
    rfl
  · rw [e1]; rfl
  · rw [e2]; rfl

/-- C6. Line-clear scoring is applied exactly once per animation. From the state
left by a lock that completed rows (not dead, `removeLineAnimationStep = 1`,
`removeLineAnimationFrame = 0`, 8 frames per step, the result of `checkLines` stored),
the next 56 `update` calls at constant level `L` all return; after `k < 24` calls
`score` and `numLines` are unchanged, and after `24 ≤ k ≤ 56` calls they have grown by
`table(toRemoveNum) * (L + 1)` and `toRemoveNum`: the change is made by call 24 only. -/
theorem line_score_applied_once (G : Globals) (ops : BlockOps) (rnd : RandSource) (pos : Nat)
    (t : tetris) (L : Int) (lo hi : Nat) (reqs : List Requests) (hreqs : reqs.length = 56)
    (hdead : t.dead = false) (hstep : t.removeLineAnimationStep = 1)
    (hframe : t.removeLineAnimationFrame = 0) (hnum : t.removeLineAnimationStepNumFrames = 8)
    (htc : t.toCheck = ((lo : Int), (hi : Int)))
    (hle : lo ≤ hi) (hhi : hi < t.area.length) (hlen : hi - lo ≤ 3)
    (hchk : t.checkLines = some (t.toRemoveNum, t.firstAvailable, t.toRemove))
    (hb0 : 0 ≤ (G.gInvisibleLines : Int) + t.deathLines)
    (hb1 : (G.gInvisibleLines : Int) + t.deathLines ≤ (t.area.length : Int)) :
    ∀ k, k ≤ 56 →
      ∃ s, runUpdates G ops rnd ((reqs.take k).map (fun r => (r, L))) (t, pos) = some s ∧
        s.1.score =
          (if k < 24 then t.score else t.score + scoreTable t.toRemoveNum * (L + 1)) ∧
        s.1.numLines = (if k < 24 then t.numLines else t.numLines + t.toRemoveNum) := by
  intro k hk
  have hrun : ∀ j, j ≤ 55 →
      runUpdates G ops rnd ((reqs.take j).map (fun r => (r, L))) (t, pos) =
        some (animState t L j, pos) := by
    intro j hj
    have h := animState_run G ops rnd pos t L hdead hnum (reqs.take j) 0
      (by simp only [List.length_take]; omega)
    rw [animState_zero t L hstep hframe] at h
    rw [h]
    simp only [List.length_take, Nat.zero_add]
    congr 3
    omega
  by_cases h55 : k ≤ 55
  · refine ⟨_, hrun k h55, ?_, ?_⟩
    · show (if k < 24 then t.score else t.score + lineScore t.toRemoveNum L) = _
      rw [lineScore_eq_table]
    · rfl
  · have hk56 : k = 56 := by omega
    subst hk56
    obtain ⟨last, hlast⟩ : ∃ last, reqs.take 56 = reqs.take 55 ++ [last] := by
      have h55l : 55 < reqs.length := by omega
      exact ⟨reqs[55], by rw [List.take_succ, List.getElem?_eq_getElem h55l]; rfl⟩
    obtain ⟨r, hr1, hr2, hr3⟩ := animState_finish G ops rnd pos t last L lo hi hdead hnum htc
      hle hhi hlen hchk hb0 hb1
    refine ⟨(r.1, r.2.2), ?_, ?_, ?_⟩
    · rw [hlast, List.map_append, runUpdates_append, hrun 55 (le_refl _)]
      simp only [Option.some_bind, List.map_cons, List.map_nil, runUpdates, Option.bind_eq_bind]
      rw [hr1]
      rfl
    · simp only [show ¬ (56 < 24) by decide, if_false]
      rw [hr2, lineScore_eq_table]
    · simp only [show ¬ (56 < 24) by decide, if_false]
      exact hr3

theorem line_score_applied_once_witness :
    (∃ s, runUpdates sampleGlobals restingOps (fun _ => 0)
          ((idleTicks.take 23).map (fun r => (r, 2))) (lockedSession, 0) = some s ∧
        s.1.score =
          (if 23 < 24 then lockedSession.score
            else lockedSession.score + scoreTable lockedSession.toRemoveNum * (2 + 1)) ∧
        s.1.numLines =
          (if 23 < 24 then lockedSession.numLines
            else lockedSession.numLines + lockedSession.toRemoveNum)) ∧
    (∃ s, runUpdates sampleGlobals restingOps (fun _ => 0)
          ((idleTicks.take 56).map (fun r => (r, 2))) (lockedSession, 0) = some s ∧
        s.1.score =
          (if 56 < 24 then lockedSession.score
            else lockedSession.score + scoreTable lockedSession.toRemoveNum * (2 + 1)) ∧
        s.1.numLines =
          (if 56 < 24 then lockedSession.numLines
            else lockedSession.numLines + lockedSession.toRemoveNum)) :=
  ⟨line_score_applied_once sampleGlobals restingOps (fun _ => 0) 0 lockedSession 2 2 5 idleTicks
    (by decide) rfl rfl rfl rfl rfl (by decide) (by decide) (by decide) (by decide)
    (by decide) (by decide) 23 (by decide),
   line_score_applied_once sampleGlobals restingOps (fun _ => 0) 0 lockedSession 2 2 5 idleTicks
    (by decide) rfl rfl rfl rfl rfl (by decide) (by decide) (by decide) (by decide)
    (by decide) (by decide) 56 (by decide)⟩

/-! ## The life counter along a run -/

theorem LifeInv_of_fields (t t' : tetris) (h : lifeFields t' = lifeFields t) (hi : LifeInv t) :
    LifeInv t' := by
  simp only [lifeFields, Prod.mk.injEq] at h
  obtain ⟨h1, h2, h3⟩ := h
  unfold LifeInv at hi ⊢
  rw [h1, h2, h3]
  exact hi

theorem deadStep_lifeFields (t : tetris) : lifeFields t.deadStep.1 = lifeFields t := by
  simp only [tetris.deadStep]
  split_ifs <;> rfl

theorem advanceAnimation_lifeFields (t : tetris) :
    lifeFields t.advanceAnimation = lifeFields t := by
  simp only [tetris.advanceAnimation]
  split_ifs <;> rfl

theorem scoreLines_lifeFields (level : Int) (t : tetris) :
    lifeFields (t.scoreLines level) = lifeFields t := by
  simp only [tetris.scoreLines]
  split_ifs <;> rfl

theorem invisibleCycle_lifeFields (G : Globals) (t : tetris) :
    lifeFields (t.invisibleCycle G) = lifeFields t := by
  simp only [tetris.invisibleCycle]
  split_ifs <;> rfl

theorem rotationStep_lifeFields (ops : BlockOps) (l r : Bool) (t : tetris) :
    lifeFields (t.rotationStep ops l r).1 = lifeFields t := by
  simp only [tetris.rotationStep]
  split_ifs <;> rfl

theorem lateralStep_lifeFields (l r : Bool) (t : tetris) :
    lifeFields (t.lateralStep l r).1 = lifeFields t := by
  simp only [tetris.lateralStep]
  split_ifs <;> rfl

theorem autoDownStep_lifeFields (t : tetris) : lifeFields t.autoDownStep.1 = lifeFields t := by
  simp only [tetris.autoDownStep]
  split_ifs <;> rfl

theorem manualDownStep_lifeFields (d m : Bool) (t : tetris) :
    lifeFields (t.manualDownStep d m).1 = lifeFields t := by
  simp only [tetris.manualDownStep]
  split_ifs <;> rfl

theorem holdStep_lifeFields (ops : BlockOps) (rnd : RandSource) (pos : Nat) (hold : Bool)
    (t : tetris) (r : tetris × Nat) (h : t.holdStep ops rnd pos hold = some r) :
    lifeFields r.1 = lifeFields t := by
  simp only [tetris.holdStep] at h
  split_ifs at h
  · simp only [Option.bind_eq_bind, Option.bind_eq_some, Option.some.injEq] at h
    obtain ⟨fut, _, rfl⟩ := h
    rfl
  · simp only [Option.some.injEq] at h
    subst h
    rfl
  · simp only [Option.some.injEq] at h
    subst h
    rfl
  · simp only [Option.some.injEq] at h
    subst h
    rfl

theorem storeCheck_lifeFields (t t1 : tetris) (h : t.storeCheck = some t1) :
    lifeFields t1 = lifeFields t := by
  unfold tetris.storeCheck at h
  simp only [Option.bind_eq_bind, Option.bind_eq_some, Option.some.injEq] at h
  obtain ⟨r, _, rfl⟩ := h
  rfl

theorem lockStep_lifeInv (G : Globals) (ops : BlockOps) (rnd : RandSource) (pos : Nat)
    (xMove : Int) (down : Bool) (sounds : List Bool) (t : tetris)
    (r : tetris × List Bool × Nat)
    (h : t.lockStep G ops rnd pos xMove down sounds = some r)
    (hinv : LifeInv t) (hdead : t.dead = false) : LifeInv r.1 := by
  simp only [tetris.lockStep] at h
  by_cases hst : (ops.updatePosition t.currentBlock xMove down t.area).2.1 = true
  · simp only [hst, if_true, Option.bind_eq_bind, Option.bind_eq_some] at h
    obtain ⟨t4, h4, h5⟩ := h
    have hf := storeCheck_lifeFields _ t4 h4
    have hf' : lifeFields t4 = lifeFields t := by rw [hf]; rfl
    by_cases hn : t4.toRemoveNum > 0
    · simp only [hn, if_true, Option.some.injEq] at h5
      subst h5
      exact LifeInv_of_fields t _ hf' hinv
    · simp only [hn, if_false, Option.bind_eq_some, Option.some.injEq] at h5
      obtain ⟨r', hr', rfl⟩ := h5
      have h4i := LifeInv_of_fields t t4 hf' hinv
      simp only [lifeFields, Prod.mk.injEq] at hf'
      exact setUpNext_lifeInv G ops rnd pos t4 r' hr' h4i.1 (by rw [hf'.2.2]; exact hdead)
  · simp only [hst, Bool.false_eq_true, if_false, Option.some.injEq] at h
    subst h
    exact LifeInv_of_fields t _ rfl hinv

theorem finishAnimation_lifeInv (G : Globals) (ops : BlockOps) (rnd : RandSource) (pos : Nat)
    (t : tetris) (r : tetris × List Bool × Nat)
    (h : t.finishAnimation G ops rnd pos = some r)
    (hinv : LifeInv t) (hdead : t.dead = false) : LifeInv r.1 := by
  simp only [tetris.finishAnimation, Option.bind_eq_bind, Option.bind_eq_some,
    Option.some.injEq] at h
  obtain ⟨t2, h2, r', hr', rfl⟩ := h
  have hf := removeLines_frame _ _ t2 h2
  have hl : t2.life = t.life := by rw [hf]
  have hd : t2.dead = t.dead := by rw [hf]
  exact setUpNext_lifeInv G ops rnd pos _ r' hr' (by show 0 ≤ t2.life; rw [hl]; exact hinv.1)
    (by show t2.dead = false; rw [hd]; exact hdead)

theorem update_lifeInv (G : Globals) (ops : BlockOps) (rnd : RandSource) (pos : Nat)
    (t : tetris) (req : Requests) (level : Int) (r : tetris × List Bool × Nat)
    (h : t.update G ops rnd pos req level = some r) (hinv : LifeInv t) : LifeInv r.1 := by
  unfold tetris.update at h
  by_cases hdead : t.dead = true
  · simp only [hdead, if_true, Option.some.injEq] at h
    subst h
    exact LifeInv_of_fields t _ (deadStep_lifeFields t) hinv
  · have hdead' : t.dead = false := by simpa using hdead
    simp only [hdead', Bool.false_eq_true, if_false] at h
    by_cases hanim : t.removeLineAnimationStep > 0
    · simp only [hanim, if_true, tetris.animationStep] at h
      have hf : lifeFields ((t.advanceAnimation).scoreLines level) = lifeFields t := by
        rw [scoreLines_lifeFields, advanceAnimation_lifeFields]
      have hi1 := LifeInv_of_fields t _ hf hinv
      split_ifs at h
      · simp only [Option.some.injEq] at h
        subst h
        exact hi1
      · simp only [lifeFields, Prod.mk.injEq] at hf
        exact finishAnimation_lifeInv G ops rnd pos _ r h hi1 (by rw [hf.2.2]; exact hdead')
    · simp only [hanim, if_false, tetris.playStep, Option.bind_eq_bind, Option.bind_eq_some] at h
      obtain ⟨hd, hh, hl⟩ := h
      have hf : lifeFields
          (((((hd.1.invisibleCycle G).rotationStep ops req.rotateLeft req.rotateRight).1.lateralStep
            req.moveLeftRequest req.moveRightRequest).1.autoDownStep).1.manualDownStep
              req.moveDownRequest
              (((hd.1.invisibleCycle G).rotationStep ops req.rotateLeft
                req.rotateRight).1.lateralStep req.moveLeftRequest req.moveRightRequest).2.2).1
          = lifeFields t := by
        rw [manualDownStep_lifeFields, autoDownStep_lifeFields, lateralStep_lifeFields,
          rotationStep_lifeFields, invisibleCycle_lifeFields,
          holdStep_lifeFields ops rnd pos req.holdRequest t hd hh]
      have hi1 := LifeInv_of_fields t _ hf hinv
      simp only [lifeFields, Prod.mk.injEq] at hf
      exact lockStep_lifeInv G ops rnd _ _ _ _ _ r hl hi1 (by rw [hf.2.2]; exact hdead')

theorem runUpdates_lifeInv (G : Globals) (ops : BlockOps) (rnd : RandSource) :
    ∀ (calls : List (Requests × Int)) (s s' : tetris × Nat),
      runUpdates G ops rnd calls s = some s' → LifeInv s.1 → LifeInv s'.1 := by
  intro calls
  induction calls with
  | nil =>
    intro s s' h hinv
    simp only [runUpdates, Option.some.injEq] at h
    subst h
    exact hinv
  | cons c rest ih =>
    intro s s' h hinv
    simp only [runUpdates, Option.bind_eq_bind, Option.bind_eq_some] at h
    obtain ⟨r, hr, hrest⟩ := h
    exact ih _ s' hrest (update_lifeInv G ops rnd s.2 s.1 c.1 c.2 r hr hinv)

theorem init_lifeInv (G : Globals) (ops : BlockOps) (rnd : RandSource) (pos : Nat) (t : tetris)
    (level : Int) (balance : balancing) (speedLevel score : Int) (betterRotation canHold : Bool)
    (life currentLife : Int) (s : tetris × Nat)
    (h : t.init G ops rnd pos level balance speedLevel score betterRotation canHold life
      currentLife = some s)
    (h0 : 0 ≤ currentLife) (h1 : currentLife ≤ life) :
    LifeInv s.1 ∧ s.1.life = life ∧ s.1.dead = false := by
  simp only [tetris.init, Option.bind_eq_bind, Option.bind_eq_some, Option.some.injEq] at h
  obtain ⟨p, _, sp, _, lim, _, dl, _, il, _, rfl⟩ := h
  exact ⟨⟨by show 0 ≤ life; omega, fun _ => ⟨h0, h1⟩, fun h => by simp at h⟩, rfl, rfl⟩

/-- C8, as stated, fails: `lost` leaves `currentLife = -1` when the session dies.
A session kept from the previous level with its block on a stack reaching the death
band, `init` with `life = currentLife = 0`, then one `update` with the down key: the
block locks, `lost` counts one cell in the band and `currentLife` becomes `-1`. -/
theorem life_counter_below_zero :
    ¬ (∀ (G : Globals) (ops : BlockOps) (rnd : RandSource) (pos : Nat) (t0 : tetris)
        (level : Int) (balance : balancing) (speedLevel score : Int)
        (betterRotation canHold : Bool) (life currentLife : Int)
        (calls : List (Requests × Int)) (s s' : tetris × Nat),
        0 ≤ currentLife → currentLife ≤ life →
        t0.init G ops rnd pos level balance speedLevel score betterRotation canHold life
          currentLife = some s →
        runUpdates G ops rnd calls s = some s' →
        0 ≤ s'.1.currentLife ∧ s'.1.currentLife ≤ s'.1.life) := by
  intro h
  have h0 := h sampleGlobals restingOps (fun _ => 0) 0 stackSession 1 (newBalance 3) 1 0
    false false 0 0 [(downRequest, 1)] _ _ (by decide) (by decide) rfl rfl
  exact absurd h0.1 (by decide)

/-- C8, amended. In every session state reached from `init` (called with
`0 ≤ currentLife ≤ life`) through any sequence of `update` calls,
`-1 ≤ currentLife ≤ life`; `0 ≤ currentLife` as long as the session is not dead, and
`currentLife = -1` once it is dead. -/
theorem life_counter_range (G : Globals) (ops : BlockOps) (rnd : RandSource) (pos : Nat)
    (t0 : tetris) (level : Int) (balance : balancing) (speedLevel score : Int)
    (betterRotation canHold : Bool) (life currentLife : Int)
    (calls : List (Requests × Int)) (s s' : tetris × Nat)
    (h0 : 0 ≤ currentLife) (h1 : currentLife ≤ life)
    (hinit : t0.init G ops rnd pos level balance speedLevel score betterRotation canHold life
      currentLife = some s)
    (hrun : runUpdates G ops rnd calls s = some s') :
    -1 ≤ s'.1.currentLife ∧ s'.1.currentLife ≤ s'.1.life ∧
      (s'.1.dead = false → 0 ≤ s'.1.currentLife) ∧
      (s'.1.dead = true → s'.1.currentLife = -1) := by
  have hi := (init_lifeInv G ops rnd pos t0 level balance speedLevel score betterRotation
    canHold life currentLife s hinit h0 h1).1
  obtain ⟨a, b, c⟩ := runUpdates_lifeInv G ops rnd calls s s' hrun hi
  refine ⟨?_, ?_, fun h => (b h).1, c⟩
  · cases hd : s'.1.dead with
    | false => have := (b hd).1; omega
    | true => have := c hd; omega
  · cases hd : s'.1.dead with
    | false => exact (b hd).2
    | true => have := c hd; omega

theorem life_counter_range_witness :
    ∃ s s', stackSession.init sampleGlobals restingOps (fun _ => 0) 0 1 (newBalance 3) 1 0
        false false 0 0 = some s ∧
      runUpdates sampleGlobals restingOps (fun _ => 0) [(downRequest, 1)] s = some s' ∧
      s'.1.dead = true ∧
      (-1 ≤ s'.1.currentLife ∧ s'.1.currentLife ≤ s'.1.life ∧
        (s'.1.dead = false → 0 ≤ s'.1.currentLife) ∧
        (s'.1.dead = true → s'.1.currentLife = -1)) :=
  ⟨_, _, rfl, rfl, rfl,
    life_counter_range sampleGlobals restingOps (fun _ => 0) 0 stackSession 1 (newBalance 3) 1 0
      false false 0 0 [(downRequest, 1)] _ _ (by decide) (by decide) rfl rfl⟩

/-! ## `getChoice` -/

theorem mem_eraseIdx_of_ne (p : List Int) (i : Nat) (v x : Int) (hv : p[i]? = some v)
    (hx : x ≠ v) : x ∈ p.eraseIdx i ↔ x ∈ p := by
  constructor
  · exact List.mem_of_mem_eraseIdx
  · intro h
    obtain ⟨j, hj⟩ := List.mem_iff_getElem?.mp h
    refine List.mem_eraseIdx_iff_getElem?.mpr ⟨j, ?_, hj⟩
    intro hji
    subst hji
    rw [hv] at hj
    exact hx (Option.some.inj hj).symm

theorem firstIndexOf_spec (v : Int) :
    ∀ (l : List Int) (k : Nat),
      (firstIndexOf v l k = none ∧ v ∉ l) ∨
      (∃ i, firstIndexOf v l k = some (k + i) ∧ l[i]? = some v) := by
  intro l
  induction l with
  | nil => intro k; left; exact ⟨rfl, by simp⟩
  | cons x rest ih =>
    intro k
    by_cases hx : x = v
    · right
      exact ⟨0, by simp [firstIndexOf, hx], by simp [hx]⟩
    · rcases ih (k + 1) with ⟨h1, h2⟩ | ⟨i, h1, h2⟩
      · left
        refine ⟨by simp [firstIndexOf, hx, h1], ?_⟩
        simp only [List.mem_cons, not_or]
        exact ⟨fun h => hx h.symm, h2⟩
      · right
        refine ⟨i + 1, ?_, by simpa using h2⟩
        simp only [firstIndexOf, hx, if_false, h1]
        congr 1
        omega

theorem removeChosen_spec (f : List Int → Nat → List Int) (hrem : RemovesAt f) (v : Int) :
    ∀ (fuel : Nat) (p : List Int), p.length ≤ fuel →
      ∃ q, removeChosen f v fuel p = some q ∧ ∀ x, x ∈ q ↔ (x ∈ p ∧ x ≠ v) := by
  intro fuel
  induction fuel with
  | zero =>
    intro p hp
    have : p = [] := List.eq_nil_of_length_eq_zero (by omega)
    subst this
    exact ⟨[], rfl, by simp⟩
  | succ fuel ih =>
    intro p hp
    rcases firstIndexOf_spec v p 0 with ⟨h1, h2⟩ | ⟨i, h1, h2⟩
    · refine ⟨p, by simp only [removeChosen, h1], fun x => ⟨fun h => ⟨h, ?_⟩, fun h => h.1⟩⟩
      intro hxv
      subst hxv
      exact h2 h
    · have hi : i < p.length := (List.getElem?_eq_some.mp h2).1
      have hperm := hrem p i hi
      have hlen : (f p i).length ≤ fuel := by
        rw [hperm.length_eq, List.length_eraseIdx_of_lt hi]
        omega
      obtain ⟨q, hq1, hq2⟩ := ih (f p i) hlen
      rw [Nat.zero_add] at h1
      refine ⟨q, by simp only [removeChosen, h1, hq1], fun x => ?_⟩
      rw [hq2 x, hperm.mem_iff]
      constructor
      · rintro ⟨a, b⟩
        exact ⟨List.mem_of_mem_eraseIdx a, b⟩
      · rintro ⟨a, b⟩
        exact ⟨(mem_eraseIdx_of_ne p i v x h2 b).mpr a, b⟩

theorem take_set_self (l : List Int) (k : Nat) (a : Int) :
    (l.set k a).take k = l.take k := by
  rw [List.set_take, List.set_eq_of_length_le (by simp)]

theorem take_succ_set (l : List Int) (k : Nat) (a : Int) (hk : k < l.length) :
    (l.set k a).take (k + 1) = l.take k ++ [a] := by
  rw [List.take_succ, take_set_self]
  simp [hk]

theorem fillSentinel_spec :
    ∀ (fuel k : Nat) (cs : List Int), cs.length ≤ fuel + k →
      ∃ cs', fillSentinel fuel (k : Int) cs = some cs' ∧ cs'.length = cs.length ∧
        cs'.take k = cs.take k ∧ ∀ i, k ≤ i → i < cs.length → cs'[i]? = some (-1) := by
  intro fuel
  induction fuel with
  | zero =>
    intro k cs h
    have hc : ¬ ((k : Int) < (cs.length : Int)) := by omega
    exact ⟨cs, by simp only [fillSentinel, hc, if_false], rfl, rfl, fun i h1 h2 => by omega⟩
  | succ fuel ih =>
    intro k cs h
    by_cases hc : (k : Int) < (cs.length : Int)
    · have hk : k < cs.length := by omega
      obtain ⟨cs', h1, h2, h3, h4⟩ := ih (k + 1) (cs.set k (-1)) (by simp; omega)
      refine ⟨cs', ?_, by simpa using h2, ?_, ?_⟩
      · simp only [fillSentinel, hc, if_true, goAssign_natCast _ _ _ hk, Option.bind_eq_bind,
          Option.some_bind]
        exact h1
      · have := congrArg (List.take k) h3
        simp only [List.take_take, Nat.min_eq_left (Nat.le_succ k)] at this
        rw [this, take_set_self]
      · intro i hi1 hi2
        by_cases hik : i = k
        · subst hik
          have := congrArg (fun l => l[i]?) h3
          simp only [List.getElem?_take_of_lt (Nat.lt_succ_self i)] at this
          rw [this]
          simp [hk]
        · exact h4 i (by omega) (by simpa using hi2)
    · exact ⟨cs, by simp only [fillSentinel, hc, if_false], rfl, rfl, fun i h1 h2 => by omega⟩

theorem belowMax_nonneg (b : balancing) (x : Int) (h : belowMax b x) : 0 ≤ x := by
  obtain ⟨l, m, h1, _⟩ := h
  by_contra hx
  simp [goIndex, hx] at h1

theorem belowMax_lt (b : balancing) (hl : b.levels.length = numBalances) (x : Int)
    (h : belowMax b x) : x < 5 := by
  obtain ⟨l, m, h1, _⟩ := h
  have h0 := belowMax_nonneg b x ⟨l, m, h1, by assumption⟩
  obtain ⟨n, rfl⟩ := Int.eq_ofNat_of_zero_le h0
  rw [goIndex_natCast] at h1
  have := (List.getElem?_eq_some.mp h1).1
  rw [hl] at this
  simp only [numBalances] at this
  omega

theorem collectChoices_spec (b : balancing) (hl : b.levels.length = numBalances)
    (hm : b.maxLevels.length = numBalances) :
    ∀ (fuel c : Nat) (acc : List Int), c + fuel = 5 →
      ∃ rest, collectChoices b fuel (c : Int) acc = some (acc ++ rest) ∧
        ∀ x : Int, x ∈ rest ↔ ((c : Int) ≤ x ∧ belowMax b x) := by
  intro fuel
  induction fuel with
  | zero =>
    intro c acc hc
    have hcond : ¬ ((c : Int) < ((numBalances : Nat) : Int)) := by simp only [numBalances]; omega
    refine ⟨[], by simp only [collectChoices, hcond, if_false, List.append_nil], fun x => ?_⟩
    simp only [List.not_mem_nil, false_iff, not_and]
    intro h1 h2
    have := belowMax_lt b hl x h2
    omega
  | succ fuel ih =>
    intro c acc hc
    have hcond : (c : Int) < ((numBalances : Nat) : Int) := by simp only [numBalances]; omega
    have hcl : c < b.levels.length := by rw [hl]; simp only [numBalances]; omega
    have hcm : c < b.maxLevels.length := by rw [hm]; simp only [numBalances]; omega
    have hnext : (c : Int) + 1 = ((c + 1 : Nat) : Int) := by push_cast; ring
    obtain ⟨lv, hlv⟩ : ∃ lv, b.levels[c]? = some lv := ⟨_, List.getElem?_eq_getElem hcl⟩
    obtain ⟨mv, hmv⟩ : ∃ mv, b.maxLevels[c]? = some mv := ⟨_, List.getElem?_eq_getElem hcm⟩
    have hbm : belowMax b (c : Int) ↔ lv < mv := by
      unfold belowMax
      simp only [goIndex_natCast, hlv, hmv, Option.some.injEq]
      constructor
      · rintro ⟨l, m, rfl, rfl, h⟩; exact h
      · intro h; exact ⟨lv, mv, rfl, rfl, h⟩
    simp only [collectChoices, hcond, if_true, goIndex_natCast, hlv, hmv, Option.bind_eq_bind,
      Option.some_bind, hnext]
    by_cases hlt : lv < mv
    · simp only [hlt, if_true]
      by_cases hold : inOldChoices (c : Int) b.choices = true
      · simp only [hold, if_true]
        obtain ⟨rest, h1, h2⟩ := ih (c + 1) (acc ++ [(c : Int)]) (by omega)
        refine ⟨[(c : Int)] ++ rest, by rw [h1, List.append_assoc], fun x => ?_⟩
        simp only [List.mem_append, List.mem_singleton, h2 x]
        constructor
        · rintro (rfl | ⟨a, b'⟩)
          · exact ⟨le_refl _, hbm.mpr hlt⟩
          · exact ⟨by omega, b'⟩
        · rintro ⟨a, b'⟩
          by_cases hx : x = (c : Int)
          · left; exact hx
          · right; exact ⟨by omega, b'⟩
      · simp only [hold, Bool.false_eq_true, if_false]
        obtain ⟨rest, h1, h2⟩ := ih (c + 1) ((acc ++ [(c : Int)]) ++ [(c : Int)]) (by omega)
        refine ⟨[(c : Int)] ++ ([(c : Int)] ++ rest),
          by rw [h1]; simp only [List.append_assoc], fun x => ?_⟩
        simp only [List.mem_append, List.mem_singleton, h2 x]
        constructor
        · rintro (rfl | rfl | ⟨a, b'⟩)
          · exact ⟨le_refl _, hbm.mpr hlt⟩
          · exact ⟨le_refl _, hbm.mpr hlt⟩
          · exact ⟨by omega, b'⟩
        · rintro ⟨a, b'⟩
          by_cases hx : x = (c : Int)
          · left; exact hx
          · right; right; exact ⟨by omega, b'⟩
    · simp only [hlt, if_false]
      obtain ⟨rest, h1, h2⟩ := ih (c + 1) acc (by omega)
      refine ⟨rest, h1, fun x => ?_⟩
      rw [h2 x]
      constructor
      · rintro ⟨a, b'⟩
        exact ⟨by omega, b'⟩
      · rintro ⟨a, b'⟩
        refine ⟨?_, b'⟩
        by_contra hx
        have : x = (c : Int) := by omega
        rw [this] at b'
        exact hlt (hbm.mp b')

theorem belowMax_iff_getD (b : balancing) (hl : b.levels.length = numBalances)
    (hm : b.maxLevels.length = numBalances) (c : Nat) (hc : c < numBalances) :
    belowMax b (c : Int) ↔ b.levels.getD c 0 < b.maxLevels.getD c 0 := by
  have hcl : c < b.levels.length := by rw [hl]; exact hc
  have hcm : c < b.maxLevels.length := by rw [hm]; exact hc
  unfold belowMax
  simp only [goIndex_natCast, List.getD_eq_getElem?_getD, List.getElem?_eq_getElem hcl,
    List.getElem?_eq_getElem hcm, Option.some.injEq, Option.getD_some]
  constructor
  · rintro ⟨l, m, rfl, rfl, h⟩; exact h
  · intro h; exact ⟨_, _, rfl, rfl, h⟩

theorem eligible_card (b : balancing) (hl : b.levels.length = numBalances)
    (hm : b.maxLevels.length = numBalances) (p : List Int)
    (hp : ∀ x : Int, x ∈ p ↔ (((0 : Nat) : Int) ≤ x ∧ belowMax b x)) :
    p.toFinset.card = eligibleCount b := by
  have hnd : (((List.range numBalances).filter
      (fun c => decide (b.levels.getD c 0 < b.maxLevels.getD c 0))).map
        (fun c : Nat => (c : Int))).Nodup :=
    List.Nodup.map Nat.cast_injective ((List.nodup_range _).filter _)
  have heq : p.toFinset = (((List.range numBalances).filter
      (fun c => decide (b.levels.getD c 0 < b.maxLevels.getD c 0))).map
        (fun c : Nat => (c : Int))).toFinset := by
    ext x
    simp only [List.mem_toFinset, hp x, List.mem_map, List.mem_filter, List.mem_range,
      decide_eq_true_eq]
    constructor
    · rintro ⟨h0, hb⟩
      have h5 := belowMax_lt b hl x hb
      obtain ⟨n, rfl⟩ := Int.eq_ofNat_of_zero_le (by simpa using h0)
      have hn : n < numBalances := by simp only [numBalances]; omega
      exact ⟨n, ⟨hn, (belowMax_iff_getD b hl hm n hn).mp hb⟩, rfl⟩
    · rintro ⟨n, ⟨hn, hlt⟩, rfl⟩
      exact ⟨by simp, (belowMax_iff_getD b hl hm n hn).mpr hlt⟩
  rw [heq, List.toFinset_card_of_nodup hnd, List.length_map]
  rfl

theorem drawChoices_spec (f : List Int → Nat → List Int) (hrem : RemovesAt f)
    (rnd : RandSource) (el : Int → Prop) (N : Nat) :
    ∀ (fuel k : Nat) (cs p : List Int) (pos : Nat), fuel + k = cs.length →
      (cs.take k).Nodup → (∀ x ∈ cs.take k, el x ∧ x ∉ p) → (∀ x ∈ p, el x) →
      p.toFinset.card + k = N →
      ∃ (st' : ChoiceState) (k' : Nat),
        drawChoices f rnd fuel (ChoiceState.mk cs p (k : Int) pos) = some st' ∧
        st'.choice = (k' : Int) ∧ k' = min cs.length N ∧ st'.choices.length = cs.length ∧
        (st'.choices.take k').Nodup ∧ ∀ x ∈ st'.choices.take k', el x := by
  intro fuel
  induction fuel with
  | zero =>
    intro k cs p pos hk hnd hch hp hcard
    have hc : ¬ (0 < p.length ∧ (k : Int) < (cs.length : Int)) := by omega
    refine ⟨ChoiceState.mk cs p (k : Int) pos, k, by simp only [drawChoices, hc, if_false],
      rfl, by omega, rfl, hnd, fun x hx => (hch x hx).1⟩
  | succ fuel ih =>
    intro k cs p pos hk hnd hch hp hcard
    by_cases hc : 0 < p.length ∧ (k : Int) < (cs.length : Int)
    · have hkl : k < cs.length := by omega
      have htake : rnd pos % p.length < p.length := Nat.mod_lt _ hc.1
      obtain ⟨v, hv⟩ : ∃ v, p[rnd pos % p.length]? = some v :=
        ⟨_, List.getElem?_eq_getElem htake⟩
      have hvp : v ∈ p := List.getElem?_mem hv
      have hperm := hrem p (rnd pos % p.length) htake
      obtain ⟨q, hq1, hq2⟩ := removeChosen_spec f hrem v (f p (rnd pos % p.length)).length
        (f p (rnd pos % p.length)) (le_refl _)
      have hq : ∀ x, x ∈ q ↔ (x ∈ p ∧ x ≠ v) := by
        intro x
        rw [hq2 x, hperm.mem_iff]
        constructor
        · rintro ⟨a, b⟩
          exact ⟨List.mem_of_mem_eraseIdx a, b⟩
        · rintro ⟨a, b⟩
          exact ⟨(mem_eraseIdx_of_ne p _ v x hv b).mpr a, b⟩
      have hvn : v ∉ cs.take k := fun h => (hch v h).2 hvp
      have hqf : q.toFinset = p.toFinset.erase v := by
        ext x
        simp only [List.mem_toFinset, Finset.mem_erase, hq x]
        tauto
      have hqc : q.toFinset.card + (k + 1) = N := by
        rw [hqf, Finset.card_erase_of_mem (List.mem_toFinset.mpr hvp)]
        have : 0 < p.toFinset.card := Finset.card_pos.mpr ⟨v, List.mem_toFinset.mpr hvp⟩
        omega
      have hnext : (k : Int) + 1 = ((k + 1 : Nat) : Int) := by push_cast; ring
      obtain ⟨st', k', e1, e2, e3, e4, e5, e6⟩ := ih (k + 1) (cs.set k v) q (pos + 1)
        (by simp; omega)
        (by rw [take_succ_set cs k v hkl]
            exact List.Nodup.append hnd (List.nodup_singleton v)
              (by simpa using hvn))
        (by rw [take_succ_set cs k v hkl]
            intro x hx
            rcases List.mem_append.mp hx with h | h
            · exact ⟨(hch x h).1, fun hxq => (hch x h).2 ((hq x).mp hxq).1⟩
            · have hxv : x = v := by simpa using h
              subst hxv
              exact ⟨hp x hvp, fun hxq => ((hq x).mp hxq).2 rfl⟩)
        (fun x hx => hp x ((hq x).mp hx).1)
        hqc
      refine ⟨st', k', ?_, e2, by simpa using e3, by simpa using e4, e5, e6⟩
      simp only [drawChoices, hc, and_self, if_true, hv, goAssign_natCast _ _ _ hkl,
        Option.bind_eq_bind, Option.some_bind, hq1, hnext]
      exact e1
    · refine ⟨ChoiceState.mk cs p (k : Int) pos, k, by simp only [drawChoices, hc, if_false],
        rfl, ?_, rfl, hnd, fun x hx => (hch x hx).1⟩
      by_cases hp0 : p = []
      · subst hp0
        simp only [List.toFinset_nil, Finset.card_empty, Nat.zero_add] at hcard
        omega
      · have : 0 < p.length := List.length_pos.mpr hp0
        have hkl : k = cs.length := by omega
        omega

theorem eraseIdx_removesAt : RemovesAt List.eraseIdx := fun _ _ _ => List.Perm.refl _

/-- C10. For every balancing state (five levels and five maximum levels), every
outcome of the random draws and every `removeElement` that removes exactly the element
at the given index: `getChoice` returns; `numChoices` is the minimum of `len(choices)`
and the number of categories below their maximum; the first `numChoices` entries of
`choices` are pairwise distinct categories below their maximum; every later entry is
`-1` (so all of them when no category is below its maximum). -/
theorem getChoice_slate (removeElement : List Int → Nat → List Int)
    (hrem : RemovesAt removeElement) (rnd : RandSource) (pos : Nat) (b : balancing)
    (hl : b.levels.length = numBalances) (hm : b.maxLevels.length = numBalances) :
    ∃ (b' : balancing) (pos' : Nat) (k : Nat),
      b.getChoice removeElement rnd pos = some (b', pos') ∧
      b'.numChoices = (k : Int) ∧ k = min b.choices.length (eligibleCount b) ∧
      b'.choices.length = b.choices.length ∧
      (b'.choices.take k).Nodup ∧
      (∀ c ∈ b'.choices.take k, belowMax b c) ∧
      (∀ i, k ≤ i → i < b.choices.length → b'.choices[i]? = some (-1)) ∧
      (eligibleCount b = 0 → ∀ i, i < b.choices.length → b'.choices[i]? = some (-1)) ∧
      b'.levels = b.levels ∧ b'.maxLevels = b.maxLevels := by
  obtain ⟨p, hp1, hp2⟩ := collectChoices_spec b hl hm 5 0 [] rfl
  rw [List.nil_append] at hp1
  have hcard := eligible_card b hl hm p hp2
  obtain ⟨st, k, d1, d2, d3, d4, d5, d6⟩ := drawChoices_spec removeElement hrem rnd
    (belowMax b) (eligibleCount b) b.choices.length 0 b.choices p pos rfl (by simp)
    (by simp) (fun x hx => ((hp2 x).mp hx).2) (by rw [hcard]; rfl)
  obtain ⟨cs', f1, f2, f3, f4⟩ := fillSentinel_spec b.choices.length k st.choices
    (by rw [d4]; omega)
  have hget : b.getChoice removeElement rnd pos =
      some ({ b with choices := cs', numChoices := (k : Int) }, st.pos) := by
    unfold balancing.getChoice
    have hp1' : collectChoices b numBalances ((0 : Nat) : Int) [] = some p := hp1
    simp only [Nat.cast_zero] at hp1' d1
    rw [hp1']
    simp only [Option.bind_eq_bind, Option.some_bind]
    rw [d1]
    simp only [Option.some_bind, d2, f1]
  refine ⟨_, _, k, hget, rfl, d3, by show cs'.length = _; rw [f2, d4], ?_, ?_, ?_, ?_, rfl, rfl⟩
  · show (cs'.take k).Nodup
    rw [f3]; exact d5
  · show ∀ c ∈ cs'.take k, belowMax b c
    rw [f3]; exact d6
  · intro i h1 h2
    exact f4 i h1 (by rw [d4]; exact h2)
  · intro h0 i h2
    have hk0 : k = 0 := by rw [d3, h0]; simp
    exact f4 i (by omega) (by rw [d4]; exact h2)

theorem getChoice_slate_witness :
    ∃ (b' : balancing) (pos' : Nat) (k : Nat),
      sampleBalance.getChoice List.eraseIdx (fun n => n * 7 + 3) 0 = some (b', pos') ∧
      b'.numChoices = (k : Int) ∧ k = min sampleBalance.choices.length (eligibleCount sampleBalance) ∧
      b'.choices.length = sampleBalance.choices.length ∧
      (b'.choices.take k).Nodup ∧
      (∀ c ∈ b'.choices.take k, belowMax sampleBalance c) ∧
      (∀ i, k ≤ i → i < sampleBalance.choices.length → b'.choices[i]? = some (-1)) ∧
      (eligibleCount sampleBalance = 0 →
        ∀ i, i < sampleBalance.choices.length → b'.choices[i]? = some (-1)) ∧
      b'.levels = sampleBalance.levels ∧ b'.maxLevels = sampleBalance.maxLevels :=
  getChoice_slate List.eraseIdx eraseIdx_removesAt (fun n => n * 7 + 3) 0 sampleBalance rfl rfl

/-! ## The derived parameters of `balancing.go` -/

theorem speedTable_step (level : Int) (h0 : 0 ≤ level) :
    goIndex ([1, 2, 4, 7, 10] : List Int)
        (if level ≥ ((([1, 2, 4, 7, 10] : List Int).length : Nat) : Int)
          then ((([1, 2, 4, 7, 10] : List Int).length : Nat) : Int) - 1 else level) =
      some (speedTable.getD (min level 4).toNat 0) := by
  by_cases h5 : level ≥ 5
  · have hm : min level 4 = 4 := by omega
    have hc : level ≥ ((([1, 2, 4, 7, 10] : List Int).length : Nat) : Int) := by simpa using h5
    rw [if_pos hc, hm]
    rfl
  · have hc : ¬ level ≥ ((([1, 2, 4, 7, 10] : List Int).length : Nat) : Int) := by simpa using h5
    rw [if_neg hc]
    have h4 : level ≤ 4 := by omega
    interval_cases level <;> rfl

theorem wrapInt_eq (x : Int) (h1 : minInt ≤ x) (h2 : x ≤ maxInt) : wrapInt x = x := by
  unfold wrapInt
  unfold minInt at h1
  unfold maxInt at h2
  omega

theorem speedTable_range (level : Int) :
    1 ≤ speedTable.getD (min level 4).toNat 0 ∧ speedTable.getD (min level 4).toNat 0 ≤ 10 := by
  have h4 : (min level 4).toNat ≤ 4 := by omega
  generalize (min level 4).toNat = k at h4
  interval_cases k <;> decide

theorem getSpeedLevel_wrap (G : Globals) (b : balancing) (base level : Int)
    (hlev : goIndex b.levels balanceSpeed = some level) (h0 : 0 ≤ level) :
    b.getSpeedLevel G base =
      some (if wrapInt (base + speedTable.getD (min level 4).toNat 0) ≥ (G.gSpeedLevels : Int)
        then (G.gSpeedLevels : Int) - 1
        else wrapInt (base + speedTable.getD (min level 4).toNat 0)) := by
  unfold balancing.getSpeedLevel
  simp only [hlev, Option.bind_eq_bind, Option.some_bind]
  rw [speedTable_step level h0]
  simp only [Option.some_bind]
  generalize speedTable.getD (min level 4).toNat 0 = step
  by_cases hc : wrapInt (base + step) ≥ (G.gSpeedLevels : Int)
  · rw [if_pos hc, if_pos hc]
  · rw [if_neg hc, if_neg hc]

theorem getSpeedLevel_le (G : Globals) (b : balancing) (base level : Int)
    (hlev : goIndex b.levels balanceSpeed = some level) (h0 : 0 ≤ level) :
    ∃ s, b.getSpeedLevel G base = some s ∧ s ≤ (G.gSpeedLevels : Int) - 1 := by
  refine ⟨_, getSpeedLevel_wrap G b base level hlev h0, ?_⟩
  split_ifs with hc
  · exact le_refl _
  · omega

theorem getSpeedLevel_eq (G : Globals) (b : balancing) (base level : Int)
    (hlev : goIndex b.levels balanceSpeed = some level) (h0 : 0 ≤ level)
    (hlo : minInt ≤ base) (hhi : base + speedTable.getD (min level 4).toNat 0 ≤ maxInt) :
    b.getSpeedLevel G base = some (speedFormula G level base) := by
  rw [getSpeedLevel_wrap G b base level hlev h0]
  unfold speedFormula
  have hstep := (speedTable_range level).1
  rw [wrapInt_eq _ (by omega) hhi]
  generalize speedTable.getD (min level 4).toNat 0 = step
  by_cases hc : base + step ≥ (G.gSpeedLevels : Int)
  · rw [if_pos hc, min_eq_right (by omega)]
  · rw [if_neg hc, min_eq_left (by omega)]

theorem speedTable_mono (l1 l2 : Int) (h0 : 0 ≤ l1) (h : l1 ≤ l2) :
    speedTable.getD (min l1 4).toNat 0 ≤ speedTable.getD (min l2 4).toNat 0 := by
  have a1 : 0 ≤ min l1 4 := by omega
  have a2 : min l1 4 ≤ min l2 4 := by omega
  have a3 : min l2 4 ≤ 4 := by omega
  generalize min l1 4 = x at a1 a2
  generalize min l2 4 = y at a2 a3
  have a4 : 0 ≤ y := by omega
  interval_cases y <;> interval_cases x <;> decide

theorem getDeathLines_wrap (G : Globals) (b : balancing) (level : Int)
    (hlev : goIndex b.levels balanceDeathLines = some level) :
    b.getDeathLines G =
      some (min (wrapInt (wrapInt (2 * level) + 1))
        (2 * (G.gPlayAreaHeightInBlocks : Int) / 3 - 1)) := by
  simp only [balancing.getDeathLines, hlev, Option.bind_eq_bind, Option.some_bind]
  by_cases hc : wrapInt (wrapInt (2 * level) + 1) > 2 * (G.gPlayAreaHeightInBlocks : Int) / 3 - 1
  · rw [if_pos hc, min_eq_right (by omega)]
  · rw [if_neg hc, min_eq_left (by omega)]

theorem getDeathLines_eq (G : Globals) (b : balancing) (level : Int)
    (hlev : goIndex b.levels balanceDeathLines = some level) (h0 : 0 ≤ level)
    (hhi : 2 * level + 1 ≤ maxInt) :
    b.getDeathLines G =
      some (min (2 * level + 1) (2 * (G.gPlayAreaHeightInBlocks : Int) / 3 - 1)) := by
  have hm : minInt ≤ 0 := by decide
  rw [getDeathLines_wrap G b level hlev, wrapInt_eq (2 * level) (by omega) (by omega),
    wrapInt_eq (2 * level + 1) (by omega) hhi]

theorem getHiddenLines_wrap (b : balancing) (level : Int)
    (hlev : goIndex b.levels balanceHiddenLines = some level) :
    b.getHiddenLines = some (min (wrapInt (3 * level)) 15) := by
  simp only [balancing.getHiddenLines, hlev, Option.bind_eq_bind, Option.some_bind]
  by_cases hc : wrapInt (3 * level) > 15
  · rw [if_pos hc, min_eq_right (by omega)]
  · rw [if_neg hc, min_eq_left (by omega)]

theorem getHiddenLines_eq (b : balancing) (level : Int)
    (hlev : goIndex b.levels balanceHiddenLines = some level) (h0 : 0 ≤ level)
    (hhi : 3 * level ≤ maxInt) :
    b.getHiddenLines = some (min (3 * level) 15) := by
  have hm : minInt ≤ 0 := by decide
  rw [getHiddenLines_wrap b level hlev, wrapInt_eq (3 * level) (by omega) hhi]

theorem getGoalLines_eq (b : balancing) (level : Int)
    (hlev : goIndex b.levels balanceGoalLines = some level) (h0 : 0 ≤ level) :
    b.getGoalLines = some (([4, 8, 12] : List Int).getD (min level 2).toNat 0) := by
  simp only [balancing.getGoalLines, hlev, Option.bind_eq_bind, Option.some_bind]
  by_cases hc : level < 3
  · have : level < ((([4, 8, 12] : List Int).length : Nat) : Int) := by simpa using hc
    rw [if_pos this]
    interval_cases level <;> rfl
  · have : ¬ level < ((([4, 8, 12] : List Int).length : Nat) : Int) := by simpa using hc
    rw [if_neg this]
    have hm : min level 2 = 2 := by omega
    rw [hm]
    rfl

theorem levels_index (b : balancing) (hl : b.levels.length = numBalances) (c : Nat)
    (hc : c < numBalances) (hnn : ∀ level ∈ b.levels, (0 : Int) ≤ level) :
    ∃ level, goIndex b.levels (c : Int) = some level ∧ 0 ≤ level := by
  have hcl : c < b.levels.length := by rw [hl]; exact hc
  refine ⟨b.levels[c], ?_, hnn _ (List.getElem_mem _)⟩
  rw [goIndex_natCast]
  exact List.getElem?_eq_getElem hcl

/-- C12, as stated, fails: the hidden-line count is not `min(3 * level, 15)` at every
non-negative level. On `hugeBalance` the hidden-lines level is `2^62`, a value of the type
`int`; the `int` product `3 * 2^62` wraps around to `-2^62` before the test
`numLines > maxHiddenLines`, so `getHiddenLines` returns `-2^62`, whereas
`min(3 * level, 15)` is 15. -/
theorem hidden_lines_wrap :
    goIndex hugeBalance.levels balanceHiddenLines = some 4611686018427387904 ∧
    hugeBalance.getHiddenLines = some (-4611686018427387904) ∧
    ¬ (∀ (b : balancing), b.levels.length = numBalances →
        (∀ level ∈ b.levels, (0 : Int) ≤ level ∧ level ≤ maxInt) →
        ∃ h level, goIndex b.levels balanceHiddenLines = some level ∧
          b.getHiddenLines = some h ∧ h = min (3 * level) 15) := by
  refine ⟨rfl, by decide, ?_⟩
  intro h
  obtain ⟨v, level, h1, h2, h3⟩ := h hugeBalance rfl (by decide)
  have e1 : level = 4611686018427387904 := (Option.some.inj h1).symm
  have e2 : hugeBalance.getHiddenLines = some (-4611686018427387904) := by decide
  rw [e2] at h2
  have e3 : v = -4611686018427387904 := (Option.some.inj h2).symm
  rw [e1, e3] at h3
  exact absurd h3 (by decide)

/-- C12, amended. Every derived parameter read from the balancing state is bounded from
above, for all non-negative category levels, also above the category maximum, and every
base speed level: the goal in lines is 4, 8 or 12 and is 12 from level 2 on; the speed level
is at most `gSpeedLevels - 1`; the hidden-line count is never more than 15, and it is
`min(3 * level, 15)` whenever `3 * level` does not exceed the largest `int`; the death-line
count is at most `2 * gPlayAreaHeightInBlocks / 3 - 1`. Each getter returns a value. -/
theorem getters_clamped (G : Globals) (b : balancing) (base : Int)
    (hl : b.levels.length = numBalances) (hnn : ∀ level ∈ b.levels, (0 : Int) ≤ level) :
    (∃ g, b.getGoalLines = some g ∧ (g = 4 ∨ g = 8 ∨ g = 12) ∧
      (∀ level, goIndex b.levels balanceGoalLines = some level → 2 ≤ level → g = 12)) ∧
    (∃ s, b.getSpeedLevel G base = some s ∧ s ≤ (G.gSpeedLevels : Int) - 1) ∧
    (∃ h level, goIndex b.levels balanceHiddenLines = some level ∧
      b.getHiddenLines = some h ∧ (3 * level ≤ maxInt → h = min (3 * level) 15) ∧ h ≤ 15) ∧
    (∃ d, b.getDeathLines G = some d ∧ d ≤ 2 * (G.gPlayAreaHeightInBlocks : Int) / 3 - 1) := by
  obtain ⟨lg, hg, hg0⟩ := levels_index b hl balanceGoalLines (by decide) hnn
  obtain ⟨ls, hs, hs0⟩ := levels_index b hl balanceSpeed (by decide) hnn
  obtain ⟨lh, hh, hh0⟩ := levels_index b hl balanceHiddenLines (by decide) hnn
  obtain ⟨ld, hd, _⟩ := levels_index b hl balanceDeathLines (by decide) hnn
  refine ⟨⟨_, getGoalLines_eq b lg hg hg0, ?_, ?_⟩, getSpeedLevel_le G b base ls hs hs0,
    ⟨_, lh, hh, getHiddenLines_wrap b lh hh, ?_, min_le_right _ _⟩,
    ⟨_, getDeathLines_wrap G b ld hd, min_le_right _ _⟩⟩
  · have h2 : min lg 2 ≤ 2 := min_le_right _ _
    have h0 : 0 ≤ min lg 2 := by omega
    generalize min lg 2 = x at h2 h0
    interval_cases x
    · left; rfl
    · right; left; rfl
    · right; right; rfl
  · intro level hlev h2
    rw [hg] at hlev
    have : lg = level := Option.some.inj hlev
    subst this
    rw [min_eq_right h2]
    rfl
  · intro hhi
    have hm : minInt ≤ 0 := by decide
    rw [wrapInt_eq (3 * lh) (by omega) hhi]

theorem getters_clamped_witness :
    (∃ g, overBalance.getGoalLines = some g ∧ (g = 4 ∨ g = 8 ∨ g = 12) ∧
      (∀ level, goIndex overBalance.levels balanceGoalLines = some level → 2 ≤ level →
        g = 12)) ∧
    (∃ s, overBalance.getSpeedLevel sampleGlobals 1 = some s ∧
      s ≤ (sampleGlobals.gSpeedLevels : Int) - 1) ∧
    (∃ h level, goIndex overBalance.levels balanceHiddenLines = some level ∧
      overBalance.getHiddenLines = some h ∧ (3 * level ≤ maxInt → h = min (3 * level) 15) ∧
      h ≤ 15) ∧
    (∃ d, overBalance.getDeathLines sampleGlobals = some d ∧
      d ≤ 2 * (sampleGlobals.gPlayAreaHeightInBlocks : Int) / 3 - 1) :=
  getters_clamped sampleGlobals overBalance 1 rfl (by decide)

/-- C13, as stated, fails: the formula does not hold for every base speed level, and the
result is not monotone in the base. With speed level 0 and the base `maxInt` (the largest
`int`), the `int` sum `baseSpeedLevel + 1` wraps around to `minInt` before the test
`baseSpeedLevel >= gSpeedLevels`, so `getSpeedLevel` returns `minInt`, whereas the formula
gives `gSpeedLevels - 1`, and the base 0 gives a larger result than the base `maxInt`. -/
theorem speed_level_wraps :
    (newBalance 3).getSpeedLevel sampleGlobals maxInt = some minInt ∧
    speedFormula sampleGlobals 0 maxInt = (sampleGlobals.gSpeedLevels : Int) - 1 ∧
    ¬ (∀ (G : Globals) (b : balancing) (base level : Int),
        goIndex b.levels balanceSpeed = some level → 0 ≤ level →
        minInt ≤ base → base ≤ maxInt →
        b.getSpeedLevel G base = some (speedFormula G level base)) ∧
    ¬ (∀ (G : Globals) (b : balancing) (base1 base2 level : Int),
        goIndex b.levels balanceSpeed = some level → 0 ≤ level →
        minInt ≤ base1 → base1 ≤ base2 → base2 ≤ maxInt →
        ∃ r1 r2, b.getSpeedLevel G base1 = some r1 ∧ b.getSpeedLevel G base2 = some r2 ∧
          r1 ≤ r2) := by
  have e1 : (newBalance 3).getSpeedLevel sampleGlobals maxInt = some minInt := by decide
  have e0 : (newBalance 3).getSpeedLevel sampleGlobals 0 = some 1 := by decide
  refine ⟨e1, by decide, ?_, ?_⟩
  · intro h
    have h1 := h sampleGlobals (newBalance 3) maxInt 0 rfl (by decide) (by decide) (by decide)
    rw [e1] at h1
    exact absurd (Option.some.inj h1) (by decide)
  · intro h
    obtain ⟨r1, r2, h1, h2, h3⟩ := h sampleGlobals (newBalance 3) 0 maxInt 0 rfl (by decide)
      (by decide) (by decide) (by decide)
    rw [e0] at h1
    rw [e1] at h2
    rw [← Option.some.inj h1, ← Option.some.inj h2] at h3
    exact absurd h3 (by decide)

/-- C13, amended. With speed-category level `l ≥ 0` and a base level `base` (an `int`) for
which `base + T[min(l, 4)]` does not exceed the largest `int`, `T = [1, 2, 4, 7, 10]`,
`getSpeedLevel` returns `min(base + T[min(l, 4)], gSpeedLevels - 1)`; on these arguments the
result does not decrease when the level or the base grows; level 5 gives the same result as
level 4 for every base. -/
theorem getSpeedLevel_formula :
    (∀ (G : Globals) (b : balancing) (base level : Int),
      goIndex b.levels balanceSpeed = some level → 0 ≤ level →
      minInt ≤ base → base + speedTable.getD (min level 4).toNat 0 ≤ maxInt →
      b.getSpeedLevel G base = some (speedFormula G level base)) ∧
    (∀ (G : Globals) (b1 b2 : balancing) (base1 base2 l1 l2 : Int),
      goIndex b1.levels balanceSpeed = some l1 → goIndex b2.levels balanceSpeed = some l2 →
      0 ≤ l1 → l1 ≤ l2 → base1 ≤ base2 →
      minInt ≤ base1 → base2 + speedTable.getD (min l2 4).toNat 0 ≤ maxInt →
      ∃ r1 r2, b1.getSpeedLevel G base1 = some r1 ∧ b2.getSpeedLevel G base2 = some r2 ∧
        r1 ≤ r2) ∧
    (∀ (G : Globals) (b1 b2 : balancing) (base : Int),
      goIndex b1.levels balanceSpeed = some 4 →
      goIndex b2.levels balanceSpeed = some maxLevelSpeed →
      b1.getSpeedLevel G base = b2.getSpeedLevel G base) := by
  refine ⟨fun G b base level h1 h0 hlo hhi => getSpeedLevel_eq G b base level h1 h0 hlo hhi,
    ?_, ?_⟩
  · intro G b1 b2 base1 base2 l1 l2 h1 h2 h0 hl hb hlo hhi
    have hm := speedTable_mono l1 l2 h0 hl
    refine ⟨_, _, getSpeedLevel_eq G b1 base1 l1 h1 h0 hlo (by omega),
      getSpeedLevel_eq G b2 base2 l2 h2 (by omega) (by omega) hhi, ?_⟩
    unfold speedFormula
    exact min_le_min (by omega) (le_refl _)
  · intro G b1 b2 base h1 h2
    rw [getSpeedLevel_wrap G b1 base 4 h1 (by decide),
      getSpeedLevel_wrap G b2 base maxLevelSpeed h2 (by decide)]
    rfl

theorem getSpeedLevel_formula_witness :
    sampleBalance.getSpeedLevel sampleGlobals 0 = some (speedFormula sampleGlobals 1 0) ∧
    (∃ r1 r2, sampleBalance.getSpeedLevel sampleGlobals 0 = some r1 ∧
      overBalance.getSpeedLevel sampleGlobals 1 = some r2 ∧ r1 ≤ r2) ∧
    ({ overBalance with levels := [0, 4, 0, 0, 0] }).getSpeedLevel sampleGlobals 0 =
      ({ overBalance with levels := [0, 5, 0, 0, 0] }).getSpeedLevel sampleGlobals 0 :=
  ⟨getSpeedLevel_formula.1 sampleGlobals sampleBalance 0 1 rfl (by decide) (by decide)
     (by decide),
   getSpeedLevel_formula.2.1 sampleGlobals sampleBalance overBalance 0 1 1 9 rfl rfl
     (by decide) (by decide) (by decide) (by decide) (by decide),
   getSpeedLevel_formula.2.2 sampleGlobals _ _ 0 rfl rfl⟩

/-! ## `init` -/

theorem initBlocks_isSome (G : Globals) (ops : BlockOps) (rnd : RandSource) (pos : Nat)
    (t : tetris) : ∃ s, t.initBlocks G ops rnd pos = some s := by
  simp only [tetris.initBlocks, getNewBlock, getNewBlockFrom, noBlock, Option.bind_eq_bind]
  exact ⟨_, rfl⟩

theorem initBlocks_fields (G : Globals) (ops : BlockOps) (rnd : RandSource) (pos : Nat)
    (t : tetris) (s : tetris × Nat) (h : t.initBlocks G ops rnd pos = some s) :
    s.1.area = List.replicate (G.gPlayAreaHeightInBlocks + G.gInvisibleLines)
        (emptyLine G.gPlayAreaWidthInBlocks) ∧ s.1.heldBlock = noBlock := by
  simp only [tetris.initBlocks, Option.bind_eq_bind, Option.bind_eq_some, Option.some.injEq] at h
  obtain ⟨b1, _, b2, _, rfl⟩ := h
  exact ⟨rfl, rfl⟩

theorem init_start (G : Globals) (ops : BlockOps) (rnd : RandSource) (pos : Nat) (t : tetris)
    (level : Int) (balance : balancing) (speedLevel score : Int) (betterRotation canHold : Bool)
    (life currentLife : Int) (s : tetris × Nat)
    (h : t.init G ops rnd pos level balance speedLevel score betterRotation canHold life
      currentLife = some s) :
    ∃ start dl, (if level = 0 then t.initBlocks G ops rnd pos else some (t, pos)) = some start ∧
      balance.getDeathLines G = some dl ∧
      s.1.area = start.1.area ∧ s.1.currentBlock = start.1.currentBlock ∧
      s.1.nextBlock = start.1.nextBlock ∧ s.1.heldBlock = start.1.heldBlock ∧
      s.1.deathLines = dl := by
  simp only [tetris.init, Option.bind_eq_bind, Option.bind_eq_some, Option.some.injEq] at h
  obtain ⟨p, hp, sp, _, lim, _, dl, hdl, il, _, rfl⟩ := h
  exact ⟨p, dl, hp, hdl, rfl, rfl, rfl, rfl, rfl⟩

theorem init_resets (G : Globals) (ops : BlockOps) (rnd : RandSource) (pos : Nat) (t : tetris)
    (level : Int) (balance : balancing) (speedLevel score : Int) (betterRotation canHold : Bool)
    (life currentLife : Int) (s : tetris × Nat)
    (h : t.init G ops rnd pos level balance speedLevel score betterRotation canHold life
      currentLife = some s) :
    s.1.score = score ∧ s.1.numLines = 0 ∧ s.1.dropLenght = 0 ∧
      s.1.autoDownFrame = 0 ∧ s.1.manualDownFrame = 0 ∧ s.1.lrMoveFrame = 0 ∧
      s.1.lrFirstMoveFrame = 0 ∧ s.1.removeLineAnimationFrame = 0 ∧ s.1.invisibleFrame = 0 ∧
      s.1.deathAnimationFrame = 0 ∧ s.1.toCheck = (0, 0) ∧
      s.1.toRemove = [false, false, false, false] ∧ s.1.toRemoveNum = 0 ∧
      s.1.removeLineAnimationStep = 0 ∧ s.1.dead = false ∧ s.1.inAnimation = false := by
  simp only [tetris.init, Option.bind_eq_bind, Option.bind_eq_some, Option.some.injEq] at h
  obtain ⟨p, _, sp, _, lim, _, dl, _, il, _, rfl⟩ := h
  exact ⟨rfl, rfl, rfl, rfl, rfl, rfl, rfl, rfl, rfl, rfl, rfl, rfl, rfl, rfl, rfl, rfl⟩

theorem init_isSome (G : Globals) (ops : BlockOps) (rnd : RandSource) (pos : Nat) (t : tetris)
    (level : Int) (balance : balancing) (speedLevel score : Int) (betterRotation canHold : Bool)
    (life currentLife : Int)
    (hsp : G.gSpeeds.length = G.gSpeedLevels) (hpos : 0 < G.gSpeedLevels)
    (hbase : 0 ≤ speedLevel) (hmax : speedLevel + 10 ≤ maxInt)
    (hl : balance.levels.length = numBalances)
    (hnn : ∀ l ∈ balance.levels, (0 : Int) ≤ l) :
    ∃ s, t.init G ops rnd pos level balance speedLevel score betterRotation canHold life
      currentLife = some s := by
  obtain ⟨ls, hs, hs0⟩ := levels_index balance hl balanceSpeed (by decide) hnn
  obtain ⟨ld, hd, _⟩ := levels_index balance hl balanceDeathLines (by decide) hnn
  obtain ⟨li, hi, _⟩ := levels_index balance hl balanceInvisibleBlocks (by decide) hnn
  have hstart : ∃ start, (if level = 0 then t.initBlocks G ops rnd pos else some (t, pos)) =
      some start := by
    by_cases h0 : level = 0
    · rw [if_pos h0]; exact initBlocks_isSome G ops rnd pos t
    · rw [if_neg h0]; exact ⟨_, rfl⟩
  obtain ⟨start, hstart⟩ := hstart
  have hstep : 0 ≤ speedTable.getD (min ls 4).toNat 0 := by
    have := (speedTable_range ls).1
    omega
  have hstep10 := (speedTable_range ls).2
  have hmin : minInt ≤ 0 := by decide
  have hrange : 0 ≤ speedFormula G ls speedLevel ∧
      speedFormula G ls speedLevel < (G.gSpeeds.length : Int) := by
    unfold speedFormula
    rw [hsp]
    constructor
    · apply le_min <;> omega
    · have := min_le_right (speedLevel + speedTable.getD (min ls 4).toNat 0)
        ((G.gSpeedLevels : Int) - 1)
      omega
  obtain ⟨n, hn⟩ : ∃ n : Nat, speedFormula G ls speedLevel = (n : Int) :=
    ⟨(speedFormula G ls speedLevel).toNat, (Int.toNat_of_nonneg hrange.1).symm⟩
  have hnlt : n < G.gSpeeds.length := by omega
  have hlim : goIndex G.gSpeeds (speedFormula G ls speedLevel) = some (G.gSpeeds.get ⟨n, hnlt⟩) := by
    rw [hn, goIndex_natCast]
    exact List.getElem?_eq_getElem hnlt
  simp only [tetris.init, hstart,
    getSpeedLevel_eq G balance speedLevel ls hs hs0 (by omega) (by omega), hlim,
    getDeathLines_wrap G balance ld hd, balancing.getInvisibleBlocks, hi, Option.bind_eq_bind,
    Option.some_bind]
  exact ⟨_, rfl⟩

/-- C14, as stated, fails: the death-line count is not `min(2 * l + 1, cap)` at every level
`l ≥ 0`. On `hugeBalance` the death-lines level is `2^62`, a value of the type `int`; the
`int` expression `2 * 2^62 + 1` wraps around to `-2^63 + 1` before the test
`numLines > maxDeathLines`, so `getDeathLines` returns `-2^63 + 1`, which is below 1; `init`
stores it, the bound `gInvisibleLines + deathLines` of the slice scanned by `lost` is
negative and `lost` panics. -/
theorem death_lines_wrap :
    goIndex hugeBalance.levels balanceDeathLines = some 4611686018427387904 ∧
    hugeBalance.getDeathLines sampleGlobals = some (-9223372036854775807) ∧
    (∃ s, stackSession.init sampleGlobals restingOps (fun _ => 0) 0 1 hugeBalance 1 0
        false false 0 0 = some s ∧ s.1.deathLines = -9223372036854775807 ∧
      s.1.lost sampleGlobals = none) ∧
    ¬ (∀ (G : Globals) (b : balancing) (level : Int),
        goIndex b.levels balanceDeathLines = some level → 0 ≤ level → level ≤ maxInt →
        3 ≤ G.gPlayAreaHeightInBlocks →
        ∃ d, b.getDeathLines G = some d ∧
          d = min (2 * level + 1) (2 * (G.gPlayAreaHeightInBlocks : Int) / 3 - 1) ∧
          1 ≤ d ∧ d < (G.gPlayAreaHeightInBlocks : Int)) := by
  have e1 : hugeBalance.getDeathLines sampleGlobals = some (-9223372036854775807) := by decide
  refine ⟨rfl, e1, ⟨_, rfl, by decide, rfl⟩, ?_⟩
  intro h
  obtain ⟨d, h1, _, h3, _⟩ := h sampleGlobals hugeBalance 4611686018427387904 rfl (by decide)
    (by decide) (by decide)
  rw [e1] at h1
  rw [← Option.some.inj h1] at h3
  exact absurd h3 (by decide)

/-- C14, amended. For every death-lines level `l ≥ 0` for which `2 * l + 1` does not exceed
the largest `int`, `getDeathLines` returns
`min(2 * l + 1, 2 * gPlayAreaHeightInBlocks / 3 - 1)` (integer division); with at least 3
visible rows this value is at least 1 and below `gPlayAreaHeightInBlocks`. After `init` with
such a level (on a grid of `gPlayAreaHeightInBlocks + gInvisibleLines` rows) the bound
`gInvisibleLines + deathLines` of the slice scanned by `lost` lies between 0 and the number
of rows, and `lost` returns for every session with that `deathLines` and that many rows. -/
theorem deathLines_band :
    (∀ (G : Globals) (b : balancing) (level : Int),
      goIndex b.levels balanceDeathLines = some level → 0 ≤ level →
      2 * level + 1 ≤ maxInt →
      b.getDeathLines G =
          some (min (2 * level + 1) (2 * (G.gPlayAreaHeightInBlocks : Int) / 3 - 1)) ∧
        (3 ≤ G.gPlayAreaHeightInBlocks →
          1 ≤ min (2 * level + 1) (2 * (G.gPlayAreaHeightInBlocks : Int) / 3 - 1) ∧
          min (2 * level + 1) (2 * (G.gPlayAreaHeightInBlocks : Int) / 3 - 1) <
            (G.gPlayAreaHeightInBlocks : Int))) ∧
    (∀ (G : Globals) (ops : BlockOps) (rnd : RandSource) (pos : Nat) (t : tetris)
      (lvl : Int) (balance : balancing) (speedLevel score : Int)
      (betterRotation canHold : Bool) (life currentLife dl : Int) (s : tetris × Nat),
      3 ≤ G.gPlayAreaHeightInBlocks →
      goIndex balance.levels balanceDeathLines = some dl → 0 ≤ dl →
      2 * dl + 1 ≤ maxInt →
      t.area.length = G.gPlayAreaHeightInBlocks + G.gInvisibleLines →
      t.init G ops rnd pos lvl balance speedLevel score betterRotation canHold life
        currentLife = some s →
      s.1.area.length = G.gPlayAreaHeightInBlocks + G.gInvisibleLines ∧
        0 ≤ (G.gInvisibleLines : Int) + s.1.deathLines ∧
        (G.gInvisibleLines : Int) + s.1.deathLines ≤ (s.1.area.length : Int) ∧
        ∀ u : tetris, u.deathLines = s.1.deathLines → u.area.length = s.1.area.length →
          ∃ u', u.lost G = some u') := by
  have key : ∀ (G : Globals) (level : Int), 0 ≤ level → 3 ≤ G.gPlayAreaHeightInBlocks →
      1 ≤ min (2 * level + 1) (2 * (G.gPlayAreaHeightInBlocks : Int) / 3 - 1) ∧
      min (2 * level + 1) (2 * (G.gPlayAreaHeightInBlocks : Int) / 3 - 1) <
        (G.gPlayAreaHeightInBlocks : Int) := by
    intro G level h0 h3
    have hH : (3 : Int) ≤ (G.gPlayAreaHeightInBlocks : Int) := by exact_mod_cast h3
    have h1 : 1 ≤ 2 * (G.gPlayAreaHeightInBlocks : Int) / 3 - 1 := by omega
    have h2 : 2 * (G.gPlayAreaHeightInBlocks : Int) / 3 - 1 < (G.gPlayAreaHeightInBlocks : Int) := by
      omega
    constructor
    · apply le_min <;> omega
    · exact lt_of_le_of_lt (min_le_right _ _) h2
  refine ⟨fun G b level hlev h0 hhi => ⟨getDeathLines_eq G b level hlev h0 hhi, key G level h0⟩,
    ?_⟩
  intro G ops rnd pos t lvl balance speedLevel score br ch life cl dl s h3 hdl h0 hhi hlen hinit
  obtain ⟨start, d, hstart, hd, harea, _, _, _, hdls⟩ :=
    init_start G ops rnd pos t lvl balance speedLevel score br ch life cl s hinit
  rw [getDeathLines_eq G balance dl hdl h0 hhi] at hd
  have hd2 : d = min (2 * dl + 1) (2 * (G.gPlayAreaHeightInBlocks : Int) / 3 - 1) :=
    (Option.some.inj hd).symm
  have hlen2 : s.1.area.length = G.gPlayAreaHeightInBlocks + G.gInvisibleLines := by
    rw [harea]
    by_cases hl0 : lvl = 0
    · rw [if_pos hl0] at hstart
      rw [(initBlocks_fields G ops rnd pos t start hstart).1, List.length_replicate]
    · rw [if_neg hl0] at hstart
      have : start = (t, pos) := (Option.some.inj hstart).symm
      rw [this]
      exact hlen
  obtain ⟨k1, k2⟩ := key G dl h0 h3
  rw [← hd2, ← hdls] at k1 k2
  have hb0 : 0 ≤ (G.gInvisibleLines : Int) + s.1.deathLines := by omega
  have hb1 : (G.gInvisibleLines : Int) + s.1.deathLines ≤ (s.1.area.length : Int) := by
    rw [hlen2]; push_cast; omega
  refine ⟨hlen2, hb0, hb1, ?_⟩
  intro u hu1 hu2
  exact lost_isSome G u (by rw [hu1]; exact hb0) (by rw [hu1, hu2]; exact hb1)

theorem deathLines_band_witness :
    (overBalance.getDeathLines sampleGlobals =
        some (min (2 * 8 + 1) (2 * (sampleGlobals.gPlayAreaHeightInBlocks : Int) / 3 - 1)) ∧
      (3 ≤ sampleGlobals.gPlayAreaHeightInBlocks →
        1 ≤ min (2 * 8 + 1) (2 * (sampleGlobals.gPlayAreaHeightInBlocks : Int) / 3 - 1) ∧
        min (2 * 8 + 1) (2 * (sampleGlobals.gPlayAreaHeightInBlocks : Int) / 3 - 1) <
          (sampleGlobals.gPlayAreaHeightInBlocks : Int))) ∧
    ∃ s, stackSession.init sampleGlobals restingOps (fun _ => 0) 0 1 overBalance 1 0
        false false 0 0 = some s ∧ s.1.deathLines = 3 ∧
      (s.1.area.length = sampleGlobals.gPlayAreaHeightInBlocks + sampleGlobals.gInvisibleLines ∧
        0 ≤ (sampleGlobals.gInvisibleLines : Int) + s.1.deathLines ∧
        (sampleGlobals.gInvisibleLines : Int) + s.1.deathLines ≤ (s.1.area.length : Int) ∧
        ∀ u : tetris, u.deathLines = s.1.deathLines → u.area.length = s.1.area.length →
          ∃ u', u.lost sampleGlobals = some u') :=
  ⟨deathLines_band.1 sampleGlobals overBalance 8 rfl (by decide) (by decide),
    _, rfl, rfl,
    deathLines_band.2 sampleGlobals restingOps (fun _ => 0) 0 stackSession 1 overBalance 1 0
      false false 0 0 8 _ (by decide) rfl (by decide) (by decide) rfl rfl⟩

/-- C19. Every result of `init` has `score` equal to the score argument and `numLines`,
`dropLenght`, every frame counter, the checked range, the to-remove flags,
`removeLineAnimationStep`, `deathAnimationFrame`, `dead` and `inAnimation` reset; with
`level ≠ 0` the grid and the current, next and held blocks are unchanged; with `level = 0`
every cell of the (full-size) grid is 0 and the held block has the id `-1`. Moreover `init`
returns whenever the speed table has `gSpeedLevels > 0` entries, the base speed level is
non-negative and at least 10 below the largest `int` (so that the sum in `getSpeedLevel`
does not wrap around) and the balancing state has its five levels, all non-negative. -/
theorem init_frame (G : Globals) (ops : BlockOps) (rnd : RandSource) (pos : Nat) (t : tetris)
    (level : Int) (balance : balancing) (speedLevel score : Int) (betterRotation canHold : Bool)
    (life currentLife : Int) :
    (∀ s, t.init G ops rnd pos level balance speedLevel score betterRotation canHold life
        currentLife = some s →
      (s.1.score = score ∧ s.1.numLines = 0 ∧ s.1.dropLenght = 0 ∧
        s.1.autoDownFrame = 0 ∧ s.1.manualDownFrame = 0 ∧ s.1.lrMoveFrame = 0 ∧
        s.1.lrFirstMoveFrame = 0 ∧ s.1.removeLineAnimationFrame = 0 ∧ s.1.invisibleFrame = 0 ∧
        s.1.deathAnimationFrame = 0 ∧ s.1.toCheck = (0, 0) ∧
        s.1.toRemove = [false, false, false, false] ∧ s.1.toRemoveNum = 0 ∧
        s.1.removeLineAnimationStep = 0 ∧ s.1.dead = false ∧ s.1.inAnimation = false) ∧
      (level ≠ 0 → s.1.area = t.area ∧ s.1.currentBlock = t.currentBlock ∧
        s.1.nextBlock = t.nextBlock ∧ s.1.heldBlock = t.heldBlock) ∧
      (level = 0 →
        s.1.area.length = G.gPlayAreaHeightInBlocks + G.gInvisibleLines ∧
        (∀ row ∈ s.1.area, row.length = G.gPlayAreaWidthInBlocks ∧ ∀ v ∈ row, v = 0) ∧
        s.1.heldBlock.id = -1)) ∧
    (G.gSpeeds.length = G.gSpeedLevels → 0 < G.gSpeedLevels → 0 ≤ speedLevel →
      speedLevel + 10 ≤ maxInt →
      balance.levels.length = numBalances → (∀ l ∈ balance.levels, (0 : Int) ≤ l) →
      ∃ s, t.init G ops rnd pos level balance speedLevel score betterRotation canHold life
        currentLife = some s) := by
  refine ⟨fun s h => ⟨init_resets G ops rnd pos t level balance speedLevel score betterRotation
    canHold life currentLife s h, ?_, ?_⟩,
    init_isSome G ops rnd pos t level balance speedLevel score betterRotation canHold life
      currentLife⟩
  · intro hne
    obtain ⟨start, d, hstart, _, h1, h2, h3, h4, _⟩ :=
      init_start G ops rnd pos t level balance speedLevel score betterRotation canHold life
        currentLife s h
    rw [if_neg hne] at hstart
    have : start = (t, pos) := (Option.some.inj hstart).symm
    subst this
    exact ⟨h1, h2, h3, h4⟩
  · intro h0
    obtain ⟨start, d, hstart, _, h1, _, _, h4, _⟩ :=
      init_start G ops rnd pos t level balance speedLevel score betterRotation canHold life
        currentLife s h
    rw [if_pos h0] at hstart
    obtain ⟨ha, hh⟩ := initBlocks_fields G ops rnd pos t start hstart
    rw [h1, h4, ha, hh]
    refine ⟨List.length_replicate _ _, ?_, rfl⟩
    intro row hrow
    rw [List.eq_of_mem_replicate hrow]
    exact ⟨List.length_replicate _ _, fun v hv => List.eq_of_mem_replicate hv⟩

theorem init_frame_witness :
    (∃ s, stackSession.init sampleGlobals restingOps (fun _ => 0) 0 1 (newBalance 3) 1 250
        false false 0 0 = some s ∧ s.1.area = stackGrid ∧ s.1.score = 250) ∧
    (∃ s, stackSession.init sampleGlobals restingOps (fun _ => 0) 0 0 (newBalance 3) 1 0
        false false 0 0 = some s ∧ s.1.heldBlock.id = -1 ∧
        s.1.area = List.replicate 7 [0, 0]) :=
  ⟨by
    obtain ⟨s, hs⟩ := (init_frame sampleGlobals restingOps (fun _ => 0) 0 stackSession 1
      (newBalance 3) 1 250 false false 0 0).2 rfl (by decide) (by decide) (by decide) rfl
      (by decide)
    have h := (init_frame sampleGlobals restingOps (fun _ => 0) 0 stackSession 1
      (newBalance 3) 1 250 false false 0 0).1 s hs
    exact ⟨s, hs, (h.2.1 (by decide)).1, h.1.1⟩,
   ⟨_, rfl, rfl, rfl⟩⟩

/-! ## The dead branch and the animation branch of `update` -/

theorem noSounds_getD (i : Nat) : noSounds[i]?.getD false = false := by
  unfold noSounds
  rw [List.getElem?_replicate]
  split_ifs <;> rfl

theorem deadState_zero (t : tetris) (hf : t.deathAnimationFrame = 0) : deadState t 0 = t := by
  unfold deadState
  simp only [Nat.cast_zero, Nat.zero_lt_succ, if_true]
  rw [← hf]

theorem deadState_update (G : Globals) (ops : BlockOps) (rnd : RandSource) (pos : Nat)
    (t : tetris) (req : Requests) (level : Int) (k : Nat) (hdead : t.dead = true) :
    (deadState t k).update G ops rnd pos req level =
      some (deadState t (k + 1), noSounds.set SoundDeathID (decide (k = 0)), pos) := by
  have hd : (deadState t k).dead = true := hdead
  unfold tetris.update
  rw [if_pos hd]
  simp only [tetris.deadStep, deadState]
  have hdec : decide ((k : Int) = 0) = decide (k = 0) := by
    simp only [Nat.cast_eq_zero]
  rw [hdec]
  by_cases h : k + 1 < 90
  · have h1 : ¬ ((k : Int) + 1 ≥ 90) := by omega
    have h2 : k < 90 := by omega
    simp only [h1, h, h2, if_true, if_false, Nat.cast_add, Nat.cast_one]
  · have h1 : (k : Int) + 1 ≥ 90 := by omega
    simp only [h1, h, if_true, if_false, Nat.cast_add, Nat.cast_one]

theorem deadState_run (G : Globals) (ops : BlockOps) (rnd : RandSource) (pos : Nat)
    (t : tetris) (hdead : t.dead = true) :
    ∀ (calls : List (Requests × Int)) (k : Nat),
      runUpdates G ops rnd calls (deadState t k, pos) =
        some (deadState t (k + calls.length), pos) := by
  intro calls
  induction calls with
  | nil => intro k; rfl
  | cons c rest ih =>
    intro k
    simp only [runUpdates, deadState_update G ops rnd pos t c.1 c.2 k hdead,
      Option.bind_eq_bind, Option.some_bind, List.length_cons]
    rw [ih (k + 1)]
    congr 3
    omega

/-- C15. Dead branch: from a session with `dead = true` and `deathAnimationFrame = 0`, any
sequence of `update` calls, whatever the inputs, returns and leads to `deadState t n` after
`n` calls, that is, only `deathAnimationFrame` (equal to `n`) and `inAnimation` (unchanged
for `n < 90`, false from call 90 on) ever differ from `t`; and the sound flags of the
following call are all false except the death sound, which is true exactly when that call
is the first one. -/
theorem dead_branch (G : Globals) (ops : BlockOps) (rnd : RandSource) (pos : Nat) (t : tetris)
    (hdead : t.dead = true) (hf : t.deathAnimationFrame = 0) (calls : List (Requests × Int)) :
    runUpdates G ops rnd calls (t, pos) = some (deadState t calls.length, pos) ∧
    (∀ (req : Requests) (level : Int),
      (deadState t calls.length).update G ops rnd pos req level =
        some (deadState t (calls.length + 1),
          noSounds.set SoundDeathID (decide (calls.length = 0)), pos)) ∧
    (∀ i, (noSounds.set SoundDeathID (decide (calls.length = 0))).getD i false =
      (decide (i = SoundDeathID) && decide (calls.length = 0))) ∧
    (deadState t calls.length).inAnimation =
      (if calls.length < 90 then t.inAnimation else false) := by
  refine ⟨?_, fun req level => deadState_update G ops rnd pos t req level _ hdead, ?_, rfl⟩
  · have h := deadState_run G ops rnd pos t hdead calls 0
    rw [deadState_zero t hf, Nat.zero_add] at h
    exact h
  · intro i
    rw [List.getD_eq_getElem?_getD, List.getElem?_set]
    by_cases hi : i = SoundDeathID
    · subst hi
      have hlen : SoundDeathID < noSounds.length := by decide
      simp only [hlen, if_true, Option.getD_some, decide_True, Bool.true_and]
    · have hne : ¬ SoundDeathID = i := fun h => hi h.symm
      rw [if_neg hne]
      simp only [hi, decide_False, Bool.false_and]
      exact noSounds_getD i

theorem dead_branch_witness :
    runUpdates sampleGlobals restingOps (fun _ => 0) [(allRequests, 1), (noRequest, 3)]
        (deadSession, 0) = some (deadState deadSession 2, 0) ∧
    (∀ (req : Requests) (level : Int),
      (deadState deadSession 2).update sampleGlobals restingOps (fun _ => 0) 0 req level =
        some (deadState deadSession (2 + 1), noSounds.set SoundDeathID (decide (2 = 0)), 0)) ∧
    (∀ i, (noSounds.set SoundDeathID (decide (2 = 0))).getD i false =
      (decide (i = SoundDeathID) && decide (2 = 0))) ∧
    (deadState deadSession 2).inAnimation =
      (if 2 < 90 then deadSession.inAnimation else false) :=
  dead_branch sampleGlobals restingOps (fun _ => 0) 0 deadSession rfl rfl
    [(allRequests, 1), (noRequest, 3)]

/-- C16. No player input is processed while an animation is active: for a session with
`dead = true` or `removeLineAnimationStep > 0`, two `update` calls that differ only in the
six boolean inputs (same level, same random draws) give the same session, the same sound
flags and the same position in the random source. -/
theorem update_ignores_requests (G : Globals) (ops : BlockOps) (rnd : RandSource) (pos : Nat)
    (t : tetris) (req1 req2 : Requests) (level : Int)
    (h : t.dead = true ∨ t.removeLineAnimationStep > 0) :
    t.update G ops rnd pos req1 level = t.update G ops rnd pos req2 level := by
  unfold tetris.update
  by_cases hd : t.dead = true
  · rw [if_pos hd, if_pos hd]
  · rw [if_neg hd, if_neg hd]
    have hs : t.removeLineAnimationStep > 0 := h.resolve_left hd
    rw [if_pos hs, if_pos hs]

theorem update_ignores_requests_witness :
    (deadSession.update sampleGlobals restingOps (fun _ => 0) 0 noRequest 1 =
      deadSession.update sampleGlobals restingOps (fun _ => 0) 0 allRequests 1) ∧
    (clearingSession.update sampleGlobals restingOps (fun _ => 0) 0 noRequest 1 =
      clearingSession.update sampleGlobals restingOps (fun _ => 0) 0 allRequests 1) ∧
    (clearingSession.update sampleGlobals restingOps (fun _ => 0) 0 noRequest 1).isSome =
      true :=
  ⟨update_ignores_requests sampleGlobals restingOps (fun _ => 0) 0 deadSession noRequest
      allRequests 1 (Or.inl rfl),
   update_ignores_requests sampleGlobals restingOps (fun _ => 0) 0 clearingSession noRequest
      allRequests 1 (Or.inr (by decide)),
   rfl⟩

/-! ## The normal-play branch of `update` -/

theorem playStep_prepareMove (G : Globals) (ops : BlockOps) (rnd : RandSource) (pos : Nat)
    (req : Requests) (t : tetris) :
    t.playStep G ops rnd pos req =
      (t.prepareMove G ops rnd pos req).bind (fun m =>
        m.session.lockStep G ops rnd m.pos m.xMove (m.autoDown || m.manualDown)
          (noSounds.set SoundRotationID m.effectiveRotation)) := by
  simp only [tetris.playStep, tetris.prepareMove, Option.bind_eq_bind]
  cases t.holdStep ops rnd pos req.holdRequest with
  | none => rfl
  | some h => rfl

theorem lockStep_not_stuck (G : Globals) (ops : BlockOps) (rnd : RandSource) (pos : Nat)
    (xMove : Int) (down : Bool) (sounds : List Bool) (t : tetris)
    (h : (ops.updatePosition t.currentBlock xMove down t.area).2.1 = false) :
    t.lockStep G ops rnd pos xMove down sounds =
      some ({ t with currentBlock := (ops.updatePosition t.currentBlock xMove down t.area).1 },
        sounds.set SoundLeftRightID (ops.updatePosition t.currentBlock xMove down t.area).2.2,
        pos) := by
  simp only [tetris.lockStep, h, Bool.false_eq_true, if_false]

theorem holdStep_moveFields (ops : BlockOps) (rnd : RandSource) (pos : Nat) (hold : Bool)
    (t : tetris) (r : tetris × Nat) (h : t.holdStep ops rnd pos hold = some r) :
    r.1.lrMoveFrame = t.lrMoveFrame ∧ r.1.lrFirstMoveFrame = t.lrFirstMoveFrame ∧
      r.1.manualMoveAllowed = t.manualMoveAllowed := by
  simp only [tetris.holdStep] at h
  split_ifs at h
  · simp only [Option.bind_eq_bind, Option.bind_eq_some, Option.some.injEq] at h
    obtain ⟨fut, _, rfl⟩ := h
    exact ⟨rfl, rfl, rfl⟩
  all_goals
    simp only [Option.some.injEq] at h
    subst h
    exact ⟨rfl, rfl, rfl⟩

theorem invisibleCycle_moveFields (G : Globals) (t : tetris) :
    (t.invisibleCycle G).lrMoveFrame = t.lrMoveFrame ∧
      (t.invisibleCycle G).lrFirstMoveFrame = t.lrFirstMoveFrame ∧
      (t.invisibleCycle G).manualMoveAllowed = t.manualMoveAllowed := by
  simp only [tetris.invisibleCycle]
  split_ifs <;> exact ⟨rfl, rfl, rfl⟩

theorem rotationStep_moveFields (ops : BlockOps) (rl rr : Bool) (t : tetris) :
    (t.rotationStep ops rl rr).1.lrMoveFrame = t.lrMoveFrame ∧
      (t.rotationStep ops rl rr).1.lrFirstMoveFrame = t.lrFirstMoveFrame ∧
      (t.rotationStep ops rl rr).1.manualMoveAllowed = t.manualMoveAllowed := by
  simp only [tetris.rotationStep]
  split_ifs <;> exact ⟨rfl, rfl, rfl⟩

theorem lateralStep_released (t : tetris) :
    (t.lateralStep false false).1.lrMoveFrame = 0 ∧
      (t.lateralStep false false).1.lrFirstMoveFrame = 0 ∧
      (t.lateralStep false false).1.manualMoveAllowed = t.manualMoveAllowed ∧
      (t.lateralStep false false).2.2 = true := by
  simp only [tetris.lateralStep]
  split_ifs <;> first | exact ⟨rfl, rfl, rfl, rfl⟩ | simp_all

theorem autoDownStep_moveFields (t : tetris) :
    t.autoDownStep.1.lrMoveFrame = t.lrMoveFrame ∧
      t.autoDownStep.1.lrFirstMoveFrame = t.lrFirstMoveFrame ∧
      t.autoDownStep.1.manualMoveAllowed = t.manualMoveAllowed := by
  simp only [tetris.autoDownStep]
  split_ifs <;> exact ⟨rfl, rfl, rfl⟩

theorem manualDownStep_moveFields (down may : Bool) (t : tetris) :
    (t.manualDownStep down may).1.lrMoveFrame = t.lrMoveFrame ∧
      (t.manualDownStep down may).1.lrFirstMoveFrame = t.lrFirstMoveFrame ∧
      (t.manualDownStep down may).1.manualMoveAllowed =
        (if down then t.manualMoveAllowed else (t.manualMoveAllowed || may)) := by
  cases down <;> simp only [tetris.manualDownStep] <;> split_ifs <;>
    first | exact ⟨rfl, rfl, rfl⟩ | simp_all

theorem prepareMove_released (G : Globals) (ops : BlockOps) (rnd : RandSource) (pos : Nat)
    (req : Requests) (t : tetris) (m : MoveState)
    (hl : req.moveLeftRequest = false) (hr : req.moveRightRequest = false)
    (h : t.prepareMove G ops rnd pos req = some m) :
    m.session.lrMoveFrame = 0 ∧ m.session.lrFirstMoveFrame = 0 ∧
      m.session.manualMoveAllowed = (t.manualMoveAllowed || !req.moveDownRequest) := by
  simp only [tetris.prepareMove, Option.bind_eq_bind, Option.bind_eq_some,
    Option.some.injEq, hl, hr] at h
  obtain ⟨hd, hhold, rfl⟩ := h
  obtain ⟨_, _, a3⟩ := holdStep_moveFields ops rnd pos req.holdRequest t hd hhold
  obtain ⟨_, _, b3⟩ := invisibleCycle_moveFields G hd.1
  obtain ⟨_, _, c3⟩ := rotationStep_moveFields ops req.rotateLeft req.rotateRight
    (hd.1.invisibleCycle G)
  obtain ⟨d1, d2, d3, d4⟩ := lateralStep_released
    ((hd.1.invisibleCycle G).rotationStep ops req.rotateLeft req.rotateRight).1
  obtain ⟨e1, e2, e3⟩ := autoDownStep_moveFields
    ((((hd.1.invisibleCycle G).rotationStep ops req.rotateLeft req.rotateRight).1).lateralStep
      false false).1
  obtain ⟨f1, f2, f3⟩ := manualDownStep_moveFields req.moveDownRequest
    (((((hd.1.invisibleCycle G).rotationStep ops req.rotateLeft req.rotateRight).1).lateralStep
      false false).2.2)
    ((((hd.1.invisibleCycle G).rotationStep ops req.rotateLeft req.rotateRight).1).lateralStep
      false false).1.autoDownStep.1
  refine ⟨?_, ?_, ?_⟩
  · show (tetris.manualDownStep _ _ _).1.lrMoveFrame = 0
    rw [f1, e1, d1]
  · show (tetris.manualDownStep _ _ _).1.lrFirstMoveFrame = 0
    rw [f2, e2, d2]
  · show (tetris.manualDownStep _ _ _).1.manualMoveAllowed = _
    rw [f3, e3, d3, d4, c3, b3, a3]
    cases req.moveDownRequest <;> simp

/-- C17, as stated, fails: with the down key held, releasing both lateral keys does not
re-enable movement. On `heldDownSession` (`manualMoveAllowed = false`, as `setUpNext`
leaves it) a call with only the down key pressed is a normal-play call in which the block
does not lock, and `manualMoveAllowed` is still false after it. -/
theorem lateral_release_keeps_lock :
    ¬ (∀ (G : Globals) (ops : BlockOps) (rnd : RandSource) (pos : Nat) (t : tetris)
        (req : Requests) (level : Int) (r : tetris × List Bool × Nat),
        t.dead = false → ¬ t.removeLineAnimationStep > 0 →
        t.stuck G ops rnd pos req = some false →
        req.moveLeftRequest = false → req.moveRightRequest = false →
        t.update G ops rnd pos req level = some r →
        r.1.lrMoveFrame = 0 ∧ r.1.lrFirstMoveFrame = 0 ∧ r.1.manualMoveAllowed = true) := by
  intro h
  have h0 := h sampleGlobals restingOps (fun _ => 0) 0 heldDownSession downRequest 1 _
    rfl (by decide) rfl rfl rfl rfl
  exact absurd h0.2.2 (by decide)

/-- C17, amended. In every normal-play `update` call (not dead, no animation, block does not
lock in this call) with `moveLeftRequest = false` and `moveRightRequest = false`, the call
returns and afterwards `lrMoveFrame = 0` and `lrFirstMoveFrame = 0`; `manualMoveAllowed` is
true when the down key is released too or when it was true before the call, and stays false
when it was false and the down key is held. -/
theorem lateral_release_resets (G : Globals) (ops : BlockOps) (rnd : RandSource) (pos : Nat)
    (t : tetris) (req : Requests) (level : Int)
    (hdead : t.dead = false) (hanim : ¬ t.removeLineAnimationStep > 0)
    (hstuck : t.stuck G ops rnd pos req = some false)
    (hl : req.moveLeftRequest = false) (hr : req.moveRightRequest = false) :
    ∃ r, t.update G ops rnd pos req level = some r ∧
      r.1.lrMoveFrame = 0 ∧ r.1.lrFirstMoveFrame = 0 ∧
      r.1.manualMoveAllowed = (t.manualMoveAllowed || !req.moveDownRequest) := by
  simp only [tetris.stuck, Option.map_eq_some'] at hstuck
  obtain ⟨m, hm, hs⟩ := hstuck
  obtain ⟨p1, p2, p3⟩ := prepareMove_released G ops rnd pos req t m hl hr hm
  have hd : ¬ t.dead = true := by rw [hdead]; decide
  unfold tetris.update
  rw [if_neg hd, if_neg hanim, playStep_prepareMove, hm]
  simp only [Option.some_bind]
  rw [lockStep_not_stuck G ops rnd m.pos m.xMove (m.autoDown || m.manualDown) _ m.session hs]
  exact ⟨_, rfl, p1, p2, p3⟩

theorem lateral_release_resets_witness :
    (∃ r, heldDownSession.update sampleGlobals restingOps (fun _ => 0) 0 downRequest 1 =
        some r ∧ r.1.lrMoveFrame = 0 ∧ r.1.lrFirstMoveFrame = 0 ∧
        r.1.manualMoveAllowed =
          (heldDownSession.manualMoveAllowed || !downRequest.moveDownRequest)) ∧
    (∃ r, heldDownSession.update sampleGlobals restingOps (fun _ => 0) 0 noRequest 1 =
        some r ∧ r.1.lrMoveFrame = 0 ∧ r.1.lrFirstMoveFrame = 0 ∧
        r.1.manualMoveAllowed =
          (heldDownSession.manualMoveAllowed || !noRequest.moveDownRequest)) :=
  ⟨lateral_release_resets sampleGlobals restingOps (fun _ => 0) 0 heldDownSession downRequest 1
      rfl (by decide) rfl rfl rfl,
   lateral_release_resets sampleGlobals restingOps (fun _ => 0) 0 heldDownSession noRequest 1
      rfl (by decide) rfl rfl rfl⟩

/-- C18. The soft-drop bonus is not consumed when the block locks: `dropLenght` is only
reset while the down key is released. From `dropSession` (`dropLenght = 0`), two calls with
the down key held: in the first call a manual descent fires and the block locks (bonus 1);
in the second call the next block locks on an automatic descent, no manual descent fires
(`setUpNext` left `manualMoveAllowed = false`) and the same bonus 1 is added again. The
lock-time bonus totals 2 for 1 manual descent, so the bound of the claim fails. -/
theorem soft_drop_bonus_paid_twice :
    dropSession.dropLenght = 0 ∧
    bonusRun sampleGlobals restingOps (fun _ => 0) [(downRequest, 1), (downRequest, 1)]
      (dropSession, 0) = some (2, 1) ∧
    ∃ s, runUpdates sampleGlobals restingOps (fun _ => 0) [(downRequest, 1), (downRequest, 1)]
        (dropSession, 0) = some s ∧
      s.1.score = dropSession.score + 2 ∧ s.1.dropLenght = 1 ∧ s.1.dead = false := by
  refine ⟨rfl, ?_, _, rfl, ?_, ?_, ?_⟩ <;> decide

/-! ## `balancing.update` -/

theorem sounds_set_length (s : List Bool) (i : Nat) (v : Bool) :
    (s.set i v).length = s.length := List.length_set _ _ _

/-! ## The weights of `getChoice` -/

theorem inOldChoices_iff (c : Int) (l : List Int) : inOldChoices c l = true ↔ c ∈ l := by
  induction l with
  | nil => simp [inOldChoices]
  | cons x rest ih =>
    by_cases hx : c = x
    · simp [inOldChoices, hx]
    · simp [inOldChoices, hx, ih]

theorem collectChoices_count (b : balancing) (hl : b.levels.length = numBalances)
    (hm : b.maxLevels.length = numBalances) :
    ∀ (fuel c : Nat) (acc : List Int), c + fuel = 5 →
      ∃ rest, collectChoices b fuel (c : Int) acc = some (acc ++ rest) ∧
        ∀ x : Int, (((c : Int) ≤ x ∧ belowMax b x) → rest.count x = poolWeight b x) ∧
          (¬ ((c : Int) ≤ x ∧ belowMax b x) → rest.count x = 0) := by
  intro fuel
  induction fuel with
  | zero =>
    intro c acc hc
    have hcond : ¬ ((c : Int) < ((numBalances : Nat) : Int)) := by simp only [numBalances]; omega
    refine ⟨[], by simp only [collectChoices, hcond, if_false, List.append_nil], fun x => ?_⟩
    refine ⟨?_, fun _ => rfl⟩
    rintro ⟨h1, h2⟩
    have := belowMax_lt b hl x h2
    omega
  | succ fuel ih =>
    intro c acc hc
    have hcond : (c : Int) < ((numBalances : Nat) : Int) := by simp only [numBalances]; omega
    have hcl : c < b.levels.length := by rw [hl]; simp only [numBalances]; omega
    have hcm : c < b.maxLevels.length := by rw [hm]; simp only [numBalances]; omega
    have hnext : (c : Int) + 1 = ((c + 1 : Nat) : Int) := by push_cast; ring
    obtain ⟨lv, hlv⟩ : ∃ lv, b.levels[c]? = some lv := ⟨_, List.getElem?_eq_getElem hcl⟩
    obtain ⟨mv, hmv⟩ : ∃ mv, b.maxLevels[c]? = some mv := ⟨_, List.getElem?_eq_getElem hcm⟩
    have hbm : belowMax b (c : Int) ↔ lv < mv := by
      unfold belowMax
      simp only [goIndex_natCast, hlv, hmv, Option.some.injEq]
      constructor
      · rintro ⟨l, m, rfl, rfl, h⟩; exact h
      · intro h; exact ⟨lv, mv, rfl, rfl, h⟩
    have hself : ∀ rest : List Int,
        (∀ x : Int, ((((c + 1 : Nat) : Int) ≤ x ∧ belowMax b x) → rest.count x = poolWeight b x) ∧
          (¬ (((c + 1 : Nat) : Int) ≤ x ∧ belowMax b x) → rest.count x = 0)) →
        rest.count (c : Int) = 0 := by
      intro rest h
      exact (h (c : Int)).2 (by rintro ⟨a, _⟩; push_cast at a; omega)
    have hother : ∀ (rest : List Int) (x : Int), x ≠ (c : Int) →
        ((((c + 1 : Nat) : Int) ≤ x ∧ belowMax b x) → rest.count x = poolWeight b x) ∧
          (¬ (((c + 1 : Nat) : Int) ≤ x ∧ belowMax b x) → rest.count x = 0) →
        (((c : Int) ≤ x ∧ belowMax b x) → rest.count x = poolWeight b x) ∧
          (¬ ((c : Int) ≤ x ∧ belowMax b x) → rest.count x = 0) := by
      intro rest x hx h
      constructor
      · rintro ⟨a, b'⟩
        exact h.1 ⟨by push_cast; omega, b'⟩
      · intro hn
        exact h.2 (by rintro ⟨a, b'⟩; exact hn ⟨by push_cast at a; omega, b'⟩)
    simp only [collectChoices, hcond, if_true, goIndex_natCast, hlv, hmv, Option.bind_eq_bind,
      Option.some_bind, hnext]
    by_cases hlt : lv < mv
    · simp only [hlt, if_true]
      by_cases hold : inOldChoices (c : Int) b.choices = true
      · simp only [hold, if_true]
        obtain ⟨rest, h1, h2⟩ := ih (c + 1) (acc ++ [(c : Int)]) (by omega)
        refine ⟨[(c : Int)] ++ rest, by rw [h1, List.append_assoc], fun x => ?_⟩
        by_cases hx : x = (c : Int)
        · subst hx
          have h0 := hself rest h2
          refine ⟨fun _ => ?_, fun hn => absurd ⟨le_refl _, hbm.mpr hlt⟩ hn⟩
          simp only [List.count_append, List.count_singleton, h0, poolWeight, hold, if_true,
            beq_self_eq_true]
        · have hcx : ¬ ((c : Int) = x) := fun h => hx h.symm
          have := hother rest x hx (h2 x)
          simpa only [List.count_append, List.count_singleton, beq_iff_eq, hcx, if_false,
            Nat.zero_add] using this
      · simp only [hold, Bool.false_eq_true, if_false]
        obtain ⟨rest, h1, h2⟩ := ih (c + 1) ((acc ++ [(c : Int)]) ++ [(c : Int)]) (by omega)
        refine ⟨[(c : Int)] ++ ([(c : Int)] ++ rest),
          by rw [h1]; simp only [List.append_assoc], fun x => ?_⟩
        by_cases hx : x = (c : Int)
        · subst hx
          have h0 := hself rest h2
          refine ⟨fun _ => ?_, fun hn => absurd ⟨le_refl _, hbm.mpr hlt⟩ hn⟩
          simp only [List.count_append, List.count_singleton, h0, poolWeight, hold,
            Bool.false_eq_true, if_false, beq_self_eq_true, if_true]
        · have hcx : ¬ ((c : Int) = x) := fun h => hx h.symm
          have := hother rest x hx (h2 x)
          simpa only [List.count_append, List.count_singleton, beq_iff_eq, hcx, if_false,
            Nat.zero_add] using this
    · simp only [hlt, if_false]
      obtain ⟨rest, h1, h2⟩ := ih (c + 1) acc (by omega)
      refine ⟨rest, h1, fun x => ?_⟩
      by_cases hx : x = (c : Int)
      · subst hx
        have h0 := hself rest h2
        exact ⟨fun h => absurd (hbm.mp h.2) hlt, fun _ => h0⟩
      · exact hother rest x hx (h2 x)

theorem drawChoices_prefix (f : List Int → Nat → List Int) (rnd : RandSource) :
    ∀ (fuel k : Nat) (cs p : List Int) (pos : Nat) (st' : ChoiceState),
      drawChoices f rnd fuel (ChoiceState.mk cs p (k : Int) pos) = some st' →
      st'.choices.take k = cs.take k := by
  intro fuel
  induction fuel with
  | zero =>
    intro k cs p pos st' h
    simp only [drawChoices] at h
    split_ifs at h
    simp only [Option.some.injEq] at h
    subst h
    rfl
  | succ fuel ih =>
    intro k cs p pos st' h
    simp only [drawChoices] at h
    split_ifs at h with hc
    · simp only [Option.bind_eq_bind, Option.bind_eq_some] at h
      obtain ⟨v, _, cs1, hcs1, q, _, hrec⟩ := h
      have hkl : k < cs.length := by omega
      rw [goAssign_natCast _ _ _ hkl] at hcs1
      have hcs : cs1 = cs.set k v := (Option.some.inj hcs1).symm
      subst hcs
      have hnext : (k : Int) + 1 = ((k + 1 : Nat) : Int) := by push_cast; ring
      rw [hnext] at hrec
      have := congrArg (List.take k) (ih (k + 1) (cs.set k v) q (pos + 1) st' hrec)
      simp only [List.take_take, Nat.min_eq_left (Nat.le_succ k)] at this
      rw [this, take_set_self]
    · simp only [Option.some.injEq] at h
      subst h
      rfl

theorem drawChoices_first (f : List Int → Nat → List Int) (rnd : RandSource)
    (fuel : Nat) (cs p : List Int) (pos : Nat) (st' : ChoiceState)
    (hp : 0 < p.length) (hc : 0 < cs.length)
    (h : drawChoices f rnd (fuel + 1) (ChoiceState.mk cs p ((0 : Nat) : Int) pos) = some st') :
    st'.choices[0]? = p[rnd pos % p.length]? := by
  simp only [drawChoices] at h
  have hcond : 0 < p.length ∧ (((0 : Nat) : Int)) < (cs.length : Int) := ⟨hp, by omega⟩
  rw [if_pos hcond] at h
  simp only [Option.bind_eq_bind, Option.bind_eq_some] at h
  obtain ⟨v, hv, cs1, hcs1, q, _, hrec⟩ := h
  rw [goAssign_natCast _ _ _ hc] at hcs1
  have hcs : cs1 = cs.set 0 v := (Option.some.inj hcs1).symm
  subst hcs
  have hnext : (((0 : Nat) : Int)) + 1 = ((1 : Nat) : Int) := rfl
  rw [hnext] at hrec
  have h1 := drawChoices_prefix f rnd fuel 1 (cs.set 0 v) q (pos + 1) st' hrec
  have h2 := congrArg (fun l => l[0]?) h1
  simp only [List.getElem?_take_of_lt Nat.zero_lt_one] at h2
  rw [h2, hv]
  simp [hc]

/-- C11, as stated, fails: `getChoice` offers categories of the previous slate again. From
`sampleBalance` (previous slate `[1, 4, -1]`) with the draws `3, 10, 17` the new slate is
`[4, 3, 1]`: the entries 4 and 1 were in the previous slate. -/
theorem previous_choices_offered_again :
    ¬ (∀ (removeElement : List Int → Nat → List Int) (rnd : RandSource) (pos : Nat)
        (b b' : balancing) (pos' : Nat), RemovesAt removeElement →
        b.levels.length = numBalances → b.maxLevels.length = numBalances →
        b.getChoice removeElement rnd pos = some (b', pos') →
        ∀ c ∈ b'.choices, c ≠ -1 → c ∉ b.choices) := by
  intro h
  have h0 := h List.eraseIdx (fun n => n * 7 + 3) 0 sampleBalance _ _ eraseIdx_removesAt rfl rfl
    rfl 4 (by decide) (by decide)
  exact h0 (by decide)

/-- C11, amended. `getChoice` does not exclude the categories of the previous slate, it
halves their weight: the pool of candidates holds every category below its maximum level,
once when it is in the previous slate and twice otherwise, and nothing else; the first
entry of the new slate is the pool element at index `rand.Intn(len(pool))`; every
non-sentinel entry of the new slate is a category below its maximum level; and when at most
`len(choices)` categories are below their maximum, each of them is offered, whether or not
it was in the previous slate. -/
theorem getChoice_weights (removeElement : List Int → Nat → List Int)
    (hrem : RemovesAt removeElement) (rnd : RandSource) (pos : Nat) (b : balancing)
    (hl : b.levels.length = numBalances) (hm : b.maxLevels.length = numBalances) :
    ∃ (p : List Int) (b' : balancing) (pos' : Nat),
      collectChoices b numBalances 0 [] = some p ∧
      (∀ c, belowMax b c → c ∈ b.choices → p.count c = 1) ∧
      (∀ c, belowMax b c → c ∉ b.choices → p.count c = 2) ∧
      (∀ c, ¬ belowMax b c → p.count c = 0) ∧
      b.getChoice removeElement rnd pos = some (b', pos') ∧
      (0 < p.length → 0 < b.choices.length → b'.choices[0]? = p[rnd pos % p.length]?) ∧
      (∀ c ∈ b'.choices, c ≠ -1 → belowMax b c) ∧
      (eligibleCount b ≤ b.choices.length → ∀ c, belowMax b c → c ∈ b'.choices) := by
  obtain ⟨p, hp1, hp3⟩ := collectChoices_count b hl hm 5 0 [] rfl
  rw [List.nil_append] at hp1
  have hp2 : ∀ x : Int, x ∈ p ↔ (((0 : Nat) : Int) ≤ x ∧ belowMax b x) := by
    intro x
    constructor
    · intro hx
      by_contra hn
      have := (hp3 x).2 hn
      exact (List.count_eq_zero.mp this) hx
    · intro hx
      have := (hp3 x).1 hx
      have hpos : 0 < p.count x := by
        rw [this]; unfold poolWeight; split_ifs <;> decide
      exact List.count_pos_iff.mp hpos
  have hcard := eligible_card b hl hm p hp2
  obtain ⟨st, k, d1, d2, d3, d4, d5, d6⟩ := drawChoices_spec removeElement hrem rnd
    (belowMax b) (eligibleCount b) b.choices.length 0 b.choices p pos rfl (by simp)
    (by simp) (fun x hx => ((hp2 x).mp hx).2) (by rw [hcard]; rfl)
  obtain ⟨cs', f1, f2, f3, f4⟩ := fillSentinel_spec b.choices.length k st.choices
    (by rw [d4]; omega)
  have hp1' : collectChoices b numBalances 0 [] = some p := hp1
  have hget : b.getChoice removeElement rnd pos =
      some ({ b with choices := cs', numChoices := (k : Int) }, st.pos) := by
    unfold balancing.getChoice
    simp only [Nat.cast_zero] at d1
    rw [hp1']
    simp only [Option.bind_eq_bind, Option.some_bind]
    rw [d1]
    simp only [Option.some_bind, d2, f1]
  have hnn : ∀ c, belowMax b c → ((0 : Nat) : Int) ≤ c := fun c hc => by
    simpa using belowMax_nonneg b c hc
  refine ⟨p, _, _, hp1', ?_, ?_, ?_, hget, ?_, ?_, ?_⟩
  · intro c hc hold
    rw [(hp3 c).1 ⟨hnn c hc, hc⟩]
    unfold poolWeight
    rw [if_pos ((inOldChoices_iff c b.choices).mpr hold)]
  · intro c hc hold
    rw [(hp3 c).1 ⟨hnn c hc, hc⟩]
    unfold poolWeight
    rw [if_neg (fun h => hold ((inOldChoices_iff c b.choices).mp h))]
  · intro c hc
    exact (hp3 c).2 (fun h => hc h.2)
  · intro hp0 hc0
    show cs'[0]? = _
    have hk1 : 1 ≤ k := by
      have : 0 < p.toFinset.card := by
        obtain ⟨x, hx⟩ := List.exists_mem_of_length_pos hp0
        exact Finset.card_pos.mpr ⟨x, List.mem_toFinset.mpr hx⟩
      rw [d3]
      omega
    obtain ⟨fuel, hfuel⟩ : ∃ fuel, b.choices.length = fuel + 1 := ⟨b.choices.length - 1, by omega⟩
    rw [hfuel] at d1
    have h1 := drawChoices_first removeElement rnd fuel b.choices p pos st hp0 hc0 d1
    have h2 := congrArg (fun l => l[0]?) f3
    simp only [List.getElem?_take_of_lt (Nat.lt_of_lt_of_le Nat.zero_lt_one hk1)] at h2
    rw [h2, h1]
  · intro c hc hne
    show belowMax b c
    have hc' : c ∈ cs' := hc
    obtain ⟨i, hi⟩ := List.mem_iff_getElem?.mp hc'
    have hilt : i < cs'.length := (List.getElem?_eq_some.mp hi).1
    by_cases hik : i < k
    · apply d6
      rw [← f3]
      exact List.mem_iff_getElem?.mpr ⟨i, by rw [List.getElem?_take_of_lt hik]; exact hi⟩
    · have := f4 i (by omega) (by rw [← f2]; exact hilt)
      rw [this] at hi
      exact absurd (Option.some.inj hi).symm hne
  · intro hle c hc
    show c ∈ cs'
    have hk : k = eligibleCount b := by rw [d3]; omega
    have hsub : (cs'.take k).toFinset ⊆ p.toFinset := by
      intro x hx
      rw [List.mem_toFinset] at hx ⊢
      rw [f3] at hx
      exact (hp2 x).mpr ⟨hnn x (d6 x hx), d6 x hx⟩
    have hlen : (cs'.take k).length = k := by
      rw [List.length_take, f2, d4]
      omega
    have hcardk : (cs'.take k).toFinset.card = k := by
      rw [List.toFinset_card_of_nodup (by rw [f3]; exact d5), hlen]
    have heq : (cs'.take k).toFinset = p.toFinset :=
      Finset.eq_of_subset_of_card_le hsub (by rw [hcardk, hcard, hk])
    have hcp : c ∈ p.toFinset := List.mem_toFinset.mpr ((hp2 c).mpr ⟨hnn c hc, hc⟩)
    rw [← heq, List.mem_toFinset] at hcp
    exact List.mem_of_mem_take hcp

theorem getChoice_weights_witness :
    ∃ (p : List Int) (b' : balancing) (pos' : Nat),
      collectChoices sampleBalance numBalances 0 [] = some p ∧
      (∀ c, belowMax sampleBalance c → c ∈ sampleBalance.choices → p.count c = 1) ∧
      (∀ c, belowMax sampleBalance c → c ∉ sampleBalance.choices → p.count c = 2) ∧
      (∀ c, ¬ belowMax sampleBalance c → p.count c = 0) ∧
      sampleBalance.getChoice List.eraseIdx (fun n => n * 7 + 3) 0 = some (b', pos') ∧
      (0 < p.length → 0 < sampleBalance.choices.length →
        b'.choices[0]? = p[(fun n => n * 7 + 3) 0 % p.length]?) ∧
      (∀ c ∈ b'.choices, c ≠ -1 → belowMax sampleBalance c) ∧
      (eligibleCount sampleBalance ≤ sampleBalance.choices.length →
        ∀ c, belowMax sampleBalance c → c ∈ b'.choices) :=
  getChoice_weights List.eraseIdx eraseIdx_removesAt (fun n => n * 7 + 3) 0 sampleBalance rfl rfl

/-! ## No complete row is left by the compaction -/

theorem mem_keptRows (tr : List Bool) (lo : Nat) (rows : List tetrisLine) (row : tetrisLine)
    (h : row ∈ keptRows tr lo rows) :
    ∃ j, rows[j]? = some row ∧ isFlagged tr lo j = false := by
  unfold keptRows at h
  obtain ⟨p, hp, rfl⟩ := List.mem_map.mp h
  obtain ⟨hp1, hp2⟩ := List.mem_filter.mp hp
  refine ⟨p.1, List.mem_enum_iff_getElem?.mp hp1, ?_⟩
  simpa using hp2

theorem emptyLine_not_complete (width : Nat) (hw : 1 ≤ width) :
    lineComplete (emptyLine width) = false := by
  obtain ⟨w, rfl⟩ : ∃ w, width = w + 1 := ⟨width - 1, by omega⟩
  simp [lineComplete, emptyLine, List.replicate_succ]

/-- C29. Compaction leaves no complete row: for a grid of width at least 1 and a checked
range `lo .. hi` with `lo ≤ hi < rows` and `hi - lo ≤ 3` that contains every complete (all
non-zero) row of the grid, `checkLines` followed by `removeLines` returns a grid of the same
height in which no row is complete. -/
theorem compaction_no_complete_row (width : Nat) (t : tetris) (lo hi : Nat)
    (htc : t.toCheck = ((lo : Int), (hi : Int)))
    (hle : lo ≤ hi) (hhi : hi < t.area.length) (hlen : hi - lo ≤ 3) (hw : 1 ≤ width)
    (hin : ∀ i, rowComplete t.area i = true → lo ≤ i ∧ i ≤ hi) :
    ∃ (n fa : Int) (toRemove : List Bool) (t1 t2 : tetris),
      t.checkLines = some (n, fa, toRemove) ∧
      t.storeCheck = some t1 ∧ t1.removeLines width = some t2 ∧
      t2.area.length = t.area.length ∧
      (∀ i, rowComplete t2.area i = false) ∧
      ∀ row ∈ t2.area, lineComplete row = false := by
  obtain ⟨fa, tr, t1, t2, c1, c2, c3, _, _, _, _, _, c9, c10, c11, _⟩ :=
    removeLines_after_check width t lo hi htc hle hhi hlen
  have hrows : ∀ row ∈ t2.area, lineComplete row = false := by
    intro row hrow
    rw [c10] at hrow
    rcases List.mem_append.mp hrow with h | h
    · rcases List.mem_append.mp h with h | h
      · rw [List.eq_of_mem_replicate h]
        exact emptyLine_not_complete width hw
      · obtain ⟨j, hj, hfl⟩ := mem_keptRows tr lo _ row h
        have hjlt : j < hi + 1 := by
          have := (List.getElem?_eq_some.mp hj).1
          simp only [List.length_take] at this
          omega
        rw [List.getElem?_take_of_lt hjlt] at hj
        rw [← rowComplete_of_getElem? t.area j row hj]
        by_contra hc
        have hc' : rowComplete t.area j = true := by simpa using hc
        obtain ⟨h1, h2⟩ := hin j hc'
        rw [isFlagged_eq_rowComplete t.area lo hi tr c2 j h1 h2, hc'] at hfl
        exact Bool.noConfusion hfl
    · obtain ⟨j, hj⟩ := List.mem_iff_getElem?.mp h
      rw [List.getElem?_drop] at hj
      rw [← rowComplete_of_getElem? t.area (hi + 1 + j) row hj]
      by_contra hc
      have hc' : rowComplete t.area (hi + 1 + j) = true := by simpa using hc
      have := (hin _ hc').2
      omega
  refine ⟨_, fa, tr, t1, t2, c1, c3, c9, ?_, ?_, hrows⟩
  · rw [c10]
    simp only [List.length_append, List.length_replicate, List.length_drop]
    omega
  · intro i
    unfold rowComplete
    cases hrow : t2.area[i]? with
    | none => rfl
    | some row => exact hrows row (List.getElem?_mem hrow)

theorem compaction_no_complete_row_witness :
    ∃ (n fa : Int) (toRemove : List Bool) (t1 t2 : tetris),
      (sessionWith sampleGrid (2, 5)).checkLines = some (n, fa, toRemove) ∧
      (sessionWith sampleGrid (2, 5)).storeCheck = some t1 ∧ t1.removeLines 2 = some t2 ∧
      t2.area.length = (sessionWith sampleGrid (2, 5)).area.length ∧
      (∀ i, rowComplete t2.area i = false) ∧
      ∀ row ∈ t2.area, lineComplete row = false :=
  compaction_no_complete_row 2 (sessionWith sampleGrid (2, 5)) 2 5 rfl (by decide) (by decide)
    (by decide) (by decide)
    (fun i h => by
      have hi : i < 7 := by
        by_contra hge
        have : (sessionWith sampleGrid (2, 5)).area[i]? = none :=
          List.getElem?_eq_none (by show sampleGrid.length ≤ i; simp [sampleGrid]; omega)
        simp [rowComplete, this] at h
      interval_cases i <;> first | (constructor <;> decide) | exact absurd h (by decide))

/-! ## Index safety of `checkLines` and `removeLines` -/

theorem checkLoopLog_erase (area : tetrisGrid) (hi : Int) :
    ∀ (fuel : Nat) (l : Int) (st : CheckState),
      (checkLoopLog area hi fuel l st).map Prod.fst = checkLoop area hi fuel l st := by
  intro fuel
  induction fuel with
  | zero =>
    intro l st
    simp only [checkLoopLog, checkLoop]
    split_ifs <;> rfl
  | succ fuel ih =>
    intro l st
    simp only [checkLoopLog, checkLoop]
    split_ifs with h1
    · cases hline : goIndex area l with
      | none => rfl
      | some line =>
        simp only [Option.bind_eq_bind, Option.some_bind]
        split_ifs with h2
        · rw [← ih]
          cases checkLoopLog area hi fuel (l + 1) _ <;> rfl
        · cases hset : goAssign st.toRemove (st.count + 1) true with
          | none => rfl
          | some tr =>
            simp only [Option.some_bind]
            rw [← ih]
            cases checkLoopLog area hi fuel (l + 1) _ <;> rfl
    · rfl

theorem checkLinesLog_erase (t : tetris) : t.checkLinesLog.map Prod.fst = t.checkLines := by
  simp only [tetris.checkLinesLog, tetris.checkLines, ← checkLoopLog_erase]
  cases checkLoopLog t.area t.toCheck.2 _ t.toCheck.1 _ <;> rfl

theorem skipRemovedLog_erase (tr : List Bool) (lo : Int) :
    ∀ (fuel : Nat) (fa : Int),
      (skipRemovedLog tr lo fuel fa).map Prod.fst = skipRemoved tr lo fuel fa := by
  intro fuel
  induction fuel with
  | zero =>
    intro fa
    simp only [skipRemovedLog, skipRemoved]
    split_ifs with h1
    · cases goIndex tr (fa - lo) with
      | none => rfl
      | some flag => cases flag <;> rfl
    · rfl
  | succ fuel ih =>
    intro fa
    simp only [skipRemovedLog, skipRemoved]
    split_ifs with h1
    · cases goIndex tr (fa - lo) with
      | none => rfl
      | some flag =>
        cases flag
        · rfl
        · simp only [Option.bind_eq_bind, Option.some_bind, if_true]
          rw [← ih]
          cases skipRemovedLog tr lo fuel (fa - 1) <;> rfl
    · rfl

theorem removeInZoneLog_erase (width : Nat) (tr : List Bool) (lo : Int) :
    ∀ (fuel : Nat) (y : Int) (st : tetrisGrid × Int),
      (removeInZoneLog width tr lo fuel y st).map Prod.fst =
        removeInZone width tr lo fuel y st := by
  intro fuel
  induction fuel with
  | zero =>
    intro y st
    simp only [removeInZoneLog, removeInZone]
    split_ifs <;> rfl
  | succ fuel ih =>
    intro y st
    obtain ⟨area, fa⟩ := st
    simp only [removeInZoneLog, removeInZone]
    split_ifs with h1 h2
    · cases goIndex area fa with
      | none => rfl
      | some src =>
        simp only [Option.bind_eq_bind, Option.some_bind]
        cases goAssign area y src with
        | none => rfl
        | some area1 =>
          simp only [Option.some_bind]
          rw [← skipRemovedLog_erase]
          cases skipRemovedLog tr lo (fa - lo).toNat (fa - 1) with
          | none => rfl
          | some s =>
            simp only [Option.map_some', Option.some_bind]
            rw [← ih]
            cases removeInZoneLog width tr lo fuel (y - 1) (area1, s.1) <;> rfl
    · cases goAssign area y (emptyLine width) with
      | none => rfl
      | some area1 =>
        simp only [Option.bind_eq_bind, Option.some_bind]
        rw [← ih]
        cases removeInZoneLog width tr lo fuel (y - 1) (area1, fa) <;> rfl
    · rfl

theorem removeAboveZoneLog_erase (width : Nat) :
    ∀ (fuel : Nat) (y : Int) (st : tetrisGrid × Int),
      (removeAboveZoneLog width fuel y st).map Prod.fst = removeAboveZone width fuel y st := by
  intro fuel
  induction fuel with
  | zero =>
    intro y st
    simp only [removeAboveZoneLog, removeAboveZone]
    split_ifs <;> rfl
  | succ fuel ih =>
    intro y st
    obtain ⟨area, fa⟩ := st
    simp only [removeAboveZoneLog, removeAboveZone]
    split_ifs with h1 h2
    · cases goIndex area fa with
      | none => rfl
      | some src =>
        simp only [Option.bind_eq_bind, Option.some_bind]
        cases goAssign area y src with
        | none => rfl
        | some area1 =>
          simp only [Option.some_bind]
          rw [← ih]
          cases removeAboveZoneLog width fuel (y - 1) (area1, fa - 1) <;> rfl
    · cases goAssign area y (emptyLine width) with
      | none => rfl
      | some area1 =>
        simp only [Option.bind_eq_bind, Option.some_bind]
        rw [← ih]
        cases removeAboveZoneLog width fuel (y - 1) (area1, fa) <;> rfl
    · rfl

theorem removeLinesLog_erase (width : Nat) (t : tetris) :
    (t.removeLinesLog width).map Prod.fst = t.removeLines width := by
  simp only [tetris.removeLinesLog, tetris.removeLines, ← removeInZoneLog_erase,
    ← removeAboveZoneLog_erase]
  cases removeInZoneLog width t.toRemove t.toCheck.1 _ t.toCheck.2 _ with
  | none => rfl
  | some r1 =>
    simp only [Option.bind_eq_bind, Option.some_bind, Option.map_some']
    cases removeAboveZoneLog width t.toCheck.1.toNat (t.toCheck.1 - 1) r1.1 <;> rfl

theorem goIndex_bounds {α : Type} (a : List α) (i : Int) (v : α) (h : goIndex a i = some v) :
    0 ≤ i ∧ i < (a.length : Int) := by
  unfold goIndex at h
  split_ifs at h with h0
  have := (List.getElem?_eq_some.mp h).1
  omega

theorem goAssign_bounds {α : Type} (a a' : List α) (i : Int) (v : α)
    (h : goAssign a i v = some a') :
    0 ≤ i ∧ i < (a.length : Int) ∧ a'.length = a.length := by
  unfold goAssign at h
  split_ifs at h with h0
  simp only [Option.some.injEq] at h
  subst h
  refine ⟨h0.1, by omega, List.length_set _ _ _⟩

theorem checkLoopLog_safe (area : tetrisGrid) (hi : Int) :
    ∀ (fuel : Nat) (l : Int) (st : CheckState) (r : CheckState × List Access),
      st.toRemove.length = 4 → st.firstAvailable ≤ hi →
      checkLoopLog area hi fuel l st = some r →
      r.1.toRemove.length = 4 ∧ r.1.firstAvailable ≤ hi ∧
        ∀ a ∈ r.2, a.inBounds area.length = true := by
  intro fuel
  induction fuel with
  | zero =>
    intro l st r htr hfa h
    simp only [checkLoopLog] at h
    split_ifs at h
    simp only [Option.some.injEq] at h
    subst h
    exact ⟨htr, hfa, fun a ha => by simp at ha⟩
  | succ fuel ih =>
    intro l st r htr hfa h
    simp only [checkLoopLog] at h
    split_ifs at h with h1
    · simp only [Option.bind_eq_bind, Option.bind_eq_some] at h
      obtain ⟨line, hline, h⟩ := h
      have hb := goIndex_bounds area l line hline
      have hl : (Access.area l).inBounds area.length = true := by
        simp only [Access.inBounds, decide_eq_true_eq]; exact hb
      split_ifs at h with h2
      · simp only [Option.bind_eq_some, Option.some.injEq] at h
        obtain ⟨r', hr', rfl⟩ := h
        obtain ⟨a1, a2, a3⟩ := ih (l + 1)
          (CheckState.mk (st.count + 1) l st.toRemove st.toRemoveNum) r' htr h1 hr'
        refine ⟨a1, a2, fun a ha => ?_⟩
        rcases List.mem_cons.mp ha with rfl | ha
        · exact hl
        · exact a3 a ha
      · simp only [Option.bind_eq_some, Option.some.injEq] at h
        obtain ⟨tr, htr', r', hr', rfl⟩ := h
        obtain ⟨b1, b2, b3⟩ := goAssign_bounds _ _ _ _ htr'
        obtain ⟨a1, a2, a3⟩ := ih (l + 1)
          (CheckState.mk (st.count + 1) st.firstAvailable tr (st.toRemoveNum + 1)) r'
          (by show tr.length = 4; rw [b3]; exact htr) hfa hr'
        refine ⟨a1, a2, fun a ha => ?_⟩
        rcases List.mem_cons.mp ha with rfl | ha
        · exact hl
        · rcases List.mem_cons.mp ha with rfl | ha
          · simp only [Access.inBounds, decide_eq_true_eq]
            rw [htr] at b2
            omega
          · exact a3 a ha
    · simp only [Option.some.injEq] at h
      subst h
      exact ⟨htr, hfa, fun a ha => by simp at ha⟩

theorem skipRemovedLog_safe (tr : List Bool) (lo : Int) (htr : tr.length = 4) (rows : Nat) :
    ∀ (fuel : Nat) (fa : Int) (r : Int × List Access),
      skipRemovedLog tr lo fuel fa = some r →
      r.1 ≤ fa ∧ ∀ a ∈ r.2, a.inBounds rows = true := by
  have hflag : ∀ (fa : Int) (flag : Bool), goIndex tr (fa - lo) = some flag →
      (Access.toRemove (fa - lo)).inBounds rows = true := by
    intro fa flag h
    have := goIndex_bounds tr _ flag h
    simp only [Access.inBounds, decide_eq_true_eq]
    omega
  intro fuel
  induction fuel with
  | zero =>
    intro fa r h
    simp only [skipRemovedLog] at h
    split_ifs at h with h1
    · simp only [Option.bind_eq_bind, Option.bind_eq_some] at h
      obtain ⟨flag, hf, h⟩ := h
      split_ifs at h
      simp only [Option.some.injEq] at h
      subst h
      exact ⟨le_refl _, fun a ha => by
        rw [List.mem_singleton.mp ha]; exact hflag fa flag hf⟩
    · simp only [Option.some.injEq] at h
      subst h
      exact ⟨le_refl _, fun a ha => by simp at ha⟩
  | succ fuel ih =>
    intro fa r h
    simp only [skipRemovedLog] at h
    split_ifs at h with h1
    · simp only [Option.bind_eq_bind, Option.bind_eq_some] at h
      obtain ⟨flag, hf, h⟩ := h
      split_ifs at h
      · simp only [Option.bind_eq_some, Option.some.injEq] at h
        obtain ⟨r', hr', rfl⟩ := h
        obtain ⟨a1, a2⟩ := ih (fa - 1) r' hr'
        refine ⟨by show r'.1 ≤ fa; omega, fun a ha => ?_⟩
        rcases List.mem_cons.mp ha with rfl | ha
        · exact hflag fa flag hf
        · exact a2 a ha
      · simp only [Option.some.injEq] at h
        subst h
        exact ⟨le_refl _, fun a ha => by
          rw [List.mem_singleton.mp ha]; exact hflag fa flag hf⟩
    · simp only [Option.some.injEq] at h
      subst h
      exact ⟨le_refl _, fun a ha => by simp at ha⟩

theorem removeInZoneLog_safe (width : Nat) (tr : List Bool) (lo : Int) (htr : tr.length = 4)
    (_hlo : 0 ≤ lo) (rows : Nat) :
    ∀ (fuel : Nat) (y : Int) (area : tetrisGrid) (fa : Int)
      (r : (tetrisGrid × Int) × List Access),
      area.length = rows → fa ≤ y → lo - 1 ≤ y →
      removeInZoneLog width tr lo fuel y (area, fa) = some r →
      r.1.1.length = rows ∧ r.1.2 ≤ lo - 1 ∧ ∀ a ∈ r.2, a.inBounds rows = true := by
  intro fuel
  induction fuel with
  | zero =>
    intro y area fa r hlen hfa hy h
    simp only [removeInZoneLog] at h
    split_ifs at h with h1
    simp only [Option.some.injEq] at h
    subst h
    exact ⟨hlen, by show fa ≤ lo - 1; omega, fun a ha => by simp at ha⟩
  | succ fuel ih =>
    intro y area fa r hlen hfa hy h
    simp only [removeInZoneLog] at h
    split_ifs at h with h1 h2
    · simp only [Option.bind_eq_bind, Option.bind_eq_some, Option.some.injEq] at h
      obtain ⟨src, hsrc, area1, harea1, s, hs, r', hr', rfl⟩ := h
      obtain ⟨b1, b2, b3⟩ := goAssign_bounds _ _ _ _ harea1
      obtain ⟨s1, s2⟩ := skipRemovedLog_safe tr lo htr rows _ _ s hs
      obtain ⟨a1, a2, a3⟩ := ih (y - 1) area1 s.1 r' (by rw [b3]; exact hlen) (by omega)
        (by omega) hr'
      refine ⟨a1, a2, fun a ha => ?_⟩
      rcases List.mem_cons.mp ha with rfl | ha
      · simp only [Access.inBounds, decide_eq_true_eq]
        rw [hlen] at b2
        exact ⟨h2, hfa, b2⟩
      · rcases List.mem_append.mp ha with ha | ha
        · exact s2 a ha
        · exact a3 a ha
    · simp only [Option.bind_eq_bind, Option.bind_eq_some, Option.some.injEq] at h
      obtain ⟨area1, harea1, r', hr', rfl⟩ := h
      obtain ⟨b1, b2, b3⟩ := goAssign_bounds _ _ _ _ harea1
      obtain ⟨a1, a2, a3⟩ := ih (y - 1) area1 fa r' (by rw [b3]; exact hlen) (by omega)
        (by omega) hr'
      refine ⟨a1, a2, fun a ha => ?_⟩
      rcases List.mem_cons.mp ha with rfl | ha
      · simp only [Access.inBounds, decide_eq_true_eq]
        rw [hlen] at b2
        exact ⟨b1, b2⟩
      · exact a3 a ha
    · simp only [Option.some.injEq] at h
      subst h
      exact ⟨hlen, by show fa ≤ lo - 1; omega, fun a ha => by simp at ha⟩

theorem removeAboveZoneLog_safe (width : Nat) (rows : Nat) :
    ∀ (fuel : Nat) (y : Int) (area : tetrisGrid) (fa : Int)
      (r : (tetrisGrid × Int) × List Access),
      area.length = rows → fa ≤ y → -1 ≤ y →
      removeAboveZoneLog width fuel y (area, fa) = some r →
      r.1.1.length = rows ∧ ∀ a ∈ r.2, a.inBounds rows = true := by
  intro fuel
  induction fuel with
  | zero =>
    intro y area fa r hlen hfa hy h
    simp only [removeAboveZoneLog] at h
    split_ifs at h with h1
    simp only [Option.some.injEq] at h
    subst h
    exact ⟨hlen, fun a ha => by simp at ha⟩
  | succ fuel ih =>
    intro y area fa r hlen hfa hy h
    simp only [removeAboveZoneLog] at h
    split_ifs at h with h1 h2
    · simp only [Option.bind_eq_bind, Option.bind_eq_some, Option.some.injEq] at h
      obtain ⟨src, hsrc, area1, harea1, r', hr', rfl⟩ := h
      obtain ⟨b1, b2, b3⟩ := goAssign_bounds _ _ _ _ harea1
      obtain ⟨a1, a3⟩ := ih (y - 1) area1 (fa - 1) r' (by rw [b3]; exact hlen) (by omega)
        (by omega) hr'
      refine ⟨a1, fun a ha => ?_⟩
      rcases List.mem_cons.mp ha with rfl | ha
      · simp only [Access.inBounds, decide_eq_true_eq]
        rw [hlen] at b2
        exact ⟨h2, hfa, b2⟩
      · exact a3 a ha
    · simp only [Option.bind_eq_bind, Option.bind_eq_some, Option.some.injEq] at h
      obtain ⟨area1, harea1, r', hr', rfl⟩ := h
      obtain ⟨b1, b2, b3⟩ := goAssign_bounds _ _ _ _ harea1
      obtain ⟨a1, a3⟩ := ih (y - 1) area1 fa r' (by rw [b3]; exact hlen) (by omega)
        (by omega) hr'
      refine ⟨a1, fun a ha => ?_⟩
      rcases List.mem_cons.mp ha with rfl | ha
      · simp only [Access.inBounds, decide_eq_true_eq]
        rw [hlen] at b2
        exact ⟨b1, b2⟩
      · exact a3 a ha
    · simp only [Option.some.injEq] at h
      subst h
      exact ⟨hlen, fun a ha => by simp at ha⟩

theorem map_fst_eq_some {α β : Type} (o : Option (α × β)) (x : α)
    (h : o.map Prod.fst = some x) : ∃ y, o = some (x, y) := by
  cases o with
  | none => simp at h
  | some p =>
    obtain ⟨a, b⟩ := p
    simp only [Option.map_some', Option.some.injEq] at h
    subst h
    exact ⟨b, rfl⟩

/-- C30. Index safety of the row algorithms: for a grid and a checked range `lo .. hi` with
`lo ≤ hi < rows` and `hi - lo ≤ 3`, `checkLines` and the subsequent `removeLines` return,
and every array access they make is in bounds: each `toRemove[...]` index lies in `0 .. 3`,
each `area[...]` index lies in `0 .. rows - 1`, and each row copy
`area[y] = area[firstAvailable]` has `0 ≤ firstAvailable ≤ y < rows`, so a donor row is
never read after it was overwritten. The logged functions return the same results as
`checkLines` and `removeLines`. -/
theorem row_algorithms_index_safe (width : Nat) (t : tetris) (lo hi : Nat)
    (htc : t.toCheck = ((lo : Int), (hi : Int)))
    (hle : lo ≤ hi) (hhi : hi < t.area.length) (hlen : hi - lo ≤ 3) :
    ∃ (r : Int × Int × List Bool) (log1 : List Access) (t1 t2 : tetris) (log2 : List Access),
      t.checkLinesLog = some (r, log1) ∧ t.checkLines = some r ∧
      t.storeCheck = some t1 ∧
      t1.removeLinesLog width = some (t2, log2) ∧ t1.removeLines width = some t2 ∧
      ∀ a ∈ log1 ++ log2, a.inBounds t.area.length = true := by
  obtain ⟨fa, tr, t1, t2, c1, c2, c3, c4, _, c6, c7, c8, c9, _⟩ :=
    removeLines_after_check width t lo hi htc hle hhi hlen
  obtain ⟨log1, h1⟩ := map_fst_eq_some _ _ ((checkLinesLog_erase t).trans c1)
  obtain ⟨log2, h2⟩ := map_fst_eq_some _ _ ((removeLinesLog_erase width t1).trans c9)
  refine ⟨_, log1, t1, t2, log2, h1, c1, c3, h2, c9, ?_⟩
  -- the accesses of `checkLines`
  have hs1 : ∀ a ∈ log1, a.inBounds t.area.length = true := by
    simp only [tetris.checkLinesLog, Option.bind_eq_bind, Option.bind_eq_some,
      Option.some.injEq, Prod.mk.injEq] at h1
    obtain ⟨r', hr', _, rfl⟩ := h1
    exact (checkLoopLog_safe t.area t.toCheck.2 _ _
      (CheckState.mk (-1) (t.toCheck.1 - 1) [false, false, false, false] 0) r' rfl
      (by rw [htc]; show (lo : Int) - 1 ≤ (hi : Int); omega) hr').2.2
  have hfa : fa ≤ (hi : Int) := by
    obtain ⟨log, hlog⟩ := map_fst_eq_some _ _ ((checkLinesLog_erase t).trans c1)
    simp only [tetris.checkLinesLog, Option.bind_eq_bind, Option.bind_eq_some,
      Option.some.injEq, Prod.mk.injEq] at hlog
    obtain ⟨r', hr', ⟨_, hfa', _⟩, _⟩ := hlog
    have := (checkLoopLog_safe t.area t.toCheck.2 _ _
      (CheckState.mk (-1) (t.toCheck.1 - 1) [false, false, false, false] 0) r' rfl
      (by rw [htc]; show (lo : Int) - 1 ≤ (hi : Int); omega) hr').2.1
    rw [htc] at this
    rw [← hfa']
    exact this
  -- the accesses of `removeLines`
  have hs2 : ∀ a ∈ log2, a.inBounds t.area.length = true := by
    simp only [tetris.removeLinesLog, Option.bind_eq_bind, Option.bind_eq_some,
      Option.some.injEq, Prod.mk.injEq] at h2
    obtain ⟨⟨⟨a1, fa1⟩, l1⟩, hr1, r2, hr2, _, rfl⟩ := h2
    rw [c8, htc, c7, c4, c6] at hr1
    rw [c8, htc] at hr2
    obtain ⟨k1, k2, k3⟩ := removeInZoneLog_safe width tr (lo : Int) c2.1 (by omega)
      t.area.length _ (hi : Int) t.area fa _ rfl hfa (by show (lo : Int) - 1 ≤ (hi : Int); omega)
      hr1
    obtain ⟨_, k5⟩ := removeAboveZoneLog_safe width t.area.length _ ((lo : Int) - 1)
      a1 fa1 r2 k1 k2 (by omega) hr2
    intro a ha
    rcases List.mem_append.mp ha with ha | ha
    · exact k3 a ha
    · exact k5 a ha
  intro a ha
  rcases List.mem_append.mp ha with ha | ha
  · exact hs1 a ha
  · exact hs2 a ha

theorem row_algorithms_index_safe_witness :
    ∃ (r : Int × Int × List Bool) (log1 : List Access) (t1 t2 : tetris) (log2 : List Access),
      (sessionWith sampleGrid (2, 5)).checkLinesLog = some (r, log1) ∧
      (sessionWith sampleGrid (2, 5)).checkLines = some r ∧
      (sessionWith sampleGrid (2, 5)).storeCheck = some t1 ∧
      t1.removeLinesLog 2 = some (t2, log2) ∧ t1.removeLines 2 = some t2 ∧
      ∀ a ∈ log1 ++ log2, a.inBounds (sessionWith sampleGrid (2, 5)).area.length = true :=
  row_algorithms_index_safe 2 (sessionWith sampleGrid (2, 5)) 2 5 rfl (by decide) (by decide)
    (by decide)

/-! ## The end of the line-clear animation and the lock transition -/

theorem setUpNext_frame (G : Globals) (ops : BlockOps) (rnd : RandSource) (pos : Nat)
    (t : tetris) (r : tetris × Nat) (h : t.setUpNext G ops rnd pos = some r) :
    r.1.area = t.area ∧ r.1.toCheck = t.toCheck ∧ r.1.toRemove = t.toRemove ∧
      r.1.toRemoveNum = t.toRemoveNum ∧ r.1.firstAvailable = t.firstAvailable ∧
      r.1.removeLineAnimationStep = t.removeLineAnimationStep ∧
      r.1.removeLineAnimationFrame = t.removeLineAnimationFrame ∧
      r.1.dropLenght = t.dropLenght ∧ r.1.manualDownFrame = t.manualDownFrame ∧
      r.1.heldBlock = t.heldBlock ∧ r.1.autoDownFrame = t.autoDownFrame := by
  unfold tetris.setUpNext at h
  simp only [Option.bind_eq_bind, Option.bind_eq_some] at h
  obtain ⟨t1, h1, h2⟩ := h
  have hf := lost_frame G t t1 h1
  split_ifs at h2
  · simp only [Option.some.injEq] at h2
    subst h2
    rw [hf]
    exact ⟨rfl, rfl, rfl, rfl, rfl, rfl, rfl, rfl, rfl, rfl, rfl⟩
  · simp only [Option.bind_eq_some, Option.some.injEq] at h2
    obtain ⟨fut, _, rfl⟩ := h2
    rw [hf]
    exact ⟨rfl, rfl, rfl, rfl, rfl, rfl, rfl, rfl, rfl, rfl, rfl⟩

theorem setUpNext_blocks (G : Globals) (ops : BlockOps) (rnd : RandSource) (pos : Nat)
    (t : tetris) (r : tetris × Nat) (h : t.setUpNext G ops rnd pos = some r) :
    (r.1.dead = true → r.1.currentBlock = t.currentBlock ∧ r.1.nextBlock = t.nextBlock ∧
        r.1.inAnimation = true ∧ r.2 = pos) ∧
      (r.1.dead = false → r.1.currentBlock = ops.setInitialPosition t.nextBlock ∧
        getNewBlock ops rnd pos t.currentBlock t.nextBlock = some (r.1.nextBlock, r.2) ∧
        r.1.inAnimation = t.inAnimation ∧ r.1.manualMoveAllowed = false) := by
  unfold tetris.setUpNext at h
  simp only [Option.bind_eq_bind, Option.bind_eq_some] at h
  obtain ⟨t1, h1, h2⟩ := h
  have hf := lost_frame G t t1 h1
  split_ifs at h2 with hd
  · simp only [Option.some.injEq] at h2
    subst h2
    refine ⟨fun _ => ?_, fun hc => ?_⟩
    · rw [hf]
      exact ⟨rfl, rfl, rfl, rfl⟩
    · have hc' : t1.dead = false := hc
      rw [hd] at hc'
      exact Bool.noConfusion hc'
  · simp only [Option.bind_eq_some, Option.some.injEq] at h2
    obtain ⟨fut, hfut, rfl⟩ := h2
    refine ⟨fun hc => ?_, fun _ => ?_⟩
    · exact absurd (show t1.dead = true from hc) hd
    · rw [hf] at hfut ⊢
      exact ⟨rfl, hfut, rfl, rfl⟩

theorem animState_finish_full (G : Globals) (ops : BlockOps) (rnd : RandSource) (pos : Nat)
    (t : tetris) (L : Int) (lo hi : Nat)
    (hdead : t.dead = false) (hnum : t.removeLineAnimationStepNumFrames = 8)
    (htc : t.toCheck = ((lo : Int), (hi : Int)))
    (hle : lo ≤ hi) (hhi : hi < t.area.length) (hlen : hi - lo ≤ 3)
    (hchk : t.checkLines = some (t.toRemoveNum, t.firstAvailable, t.toRemove))
    (hb0 : 0 ≤ (G.gInvisibleLines : Int) + t.deathLines)
    (hb1 : (G.gInvisibleLines : Int) + t.deathLines ≤ (t.area.length : Int)) :
    ∃ t2 r, t.removeLines G.gPlayAreaWidthInBlocks = some t2 ∧
      (clearedState t L t2).setUpNext G ops rnd pos = some r ∧
      ∀ req : Requests, (animState t L 55).update G ops rnd pos req L =
        some (r.1, noSounds.set SoundLinesFallingID true, r.2) := by
  obtain ⟨fa, tr, t1, t2, c1, _, c3, c4, _, c6, c7, c8, c9, c10, c11, _⟩ :=
    removeLines_after_check G.gPlayAreaWidthInBlocks t lo hi htc hle hhi hlen
  rw [hchk] at c1
  simp only [Option.some.injEq, Prod.mk.injEq] at c1
  obtain ⟨_, hfa, htr⟩ := c1
  have hd : (animState t L 55).dead = false := hdead
  have hs : (animState t L 55).removeLineAnimationStep > 0 := by
    show ((1 + 55 / 8 : Nat) : Int) > 0
    decide
  have h8 : ¬ (animState t L 56).removeLineAnimationStep < 8 := by
    show ¬ ((1 + 56 / 8 : Nat) : Int) < 8
    decide
  have hlen2 : t2.area.length = t.area.length := by
    rw [c10]
    simp only [List.length_append, List.length_replicate, List.length_drop]
    omega
  unfold tetris.removeLines at c9
  simp only [Option.bind_eq_bind, Option.bind_eq_some, Option.some.injEq] at c9
  obtain ⟨st1, l1, st2, l2, l3⟩ := c9
  rw [c7, c8, c4, c6, ← htr, ← hfa] at l1
  rw [c8] at l2
  have ha2 : st2.1 = t2.area := by rw [← l3]
  have hf2 : st2.2 = t2.firstAvailable := by rw [← l3]
  have hrem : t.removeLines G.gPlayAreaWidthInBlocks =
      some { t with area := st2.1, firstAvailable := st2.2 } := by
    unfold tetris.removeLines
    rw [l1]
    simp only [Option.bind_eq_bind, Option.some_bind]
    rw [l2]
    simp only [Option.some_bind]
  obtain ⟨r, hr⟩ := setUpNext_isSome G ops rnd pos
    (clearedState t L { t with area := st2.1, firstAvailable := st2.2 })
    hb0 (by show (G.gInvisibleLines : Int) + t.deathLines ≤ (st2.1.length : Int)
            rw [ha2, hlen2]; exact hb1)
  refine ⟨_, r, hrem, hr, fun req => ?_⟩
  simp only [tetris.update, tetris.animationStep, hd, Bool.false_eq_true, if_false, hs,
    if_true, animState_scored t L 55 hnum, h8, tetris.finishAnimation, tetris.removeLines]
  have l1' : removeInZone G.gPlayAreaWidthInBlocks (animState t L 56).toRemove
      (animState t L 56).toCheck.1
      ((animState t L 56).toCheck.2 + 1 - (animState t L 56).toCheck.1).toNat
      (animState t L 56).toCheck.2 ((animState t L 56).area, (animState t L 56).firstAvailable)
      = some st1 := l1
  have l2' : removeAboveZone G.gPlayAreaWidthInBlocks (animState t L 56).toCheck.1.toNat
      ((animState t L 56).toCheck.1 - 1) st1 = some st2 := l2
  rw [l1']
  simp only [Option.bind_eq_bind, Option.some_bind]
  rw [l2']
  simp only [Option.some_bind]
  have hr' : tetris.setUpNext G ops rnd pos
      { animState t L 56 with
          removeLineAnimationStep := 0, area := st2.1, firstAvailable := st2.2,
          toRemove := [false, false, false, false], toRemoveNum := 0, toCheck := (0, 0),
          inAnimation := false } = some r := hr
  rw [hr']
  rfl

/-- C21. Line-clear animation length and ending: from a session holding the stored result
of `checkLines` on a valid range (not dead, `removeLineAnimationStep = 1`,
`removeLineAnimationFrame = 0`, `removeLineAnimationStepNumFrames = 8`), after `k ≤ 55`
`update` calls the session is `animState t L k`: grid, `toCheck`, `toRemove` and
`toRemoveNum` are unchanged and `1 ≤ removeLineAnimationStep ≤ 7`; each of the calls
`1 .. 55` returns no sound flag; call 56 performs `removeLines`, sets the lines-falling sound
flag, resets `toRemove`, `toRemoveNum`, `toCheck`, `removeLineAnimationStep` and
`inAnimation` (state `clearedState`) and then runs `setUpNext`, whose result is the session
after the call. -/
theorem animation_length (G : Globals) (ops : BlockOps) (rnd : RandSource) (pos : Nat)
    (t : tetris) (L : Int) (lo hi : Nat) (reqs : List Requests) (hreqs : reqs.length = 56)
    (hdead : t.dead = false) (hstep : t.removeLineAnimationStep = 1)
    (hframe : t.removeLineAnimationFrame = 0) (hnum : t.removeLineAnimationStepNumFrames = 8)
    (htc : t.toCheck = ((lo : Int), (hi : Int)))
    (hle : lo ≤ hi) (hhi : hi < t.area.length) (hlen : hi - lo ≤ 3)
    (hchk : t.checkLines = some (t.toRemoveNum, t.firstAvailable, t.toRemove))
    (hb0 : 0 ≤ (G.gInvisibleLines : Int) + t.deathLines)
    (hb1 : (G.gInvisibleLines : Int) + t.deathLines ≤ (t.area.length : Int)) :
    (∀ k, k ≤ 55 →
      runUpdates G ops rnd ((reqs.take k).map (fun r => (r, L))) (t, pos) =
          some (animState t L k, pos) ∧
        (animState t L k).area = t.area ∧ (animState t L k).toCheck = t.toCheck ∧
        (animState t L k).toRemove = t.toRemove ∧
        (animState t L k).toRemoveNum = t.toRemoveNum ∧
        1 ≤ (animState t L k).removeLineAnimationStep ∧
        (animState t L k).removeLineAnimationStep ≤ 7) ∧
    (∀ k, k < 55 → ∀ req : Requests,
      (animState t L k).update G ops rnd pos req L =
        some (animState t L (k + 1), noSounds, pos)) ∧
    ∃ t2 r, t.removeLines G.gPlayAreaWidthInBlocks = some t2 ∧
      (clearedState t L t2).setUpNext G ops rnd pos = some r ∧
      (∀ req : Requests, (animState t L 55).update G ops rnd pos req L =
        some (r.1, noSounds.set SoundLinesFallingID true, r.2)) ∧
      runUpdates G ops rnd (reqs.map (fun r => (r, L))) (t, pos) = some r ∧
      r.1.area = t2.area ∧ r.1.toRemove = [false, false, false, false] ∧
      r.1.toRemoveNum = 0 ∧ r.1.toCheck = (0, 0) ∧ r.1.removeLineAnimationStep = 0 ∧
      (r.1.dead = false → r.1.inAnimation = false) := by
  have hrun : ∀ j, j ≤ 55 →
      runUpdates G ops rnd ((reqs.take j).map (fun r => (r, L))) (t, pos) =
        some (animState t L j, pos) := by
    intro j hj
    have h := animState_run G ops rnd pos t L hdead hnum (reqs.take j) 0
      (by simp only [List.length_take]; omega)
    rw [animState_zero t L hstep hframe] at h
    rw [h]
    simp only [List.length_take, Nat.zero_add]
    congr 3
    omega
  refine ⟨fun k hk => ⟨hrun k hk, rfl, rfl, rfl, rfl, ?_, ?_⟩,
    fun k hk req => animState_update G ops rnd pos t req L k hk hdead hnum, ?_⟩
  · show (1 : Int) ≤ ((1 + k / 8 : Nat) : Int)
    omega
  · show ((1 + k / 8 : Nat) : Int) ≤ 7
    omega
  · obtain ⟨t2, r, h1, h2, h3⟩ := animState_finish_full G ops rnd pos t L lo hi hdead hnum htc
      hle hhi hlen hchk hb0 hb1
    obtain ⟨f1, f2, f3, f4, _, f6, _⟩ := setUpNext_frame G ops rnd pos _ r h2
    obtain ⟨_, g2⟩ := setUpNext_blocks G ops rnd pos _ r h2
    obtain ⟨last, hlast⟩ : ∃ last, reqs = reqs.take 55 ++ [last] := by
      have h55l : 55 < reqs.length := by omega
      refine ⟨reqs[55], ?_⟩
      have h56 : reqs.take 56 = reqs := List.take_of_length_le (by omega)
      have h : reqs.take (55 + 1) = reqs.take 55 ++ reqs[55]?.toList := List.take_succ
      rw [List.getElem?_eq_getElem h55l, h56] at h
      exact h
    refine ⟨t2, r, h1, h2, h3, ?_, f1, f3, f4, f2, f6, fun hd => (g2 hd).2.2.1⟩
    rw [hlast, List.map_append, runUpdates_append, hrun 55 (le_refl _)]
    simp only [Option.some_bind, List.map_cons, List.map_nil, runUpdates, Option.bind_eq_bind]
    rw [h3 last]
    rfl

theorem animation_length_witness :
    (∀ k, k ≤ 55 →
      runUpdates sampleGlobals restingOps (fun _ => 0)
          ((idleTicks.take k).map (fun r => (r, 2))) (lockedSession, 0) =
          some (animState lockedSession 2 k, 0) ∧
        (animState lockedSession 2 k).area = lockedSession.area ∧
        (animState lockedSession 2 k).toCheck = lockedSession.toCheck ∧
        (animState lockedSession 2 k).toRemove = lockedSession.toRemove ∧
        (animState lockedSession 2 k).toRemoveNum = lockedSession.toRemoveNum ∧
        1 ≤ (animState lockedSession 2 k).removeLineAnimationStep ∧
        (animState lockedSession 2 k).removeLineAnimationStep ≤ 7) ∧
    (∀ k, k < 55 → ∀ req : Requests,
      (animState lockedSession 2 k).update sampleGlobals restingOps (fun _ => 0) 0 req 2 =
        some (animState lockedSession 2 (k + 1), noSounds, 0)) ∧
    ∃ t2 r, lockedSession.removeLines sampleGlobals.gPlayAreaWidthInBlocks = some t2 ∧
      (clearedState lockedSession 2 t2).setUpNext sampleGlobals restingOps (fun _ => 0) 0 =
        some r ∧
      (∀ req : Requests,
        (animState lockedSession 2 55).update sampleGlobals restingOps (fun _ => 0) 0 req 2 =
          some (r.1, noSounds.set SoundLinesFallingID true, r.2)) ∧
      runUpdates sampleGlobals restingOps (fun _ => 0) (idleTicks.map (fun r => (r, 2)))
        (lockedSession, 0) = some r ∧
      r.1.area = t2.area ∧ r.1.toRemove = [false, false, false, false] ∧
      r.1.toRemoveNum = 0 ∧ r.1.toCheck = (0, 0) ∧ r.1.removeLineAnimationStep = 0 ∧
      (r.1.dead = false → r.1.inAnimation = false) :=
  animation_length sampleGlobals restingOps (fun _ => 0) 0 lockedSession 2 2 5 idleTicks
    (by decide) rfl rfl rfl rfl rfl (by decide) (by decide) (by decide) (by decide)
    (by decide) (by decide)

/-! ## Frame lemmas of the normal-play statements -/

theorem holdStep_playConstants (ops : BlockOps) (rnd : RandSource) (pos : Nat) (hold : Bool)
    (t : tetris) (r : tetris × Nat) (h : t.holdStep ops rnd pos hold = some r) :
    playConstants r.1 = playConstants t := by
  simp only [tetris.holdStep] at h
  split_ifs at h
  · simp only [Option.bind_eq_bind, Option.bind_eq_some, Option.some.injEq] at h
    obtain ⟨fut, _, rfl⟩ := h
    rfl
  all_goals
    simp only [Option.some.injEq] at h
    subst h
    rfl

theorem invisibleCycle_playConstants (G : Globals) (t : tetris) :
    playConstants (t.invisibleCycle G) = playConstants t := by
  simp only [tetris.invisibleCycle]
  split_ifs <;> rfl

theorem rotationStep_playConstants (ops : BlockOps) (rl rr : Bool) (t : tetris) :
    playConstants (t.rotationStep ops rl rr).1 = playConstants t := by
  simp only [tetris.rotationStep]
  split_ifs <;> rfl

theorem lateralStep_playConstants (l r : Bool) (t : tetris) :
    playConstants (t.lateralStep l r).1 = playConstants t := by
  simp only [tetris.lateralStep]
  split_ifs <;> rfl

theorem autoDownStep_playConstants (t : tetris) :
    playConstants t.autoDownStep.1 = playConstants t := by
  simp only [tetris.autoDownStep]
  split_ifs <;> rfl

theorem manualDownStep_playConstants (down may : Bool) (t : tetris) :
    playConstants (t.manualDownStep down may).1 = playConstants t := by
  simp only [tetris.manualDownStep]
  split_ifs <;> rfl

theorem prepareMove_playConstants (G : Globals) (ops : BlockOps) (rnd : RandSource)
    (pos : Nat) (req : Requests) (t : tetris) (m : MoveState)
    (h : t.prepareMove G ops rnd pos req = some m) :
    playConstants m.session = playConstants t := by
  simp only [tetris.prepareMove, Option.bind_eq_bind, Option.bind_eq_some,
    Option.some.injEq] at h
  obtain ⟨hd, hhold, rfl⟩ := h
  show playConstants (tetris.manualDownStep _ _ _).1 = _
  rw [manualDownStep_playConstants, autoDownStep_playConstants, lateralStep_playConstants,
    rotationStep_playConstants, invisibleCycle_playConstants,
    holdStep_playConstants ops rnd pos req.holdRequest t hd hhold]

theorem getD_set_flag (s : List Bool) (i j : Nat) (v : Bool) (hi : i < s.length) :
    (s.set i v).getD j false = if i = j then v else s.getD j false := by
  rw [List.getD_eq_getElem?_getD, List.getElem?_set, List.getD_eq_getElem?_getD]
  by_cases h : i = j
  · simp only [h, if_true]
    rw [if_pos (by rw [← h]; exact hi)]
    rfl
  · simp only [h, if_false]

/-! ## The lock transition -/

theorem lockStep_stuck (G : Globals) (ops : BlockOps) (rnd : RandSource)
    (m : MoveState) (r : tetris × List Bool × Nat)
    (hs : m.stuck ops = true)
    (h : m.session.lockStep G ops rnd m.pos m.xMove (m.autoDown || m.manualDown)
      (noSounds.set SoundRotationID m.effectiveRotation) = some r) :
    ∃ n fa tr, (m.locked ops).checkLines = some (n, fa, tr) ∧
      ((n > 0 ∧ r.1 = { m.checked ops n fa tr with removeLineAnimationStep := 1, inAnimation := true } ∧
          r.2.1 = ((m.moveSounds ops).set SoundTouchGroundID true).set SoundLinesVanishingID true ∧
          r.2.2 = m.pos) ∨
       (¬ n > 0 ∧ (m.checked ops n fa tr).setUpNext G ops rnd m.pos = some (r.1, r.2.2) ∧
          r.2.1 = (m.moveSounds ops).set SoundTouchGroundID true)) := by
  have hs' : (ops.updatePosition m.session.currentBlock m.xMove (m.autoDown || m.manualDown)
      m.session.area).2.1 = true := hs
  simp only [tetris.lockStep, hs', if_true, Option.bind_eq_bind, Option.bind_eq_some] at h
  obtain ⟨t4, h4, h5⟩ := h
  have h4' : (m.locked ops).storeCheck = some t4 := h4
  simp only [tetris.storeCheck, Option.bind_eq_bind, Option.bind_eq_some,
    Option.some.injEq] at h4'
  obtain ⟨⟨n, fa, tr⟩, hchk, rfl⟩ := h4'
  refine ⟨n, fa, tr, hchk, ?_⟩
  split_ifs at h5 with hn
  · left
    simp only [Option.some.injEq] at h5
    subst h5
    exact ⟨hn, rfl, rfl, rfl⟩
  · right
    simp only [Option.bind_eq_some, Option.some.injEq] at h5
    obtain ⟨s, hs1, hs2⟩ := h5
    subst hs2
    exact ⟨hn, hs1, rfl⟩

theorem lockStep_stuck_isSome (G : Globals) (ops : BlockOps) (rnd : RandSource)
    (m : MoveState) (sounds : List Bool) (hs : m.stuck ops = true)
    (n fa : Int) (tr : List Bool) (hchk : (m.locked ops).checkLines = some (n, fa, tr))
    (hb0 : 0 ≤ (G.gInvisibleLines : Int) + m.session.deathLines)
    (hb1 : (G.gInvisibleLines : Int) + m.session.deathLines ≤ ((m.locked ops).area.length : Int)) :
    ∃ r, m.session.lockStep G ops rnd m.pos m.xMove (m.autoDown || m.manualDown) sounds =
      some r := by
  have hs' : (ops.updatePosition m.session.currentBlock m.xMove (m.autoDown || m.manualDown)
      m.session.area).2.1 = true := hs
  have hst : (m.locked ops).storeCheck = some (m.checked ops n fa tr) := by
    simp only [tetris.storeCheck, hchk, Option.bind_eq_bind, Option.some_bind]
    rfl
  have key : m.session.lockStep G ops rnd m.pos m.xMove (m.autoDown || m.manualDown) sounds =
      ((m.locked ops).storeCheck).bind (fun t4 =>
        if t4.toRemoveNum > 0 then
          some ({ t4 with removeLineAnimationStep := 1, inAnimation := true },
            ((sounds.set SoundLeftRightID (ops.updatePosition m.session.currentBlock m.xMove
              (m.autoDown || m.manualDown) m.session.area).2.2).set SoundTouchGroundID
                true).set SoundLinesVanishingID true, m.pos)
        else (t4.setUpNext G ops rnd m.pos).bind (fun r =>
          some (r.1, (sounds.set SoundLeftRightID (ops.updatePosition m.session.currentBlock
            m.xMove (m.autoDown || m.manualDown) m.session.area).2.2).set SoundTouchGroundID
              true, r.2))) := by
    simp only [tetris.lockStep, hs', if_true, Option.bind_eq_bind]
    rfl
  rw [key, hst]
  simp only [Option.some_bind]
  split_ifs with hn
  · exact ⟨_, rfl⟩
  · obtain ⟨s, hs1⟩ := setUpNext_isSome G ops rnd m.pos (m.checked ops n fa tr) hb0 hb1
    rw [hs1]
    exact ⟨_, rfl⟩

theorem moveSounds_length (ops : BlockOps) (m : MoveState) :
    (m.moveSounds ops).length = NumSounds := by
  simp only [MoveState.moveSounds, List.length_set, noSounds, List.length_replicate]

theorem update_playStep (G : Globals) (ops : BlockOps) (rnd : RandSource) (pos : Nat)
    (t : tetris) (req : Requests) (level : Int) (m : MoveState)
    (hdead : t.dead = false) (hanim : ¬ t.removeLineAnimationStep > 0)
    (hm : t.prepareMove G ops rnd pos req = some m) :
    t.update G ops rnd pos req level =
      m.session.lockStep G ops rnd m.pos m.xMove (m.autoDown || m.manualDown)
        (noSounds.set SoundRotationID m.effectiveRotation) := by
  have hd : ¬ t.dead = true := by rw [hdead]; decide
  unfold tetris.update
  rw [if_neg hd, if_neg hanim, playStep_prepareMove, hm]
  rfl

/-- C22. Lock transition: in a normal-play `update` call where `updatePosition` reports the
block stuck, every result has the touch-ground sound flag set, the grid and `toCheck`
returned by `writeInGrid` for the moved block, and `score` increased by `dropLenght`; if
`checkLines` finds `n > 0` complete rows, `removeLineAnimationStep = 1`, `inAnimation` is
true, the lines-vanishing flag is set, no random draw is made and `currentBlock`,
`nextBlock` are those of before the lock; otherwise the result is that of `setUpNext` in the
same call, the lines-vanishing flag is not set, and `currentBlock` is the old `nextBlock`
at its initial position unless the session just died. The call returns whenever the range
returned by `writeInGrid` is valid and the band scanned by `lost` lies in the grid. -/
theorem lock_transition (G : Globals) (ops : BlockOps) (rnd : RandSource) (pos : Nat)
    (t : tetris) (req : Requests) (level : Int) (m : MoveState)
    (hdead : t.dead = false) (hanim : ¬ t.removeLineAnimationStep > 0)
    (hm : t.prepareMove G ops rnd pos req = some m) (hstuck : m.stuck ops = true) :
    (∀ r, t.update G ops rnd pos req level = some r →
      r.2.1.getD SoundTouchGroundID false = true ∧
      r.1.area = (ops.writeInGrid (m.locked ops).currentBlock t.area).1 ∧
      r.1.toCheck = (ops.writeInGrid (m.locked ops).currentBlock t.area).2 ∧
      r.1.score = t.score + m.session.dropLenght ∧
      ∃ n fa tr, (m.locked ops).checkLines = some (n, fa, tr) ∧
        (n > 0 → r.1.removeLineAnimationStep = 1 ∧ r.1.inAnimation = true ∧
          r.2.1.getD SoundLinesVanishingID false = true ∧
          r.1.currentBlock = (m.locked ops).currentBlock ∧
          r.1.nextBlock = m.session.nextBlock ∧ r.2.2 = m.pos) ∧
        (¬ n > 0 →
          (m.checked ops n fa tr).setUpNext G ops rnd m.pos = some (r.1, r.2.2) ∧
          r.2.1.getD SoundLinesVanishingID false = false ∧
          (r.1.dead = false →
            r.1.currentBlock = ops.setInitialPosition m.session.nextBlock) ∧
          (r.1.dead = true → r.1.currentBlock = (m.locked ops).currentBlock ∧
            r.1.nextBlock = m.session.nextBlock ∧ r.1.inAnimation = true))) ∧
    (∀ lo hi : Nat, (m.locked ops).toCheck = ((lo : Int), (hi : Int)) → lo ≤ hi →
      hi < (m.locked ops).area.length → hi - lo ≤ 3 →
      0 ≤ (G.gInvisibleLines : Int) + m.session.deathLines →
      (G.gInvisibleLines : Int) + m.session.deathLines ≤ ((m.locked ops).area.length : Int) →
      ∃ r, t.update G ops rnd pos req level = some r) := by
  have hupd := update_playStep G ops rnd pos t req level m hdead hanim hm
  have hpc := prepareMove_playConstants G ops rnd pos req t m hm
  have harea : m.session.area = t.area := by
    have := congrArg (fun p => p.2.2.2.2.2.2.2.2) hpc
    exact this
  have hscore : m.session.score = t.score := by
    have := congrArg (fun p => p.2.2.2.2.2.2.1) hpc
    exact this
  have hlen := moveSounds_length ops m
  constructor
  · intro r hr
    rw [hupd] at hr
    obtain ⟨n, fa, tr, hchk, hcase⟩ := lockStep_stuck G ops rnd m r hstuck hr
    rcases hcase with ⟨hn, h1, h2, h3⟩ | ⟨hn, h1, h2⟩
    · refine ⟨?_, ?_, ?_, ?_, n, fa, tr, hchk, fun _ => ⟨?_, ?_, ?_, ?_, ?_, h3⟩,
        fun hc => absurd hn hc⟩
      · rw [h2, getD_set_flag _ _ _ _ (by rw [List.length_set, hlen]; decide),
          if_neg (by decide), getD_set_flag _ _ _ _ (by rw [hlen]; decide), if_pos rfl]
      · rw [h1, ← harea]; rfl
      · rw [h1, ← harea]; rfl
      · rw [h1, ← hscore]; rfl
      · rw [h1]
      · rw [h1]
      · rw [h2, getD_set_flag _ _ _ _ (by rw [List.length_set, hlen]; decide), if_pos rfl]
      · rw [h1]; rfl
      · rw [h1]; rfl
    · obtain ⟨f1, f2, _⟩ := setUpNext_frame G ops rnd m.pos _ _ h1
      obtain ⟨g1, g2⟩ := setUpNext_blocks G ops rnd m.pos _ _ h1
      obtain ⟨e1, _⟩ := setUpNext_score G ops rnd m.pos _ _ h1
      refine ⟨?_, ?_, ?_, ?_, n, fa, tr, hchk, fun hc => absurd hc hn,
        fun _ => ⟨h1, ?_, fun hd => (g2 hd).1, fun hd => ⟨(g1 hd).1, (g1 hd).2.1, (g1 hd).2.2.1⟩⟩⟩
      · rw [h2, getD_set_flag _ _ _ _ (by rw [hlen]; decide), if_pos rfl]
      · rw [f1, ← harea]; rfl
      · rw [f2, ← harea]; rfl
      · rw [e1, ← hscore]; rfl
      · rw [h2, getD_set_flag _ _ _ _ (by rw [hlen]; decide), if_neg (by decide)]
        unfold MoveState.moveSounds
        rw [getD_set_flag _ _ _ _ (by simp [noSounds, NumSounds]; decide),
          if_neg (by decide),
          getD_set_flag _ _ _ _ (by simp [noSounds, NumSounds]; decide), if_neg (by decide),
          List.getD_eq_getElem?_getD]
        exact noSounds_getD _
  · intro lo hi htc hle hhi hl3 hb0 hb1
    obtain ⟨fa, tr, hchk, _⟩ := checkLines_result (m.locked ops) lo hi htc hle hhi hl3
    rw [hupd]
    exact lockStep_stuck_isSome G ops rnd m _ hstuck _ fa tr hchk hb0 hb1

theorem lock_transition_witness :
    (∃ m r, dropSession.prepareMove sampleGlobals restingOps (fun _ => 0) 0 downRequest =
        some m ∧ m.stuck restingOps = true ∧
      dropSession.update sampleGlobals restingOps (fun _ => 0) 0 downRequest 1 = some r ∧
      r.2.1.getD SoundTouchGroundID false = true ∧
      r.1.score = dropSession.score + m.session.dropLenght ∧
      r.1.area = (restingOps.writeInGrid (m.locked restingOps).currentBlock
        dropSession.area).1) ∧
    (∃ m r, completingSession.prepareMove sampleGlobals restingOps (fun _ => 0) 0 downRequest =
        some m ∧ m.stuck restingOps = true ∧
      completingSession.update sampleGlobals restingOps (fun _ => 0) 0 downRequest 1 =
        some r ∧
      r.2.1.getD SoundTouchGroundID false = true ∧ r.1.removeLineAnimationStep = 1 ∧
      r.1.inAnimation = true) := by
  constructor
  · obtain ⟨r, hr⟩ := (lock_transition sampleGlobals restingOps (fun _ => 0) 0 dropSession
      downRequest 1 _ rfl (by decide) rfl rfl).2 1 1 rfl (by decide) (by decide) (by decide)
      (by decide) (by decide)
    have h := (lock_transition sampleGlobals restingOps (fun _ => 0) 0 dropSession
      downRequest 1 _ rfl (by decide) rfl rfl).1 r hr
    exact ⟨_, r, rfl, rfl, hr, h.1, h.2.2.2.1, h.2.1⟩
  · have h := (lock_transition sampleGlobals restingOps (fun _ => 0) 0 completingSession
      downRequest 1 _ rfl (by decide) rfl rfl).1 _ rfl
    exact ⟨_, _, rfl, rfl, rfl, h.1, rfl, rfl⟩

/-! ## The hold step and the rotation step -/

theorem holdStep_false (ops : BlockOps) (rnd : RandSource) (pos : Nat) (t : tetris) :
    t.holdStep ops rnd pos false = some (t, pos) := by
  simp only [tetris.holdStep, Bool.and_false, Bool.false_eq_true, if_false]

theorem update_of_holdStep_eq (G : Globals) (ops : BlockOps) (rnd : RandSource) (pos : Nat)
    (t : tetris) (req : Requests) (level : Int)
    (h : t.holdStep ops rnd pos req.holdRequest = some (t, pos)) :
    t.update G ops rnd pos req level =
      t.update G ops rnd pos
        { moveDownRequest := req.moveDownRequest, moveLeftRequest := req.moveLeftRequest,
          moveRightRequest := req.moveRightRequest, holdRequest := false,
          rotateLeft := req.rotateLeft, rotateRight := req.rotateRight } level := by
  unfold tetris.update
  split_ifs
  · rfl
  · rfl
  · simp only [tetris.playStep, h, holdStep_false, Option.bind_eq_bind, Option.some_bind]

theorem getRandomBlock_table (ops : BlockOps) (r : Nat) (h : r < 7) :
    [ops.getIBlock, ops.getOBlock, ops.getJBlock, ops.getLBlock, ops.getSBlock,
      ops.getTBlock, ops.getZBlock][r]? = some (getRandomBlock ops r) := by
  interval_cases r <;> rfl

theorem getNewBlockFrom_cases (current next : tetrisBlock) (draw : Nat → tetrisBlock) :
    ∃ n, 1 ≤ n ∧ n ≤ 3 ∧ getNewBlockFrom current next draw = some (draw (n - 1), n) ∧
      (∀ j, j + 1 < n → rejected current next (draw j)) ∧
      (n < 3 → 0 ≤ current.id → 0 ≤ next.id → ¬ rejected current next (draw (n - 1))) ∧
      ((current.id < 0 ∨ next.id < 0) → n = 1) := by
  by_cases hneg : current.id < 0 ∨ next.id < 0
  · refine ⟨1, le_refl _, by omega, ?_, fun j hj => by omega, ?_, fun _ => rfl⟩
    · simp only [getNewBlockFrom, hneg, if_true]
    · intro _ h1 h2
      rcases hneg with h | h <;> omega
  · by_cases r0 : rejected current next (draw 0)
    · by_cases r1 : rejected current next (draw 1)
      · refine ⟨3, by omega, le_refl _, ?_, ?_, fun h => by omega, fun h => absurd h hneg⟩
        · unfold rejected at r0 r1
          simp [getNewBlockFrom, hneg, newBlockLoop, r0, r1]
        · intro j hj
          have hj2 : j = 0 ∨ j = 1 := by omega
          rcases hj2 with rfl | rfl
          · exact r0
          · exact r1
      · refine ⟨2, by omega, by omega, ?_, ?_, fun _ _ _ => r1, fun h => absurd h hneg⟩
        · unfold rejected at r0 r1
          simp [getNewBlockFrom, hneg, newBlockLoop, r0, r1]
        · intro j hj
          have hj2 : j = 0 := by omega
          rw [hj2]
          exact r0
    · refine ⟨1, le_refl _, by omega, ?_, fun j hj => by omega, fun _ _ _ => r0,
        fun h => absurd h hneg⟩
      unfold rejected at r0
      simp [getNewBlockFrom, hneg, newBlockLoop, r0]

theorem getNewBlock_cases (ops : BlockOps) (rnd : RandSource) (pos : Nat)
    (current next : tetrisBlock) :
    ∃ n, 1 ≤ n ∧ n ≤ 3 ∧
      getNewBlock ops rnd pos current next =
        some (getRandomBlock ops (rnd (pos + (n - 1)) % 7), pos + n) ∧
      (∀ j, j + 1 < n → rejected current next (getRandomBlock ops (rnd (pos + j) % 7))) ∧
      (n < 3 → 0 ≤ current.id → 0 ≤ next.id →
        ¬ rejected current next (getRandomBlock ops (rnd (pos + (n - 1)) % 7))) ∧
      ((current.id < 0 ∨ next.id < 0) → n = 1) := by
  obtain ⟨n, h1, h2, h3, h4, h5, h6⟩ :=
    getNewBlockFrom_cases current next (fun k => getRandomBlock ops (rnd (pos + k) % 7))
  refine ⟨n, h1, h2, ?_, h4, h5, h6⟩
  unfold getNewBlock
  rw [h3]
  rfl

/-- C26. Hold is declined without side effects when illegal: if `canHold` is false, or
`holdRequest` is false, or `canReplace` reports the swap target blocked, the hold step
leaves the whole session (so `currentBlock`, `nextBlock` and `heldBlock`) unchanged and
draws nothing, and the `update` call gives the same result as with `holdRequest = false`.
When the swap is performed, `heldBlock` becomes the old current block at position `(0, 0)`
and the new current block, placed at the old current block's `(x, y)`, is the old held
block (then the next block is kept and nothing is drawn), or the old next block when the
held slot had `id < 0`. In that case a new next block is drawn: `getNewBlock` consumes `n`
values of the random source, `1 ≤ n ≤ 3`, and the new next block is the shape that the
`switch` of `getRandomBlock` selects for the last of them, `rand.Intn(7)` being
`rnd (pos + n - 1) % 7`; every earlier draw was rejected by the test
`current.id|next.id|block.id != next.id`, and with fewer than three draws (and both ids
non-negative) the returned block passes it. -/
theorem hold_step_rules (G : Globals) (ops : BlockOps) (rnd : RandSource) (pos : Nat)
    (t : tetris) (req : Requests) (level : Int) :
    ((t.canHold = false ∨ req.holdRequest = false ∨
        ops.canReplace t.currentBlock.x t.currentBlock.y t.heldBlock t.nextBlock t.area =
          false) →
      t.holdStep ops rnd pos req.holdRequest = some (t, pos) ∧
      t.update G ops rnd pos req level =
        t.update G ops rnd pos
          { moveDownRequest := req.moveDownRequest, moveLeftRequest := req.moveLeftRequest,
            moveRightRequest := req.moveRightRequest, holdRequest := false,
            rotateLeft := req.rotateLeft, rotateRight := req.rotateRight } level) ∧
    (t.canHold = true → req.holdRequest = true →
      ops.canReplace t.currentBlock.x t.currentBlock.y t.heldBlock t.nextBlock t.area = true →
      ∃ r, t.holdStep ops rnd pos req.holdRequest = some r ∧
        r.1.heldBlock = { t.currentBlock with x := 0, y := 0 } ∧
        (¬ t.heldBlock.id < 0 →
          r.1.currentBlock = { t.heldBlock with x := t.currentBlock.x, y := t.currentBlock.y } ∧
          r.1.nextBlock = t.nextBlock ∧ r.2 = pos) ∧
        (t.heldBlock.id < 0 →
          r.1.currentBlock = { t.nextBlock with x := t.currentBlock.x, y := t.currentBlock.y } ∧
          getNewBlock ops rnd pos t.currentBlock t.nextBlock = some (r.1.nextBlock, r.2) ∧
          ∃ n, 1 ≤ n ∧ n ≤ 3 ∧ r.2 = pos + n ∧
            [ops.getIBlock, ops.getOBlock, ops.getJBlock, ops.getLBlock, ops.getSBlock,
              ops.getTBlock, ops.getZBlock][rnd (pos + (n - 1)) % 7]? = some r.1.nextBlock ∧
            (∀ j, j + 1 < n →
              rejected t.currentBlock t.nextBlock (getRandomBlock ops (rnd (pos + j) % 7))) ∧
            (n < 3 → 0 ≤ t.currentBlock.id → 0 ≤ t.nextBlock.id →
              ¬ rejected t.currentBlock t.nextBlock r.1.nextBlock) ∧
            ((t.currentBlock.id < 0 ∨ t.nextBlock.id < 0) → n = 1))) := by
  constructor
  · intro hc
    have h1 : t.holdStep ops rnd pos req.holdRequest = some (t, pos) := by
      simp only [tetris.holdStep]
      rcases hc with hc | hc | hc
      · simp only [hc, Bool.false_and, Bool.false_eq_true, if_false]
      · simp only [hc, Bool.and_false, Bool.false_eq_true, if_false]
      · simp only [hc, Bool.false_eq_true, if_false, ite_self]
    exact ⟨h1, update_of_holdStep_eq G ops rnd pos t req level h1⟩
  · intro h1 h2 h3
    simp only [tetris.holdStep, h1, h2, h3, Bool.and_self, if_true]
    by_cases hid : t.heldBlock.id < 0
    · obtain ⟨n, k1, k2, k3, k4, k5, k6⟩ :=
        getNewBlock_cases ops rnd pos t.currentBlock t.nextBlock
      simp only [hid, if_true, k3, Option.bind_eq_bind, Option.some_bind]
      exact ⟨_, rfl, rfl, fun hn => absurd trivial hn, fun _ => ⟨rfl, rfl, n, k1, k2, rfl,
        getRandomBlock_table ops _ (Nat.mod_lt _ (by decide)), k4, k5, k6⟩⟩
    · simp only [hid, if_false]
      exact ⟨_, rfl, rfl, fun _ => ⟨rfl, rfl, rfl⟩, fun hn => False.elim hn⟩

theorem hold_step_rules_witness :
    (holdSession.holdStep restingOps (fun _ => 0) 0 holdRequestOnly.holdRequest =
        some (holdSession, 0) ∧
      holdSession.update sampleGlobals restingOps (fun _ => 0) 0 holdRequestOnly 1 =
        holdSession.update sampleGlobals restingOps (fun _ => 0) 0
          { moveDownRequest := holdRequestOnly.moveDownRequest,
            moveLeftRequest := holdRequestOnly.moveLeftRequest,
            moveRightRequest := holdRequestOnly.moveRightRequest, holdRequest := false,
            rotateLeft := holdRequestOnly.rotateLeft,
            rotateRight := holdRequestOnly.rotateRight } 1) ∧
    (∃ r, holdSession.holdStep swappingOps (fun _ => 0) 0 holdRequestOnly.holdRequest = some r ∧
      holdSession.heldBlock.id < 0 ∧
      r.1.heldBlock = { holdSession.currentBlock with x := 0, y := 0 } ∧
      r.1.currentBlock = { holdSession.nextBlock with
        x := holdSession.currentBlock.x, y := holdSession.currentBlock.y } ∧
      r.1.nextBlock = swappingOps.getIBlock ∧ r.2 = 1) := by
  refine ⟨(hold_step_rules sampleGlobals restingOps (fun _ => 0) 0 holdSession
    holdRequestOnly 1).1 (Or.inr (Or.inr rfl)), ?_⟩
  obtain ⟨r, h1, h2, _, h4⟩ := (hold_step_rules sampleGlobals swappingOps (fun _ => 0) 0
    holdSession holdRequestOnly 1).2 rfl rfl rfl
  have hid : holdSession.heldBlock.id < 0 := by decide
  obtain ⟨h5, _, n, h6, _, h8, h9, h10, _, _⟩ := h4 hid
  have hn : n = 1 := by
    by_contra hne
    exact absurd (h10 0 (by omega)) (by decide)
  exact ⟨r, h1, hid, h2, h5, (Option.some.inj h9).symm, by rw [h8, hn]⟩

theorem holdStep_autoDownFrame (ops : BlockOps) (rnd : RandSource) (pos : Nat) (hold : Bool)
    (t : tetris) (r : tetris × Nat) (h : t.holdStep ops rnd pos hold = some r) :
    r.1.autoDownFrame = t.autoDownFrame := by
  simp only [tetris.holdStep] at h
  split_ifs at h
  · simp only [Option.bind_eq_bind, Option.bind_eq_some, Option.some.injEq] at h
    obtain ⟨fut, _, rfl⟩ := h
    rfl
  all_goals
    simp only [Option.some.injEq] at h
    subst h
    rfl

theorem invisibleCycle_autoDownFrame (G : Globals) (t : tetris) :
    (t.invisibleCycle G).autoDownFrame = t.autoDownFrame := by
  simp only [tetris.invisibleCycle]
  split_ifs <;> rfl

theorem lateralStep_autoDownFrame (l r : Bool) (t : tetris) :
    (t.lateralStep l r).1.autoDownFrame = t.autoDownFrame := by
  simp only [tetris.lateralStep]
  split_ifs <;> rfl

theorem rotationStep_both (ops : BlockOps) (t : tetris) :
    t.rotationStep ops true true = (t, false) ∧ t.rotationStep ops false false = (t, false) := by
  constructor <;> simp [tetris.rotationStep]

theorem rotationStep_left (ops : BlockOps) (t : tetris) :
    (t.rotationStep ops true false).2 = (ops.rotateLeft t.currentBlock t.area).2 ∧
      (t.rotationStep ops true false).1.currentBlock =
        (ops.rotateLeft t.currentBlock t.area).1 := by
  simp only [tetris.rotationStep]
  split_ifs <;> simp_all

theorem rotationStep_right (ops : BlockOps) (t : tetris) :
    (t.rotationStep ops false true).2 = (ops.rotateRight t.currentBlock t.area).2 ∧
      (t.rotationStep ops false true).1.currentBlock =
        (ops.rotateRight t.currentBlock t.area).1 := by
  simp only [tetris.rotationStep]
  split_ifs <;> simp_all

theorem rotationStep_autoDownFrame (ops : BlockOps) (rl rr : Bool) (t : tetris) :
    (t.rotationStep ops rl rr).1.autoDownFrame =
      (if (t.rotationStep ops rl rr).2 && t.betterRotation then 0 else t.autoDownFrame) := by
  simp only [tetris.rotationStep]
  split_ifs <;> simp_all

theorem lockStep_rotation_flag (G : Globals) (ops : BlockOps) (rnd : RandSource)
    (m : MoveState) (r : tetris × List Bool × Nat)
    (h : m.session.lockStep G ops rnd m.pos m.xMove (m.autoDown || m.manualDown)
      (noSounds.set SoundRotationID m.effectiveRotation) = some r) :
    r.2.1.getD SoundRotationID false = m.effectiveRotation := by
  have hlen := moveSounds_length ops m
  have hms : (m.moveSounds ops).getD SoundRotationID false = m.effectiveRotation := by
    unfold MoveState.moveSounds
    rw [getD_set_flag _ _ _ _ (by simp [noSounds, NumSounds]; decide), if_neg (by decide),
      getD_set_flag _ _ _ _ (by simp [noSounds, NumSounds]; decide), if_pos rfl]
  by_cases hs : m.stuck ops = true
  · obtain ⟨n, fa, tr, _, hcase⟩ := lockStep_stuck G ops rnd m r hs h
    rcases hcase with ⟨_, _, h2, _⟩ | ⟨_, _, h2⟩
    · rw [h2, getD_set_flag _ _ _ _ (by rw [List.length_set, hlen]; decide),
        if_neg (by decide), getD_set_flag _ _ _ _ (by rw [hlen]; decide), if_neg (by decide),
        hms]
    · rw [h2, getD_set_flag _ _ _ _ (by rw [hlen]; decide), if_neg (by decide), hms]
  · have hs' : (ops.updatePosition m.session.currentBlock m.xMove (m.autoDown || m.manualDown)
        m.session.area).2.1 = false := by
      simpa [MoveState.stuck] using hs
    rw [lockStep_not_stuck G ops rnd m.pos m.xMove (m.autoDown || m.manualDown) _ m.session hs']
      at h
    simp only [Option.some.injEq] at h
    subst h
    exact hms

theorem autoDownStep_flag (t : tetris) :
    t.autoDownStep.2 = decide (t.autoDownFrame + 1 ≥ t.autoDownFrameLimit) := by
  simp only [tetris.autoDownStep]
  split_ifs with h <;> simp [h]

/-- C25. Rotation: in a normal-play `update` call, with `u` the session at the rotation
statements (after the hold step and the invisible-block cycle): if `rotateLeft` and
`rotateRight` are both true, the rotation step leaves `u` unchanged whatever the rotation
functions of the block are, and the flag is false; if exactly one is true, the flag is the
boolean returned by the corresponding rotation of the block; the rotation sound flag of the
call equals that flag; the rotation step sets `autoDownFrame` to `0` exactly when the flag
is true and `betterRotation` is set and leaves it untouched otherwise, and the automatic
descent of the call is then decided on that value plus one. -/
theorem rotation_rules (G : Globals) (ops : BlockOps) (rnd : RandSource) (pos : Nat)
    (t : tetris) (req : Requests) (level : Int) (h : tetris × Nat)
    (hdead : t.dead = false) (hanim : ¬ t.removeLineAnimationStep > 0)
    (hh : t.holdStep ops rnd pos req.holdRequest = some h) :
    ∃ m, t.prepareMove G ops rnd pos req = some m ∧
      m.effectiveRotation =
        ((h.1.invisibleCycle G).rotationStep ops req.rotateLeft req.rotateRight).2 ∧
      (req.rotateLeft = true → req.rotateRight = true →
        m.effectiveRotation = false ∧
        ∀ ops2 : BlockOps, (h.1.invisibleCycle G).rotationStep ops2 req.rotateLeft
          req.rotateRight = (h.1.invisibleCycle G, false)) ∧
      (req.rotateLeft = true → req.rotateRight = false →
        m.effectiveRotation = (ops.rotateLeft (h.1.invisibleCycle G).currentBlock
          (h.1.invisibleCycle G).area).2) ∧
      (req.rotateLeft = false → req.rotateRight = true →
        m.effectiveRotation = (ops.rotateRight (h.1.invisibleCycle G).currentBlock
          (h.1.invisibleCycle G).area).2) ∧
      (∀ r, t.update G ops rnd pos req level = some r →
        r.2.1.getD SoundRotationID false = m.effectiveRotation) ∧
      ((h.1.invisibleCycle G).rotationStep ops req.rotateLeft
          req.rotateRight).1.autoDownFrame =
        (if m.effectiveRotation && t.betterRotation then 0 else t.autoDownFrame) ∧
      m.autoDown = decide ((if m.effectiveRotation && t.betterRotation then 0
        else t.autoDownFrame) + 1 ≥ t.autoDownFrameLimit) := by
  have hm : t.prepareMove G ops rnd pos req = some
      { session := (((((h.1.invisibleCycle G).rotationStep ops req.rotateLeft
            req.rotateRight).1.lateralStep req.moveLeftRequest
            req.moveRightRequest).1.autoDownStep).1.manualDownStep req.moveDownRequest
            (((h.1.invisibleCycle G).rotationStep ops req.rotateLeft
              req.rotateRight).1.lateralStep req.moveLeftRequest req.moveRightRequest).2.2).1,
        xMove := (((h.1.invisibleCycle G).rotationStep ops req.rotateLeft
            req.rotateRight).1.lateralStep req.moveLeftRequest req.moveRightRequest).2.1,
        autoDown := ((((h.1.invisibleCycle G).rotationStep ops req.rotateLeft
            req.rotateRight).1.lateralStep req.moveLeftRequest
            req.moveRightRequest).1.autoDownStep).2,
        manualDown := (((((h.1.invisibleCycle G).rotationStep ops req.rotateLeft
            req.rotateRight).1.lateralStep req.moveLeftRequest
            req.moveRightRequest).1.autoDownStep).1.manualDownStep req.moveDownRequest
            (((h.1.invisibleCycle G).rotationStep ops req.rotateLeft
              req.rotateRight).1.lateralStep req.moveLeftRequest req.moveRightRequest).2.2).2,
        effectiveRotation := ((h.1.invisibleCycle G).rotationStep ops req.rotateLeft
            req.rotateRight).2,
        pos := h.2 } := by
    simp only [tetris.prepareMove, hh, Option.bind_eq_bind, Option.some_bind]
  have hb : (h.1.invisibleCycle G).betterRotation = t.betterRotation := by
    have h1 := congrArg (fun p => p.2.2.2.2.2.2.2.1) (invisibleCycle_playConstants G h.1)
    have h2 := congrArg (fun p => p.2.2.2.2.2.2.2.1)
      (holdStep_playConstants ops rnd pos req.holdRequest t h hh)
    exact h1.trans h2
  have ha : (h.1.invisibleCycle G).autoDownFrame = t.autoDownFrame := by
    rw [invisibleCycle_autoDownFrame, holdStep_autoDownFrame ops rnd pos req.holdRequest t h hh]
  have hrot := rotationStep_autoDownFrame ops req.rotateLeft req.rotateRight
    (h.1.invisibleCycle G)
  rw [hb, ha] at hrot
  refine ⟨_, hm, rfl, ?_, ?_, ?_, ?_, hrot, ?_⟩
  · intro h1 h2
    rw [h1, h2]
    exact ⟨by rw [(rotationStep_both ops _).1], fun ops2 => (rotationStep_both ops2 _).1⟩
  · intro h1 h2
    show (tetris.rotationStep ops req.rotateLeft req.rotateRight _).2 = _
    rw [h1, h2]
    exact (rotationStep_left ops _).1
  · intro h1 h2
    show (tetris.rotationStep ops req.rotateLeft req.rotateRight _).2 = _
    rw [h1, h2]
    exact (rotationStep_right ops _).1
  · intro r hr
    rw [update_playStep G ops rnd pos t req level _ hdead hanim hm] at hr
    exact lockStep_rotation_flag G ops rnd _ r hr
  · show (tetris.autoDownStep _).2 = _
    rw [autoDownStep_flag, lateralStep_autoDownFrame, hrot]
    have hl : ((tetris.rotationStep ops req.rotateLeft req.rotateRight
        (h.1.invisibleCycle G)).1.lateralStep req.moveLeftRequest
        req.moveRightRequest).1.autoDownFrameLimit = t.autoDownFrameLimit := by
      have h1 := congrArg (fun p => p.2.2.2.2.2.1) (lateralStep_playConstants
        req.moveLeftRequest req.moveRightRequest (tetris.rotationStep ops req.rotateLeft
          req.rotateRight (h.1.invisibleCycle G)).1)
      have h2 := congrArg (fun p => p.2.2.2.2.2.1) (rotationStep_playConstants ops
        req.rotateLeft req.rotateRight (h.1.invisibleCycle G))
      have h3 := congrArg (fun p => p.2.2.2.2.2.1) (invisibleCycle_playConstants G h.1)
      have h4 := congrArg (fun p => p.2.2.2.2.2.1)
        (holdStep_playConstants ops rnd pos req.holdRequest t h hh)
      exact ((h1.trans h2).trans h3).trans h4
    rw [hl]

theorem rotation_rules_witness :
    ∃ m, turningSession.prepareMove sampleGlobals turningOps (fun _ => 0) 0 rotateLeftOnly =
        some m ∧
      m.effectiveRotation = true ∧ m.session.autoDownFrame = 1 ∧
      (∀ r, turningSession.update sampleGlobals turningOps (fun _ => 0) 0 rotateLeftOnly 1 =
        some r → r.2.1.getD SoundRotationID false = m.effectiveRotation) := by
  obtain ⟨m, h1, h2, _, _, _, h6, _, _⟩ := rotation_rules sampleGlobals turningOps (fun _ => 0)
    0 turningSession rotateLeftOnly 1 (turningSession, 0) rfl (by decide) rfl
  have hm : m = _ := Option.some.inj (h1.symm.trans rfl)
  subst hm
  exact ⟨_, rfl, rfl, rfl, h6⟩

/-! ## Runs of normal-play calls in which the block does not lock -/

theorem prepareMove_isSome (G : Globals) (ops : BlockOps) (rnd : RandSource) (pos : Nat)
    (req : Requests) (t : tetris) : ∃ m, t.prepareMove G ops rnd pos req = some m := by
  have hh : ∃ h, t.holdStep ops rnd pos req.holdRequest = some h := by
    simp only [tetris.holdStep]
    split_ifs
    · obtain ⟨fut, hfut⟩ := getNewBlock_isSome ops rnd pos t.currentBlock t.nextBlock
      rw [hfut]
      exact ⟨_, rfl⟩
    all_goals exact ⟨_, rfl⟩
  obtain ⟨h, hh⟩ := hh
  simp only [tetris.prepareMove, hh, Option.bind_eq_bind, Option.some_bind]
  exact ⟨_, rfl⟩

theorem update_not_stuck (G : Globals) (ops : BlockOps) (rnd : RandSource) (pos : Nat)
    (t : tetris) (req : Requests) (level : Int) (m : MoveState)
    (hdead : t.dead = false) (hanim : ¬ t.removeLineAnimationStep > 0)
    (hm : t.prepareMove G ops rnd pos req = some m) (hs : m.stuck ops = false) :
    ∃ r, t.update G ops rnd pos req level = some r ∧ r.2.2 = m.pos ∧
      playConstants r.1 = playConstants t ∧
      r.1.lrMoveFrame = m.session.lrMoveFrame ∧
      r.1.lrFirstMoveFrame = m.session.lrFirstMoveFrame ∧
      r.1.manualMoveAllowed = m.session.manualMoveAllowed ∧
      r.1.manualDownFrame = m.session.manualDownFrame ∧
      r.1.dropLenght = m.session.dropLenght := by
  rw [update_playStep G ops rnd pos t req level m hdead hanim hm,
    lockStep_not_stuck G ops rnd m.pos m.xMove (m.autoDown || m.manualDown) _ m.session hs]
  exact ⟨_, rfl, rfl, prepareMove_playConstants G ops rnd pos req t m hm, rfl, rfl, rfl, rfl,
    rfl⟩

theorem stuckFlags_cons (G : Globals) (ops : BlockOps) (rnd : RandSource)
    (call : Requests × Int) (rest : List (Requests × Int)) (s : tetris × Nat) (n : Nat)
    (h : stuckFlags G ops rnd (call :: rest) s = some (List.replicate (n + 1) false)) :
    s.1.stuck G ops rnd s.2 call.1 = some false ∧
      ∃ r, s.1.update G ops rnd s.2 call.1 call.2 = some r ∧
        stuckFlags G ops rnd rest (r.1, r.2.2) = some (List.replicate n false) := by
  simp only [stuckFlags, Option.bind_eq_bind, Option.bind_eq_some, Option.some.injEq,
    List.replicate_succ, List.cons.injEq] at h
  obtain ⟨flag, h1, r, h2, flags, h3, h4, h5⟩ := h
  subst h4 h5
  exact ⟨h1, r, h2, h3⟩

theorem lateralStep_oneKey (l r : Bool) (u : tetris) (hlr : l ≠ r)
    (hallow : u.manualMoveAllowed = true) (h6 : u.lrMoveFrameLimit = 6)
    (h15 : u.lrFirstMoveFrameLimit = 15) :
    (u.lateralStep l r).2.1 =
        (if u.lrMoveFrame > 0 ∨ (u.lrFirstMoveFrame > 0 ∧ u.lrFirstMoveFrame < 15) then 0
          else if l then -1 else 1) ∧
      (u.lateralStep l r).1.lrMoveFrame =
        (if u.lrMoveFrame + 1 ≥ 6 then 0 else u.lrMoveFrame + 1) ∧
      (u.lateralStep l r).1.lrFirstMoveFrame =
        (if u.lrFirstMoveFrame < 15 then u.lrFirstMoveFrame + 1 else u.lrFirstMoveFrame) ∧
      (u.lateralStep l r).1.manualMoveAllowed = true := by
  cases l <;> cases r
  · exact absurd rfl hlr
  · simp only [tetris.lateralStep, hallow, h6, h15, if_true, Bool.not_true, Bool.not_false,
      Bool.false_and, Bool.and_false, Bool.false_eq_true, if_false, zero_add, ne_eq,
      one_ne_zero, not_false_eq_true]
    by_cases c1 : u.lrMoveFrame > 0 ∨ (u.lrFirstMoveFrame > 0 ∧ u.lrFirstMoveFrame < 15) <;>
    by_cases c2 : u.lrMoveFrame + 1 ≥ 6 <;>
    by_cases c3 : u.lrFirstMoveFrame < 15 <;>
    simp only [c1, c2, c3, if_true, if_false, hallow, and_self]
  · simp only [tetris.lateralStep, hallow, h6, h15, if_true, Bool.not_true, Bool.not_false,
      Bool.false_and, Bool.and_false, Bool.false_eq_true, if_false, zero_sub, ne_eq,
      neg_eq_zero, one_ne_zero, not_false_eq_true]
    by_cases c1 : u.lrMoveFrame > 0 ∨ (u.lrFirstMoveFrame > 0 ∧ u.lrFirstMoveFrame < 15) <;>
    by_cases c2 : u.lrMoveFrame + 1 ≥ 6 <;>
    by_cases c3 : u.lrFirstMoveFrame < 15 <;>
    simp only [c1, c2, c3, if_true, if_false, hallow, and_self]
  · exact absurd rfl hlr

theorem prepareMove_oneKey (G : Globals) (ops : BlockOps) (rnd : RandSource) (pos : Nat)
    (req : Requests) (t : tetris) (m : MoveState)
    (hm : t.prepareMove G ops rnd pos req = some m)
    (hkey : req.moveLeftRequest ≠ req.moveRightRequest)
    (hallow : t.manualMoveAllowed = true) (h6 : t.lrMoveFrameLimit = 6)
    (h15 : t.lrFirstMoveFrameLimit = 15) :
    m.xMove =
        (if t.lrMoveFrame > 0 ∨ (t.lrFirstMoveFrame > 0 ∧ t.lrFirstMoveFrame < 15) then 0
          else if req.moveLeftRequest then -1 else 1) ∧
      m.session.lrMoveFrame = (if t.lrMoveFrame + 1 ≥ 6 then 0 else t.lrMoveFrame + 1) ∧
      m.session.lrFirstMoveFrame =
        (if t.lrFirstMoveFrame < 15 then t.lrFirstMoveFrame + 1 else t.lrFirstMoveFrame) ∧
      m.session.manualMoveAllowed = true := by
  simp only [tetris.prepareMove, Option.bind_eq_bind, Option.bind_eq_some,
    Option.some.injEq] at hm
  obtain ⟨hd, hhold, rfl⟩ := hm
  obtain ⟨a1, a2, a3⟩ := holdStep_moveFields ops rnd pos req.holdRequest t hd hhold
  obtain ⟨b1, b2, b3⟩ := invisibleCycle_moveFields G hd.1
  obtain ⟨c1, c2, c3⟩ := rotationStep_moveFields ops req.rotateLeft req.rotateRight
    (hd.1.invisibleCycle G)
  have hpc : playConstants ((hd.1.invisibleCycle G).rotationStep ops req.rotateLeft
      req.rotateRight).1 = playConstants t := by
    rw [rotationStep_playConstants, invisibleCycle_playConstants,
      holdStep_playConstants ops rnd pos req.holdRequest t hd hhold]
  have u6 := (congrArg (fun p => p.2.2.1) hpc).trans h6
  have u15 := (congrArg (fun p => p.2.2.2.1) hpc).trans h15
  obtain ⟨d1, d2, d3, d4⟩ := lateralStep_oneKey req.moveLeftRequest req.moveRightRequest
    ((hd.1.invisibleCycle G).rotationStep ops req.rotateLeft req.rotateRight).1 hkey
    (by rw [c3, b3, a3]; exact hallow) u6 u15
  rw [c1, b1, a1, c2, b2, a2] at d1
  rw [c1, b1, a1] at d2
  rw [c2, b2, a2] at d3
  obtain ⟨e1, e2, e3⟩ := autoDownStep_moveFields
    ((((hd.1.invisibleCycle G).rotationStep ops req.rotateLeft req.rotateRight).1).lateralStep
      req.moveLeftRequest req.moveRightRequest).1
  obtain ⟨f1, f2, f3⟩ := manualDownStep_moveFields req.moveDownRequest
    (((((hd.1.invisibleCycle G).rotationStep ops req.rotateLeft req.rotateRight).1).lateralStep
      req.moveLeftRequest req.moveRightRequest).2.2)
    ((((hd.1.invisibleCycle G).rotationStep ops req.rotateLeft req.rotateRight).1).lateralStep
      req.moveLeftRequest req.moveRightRequest).1.autoDownStep.1
  refine ⟨d1, ?_, ?_, ?_⟩
  · show (tetris.manualDownStep _ _ _).1.lrMoveFrame = _
    rw [f1, e1, d2]
  · show (tetris.manualDownStep _ _ _).1.lrFirstMoveFrame = _
    rw [f2, e2, d3]
  · show (tetris.manualDownStep _ _ _).1.manualMoveAllowed = _
    rw [f3, e3, d4]
    cases req.moveDownRequest <;> simp

theorem lateralInv_xMove (G : Globals) (ops : BlockOps) (rnd : RandSource) (pos : Nat)
    (req : Requests) (t : tetris) (k : Nat) (hinv : LateralInv k t)
    (hkey : req.moveLeftRequest ≠ req.moveRightRequest) :
    ∃ m, t.prepareMove G ops rnd pos req = some m ∧
      m.xMove = (if k = 0 ∨ (18 ≤ k ∧ k % 6 = 0) then (if req.moveLeftRequest then -1 else 1)
        else 0) ∧
      m.session.lrMoveFrame = (((k + 1) % 6 : Nat) : Int) ∧
      m.session.lrFirstMoveFrame = ((min (k + 1) 15 : Nat) : Int) ∧
      m.session.manualMoveAllowed = true := by
  obtain ⟨_, _, hallow, h6, h15, hlr, hfirst⟩ := hinv
  obtain ⟨m, hm⟩ := prepareMove_isSome G ops rnd pos req t
  obtain ⟨p1, p2, p3, p4⟩ := prepareMove_oneKey G ops rnd pos req t m hm hkey hallow h6 h15
  rw [hlr, hfirst] at p1
  rw [hlr] at p2
  rw [hfirst] at p3
  refine ⟨m, hm, ?_, ?_, ?_, p4⟩
  · rw [p1]
    by_cases hc : k = 0 ∨ (18 ≤ k ∧ k % 6 = 0)
    · rw [if_pos hc, if_neg]
      rintro (h | ⟨h1, h2⟩) <;> omega
    · rw [if_neg hc, if_pos]
      by_cases h6k : k % 6 = 0
      · right
        have : 0 < k ∧ k < 18 := by omega
        omega
      · left
        omega
  · rw [p2]
    split_ifs <;> omega
  · rw [p3]
    split_ifs <;> omega

theorem lateralInv_step (G : Globals) (ops : BlockOps) (rnd : RandSource) (pos : Nat)
    (req : Requests) (level : Int) (t : tetris) (k : Nat) (hinv : LateralInv k t)
    (hkey : req.moveLeftRequest ≠ req.moveRightRequest)
    (hfree : t.stuck G ops rnd pos req = some false) :
    ∃ r, t.update G ops rnd pos req level = some r ∧ LateralInv (k + 1) r.1 := by
  obtain ⟨m, hm, _, q2, q3, q4⟩ := lateralInv_xMove G ops rnd pos req t k hinv hkey
  obtain ⟨hdead, hanim, _, h6, h15, _, _⟩ := hinv
  have hs : m.stuck ops = false := by
    simp only [tetris.stuck, hm, Option.map_some', Option.some.injEq] at hfree
    exact hfree
  obtain ⟨r, hr, _, hpc, r1, r2, r3, _, _⟩ :=
    update_not_stuck G ops rnd pos t req level m hdead hanim hm hs
  refine ⟨r, hr, ?_, ?_, ?_, ?_, ?_, ?_, ?_⟩
  · exact (congrArg (fun p => p.1) hpc).trans hdead
  · have := congrArg (fun p => p.2.1) hpc
    simp only at this
    show ¬ r.1.removeLineAnimationStep > 0
    rw [show r.1.removeLineAnimationStep = t.removeLineAnimationStep from this]
    exact hanim
  · rw [r3, q4]
  · exact (congrArg (fun p => p.2.2.1) hpc).trans h6
  · exact (congrArg (fun p => p.2.2.2.1) hpc).trans h15
  · rw [r1, q2]
  · rw [r2, q3]

theorem lateralInv_run (G : Globals) (ops : BlockOps) (rnd : RandSource) :
    ∀ (calls : List (Requests × Int)) (k : Nat) (s : tetris × Nat),
      LateralInv k s.1 →
      (∀ c ∈ calls, c.1.moveLeftRequest ≠ c.1.moveRightRequest) →
      stuckFlags G ops rnd calls s = some (List.replicate calls.length false) →
      ∃ s', runUpdates G ops rnd calls s = some s' ∧ LateralInv (k + calls.length) s'.1 := by
  intro calls
  induction calls with
  | nil =>
    intro k s hinv _ _
    exact ⟨s, rfl, hinv⟩
  | cons c rest ih =>
    intro k s hinv hkeys hfree
    obtain ⟨h1, r, h2, h3⟩ := stuckFlags_cons G ops rnd c rest s rest.length hfree
    obtain ⟨r', hr', hinv'⟩ := lateralInv_step G ops rnd s.2 c.1 c.2 s.1 k hinv
      (hkeys c (List.mem_cons_self _ _)) h1
    rw [h2] at hr'
    have hrr : r = r' := Option.some.inj hr'
    subst hrr
    obtain ⟨s', hs', hinv''⟩ := ih (k + 1) (r.1, r.2.2) hinv'
      (fun c' hc' => hkeys c' (List.mem_cons_of_mem _ hc')) h3
    refine ⟨s', ?_, ?_⟩
    · simp only [runUpdates, h2, Option.bind_eq_bind, Option.some_bind]
      exact hs'
    · have : k + (c :: rest).length = k + 1 + rest.length := by
        simp only [List.length_cons]; omega
      rw [this]
      exact hinv''

theorem prepareMove_bothKeys (G : Globals) (ops : BlockOps) (rnd : RandSource) (pos : Nat)
    (req : Requests) (t : tetris) (hl : req.moveLeftRequest = true)
    (hr : req.moveRightRequest = true) :
    ∃ m, t.prepareMove G ops rnd pos req = some m ∧ m.xMove = 0 ∧
      m.session.lrMoveFrame = t.lrMoveFrame ∧
      m.session.lrFirstMoveFrame = t.lrFirstMoveFrame := by
  obtain ⟨m, hm⟩ := prepareMove_isSome G ops rnd pos req t
  refine ⟨m, hm, ?_⟩
  simp only [tetris.prepareMove, Option.bind_eq_bind, Option.bind_eq_some,
    Option.some.injEq, hl, hr] at hm
  obtain ⟨hd, hhold, rfl⟩ := hm
  obtain ⟨a1, a2, _⟩ := holdStep_moveFields ops rnd pos req.holdRequest t hd hhold
  obtain ⟨b1, b2, _⟩ := invisibleCycle_moveFields G hd.1
  obtain ⟨c1, c2, _⟩ := rotationStep_moveFields ops req.rotateLeft req.rotateRight
    (hd.1.invisibleCycle G)
  have hlat : ∀ u : tetris, u.lateralStep true true = (u, 0, false) := by
    intro u
    simp [tetris.lateralStep]
  obtain ⟨e1, e2, _⟩ := autoDownStep_moveFields
    ((((hd.1.invisibleCycle G).rotationStep ops req.rotateLeft req.rotateRight).1).lateralStep
      true true).1
  obtain ⟨f1, f2, _⟩ := manualDownStep_moveFields req.moveDownRequest
    (((((hd.1.invisibleCycle G).rotationStep ops req.rotateLeft req.rotateRight).1).lateralStep
      true true).2.2)
    ((((hd.1.invisibleCycle G).rotationStep ops req.rotateLeft req.rotateRight).1).lateralStep
      true true).1.autoDownStep.1
  refine ⟨?_, ?_, ?_⟩
  · show (tetris.lateralStep true true _).2.1 = 0
    rw [hlat]
  · show (tetris.manualDownStep _ _ _).1.lrMoveFrame = _
    rw [f1, e1, hlat, c1, b1, a1]
  · show (tetris.manualDownStep _ _ _).1.lrFirstMoveFrame = _
    rw [f2, e2, hlat, c2, b2, a2]

/-- C23. Lateral auto-repeat schedule: from a normal-play session with
`manualMoveAllowed = true`, `lrMoveFrame = 0`, `lrFirstMoveFrame = 0`,
`lrMoveFrameLimit = 6` and `lrFirstMoveFrameLimit = 15`, any run of calls in which exactly
one lateral key is held and the block never locks returns, with `lrMoveFrame = k mod 6` and
`lrFirstMoveFrame = min(k, 15)` after `k` calls; on the next tick (tick `k + 1`) with one
lateral key held, the lateral delta passed to `updatePosition` is non-zero exactly when the
tick number is 1 or `19 + 6 * j`, and is then `-1` for left and `1` for right. In any session,
when both lateral keys are held the delta is 0 and neither counter changes. -/
theorem lateral_schedule (G : Globals) (ops : BlockOps) (rnd : RandSource) (pos : Nat)
    (t : tetris) (calls : List (Requests × Int))
    (hdead : t.dead = false) (hanim : ¬ t.removeLineAnimationStep > 0)
    (hallow : t.manualMoveAllowed = true) (hlr : t.lrMoveFrame = 0)
    (hfirst : t.lrFirstMoveFrame = 0) (h6 : t.lrMoveFrameLimit = 6)
    (h15 : t.lrFirstMoveFrameLimit = 15)
    (hkeys : ∀ c ∈ calls, c.1.moveLeftRequest ≠ c.1.moveRightRequest)
    (hfree : stuckFlags G ops rnd calls (t, pos) = some (List.replicate calls.length false)) :
    (∃ s, runUpdates G ops rnd calls (t, pos) = some s ∧ LateralInv calls.length s.1 ∧
      ∀ req : Requests, req.moveLeftRequest ≠ req.moveRightRequest →
        ∃ m, s.1.prepareMove G ops rnd s.2 req = some m ∧
          (m.xMove ≠ 0 ↔ (calls.length + 1 = 1 ∨ ∃ j, calls.length + 1 = 19 + 6 * j)) ∧
          (m.xMove ≠ 0 → m.xMove = if req.moveLeftRequest then -1 else 1)) ∧
    (∀ (u : tetris) (pos2 : Nat) (req : Requests), req.moveLeftRequest = true →
      req.moveRightRequest = true →
      ∃ m, u.prepareMove G ops rnd pos2 req = some m ∧ m.xMove = 0 ∧
        m.session.lrMoveFrame = u.lrMoveFrame ∧
        m.session.lrFirstMoveFrame = u.lrFirstMoveFrame) := by
  refine ⟨?_, fun u pos2 req hl hr => prepareMove_bothKeys G ops rnd pos2 req u hl hr⟩
  have hinv0 : LateralInv 0 t := ⟨hdead, hanim, hallow, h6, h15, hlr, hfirst⟩
  obtain ⟨s, hs, hinv⟩ := lateralInv_run G ops rnd calls 0 (t, pos) hinv0 hkeys hfree
  rw [Nat.zero_add] at hinv
  refine ⟨s, hs, hinv, fun req hkey => ?_⟩
  obtain ⟨m, hm, hx, _⟩ := lateralInv_xMove G ops rnd s.2 req s.1 calls.length hinv hkey
  refine ⟨m, hm, ?_, ?_⟩
  · rw [hx]
    by_cases hc : calls.length = 0 ∨ (18 ≤ calls.length ∧ calls.length % 6 = 0)
    · rw [if_pos hc]
      constructor
      · intro _
        rcases hc with h | ⟨h1, h2⟩
        · left; omega
        · right; exact ⟨(calls.length - 18) / 6, by omega⟩
      · intro _
        split_ifs <;> decide
    · rw [if_neg hc]
      constructor
      · intro h; exact absurd rfl h
      · rintro (h | ⟨j, hj⟩)
        · exact absurd (Or.inl (by omega)) hc
        · exact absurd (Or.inr ⟨by omega, by omega⟩) hc
  · intro hne
    rw [hx] at hne ⊢
    by_cases hc : calls.length = 0 ∨ (18 ≤ calls.length ∧ calls.length % 6 = 0)
    · rw [if_pos hc]
    · rw [if_neg hc] at hne
      exact absurd rfl hne

theorem lateral_schedule_witness :
    (∃ s, runUpdates sampleGlobals restingOps (fun _ => 0) (List.replicate 18 (leftRequest, 1))
        (stackSession, 0) = some s ∧
      LateralInv (List.replicate 18 (leftRequest, (1 : Int))).length s.1 ∧
      ∀ req : Requests, req.moveLeftRequest ≠ req.moveRightRequest →
        ∃ m, s.1.prepareMove sampleGlobals restingOps (fun _ => 0) s.2 req = some m ∧
          (m.xMove ≠ 0 ↔ ((List.replicate 18 (leftRequest, (1 : Int))).length + 1 = 1 ∨
            ∃ j, (List.replicate 18 (leftRequest, (1 : Int))).length + 1 = 19 + 6 * j)) ∧
          (m.xMove ≠ 0 → m.xMove = if req.moveLeftRequest then -1 else 1)) ∧
    (∀ (u : tetris) (pos2 : Nat) (req : Requests), req.moveLeftRequest = true →
      req.moveRightRequest = true →
      ∃ m, u.prepareMove sampleGlobals restingOps (fun _ => 0) pos2 req = some m ∧
        m.xMove = 0 ∧ m.session.lrMoveFrame = u.lrMoveFrame ∧
        m.session.lrFirstMoveFrame = u.lrFirstMoveFrame) :=
  lateral_schedule sampleGlobals restingOps (fun _ => 0) 0 stackSession
    (List.replicate 18 (leftRequest, 1)) rfl (by decide) rfl rfl rfl rfl rfl
    (fun c hc => by rw [List.eq_of_mem_replicate hc]; decide) rfl

/-! ## The soft-drop schedule -/

theorem holdStep_downFields (ops : BlockOps) (rnd : RandSource) (pos : Nat) (hold : Bool)
    (t : tetris) (r : tetris × Nat) (h : t.holdStep ops rnd pos hold = some r) :
    r.1.manualDownFrame = t.manualDownFrame ∧ r.1.dropLenght = t.dropLenght := by
  simp only [tetris.holdStep] at h
  split_ifs at h
  · simp only [Option.bind_eq_bind, Option.bind_eq_some, Option.some.injEq] at h
    obtain ⟨fut, _, rfl⟩ := h
    exact ⟨rfl, rfl⟩
  all_goals
    simp only [Option.some.injEq] at h
    subst h
    exact ⟨rfl, rfl⟩

theorem invisibleCycle_downFields (G : Globals) (t : tetris) :
    (t.invisibleCycle G).manualDownFrame = t.manualDownFrame ∧
      (t.invisibleCycle G).dropLenght = t.dropLenght := by
  simp only [tetris.invisibleCycle]
  split_ifs <;> exact ⟨rfl, rfl⟩

theorem rotationStep_downFields (ops : BlockOps) (rl rr : Bool) (t : tetris) :
    (t.rotationStep ops rl rr).1.manualDownFrame = t.manualDownFrame ∧
      (t.rotationStep ops rl rr).1.dropLenght = t.dropLenght := by
  simp only [tetris.rotationStep]
  split_ifs <;> exact ⟨rfl, rfl⟩

theorem lateralStep_downFields (l r : Bool) (t : tetris) :
    (t.lateralStep l r).1.manualDownFrame = t.manualDownFrame ∧
      (t.lateralStep l r).1.dropLenght = t.dropLenght ∧
      (t.lateralStep l r).1.manualMoveAllowed = t.manualMoveAllowed := by
  simp only [tetris.lateralStep]
  split_ifs <;> exact ⟨rfl, rfl, rfl⟩

theorem autoDownStep_downFields (t : tetris) :
    t.autoDownStep.1.manualDownFrame = t.manualDownFrame ∧
      t.autoDownStep.1.dropLenght = t.dropLenght := by
  simp only [tetris.autoDownStep]
  split_ifs <;> exact ⟨rfl, rfl⟩

theorem manualDownStep_released (may : Bool) (w : tetris) :
    (w.manualDownStep false may).1.manualDownFrame = 0 ∧
      (w.manualDownStep false may).1.dropLenght = 0 ∧
      (w.manualDownStep false may).2 = false := by
  simp [tetris.manualDownStep]

theorem manualDownStep_locked (down may : Bool) (w : tetris)
    (hallow : w.manualMoveAllowed = false) : (w.manualDownStep down may).2 = false := by
  cases down <;> simp [tetris.manualDownStep, hallow]

theorem manualDownStep_held (may : Bool) (w : tetris) (hallow : w.manualMoveAllowed = true)
    (h4 : w.manualDownFrameLimit = 4) :
    (w.manualDownStep true may).2 = decide (w.manualDownFrame = 0) ∧
      (w.manualDownStep true may).1.manualDownFrame =
        (if w.manualDownFrame + 1 ≥ 4 then 0 else w.manualDownFrame + 1) ∧
      (w.manualDownStep true may).1.dropLenght =
        (if w.manualDownFrame = 0 then w.dropLenght + 1 else w.dropLenght) ∧
      (w.manualDownStep true may).1.manualMoveAllowed = true := by
  simp only [tetris.manualDownStep, hallow, h4, Bool.not_true, Bool.false_eq_true, if_false,
    Bool.and_self, if_true, decide_eq_true_eq]
  by_cases c1 : w.manualDownFrame = 0
  · have c2 : ¬ (w.manualDownFrame + 1 ≥ 4) := by omega
    simp only [c2, if_false]
    simp only [c1, if_true, decide_True, and_self]
  · by_cases c2 : w.manualDownFrame + 1 ≥ 4 <;>
    simp only [c1, c2, if_true, if_false, hallow, and_self, decide_False,
      Bool.false_eq_true]

theorem prepareMove_manual (G : Globals) (ops : BlockOps) (rnd : RandSource) (pos : Nat)
    (req : Requests) (t : tetris) (m : MoveState)
    (hm : t.prepareMove G ops rnd pos req = some m) :
    ∃ (w : tetris) (may : Bool),
      m.session = (w.manualDownStep req.moveDownRequest may).1 ∧
      m.manualDown = (w.manualDownStep req.moveDownRequest may).2 ∧
      w.manualDownFrame = t.manualDownFrame ∧ w.dropLenght = t.dropLenght ∧
      w.manualMoveAllowed = t.manualMoveAllowed ∧
      w.manualDownFrameLimit = t.manualDownFrameLimit := by
  simp only [tetris.prepareMove, Option.bind_eq_bind, Option.bind_eq_some,
    Option.some.injEq] at hm
  obtain ⟨hd, hhold, rfl⟩ := hm
  obtain ⟨a1, a2⟩ := holdStep_downFields ops rnd pos req.holdRequest t hd hhold
  obtain ⟨_, _, a3⟩ := holdStep_moveFields ops rnd pos req.holdRequest t hd hhold
  obtain ⟨b1, b2⟩ := invisibleCycle_downFields G hd.1
  obtain ⟨_, _, b3⟩ := invisibleCycle_moveFields G hd.1
  obtain ⟨c1, c2⟩ := rotationStep_downFields ops req.rotateLeft req.rotateRight
    (hd.1.invisibleCycle G)
  obtain ⟨_, _, c3⟩ := rotationStep_moveFields ops req.rotateLeft req.rotateRight
    (hd.1.invisibleCycle G)
  obtain ⟨d1, d2, d3⟩ := lateralStep_downFields req.moveLeftRequest req.moveRightRequest
    ((hd.1.invisibleCycle G).rotationStep ops req.rotateLeft req.rotateRight).1
  obtain ⟨e1, e2⟩ := autoDownStep_downFields
    ((((hd.1.invisibleCycle G).rotationStep ops req.rotateLeft req.rotateRight).1).lateralStep
      req.moveLeftRequest req.moveRightRequest).1
  obtain ⟨_, _, e3⟩ := autoDownStep_moveFields
    ((((hd.1.invisibleCycle G).rotationStep ops req.rotateLeft req.rotateRight).1).lateralStep
      req.moveLeftRequest req.moveRightRequest).1
  have hpc : playConstants ((((hd.1.invisibleCycle G).rotationStep ops req.rotateLeft
      req.rotateRight).1).lateralStep req.moveLeftRequest req.moveRightRequest).1.autoDownStep.1
      = playConstants t := by
    rw [autoDownStep_playConstants, lateralStep_playConstants, rotationStep_playConstants,
      invisibleCycle_playConstants, holdStep_playConstants ops rnd pos req.holdRequest t hd hhold]
  refine ⟨_, _, rfl, rfl, ?_, ?_, ?_, congrArg (fun p => p.2.2.2.2.1) hpc⟩
  · rw [e1, d1, c1, b1, a1]
  · rw [e2, d2, c2, b2, a2]
  · rw [e3, d3, c3, b3, a3]

theorem lockStep_downFields (G : Globals) (ops : BlockOps) (rnd : RandSource)
    (m : MoveState) (r : tetris × List Bool × Nat)
    (h : m.session.lockStep G ops rnd m.pos m.xMove (m.autoDown || m.manualDown)
      (noSounds.set SoundRotationID m.effectiveRotation) = some r) :
    r.1.manualDownFrame = m.session.manualDownFrame ∧ r.1.dropLenght = m.session.dropLenght := by
  by_cases hs : m.stuck ops = true
  · obtain ⟨n, fa, tr, _, hcase⟩ := lockStep_stuck G ops rnd m r hs h
    rcases hcase with ⟨_, h1, _, _⟩ | ⟨_, h1, _⟩
    · rw [h1]
      exact ⟨rfl, rfl⟩
    · obtain ⟨_, _, _, _, _, _, _, f8, f9, _⟩ := setUpNext_frame G ops rnd m.pos _ _ h1
      exact ⟨f9, f8⟩
  · have hs' : (ops.updatePosition m.session.currentBlock m.xMove (m.autoDown || m.manualDown)
        m.session.area).2.1 = false := by
      simpa [MoveState.stuck] using hs
    rw [lockStep_not_stuck G ops rnd m.pos m.xMove (m.autoDown || m.manualDown) _ m.session hs']
      at h
    simp only [Option.some.injEq] at h
    subst h
    exact ⟨rfl, rfl⟩

theorem downInv_manual (G : Globals) (ops : BlockOps) (rnd : RandSource) (pos : Nat)
    (req : Requests) (t : tetris) (k : Nat) (hinv : DownInv k t)
    (hkey : req.moveDownRequest = true) :
    ∃ m, t.prepareMove G ops rnd pos req = some m ∧
      m.manualDown = decide (k % 4 = 0) ∧
      m.session.manualDownFrame = (((k + 1) % 4 : Nat) : Int) ∧
      m.session.dropLenght = (((k + 1 + 3) / 4 : Nat) : Int) ∧
      m.session.manualMoveAllowed = true := by
  obtain ⟨_, _, hallow, h4, hframe, hdrop⟩ := hinv
  obtain ⟨m, hm⟩ := prepareMove_isSome G ops rnd pos req t
  obtain ⟨w, may, w1, w2, w3, w4, w5, w6⟩ := prepareMove_manual G ops rnd pos req t m hm
  rw [hkey] at w1 w2
  obtain ⟨p1, p2, p3, p4⟩ := manualDownStep_held may w (w5.trans hallow) (w6.trans h4)
  rw [w3, hframe] at p1 p2 p3
  rw [w4, hdrop] at p3
  refine ⟨m, hm, ?_, ?_, ?_, ?_⟩
  · rw [w2, p1]
    exact decide_eq_decide.mpr ⟨fun h => by omega, fun h => by omega⟩
  · rw [w1, p2]
    split_ifs <;> omega
  · rw [w1, p3]
    split_ifs <;> omega
  · rw [w1, p4]

theorem downInv_step (G : Globals) (ops : BlockOps) (rnd : RandSource) (pos : Nat)
    (req : Requests) (level : Int) (t : tetris) (k : Nat) (hinv : DownInv k t)
    (hkey : req.moveDownRequest = true)
    (hfree : t.stuck G ops rnd pos req = some false) :
    ∃ r, t.update G ops rnd pos req level = some r ∧ DownInv (k + 1) r.1 := by
  obtain ⟨m, hm, _, q2, q3, q4⟩ := downInv_manual G ops rnd pos req t k hinv hkey
  obtain ⟨hdead, hanim, _, h4, _, _⟩ := hinv
  have hs : m.stuck ops = false := by
    simp only [tetris.stuck, hm, Option.map_some', Option.some.injEq] at hfree
    exact hfree
  obtain ⟨r, hr, _, hpc, _, _, r3, r4, r5⟩ :=
    update_not_stuck G ops rnd pos t req level m hdead hanim hm hs
  refine ⟨r, hr, ?_, ?_, ?_, ?_, ?_, ?_⟩
  · exact (congrArg (fun p => p.1) hpc).trans hdead
  · have := congrArg (fun p => p.2.1) hpc
    simp only at this
    show ¬ r.1.removeLineAnimationStep > 0
    rw [show r.1.removeLineAnimationStep = t.removeLineAnimationStep from this]
    exact hanim
  · rw [r3, q4]
  · exact (congrArg (fun p => p.2.2.2.2.1) hpc).trans h4
  · rw [r4, q2]
  · rw [r5, q3]

theorem downInv_run (G : Globals) (ops : BlockOps) (rnd : RandSource) :
    ∀ (calls : List (Requests × Int)) (k : Nat) (s : tetris × Nat),
      DownInv k s.1 →
      (∀ c ∈ calls, c.1.moveDownRequest = true) →
      stuckFlags G ops rnd calls s = some (List.replicate calls.length false) →
      ∃ s', runUpdates G ops rnd calls s = some s' ∧ DownInv (k + calls.length) s'.1 := by
  intro calls
  induction calls with
  | nil =>
    intro k s hinv _ _
    exact ⟨s, rfl, hinv⟩
  | cons c rest ih =>
    intro k s hinv hkeys hfree
    obtain ⟨h1, r, h2, h3⟩ := stuckFlags_cons G ops rnd c rest s rest.length hfree
    obtain ⟨r', hr', hinv'⟩ := downInv_step G ops rnd s.2 c.1 c.2 s.1 k hinv
      (hkeys c (List.mem_cons_self _ _)) h1
    rw [h2] at hr'
    have hrr : r = r' := Option.some.inj hr'
    subst hrr
    obtain ⟨s', hs', hinv''⟩ := ih (k + 1) (r.1, r.2.2) hinv'
      (fun c' hc' => hkeys c' (List.mem_cons_of_mem _ hc')) h3
    refine ⟨s', ?_, ?_⟩
    · simp only [runUpdates, h2, Option.bind_eq_bind, Option.some_bind]
      exact hs'
    · have : k + (c :: rest).length = k + 1 + rest.length := by
        simp only [List.length_cons]; omega
      rw [this]
      exact hinv''

/-- C24. Soft-drop schedule: from a normal-play session with `manualMoveAllowed = true`,
`manualDownFrame = 0`, `dropLenght = 0` and `manualDownFrameLimit = 4`, any run of calls
with the down key held in which the block never locks returns, with
`manualDownFrame = k mod 4` and `dropLenght = ceil(k / 4)` after `k` calls, and on the next
tick (tick `k + 1`) with the down key held a manual descent fires exactly when the tick
number is `1` modulo 4. In any normal-play call with the down key not pressed,
`manualDownFrame` and `dropLenght` are 0 after the call; and while `manualMoveAllowed` is
false no manual descent fires. -/
theorem soft_drop_schedule (G : Globals) (ops : BlockOps) (rnd : RandSource) (pos : Nat)
    (t : tetris) (calls : List (Requests × Int))
    (hdead : t.dead = false) (hanim : ¬ t.removeLineAnimationStep > 0)
    (hallow : t.manualMoveAllowed = true) (hframe : t.manualDownFrame = 0)
    (hdrop : t.dropLenght = 0) (h4 : t.manualDownFrameLimit = 4)
    (hkeys : ∀ c ∈ calls, c.1.moveDownRequest = true)
    (hfree : stuckFlags G ops rnd calls (t, pos) = some (List.replicate calls.length false)) :
    (∃ s, runUpdates G ops rnd calls (t, pos) = some s ∧ DownInv calls.length s.1 ∧
      s.1.dropLenght = (((calls.length + 3) / 4 : Nat) : Int) ∧
      ∀ req : Requests, req.moveDownRequest = true →
        ∃ m, s.1.prepareMove G ops rnd s.2 req = some m ∧
          (m.manualDown = true ↔ (calls.length + 1) % 4 = 1)) ∧
    (∀ (u : tetris) (pos2 : Nat) (req : Requests) (level : Int) (r : tetris × List Bool × Nat),
      u.dead = false → ¬ u.removeLineAnimationStep > 0 → req.moveDownRequest = false →
      u.update G ops rnd pos2 req level = some r →
      r.1.manualDownFrame = 0 ∧ r.1.dropLenght = 0) ∧
    (∀ (u : tetris) (pos2 : Nat) (req : Requests), u.manualMoveAllowed = false →
      ∃ m, u.prepareMove G ops rnd pos2 req = some m ∧ m.manualDown = false) := by
  refine ⟨?_, ?_, ?_⟩
  · have hinv0 : DownInv 0 t := ⟨hdead, hanim, hallow, h4, hframe, hdrop⟩
    obtain ⟨s, hs, hinv⟩ := downInv_run G ops rnd calls 0 (t, pos) hinv0 hkeys hfree
    rw [Nat.zero_add] at hinv
    refine ⟨s, hs, hinv, hinv.2.2.2.2.2, fun req hkey => ?_⟩
    obtain ⟨m, hm, hx, _⟩ := downInv_manual G ops rnd s.2 req s.1 calls.length hinv hkey
    refine ⟨m, hm, ?_⟩
    rw [hx, decide_eq_true_eq]
    omega
  · intro u pos2 req level r hd ha hkey hr
    obtain ⟨m, hm⟩ := prepareMove_isSome G ops rnd pos2 req u
    obtain ⟨w, may, w1, _, _⟩ := prepareMove_manual G ops rnd pos2 req u m hm
    rw [hkey] at w1
    obtain ⟨p1, p2, _⟩ := manualDownStep_released may w
    rw [update_playStep G ops rnd pos2 u req level m hd ha hm] at hr
    obtain ⟨q1, q2⟩ := lockStep_downFields G ops rnd m r hr
    rw [q1, q2, w1]
    exact ⟨p1, p2⟩
  · intro u pos2 req hallow2
    obtain ⟨m, hm⟩ := prepareMove_isSome G ops rnd pos2 req u
    obtain ⟨w, may, _, w2, _, _, w5, _⟩ := prepareMove_manual G ops rnd pos2 req u m hm
    exact ⟨m, hm, by rw [w2]; exact manualDownStep_locked _ _ w (w5.trans hallow2)⟩

theorem soft_drop_schedule_witness :
    (∃ s, runUpdates sampleGlobals fallingOps (fun _ => 0) (List.replicate 5 (downLeftRequest, 1))
        (stackSession, 0) = some s ∧
      DownInv (List.replicate 5 (downLeftRequest, (1 : Int))).length s.1 ∧
      s.1.dropLenght = ((((List.replicate 5 (downLeftRequest, (1 : Int))).length + 3) / 4 : Nat) : Int) ∧
      ∀ req : Requests, req.moveDownRequest = true →
        ∃ m, s.1.prepareMove sampleGlobals fallingOps (fun _ => 0) s.2 req = some m ∧
          (m.manualDown = true ↔
            ((List.replicate 5 (downLeftRequest, (1 : Int))).length + 1) % 4 = 1)) ∧
    (∀ (u : tetris) (pos2 : Nat) (req : Requests) (level : Int) (r : tetris × List Bool × Nat),
      u.dead = false → ¬ u.removeLineAnimationStep > 0 → req.moveDownRequest = false →
      u.update sampleGlobals fallingOps (fun _ => 0) pos2 req level = some r →
      r.1.manualDownFrame = 0 ∧ r.1.dropLenght = 0) ∧
    (∀ (u : tetris) (pos2 : Nat) (req : Requests), u.manualMoveAllowed = false →
      ∃ m, u.prepareMove sampleGlobals fallingOps (fun _ => 0) pos2 req = some m ∧
        m.manualDown = false) :=
  soft_drop_schedule sampleGlobals fallingOps (fun _ => 0) 0 stackSession
    (List.replicate 5 (downLeftRequest, 1)) rfl (by decide) rfl rfl rfl rfl
    (fun c hc => by rw [List.eq_of_mem_replicate hc]; rfl) rfl

/-! ## The selector of the balancer -/

theorem goMod_nonneg (a n : Int) (ha : 0 ≤ a) (hn : 1 ≤ n) : goMod a n = some (a % n) := by
  unfold goMod
  rw [if_neg (by omega), Int.tmod_eq_emod ha (by omega)]

theorem update_idle_move (G : Globals) (keys : MenuKeys) (b : balancing)
    (hidle : b.inTransition = false) (hf : b.transitionFrame = 0)
    (henter : keys.enter = false) (hkey : keys.left = true ∨ keys.right = true) :
    ∃ sounds, b.update G keys =
        some (inTransitionAt b (if keys.right then -1 else 1) 0, false, sounds) ∧
      sounds.getD SoundMenuMoveID false = true := by
  obtain ⟨levels, maxLevels, choice, dir, choices, n, tr, f⟩ := b
  simp only at hidle hf
  subst hidle hf
  have hlen : SoundMenuMoveID < noSounds.length := by decide
  have hlen2 : SoundMenuMoveID < (noSounds.set SoundMenuMoveID true).length := by decide
  cases hl : keys.left <;> cases hr : keys.right
  · rw [hl, hr] at hkey
    rcases hkey with h | h <;> exact Bool.noConfusion h
  · exact ⟨noSounds.set SoundMenuMoveID true, by simp only [balancing.update, hl, hr, henter,
      inTransitionAt, Bool.false_eq_true, if_false, if_true], by
      rw [getD_set_flag _ _ _ _ hlen, if_pos rfl]⟩
  · exact ⟨noSounds.set SoundMenuMoveID true, by simp only [balancing.update, hl, hr, henter,
      inTransitionAt, Bool.false_eq_true, if_false, if_true], by
      rw [getD_set_flag _ _ _ _ hlen, if_pos rfl]⟩
  · exact ⟨(noSounds.set SoundMenuMoveID true).set SoundMenuMoveID true, by
      simp only [balancing.update, hl, hr, henter, inTransitionAt, Bool.false_eq_true,
        if_false, if_true], by
      rw [getD_set_flag _ _ _ _ hlen2, if_pos rfl]⟩

theorem update_in_transition (G : Globals) (keys : MenuKeys) (b : balancing) (d f : Int)
    (hlt : f + 1 < G.gChoiceSelectionNumFrame) :
    (inTransitionAt b d f).update G keys = some (inTransitionAt b d (f + 1), false, noSounds) := by
  have hc : ¬ (f + 1 ≥ G.gChoiceSelectionNumFrame) := by omega
  simp only [balancing.update, inTransitionAt, if_true, hc, if_false]

theorem update_transition_end (G : Globals) (keys : MenuKeys) (b : balancing) (d f : Int)
    (hge : f + 1 ≥ G.gChoiceSelectionNumFrame) (hn : 1 ≤ b.numChoices) (hc0 : 0 ≤ b.choice) :
    (inTransitionAt b d f).update G keys = some (rotated b d, false, noSounds) := by
  simp only [balancing.update, inTransitionAt, if_true, hge, rotated]
  by_cases hd : d < 0
  · simp only [hd, if_true, goMod_nonneg (b.choice + 1) b.numChoices (by omega) hn,
      Option.bind_eq_bind, Option.some_bind]
  · simp only [hd, if_false, goMod_nonneg (b.choice + b.numChoices - 1) b.numChoices
      (by omega) hn, Option.bind_eq_bind, Option.some_bind]

theorem runMenu_in_transition (G : Globals) (b : balancing) (d : Int) :
    ∀ (waits : List MenuKeys) (f : Nat),
      ((f + waits.length : Nat) : Int) < G.gChoiceSelectionNumFrame →
      runMenu G waits (inTransitionAt b d (f : Int)) =
        some (inTransitionAt b d ((f + waits.length : Nat) : Int)) := by
  intro waits
  induction waits with
  | nil => intro f _; rfl
  | cons k rest ih =>
    intro f hlt
    simp only [List.length_cons] at hlt
    have h1 := update_in_transition G k b d (f : Int) (by push_cast at hlt ⊢; omega)
    simp only [runMenu, h1, Option.bind_eq_bind, Option.some_bind]
    have h2 := ih (f + 1) (by push_cast at hlt ⊢; omega)
    have e1 : ((f : Int) + 1) = ((f + 1 : Nat) : Int) := by push_cast; rfl
    rw [e1, h2]
    congr 3
    simp only [List.length_cons]
    omega

theorem runMenu_append (G : Globals) (a c : List MenuKeys) :
    ∀ b, runMenu G (a ++ c) b = (runMenu G a b).bind (runMenu G c) := by
  induction a with
  | nil => intro b; rfl
  | cons k rest ih =>
    intro b
    simp only [List.cons_append, runMenu, Option.bind_eq_bind]
    cases b.update G k with
    | none => rfl
    | some r => simp only [Option.some_bind]; exact ih r.1

theorem runMenu_transition (G : Globals) (b : balancing) (d : Int) (waits : List MenuKeys)
    (hlen : (waits.length : Int) = G.gChoiceSelectionNumFrame)
    (hN : 1 ≤ G.gChoiceSelectionNumFrame) (hn : 1 ≤ b.numChoices) (hc0 : 0 ≤ b.choice) :
    runMenu G waits (inTransitionAt b d 0) = some (rotated b d) := by
  obtain ⟨init, last, rfl⟩ : ∃ init last, waits = init ++ [last] := by
    have hne : waits ≠ [] := by
      intro h
      rw [h] at hlen
      simp only [List.length_nil, Nat.cast_zero] at hlen
      omega
    exact ⟨waits.dropLast, waits.getLast hne, (List.dropLast_append_getLast hne).symm⟩
  simp only [List.length_append, List.length_singleton, Nat.cast_add, Nat.cast_one] at hlen
  have h1 := runMenu_in_transition G b d init 0 (by push_cast; omega)
  simp only [Nat.cast_zero, Nat.zero_add] at h1
  rw [runMenu_append, h1]
  simp only [Option.some_bind, runMenu, Option.bind_eq_bind,
    update_transition_end G last b d (init.length : Int) (by omega) hn hc0]

theorem rotated_range (b : balancing) (d : Int) (hn : 1 ≤ b.numChoices) :
    0 ≤ (rotated b d).choice ∧ (rotated b d).choice < b.numChoices := by
  simp only [rotated]
  split_ifs
  · exact ⟨Int.emod_nonneg _ (by omega), Int.emod_lt_of_pos _ (by omega)⟩
  · exact ⟨Int.emod_nonneg _ (by omega), Int.emod_lt_of_pos _ (by omega)⟩

theorem rotated_round_trip (b : balancing) (hn : 1 ≤ b.numChoices) (hc0 : 0 ≤ b.choice)
    (hc1 : b.choice < b.numChoices) :
    (rotated (rotated b 1) (-1)).choice = b.choice := by
  simp only [rotated, show ¬ ((1 : Int) < 0) by decide, show ((-1 : Int) < 0) by decide,
    if_true, if_false]
  by_cases h0 : b.choice = 0
  · rw [h0]
    have e1 : (0 + b.numChoices - 1) % b.numChoices = b.numChoices - 1 := by
      rw [Int.zero_add]
      exact Int.emod_eq_of_lt (by omega) (by omega)
    rw [e1]
    have e2 : b.numChoices - 1 + 1 = b.numChoices := by ring
    rw [e2, Int.emod_self]
  · have e1 : (b.choice + b.numChoices - 1) % b.numChoices = b.choice - 1 := by
      have : b.choice + b.numChoices - 1 = (b.choice - 1) + b.numChoices := by ring
      rw [this, Int.add_emod_self]
      exact Int.emod_eq_of_lt (by omega) (by omega)
    rw [e1]
    have e2 : b.choice - 1 + 1 = b.choice := by ring
    rw [e2]
    exact Int.emod_eq_of_lt hc0 hc1

theorem runMenu_rotation (G : Globals) (b : balancing) (keys0 : MenuKeys)
    (waits : List MenuKeys) (hN : 1 ≤ G.gChoiceSelectionNumFrame)
    (hidle : b.inTransition = false) (hf : b.transitionFrame = 0)
    (hn : 1 ≤ b.numChoices) (hc0 : 0 ≤ b.choice)
    (henter : keys0.enter = false) (hkey : keys0.left = true ∨ keys0.right = true)
    (hlen : (waits.length : Int) = G.gChoiceSelectionNumFrame) :
    runMenu G (keys0 :: waits) b = some (rotated b (if keys0.right then -1 else 1)) := by
  obtain ⟨sounds, h1, _⟩ := update_idle_move G keys0 b hidle hf henter hkey
  simp only [runMenu, h1, Option.bind_eq_bind, Option.some_bind]
  exact runMenu_transition G b _ waits hlen hN hn hc0

/-- C27. Selector rotation is deferred and modular: in an idle state (`inTransition` false,
`transitionFrame = 0`) with `numChoices ≥ 1` and `0 ≤ choice < numChoices`, with
`gChoiceSelectionNumFrame ≥ 1`, after a call that is a left (resp. right) key press, the
confirm key not being pressed in it, the state is in transition with `choice` unchanged; in
the next calls, fewer than `gChoiceSelectionNumFrame`, no key is processed (they only count
frames, whatever the keys); the `gChoiceSelectionNumFrame`-th call ends the transition with
`choice = (choice + numChoices - 1) mod numChoices` after a left press and
`(choice + 1) mod numChoices` after a right press (a call with both keys pressed counts as a
right press) and clears `inTransition`; the new `choice` is in `[0, numChoices)`; and a
completed left rotation followed by a completed right rotation restores the original
`choice`. -/
theorem selector_rotation (G : Globals) (b : balancing) (keys0 : MenuKeys)
    (hN : 1 ≤ G.gChoiceSelectionNumFrame)
    (hidle : b.inTransition = false) (hf : b.transitionFrame = 0)
    (hn : 1 ≤ b.numChoices) (hc0 : 0 ≤ b.choice) (hc1 : b.choice < b.numChoices)
    (henter : keys0.enter = false) (hkey : keys0.left = true ∨ keys0.right = true) :
    (∃ sounds, b.update G keys0 =
        some (inTransitionAt b (if keys0.right then -1 else 1) 0, false, sounds) ∧
      (inTransitionAt b (if keys0.right then -1 else 1) 0).choice = b.choice) ∧
    (∀ waits : List MenuKeys, (waits.length : Int) < G.gChoiceSelectionNumFrame →
      runMenu G (keys0 :: waits) b =
        some (inTransitionAt b (if keys0.right then -1 else 1) (waits.length : Int))) ∧
    (∀ waits : List MenuKeys, (waits.length : Int) = G.gChoiceSelectionNumFrame →
      runMenu G (keys0 :: waits) b = some (rotated b (if keys0.right then -1 else 1))) ∧
    (keys0.right = false → (rotated b (if keys0.right then -1 else 1)).choice =
      (b.choice + b.numChoices - 1) % b.numChoices) ∧
    (keys0.right = true → (rotated b (if keys0.right then -1 else 1)).choice =
      (b.choice + 1) % b.numChoices) ∧
    (rotated b (if keys0.right then -1 else 1)).inTransition = false ∧
    0 ≤ (rotated b (if keys0.right then -1 else 1)).choice ∧
    (rotated b (if keys0.right then -1 else 1)).choice < b.numChoices ∧
    (∀ w1 w2 : List MenuKeys, (w1.length : Int) = G.gChoiceSelectionNumFrame →
      (w2.length : Int) = G.gChoiceSelectionNumFrame →
      ∃ b2, runMenu G ((leftKey :: w1) ++ (rightKey :: w2)) b = some b2 ∧
        b2.choice = b.choice) := by
  obtain ⟨sounds, h1, _⟩ := update_idle_move G keys0 b hidle hf henter hkey
  obtain ⟨r1, r2⟩ := rotated_range b (if keys0.right then -1 else 1) hn
  refine ⟨⟨sounds, h1, rfl⟩, ?_, ?_, ?_, ?_, rfl, r1, r2, ?_⟩
  · intro waits hlt
    simp only [runMenu, h1, Option.bind_eq_bind, Option.some_bind]
    have := runMenu_in_transition G b (if keys0.right then -1 else 1) waits 0
      (by rw [Nat.zero_add]; exact hlt)
    simp only [Nat.cast_zero, Nat.zero_add] at this
    exact this
  · intro waits hlen
    exact runMenu_rotation G b keys0 waits hN hidle hf hn hc0 henter hkey hlen
  · intro hr
    simp only [rotated, hr, Bool.false_eq_true, if_false, show ¬ ((1 : Int) < 0) by decide]
  · intro hr
    simp only [rotated, hr, if_true, show ((-1 : Int) < 0) by decide]
  · intro w1 w2 hw1 hw2
    have e1 := runMenu_rotation G b leftKey w1 hN hidle hf hn hc0 rfl (Or.inl rfl) hw1
    have hl : (if leftKey.right = true then (-1 : Int) else 1) = 1 := rfl
    rw [hl] at e1
    obtain ⟨q1, q2⟩ := rotated_range b 1 hn
    have e2 := runMenu_rotation G (rotated b 1) rightKey w2 hN rfl rfl hn q1 rfl (Or.inr rfl) hw2
    have hr : (if rightKey.right = true then (-1 : Int) else 1) = -1 := rfl
    rw [hr] at e2
    refine ⟨_, ?_, rotated_round_trip b hn hc0 hc1⟩
    rw [runMenu_append, e1]
    exact e2

theorem selector_rotation_witness :
    (∃ sounds, threeChoices.update sampleGlobals leftKey =
        some (inTransitionAt threeChoices (if leftKey.right then -1 else 1) 0, false, sounds) ∧
      (inTransitionAt threeChoices (if leftKey.right then -1 else 1) 0).choice =
        threeChoices.choice) ∧
    (∀ waits : List MenuKeys, (waits.length : Int) < sampleGlobals.gChoiceSelectionNumFrame →
      runMenu sampleGlobals (leftKey :: waits) threeChoices =
        some (inTransitionAt threeChoices (if leftKey.right then -1 else 1)
          (waits.length : Int))) ∧
    (∀ waits : List MenuKeys, (waits.length : Int) = sampleGlobals.gChoiceSelectionNumFrame →
      runMenu sampleGlobals (leftKey :: waits) threeChoices =
        some (rotated threeChoices (if leftKey.right then -1 else 1))) ∧
    (leftKey.right = false → (rotated threeChoices (if leftKey.right then -1 else 1)).choice =
      (threeChoices.choice + threeChoices.numChoices - 1) % threeChoices.numChoices) ∧
    (leftKey.right = true → (rotated threeChoices (if leftKey.right then -1 else 1)).choice =
      (threeChoices.choice + 1) % threeChoices.numChoices) ∧
    (rotated threeChoices (if leftKey.right then -1 else 1)).inTransition = false ∧
    0 ≤ (rotated threeChoices (if leftKey.right then -1 else 1)).choice ∧
    (rotated threeChoices (if leftKey.right then -1 else 1)).choice <
      threeChoices.numChoices ∧
    (∀ w1 w2 : List MenuKeys, (w1.length : Int) = sampleGlobals.gChoiceSelectionNumFrame →
      (w2.length : Int) = sampleGlobals.gChoiceSelectionNumFrame →
      ∃ b2, runMenu sampleGlobals ((leftKey :: w1) ++ (rightKey :: w2)) threeChoices =
          some b2 ∧
        b2.choice = threeChoices.choice) :=
  selector_rotation sampleGlobals threeChoices leftKey (by decide) rfl rfl (by decide)
    (by decide) (by decide) rfl (Or.inl rfl)

/-! ## Levels never exceed their maximum -/

theorem getChoice_valid (removeElement : List Int → Nat → List Int)
    (hrem : RemovesAt removeElement) (rnd : RandSource) (pos : Nat) (b : balancing)
    (hl : b.levels.length = numBalances) (hm : b.maxLevels.length = numBalances)
    (r : balancing × Nat) (h : b.getChoice removeElement rnd pos = some r) :
    r.1.levels = b.levels ∧ r.1.maxLevels = b.maxLevels ∧
      ∃ k : Nat, r.1.numChoices = (k : Int) ∧
        ∀ i : Nat, i < k → ∃ c : Int, r.1.choices[i]? = some c ∧ belowMax b c := by
  obtain ⟨p, hp1, hp2⟩ := collectChoices_spec b hl hm 5 0 [] rfl
  rw [List.nil_append] at hp1
  have hcard := eligible_card b hl hm p hp2
  obtain ⟨st, k, d1, d2, d3, d4, d5, d6⟩ := drawChoices_spec removeElement hrem rnd
    (belowMax b) (eligibleCount b) b.choices.length 0 b.choices p pos rfl (by simp)
    (by simp) (fun x hx => ((hp2 x).mp hx).2) (by rw [hcard]; rfl)
  obtain ⟨cs', f1, f2, f3, f4⟩ := fillSentinel_spec b.choices.length k st.choices
    (by rw [d4]; omega)
  have hget : b.getChoice removeElement rnd pos =
      some ({ b with choices := cs', numChoices := (k : Int) }, st.pos) := by
    unfold balancing.getChoice
    have hp1' : collectChoices b numBalances ((0 : Nat) : Int) [] = some p := hp1
    simp only [Nat.cast_zero] at hp1' d1
    rw [hp1']
    simp only [Option.bind_eq_bind, Option.some_bind]
    rw [d1]
    simp only [Option.some_bind, d2, f1]
  rw [hget] at h
  have hr : r = ({ b with choices := cs', numChoices := (k : Int) }, st.pos) :=
    (Option.some.inj h).symm
  subst hr
  refine ⟨rfl, rfl, k, rfl, fun i hi => ?_⟩
  have hlen : i < (cs'.take k).length := by
    rw [List.length_take, f2, d4]
    omega
  refine ⟨(cs'.take k)[i], ?_, ?_⟩
  · show cs'[i]? = _
    rw [← List.getElem?_take_of_lt hi]
    exact List.getElem?_eq_getElem hlen
  · apply d6
    rw [← f3]
    exact List.getElem_mem _

theorem update_levels (G : Globals) (keys : MenuKeys) (b : balancing)
    (hlen : b.levels.length = numBalances) (hn : 1 ≤ b.numChoices)
    (hc0 : 0 ≤ b.choice) (hc1 : b.choice < b.numChoices)
    (hvalid : ∀ i : Nat, (i : Int) < b.numChoices →
      ∃ c : Nat, b.choices[i]? = some (c : Int) ∧ c < numBalances) :
    ∃ r, b.update G keys = some r ∧ r.1.maxLevels = b.maxLevels ∧
      (r.1.levels = b.levels ∨
        ∃ (c : Nat) (lv : Int), goIndex b.choices b.choice = some (c : Int) ∧
          b.levels[c]? = some lv ∧ r.1.levels = b.levels.set c (lv + 1)) := by
  by_cases ht : b.inTransition = true
  · unfold balancing.update
    rw [if_pos ht]
    by_cases hf : b.transitionFrame + 1 ≥ G.gChoiceSelectionNumFrame
    · have hn0 : b.numChoices ≠ 0 := by omega
      simp only [hf, if_true, goMod, hn0, if_false, Option.bind_eq_bind, Option.some_bind]
      split_ifs <;> exact ⟨_, rfl, rfl, Or.inl rfl⟩
    · simp only [hf, if_false]
      exact ⟨_, rfl, rfl, Or.inl rfl⟩
  · by_cases he : keys.enter = true
    · obtain ⟨n, hnn⟩ : ∃ n : Nat, b.choice = (n : Int) :=
        ⟨b.choice.toNat, (Int.toNat_of_nonneg hc0).symm⟩
      obtain ⟨c, hc, hclt⟩ := hvalid n (by rw [← hnn]; exact hc1)
      have hcl : c < b.levels.length := by rw [hlen]; exact hclt
      have hch : goIndex b.choices b.choice = some (c : Int) := by
        rw [hnn, goIndex_natCast]; exact hc
      have hset : ∀ b1 : balancing, b1.levels = b.levels →
          b1.setChoice (c : Int) =
            some { b1 with levels := b.levels.set c (b.levels.get ⟨c, hcl⟩ + 1) } := by
        intro b1 hb1
        simp only [balancing.setChoice, hb1, goIndex_natCast, List.getElem?_eq_getElem hcl,
          goAssign_natCast _ _ _ hcl, Option.bind_eq_bind, Option.some_bind,
          List.get_eq_getElem]
      have hupd : ∃ r, b.update G keys = some r ∧ r.1.maxLevels = b.maxLevels ∧
          r.1.levels = b.levels.set c (b.levels.get ⟨c, hcl⟩ + 1) := by
        unfold balancing.update
        rw [if_neg ht]
        cases hl : keys.left <;> cases hr : keys.right <;>
          simp only [he, if_true, if_false, Bool.false_eq_true, hch, Option.bind_eq_bind,
            Option.some_bind] <;>
          simp only [hset, Option.some_bind] <;>
          exact ⟨_, rfl, rfl, rfl⟩
      obtain ⟨r, k1, k2, k3⟩ := hupd
      exact ⟨r, k1, k2, Or.inr ⟨c, _, hch, List.getElem?_eq_getElem hcl, k3⟩⟩
    · unfold balancing.update
      rw [if_neg ht]
      cases hl : keys.left <;> cases hr : keys.right <;>
        simp only [he, if_true, if_false, Bool.false_eq_true] <;>
        exact ⟨_, rfl, rfl, Or.inl rfl⟩

/-- C28. Levels never exceed their maximum: if `levels[c] ≤ maxLevels[c]` for every
category, `getChoice` (with any random draws) produced a slate with `numChoices ≥ 1`, and
the balancing state holds that slate, these levels and `0 ≤ choice < numChoices` (whatever
its transition fields), then any `update` call, with any keys, returns, leaves `maxLevels`
unchanged and `levels[c] ≤ maxLevels[c]` still holds for every category. -/
theorem levels_below_max (removeElement : List Int → Nat → List Int)
    (hrem : RemovesAt removeElement) (rnd : RandSource) (pos : Nat) (b0 : balancing)
    (r0 : balancing × Nat) (G : Globals) (keys : MenuKeys) (b : balancing)
    (hl : b0.levels.length = numBalances) (hm : b0.maxLevels.length = numBalances)
    (hle : ∀ c : Nat, c < numBalances → b0.levels.getD c 0 ≤ b0.maxLevels.getD c 0)
    (hget : b0.getChoice removeElement rnd pos = some r0) (hn : 1 ≤ r0.1.numChoices)
    (hlev : b.levels = r0.1.levels) (hmax : b.maxLevels = r0.1.maxLevels)
    (hch : b.choices = r0.1.choices) (hnum : b.numChoices = r0.1.numChoices)
    (hc0 : 0 ≤ b.choice) (hc1 : b.choice < b.numChoices) :
    ∃ r, b.update G keys = some r ∧ r.1.levels.length = numBalances ∧
      r.1.maxLevels = b0.maxLevels ∧
      ∀ c : Nat, c < numBalances → r.1.levels.getD c 0 ≤ r.1.maxLevels.getD c 0 := by
  obtain ⟨g1, g2, k, g3, g4⟩ := getChoice_valid removeElement hrem rnd pos b0 hl hm r0 hget
  have hblev : b.levels = b0.levels := hlev.trans g1
  have hbmax : b.maxLevels = b0.maxLevels := hmax.trans g2
  have hentry : ∀ i : Nat, (i : Int) < b.numChoices →
      ∃ c : Nat, b.choices[i]? = some (c : Int) ∧ c < numBalances ∧ belowMax b0 (c : Int) := by
    intro i hi
    rw [hnum, g3] at hi
    obtain ⟨c, hc, hbm⟩ := g4 i (by omega)
    have h0 := belowMax_nonneg b0 c hbm
    have h5 := belowMax_lt b0 hl c hbm
    obtain ⟨n, rfl⟩ := Int.eq_ofNat_of_zero_le h0
    exact ⟨n, by rw [hch]; exact hc, by simp only [numBalances]; omega, hbm⟩
  obtain ⟨r, hr, hrm, hcase⟩ := update_levels G keys b (by rw [hblev]; exact hl)
    (by rw [hnum]; exact hn) hc0 hc1
    (fun i hi => by
      obtain ⟨c, h1, h2, _⟩ := hentry i hi
      exact ⟨c, h1, h2⟩)
  refine ⟨r, hr, ?_, hrm.trans hbmax, ?_⟩
  · rcases hcase with h | ⟨c, lv, _, _, h⟩
    · rw [h, hblev]; exact hl
    · rw [h, List.length_set, hblev]; exact hl
  · intro j hj
    rw [hrm, hbmax]
    rcases hcase with h | ⟨c, lv, h1, h2, h3⟩
    · rw [h, hblev]
      exact hle j hj
    · obtain ⟨n, hnn⟩ : ∃ n : Nat, b.choice = (n : Int) :=
        ⟨b.choice.toNat, (Int.toNat_of_nonneg hc0).symm⟩
      obtain ⟨c', e1, e2, e3⟩ := hentry n (by rw [← hnn]; exact hc1)
      rw [hnn, goIndex_natCast, e1] at h1
      have hcc : c' = c := by
        have := Option.some.inj h1
        exact_mod_cast this
      subst hcc
      have hlt := (belowMax_iff_getD b0 hl hm c' e2).mp e3
      have hlv : b0.levels.getD c' 0 = lv := by
        rw [← hblev, List.getD_eq_getElem?_getD, h2]
        rfl
      rw [h3, List.getD_eq_getElem?_getD, List.getElem?_set]
      by_cases hjc : c' = j
      · subst hjc
        have hcl : c' < b.levels.length := by rw [hblev, hl]; exact e2
        simp only [if_true, hcl, Option.getD_some]
        omega
      · simp only [hjc, if_false]
        rw [← List.getD_eq_getElem?_getD, hblev]
        exact hle j hj

theorem levels_below_max_witness :
    ∃ r0 r, sampleBalance.getChoice List.eraseIdx (fun n => n * 7 + 3) 0 = some r0 ∧
      r0.1.update sampleGlobals enterKey = some r ∧ r.1.levels.length = numBalances ∧
      r.1.maxLevels = sampleBalance.maxLevels ∧
      ∀ c : Nat, c < numBalances → r.1.levels.getD c 0 ≤ r.1.maxLevels.getD c 0 := by
  have hget : ∃ r0, sampleBalance.getChoice List.eraseIdx (fun n => n * 7 + 3) 0 = some r0 ∧
      1 ≤ r0.1.numChoices ∧ 0 ≤ r0.1.choice ∧ r0.1.choice < r0.1.numChoices :=
    ⟨_, rfl, by decide, by decide, by decide⟩
  obtain ⟨r0, h0, h1, h2, h3⟩ := hget
  obtain ⟨r, hr⟩ := levels_below_max List.eraseIdx eraseIdx_removesAt (fun n => n * 7 + 3) 0
    sampleBalance r0 sampleGlobals enterKey r0.1 rfl rfl (by decide) h0 h1 rfl rfl rfl rfl h2 h3
  exact ⟨r0, r, h0, hr⟩

/-! ## The confirm key of `balancing.update` -/

theorem update_transition_keys (G : Globals) (keys keys2 : MenuKeys) (b : balancing)
    (ht : b.inTransition = true) : b.update G keys2 = b.update G keys := by
  unfold balancing.update
  rw [if_pos ht, if_pos ht]

theorem update_transition_result (G : Globals) (keys : MenuKeys) (b : balancing)
    (ht : b.inTransition = true) (r : balancing × Bool × List Bool)
    (h : b.update G keys = some r) :
    r.2.1 = false ∧ r.1.levels = b.levels ∧ r.2.2 = noSounds := by
  unfold balancing.update at h
  rw [if_pos ht] at h
  by_cases hf : b.transitionFrame + 1 ≥ G.gChoiceSelectionNumFrame
  · simp only [hf, if_true] at h
    split_ifs at h <;>
      simp only [Option.bind_eq_bind, Option.bind_eq_some, Option.some.injEq] at h <;>
      obtain ⟨c, _, rfl⟩ := h <;>
      exact ⟨rfl, rfl, rfl⟩
  · simp only [hf, if_false, Option.some.injEq] at h
    subst h
    exact ⟨rfl, rfl, rfl⟩

theorem update_transition_isSome (G : Globals) (keys : MenuKeys) (b : balancing)
    (ht : b.inTransition = true)
    (hn : b.transitionFrame + 1 ≥ G.gChoiceSelectionNumFrame → b.numChoices ≠ 0) :
    ∃ r, b.update G keys = some r := by
  unfold balancing.update
  rw [if_pos ht]
  by_cases hf : b.transitionFrame + 1 ≥ G.gChoiceSelectionNumFrame
  · have hn0 := hn hf
    simp only [hf, if_true, goMod, hn0, if_false, Option.bind_eq_bind, Option.some_bind]
    split_ifs <;> exact ⟨_, rfl⟩
  · simp only [hf, if_false]
    exact ⟨_, rfl⟩

theorem setChoice_result (b b3 : balancing) (chosen : Int) (h : b.setChoice chosen = some b3) :
    ∃ (c : Nat) (level : Int), chosen = (c : Int) ∧ b.levels[c]? = some level ∧
      b3 = { b with levels := b.levels.set c (level + 1) } := by
  simp only [balancing.setChoice, Option.bind_eq_bind, Option.bind_eq_some,
    Option.some.injEq] at h
  obtain ⟨level, h1, levels, h2, rfl⟩ := h
  obtain ⟨h0, _⟩ := goIndex_bounds _ _ _ h1
  obtain ⟨c, rfl⟩ := Int.eq_ofNat_of_zero_le h0
  rw [goIndex_natCast] at h1
  have hcl : c < b.levels.length := (List.getElem?_eq_some.mp h1).1
  rw [goAssign_natCast _ _ _ hcl] at h2
  exact ⟨c, level, rfl, h1, by rw [← Option.some.inj h2]⟩

theorem update_confirm_result (G : Globals) (keys : MenuKeys) (b : balancing)
    (ht : b.inTransition = false) (he : keys.enter = true) (r : balancing × Bool × List Bool)
    (h : b.update G keys = some r) :
    ∃ (c : Nat) (level : Int), goIndex b.choices b.choice = some (c : Int) ∧
      b.levels[c]? = some level ∧ r.2.1 = true ∧
      r.1.levels = b.levels.set c (level + 1) ∧ r.1.choice = 0 ∧
      r.2.2.getD SoundMenuConfirmID false = true := by
  have hnt : ¬ b.inTransition = true := by rw [ht]; decide
  have hconf : ∀ s : List Bool, s.length = NumSounds →
      (s.set SoundMenuConfirmID true).getD SoundMenuConfirmID false = true := by
    intro s hs
    rw [getD_set_flag s _ _ _ (by rw [hs]; decide), if_pos rfl]
  have hns : noSounds.length = NumSounds := List.length_replicate _ _
  unfold balancing.update at h
  rw [if_neg hnt] at h
  cases hl : keys.left <;> cases hr : keys.right <;>
    simp only [hl, hr, he, if_true, if_false, Bool.false_eq_true, Option.bind_eq_bind,
      Option.bind_eq_some, Option.some.injEq] at h <;>
    obtain ⟨chosen, h1, b3, h2, rfl⟩ := h <;>
    obtain ⟨c, level, rfl, h3, rfl⟩ := setChoice_result _ _ _ h2 <;>
    refine ⟨c, level, h1, h3, rfl, rfl, rfl, hconf _ ?_⟩ <;>
    simp only [sounds_set_length, hns]

theorem update_confirm_isSome (G : Globals) (keys : MenuKeys) (b : balancing)
    (ht : b.inTransition = false) (he : keys.enter = true)
    (h0 : 0 ≤ b.choice) (h1 : b.choice < b.numChoices) (hlen : b.levels.length = numBalances)
    (hwf : ∀ i : Nat, (i : Int) < b.numChoices →
      ∃ c : Nat, b.choices[i]? = some (c : Int) ∧ c < numBalances) :
    ∃ r, b.update G keys = some r := by
  obtain ⟨n, hn⟩ : ∃ n : Nat, b.choice = (n : Int) :=
    ⟨b.choice.toNat, (Int.toNat_of_nonneg h0).symm⟩
  obtain ⟨c, hc, hclt⟩ := hwf n (by rw [← hn]; exact h1)
  have hcl : c < b.levels.length := by rw [hlen]; exact hclt
  have hch : goIndex b.choices b.choice = some (c : Int) := by
    rw [hn, goIndex_natCast]; exact hc
  have hnt : ¬ b.inTransition = true := by rw [ht]; decide
  have hset : ∀ b1 : balancing, b1.levels = b.levels →
      b1.setChoice (c : Int) =
        some { b1 with levels := b.levels.set c (b.levels.get ⟨c, hcl⟩ + 1) } := by
    intro b1 hb1
    simp only [balancing.setChoice, hb1, goIndex_natCast, List.getElem?_eq_getElem hcl,
      goAssign_natCast _ _ _ hcl, Option.bind_eq_bind, Option.some_bind, List.get_eq_getElem]
  unfold balancing.update
  rw [if_neg hnt]
  cases hl : keys.left <;> cases hr : keys.right <;>
    simp only [he, if_true, if_false, Bool.false_eq_true, hch, Option.bind_eq_bind,
      Option.some_bind] <;>
    simp only [hset, Option.some_bind] <;>
    exact ⟨_, rfl⟩

theorem getChoice_categories (removeElement : List Int → Nat → List Int)
    (hrem : RemovesAt removeElement) (rnd : RandSource) (pos : Nat) (b0 : balancing)
    (hl : b0.levels.length = numBalances) (hm : b0.maxLevels.length = numBalances)
    (r0 : balancing × Nat) (hget : b0.getChoice removeElement rnd pos = some r0) :
    r0.1.levels.length = numBalances ∧
    ∀ i : Nat, (i : Int) < r0.1.numChoices →
      ∃ c : Nat, r0.1.choices[i]? = some (c : Int) ∧ c < numBalances := by
  obtain ⟨g1, _, k, g3, g4⟩ := getChoice_valid removeElement hrem rnd pos b0 hl hm r0 hget
  refine ⟨by rw [g1]; exact hl, ?_⟩
  intro i hi
  rw [g3] at hi
  obtain ⟨c, hc, hbm⟩ := g4 i (by omega)
  have h0 := belowMax_nonneg b0 c hbm
  have h5 := belowMax_lt b0 hl c hbm
  obtain ⟨n, rfl⟩ := Int.eq_ofNat_of_zero_le h0
  exact ⟨n, hc, by simp only [numBalances]; omega⟩

/-- C20. Balancer confirm. While `inTransition` is true no key is read: the call gives the
same result whatever the keys, every result has `end = false`, the levels unchanged and no
sound flag set (so no confirm sound), and the call returns unless it completes the
transition with `numChoices = 0`. While `inTransition` is false and confirm is pressed,
every result has `end = true`, `levels[choices[choice]]` increased by exactly one, every
other level unchanged, `choice = 0` and the menu-confirm sound flag set; with
`0 ≤ choice < numChoices` the call returns whenever the first `numChoices` entries of
`choices` are categories, and they are in every slate produced by `getChoice`. -/
theorem balancer_confirm (G : Globals) (keys : MenuKeys) (b : balancing) :
    (b.inTransition = true →
      (∀ keys2 : MenuKeys, b.update G keys2 = b.update G keys) ∧
      (∀ r, b.update G keys = some r →
        r.2.1 = false ∧ r.1.levels = b.levels ∧ r.2.2 = noSounds ∧
        r.2.2.getD SoundMenuConfirmID false = false) ∧
      ((b.transitionFrame + 1 ≥ G.gChoiceSelectionNumFrame → b.numChoices ≠ 0) →
        ∃ r, b.update G keys = some r)) ∧
    (b.inTransition = false → keys.enter = true →
      (∀ r, b.update G keys = some r →
        ∃ (c : Nat) (level : Int), goIndex b.choices b.choice = some (c : Int) ∧
          b.levels[c]? = some level ∧ r.2.1 = true ∧
          r.1.levels = b.levels.set c (level + 1) ∧ r.1.choice = 0 ∧
          r.2.2.getD SoundMenuConfirmID false = true) ∧
      (0 ≤ b.choice → b.choice < b.numChoices → b.levels.length = numBalances →
        (∀ i : Nat, (i : Int) < b.numChoices →
          ∃ c : Nat, b.choices[i]? = some (c : Int) ∧ c < numBalances) →
        ∃ r, b.update G keys = some r) ∧
      (∀ (removeElement : List Int → Nat → List Int) (rnd : RandSource) (pos : Nat)
        (b0 : balancing) (r0 : balancing × Nat),
        RemovesAt removeElement → b0.levels.length = numBalances →
        b0.maxLevels.length = numBalances →
        b0.getChoice removeElement rnd pos = some r0 →
        b.levels = r0.1.levels → b.choices = r0.1.choices → b.numChoices = r0.1.numChoices →
        0 ≤ b.choice → b.choice < b.numChoices →
        ∃ r, b.update G keys = some r)) := by
  constructor
  · intro ht
    refine ⟨fun keys2 => update_transition_keys G keys keys2 b ht, ?_,
      update_transition_isSome G keys b ht⟩
    intro r hr
    obtain ⟨h1, h2, h3⟩ := update_transition_result G keys b ht r hr
    exact ⟨h1, h2, h3, by rw [h3]; rfl⟩
  · intro ht he
    refine ⟨update_confirm_result G keys b ht he, update_confirm_isSome G keys b ht he, ?_⟩
    intro removeElement rnd pos b0 r0 hrem hl hm hget e1 e2 e3 h0 h1
    obtain ⟨g1, g2⟩ := getChoice_categories removeElement hrem rnd pos b0 hl hm r0 hget
    exact update_confirm_isSome G keys b ht he h0 h1 (by rw [e1]; exact g1)
      (fun i hi => by
        rw [e2]
        exact g2 i (by rw [← e3]; exact hi))

theorem balancer_confirm_witness :
    ((∀ keys2 : MenuKeys, transitionBalance.update sampleGlobals keys2 =
        transitionBalance.update sampleGlobals enterKey) ∧
      ∃ r, transitionBalance.update sampleGlobals enterKey = some r ∧ r.2.1 = false ∧
        r.1.levels = transitionBalance.levels ∧ r.2.2 = noSounds ∧
        r.2.2.getD SoundMenuConfirmID false = false) ∧
    (∃ r0 r, (newBalance 3).getChoice List.eraseIdx (fun n => n * 7 + 3) 0 = some r0 ∧
      r0.1.update sampleGlobals enterKey = some r ∧
      ∃ (c : Nat) (level : Int), goIndex r0.1.choices r0.1.choice = some (c : Int) ∧
        r0.1.levels[c]? = some level ∧ r.2.1 = true ∧
        r.1.levels = r0.1.levels.set c (level + 1) ∧ r.1.choice = 0 ∧
        r.2.2.getD SoundMenuConfirmID false = true) := by
  constructor
  · obtain ⟨h1, h2, h3⟩ := (balancer_confirm sampleGlobals enterKey transitionBalance).1 rfl
    obtain ⟨r, hr⟩ := h3 (fun _ => by decide)
    exact ⟨h1, r, hr, h2 r hr⟩
  · have hget : ∃ r0, (newBalance 3).getChoice List.eraseIdx (fun n => n * 7 + 3) 0 =
        some r0 ∧ r0.1.inTransition = false ∧ 0 ≤ r0.1.choice ∧
        r0.1.choice < r0.1.numChoices := ⟨_, rfl, rfl, by decide, by decide⟩
    obtain ⟨r0, h0, ht, hc0, hc1⟩ := hget
    obtain ⟨k1, _, k3⟩ := (balancer_confirm sampleGlobals enterKey r0.1).2 ht rfl
    obtain ⟨r, hr⟩ := k3 List.eraseIdx (fun n => n * 7 + 3) 0 (newBalance 3) r0
      eraseIdx_removesAt rfl rfl h0 rfl rfl rfl hc0 hc1
    exact ⟨r0, r, h0, hr, k1 r hr⟩

end Tetris
